import Mathlib

/-!
# CackDB: a shallow embedding of the keyspace engine

The C sources under `src/src` are embedded as pure Lean functions.

* A C string (`char *`) is the list of its bytes before the terminating NUL
  (`CStr`); a pointer that may be `NULL` is an `Option`.
* `size_t`, `uint32_t` and `int64_t` values are `Nat` / `Int`; where the C
  arithmetic wraps the reduction modulo `2 ^ w` is written out.
* The unbounded probe loops `for (i = 0; ; i++)` take a fuel argument and
  return `none` when the fuel is used up; every function built on them
  returns an `Option`, `none` meaning that the call does not return.
* `imdb_mstime()` is an explicit argument `now`.
* Releasing memory (`imdb_free`, the `free_fn` callback) is not modelled:
  a released value is simply no longer referenced.
-/

namespace CackDB

/-- Bytes of a C string, the terminating NUL excluded. -/
abbrev CStr := List Nat

/-! ## hashtable.c -/

/-- One slot, `ht_entry_t`: `occupied` is 0 (empty), 1 (live) or 2 (tombstone). -/
structure ht_entry_t (α : Type) where
  key : Option CStr
  value : Option α
  hash : Nat
  occupied : Nat
deriving DecidableEq, Repr

/-- A slot as `calloc` leaves it: all fields zero. -/
def ht_entry_t.zero {α : Type} : ht_entry_t α :=
  { key := none, value := none, hash := 0, occupied := 0 }

/-- Table header, `hashtable_t` (the `free_fn` field is not modelled). -/
structure hashtable_t (α : Type) where
  entries : List (ht_entry_t α)
  capacity : Nat
  size : Nat
  tombstones : Nat
deriving DecidableEq, Repr

def HT_INITIAL_CAP : Nat := 64

def HT_MIN_CAP : Nat := 64

/-- Value of `(size_t)(HT_LOAD_HIGH * 100)`, that is `(size_t)(0.70 * 100)`. -/
def HT_LOAD_HIGH_PCT : Nat := 70

/-- Value of `(size_t)(HT_LOAD_LOW * 100)`, that is `(size_t)(0.20 * 100)`. -/
def HT_LOAD_LOW_PCT : Nat := 20

/-- FNV-1a over the bytes of the key, in `uint32_t` arithmetic. -/
def ht_hash (key : CStr) : Nat :=
  key.foldl (fun h p => ((h ^^^ (p % 256)) * 16777619) % 2 ^ 32) 2166136261

/-- Slot probed at step `i`: `(hash + i) & (capacity - 1)`. -/
def probe_index (capacity hash i : Nat) : Nat :=
  (hash + i) &&& (capacity - 1)

/-- Distance of `slot` from the ideal slot of `hash`. -/
def probe_distance (capacity hash slot : Nat) : Nat :=
  (slot + capacity - (hash &&& (capacity - 1))) &&& (capacity - 1)

/-- The slot `entries[idx]`. -/
def slot_at {α : Type} (entries : List (ht_entry_t α)) (idx : Nat) : ht_entry_t α :=
  entries.getD idx ht_entry_t.zero

/-- Steps granted to a probe loop over a table of the given capacity. -/
def probe_fuel (capacity : Nat) : Nat :=
  capacity * capacity * capacity + capacity

/-- The loop `while (cap < initial_capacity) cap <<= 1` of `ht_create`, on `size_t`. -/
def ht_round_up : Nat → Nat → Nat → Option Nat
  | 0, _, _ => none
  | fuel + 1, cap, initial_capacity =>
    if cap < initial_capacity then ht_round_up fuel ((cap * 2) % 2 ^ 64) initial_capacity
    else some cap

/-- Source `ht_create`: an empty table whose capacity is the requested one, raised
to 64 and rounded up to a power of two. -/
def ht_create (α : Type) (initial_capacity : Nat) : Option (hashtable_t α) :=
  let initial_capacity := if initial_capacity < HT_INITIAL_CAP then HT_INITIAL_CAP
    else initial_capacity
  match ht_round_up 66 1 initial_capacity with
  | none => none
  | some cap =>
    some { entries := List.replicate cap ht_entry_t.zero, capacity := cap, size := 0,
           tombstones := 0 }

/-- Inner loop of `ht_resize`: place the carried entry `(k, v, h)` into the new
slot array, starting at probe step `j`. -/
def ht_resize_insert {α : Type} : Nat → List (ht_entry_t α) → Nat → Nat → Option CStr →
    Option α → Nat → Option (List (ht_entry_t α))
  | 0, _, _, _, _, _, _ => none
  | fuel + 1, entries, new_cap, h, k, v, j =>
    let idx := probe_index new_cap h j
    let e := slot_at entries idx
    if e.occupied = 0 then
      some (entries.set idx { key := k, value := v, hash := h, occupied := 1 })
    else
      let cur_dist := probe_distance new_cap e.hash idx
      let new_dist := probe_distance new_cap h idx
      if new_dist > cur_dist then
        ht_resize_insert fuel
          (entries.set idx { key := k, value := v, hash := h, occupied := e.occupied })
          new_cap e.hash e.key e.value (j + 1)
      else
        ht_resize_insert fuel entries new_cap h k v (j + 1)

/-- Outer loop of `ht_resize` over the old slots, in index order. -/
def ht_resize_loop {α : Type} : List (ht_entry_t α) → hashtable_t α → Option (hashtable_t α)
  | [], ht => some ht
  | o :: rest, ht =>
    if o.occupied = 1 then
      match ht_resize_insert (probe_fuel ht.capacity) ht.entries ht.capacity o.hash o.key
          o.value 0 with
      | none => none
      | some entries => ht_resize_loop rest { ht with entries := entries, size := ht.size + 1 }
    else ht_resize_loop rest ht

/-- Source `ht_resize`: rebuild into a fresh slot array of `new_cap` slots (at
least 64), re-inserting the live slots of the old array. -/
def ht_resize {α : Type} (ht : hashtable_t α) (new_cap : Nat) : Option (hashtable_t α) :=
  let new_cap := if new_cap < HT_MIN_CAP then HT_MIN_CAP else new_cap
  ht_resize_loop ht.entries
    { entries := List.replicate new_cap ht_entry_t.zero, capacity := new_cap, size := 0,
      tombstones := 0 }

/-- Probe loop of `ht_set`. `key` is the key passed to `ht_set`; `(new_key,
new_value, h)` is the entry being carried, `i` the loop counter. -/
def ht_set_loop {α : Type} : Nat → hashtable_t α → CStr → Nat → Option CStr → Option α →
    Int → Nat → Option (hashtable_t α × Int)
  | 0, _, _, _, _, _, _, _ => none
  | fuel + 1, ht, key, h, new_key, new_value, is_new, i =>
    let idx := probe_index ht.capacity h i
    let e := slot_at ht.entries idx
    if e.occupied = 0 ∨ e.occupied = 2 then
      some ({ ht with
              entries := ht.entries.set idx
                ({ key := new_key, value := new_value, hash := h, occupied := 1 }),
              size := ht.size + 1,
              tombstones := if e.occupied = 2 then ht.tombstones - 1 else ht.tombstones },
            is_new)
    else if e.occupied = 1 ∧ e.hash = h ∧ e.key = some key then
      some ({ ht with entries := ht.entries.set idx ({ e with value := new_value }) }, 0)
    else
      let cur_dist := probe_distance ht.capacity e.hash idx
      let new_dist := probe_distance ht.capacity h idx
      if new_dist > cur_dist then
        ht_set_loop fuel
          ({ ht with
             entries := ht.entries.set idx
               ({ key := new_key, value := new_value, hash := h, occupied := e.occupied }) })
          key e.hash e.key e.value 1 (i + 1)
      else
        ht_set_loop fuel ht key h new_key new_value is_new (i + 1)

/-- Source `ht_set`: grow when the load is too high, then insert or overwrite.
Returns the table and the C return value (1 new, 0 overwritten). -/
def ht_set {α : Type} (ht : hashtable_t α) (key : CStr) (value : Option α) :
    Option (hashtable_t α × Int) :=
  let grown :=
    if (ht.size + ht.tombstones + 1) * 100 / ht.capacity > HT_LOAD_HIGH_PCT then
      ht_resize ht (ht.capacity * 2)
    else some ht
  match grown with
  | none => none
  | some ht1 => ht_set_loop (probe_fuel ht1.capacity) ht1 key (ht_hash key) (some key) value 1 0

/-- Probe loop of `ht_find`; the result is the index of the slot found, or
`none` for `NULL`. -/
def ht_find_loop {α : Type} : Nat → hashtable_t α → CStr → Nat → Nat → Option (Option Nat)
  | 0, _, _, _, _ => none
  | fuel + 1, ht, key, h, i =>
    let idx := probe_index ht.capacity h i
    let e := slot_at ht.entries idx
    if e.occupied = 0 then some none
    else if e.occupied = 1 then
      let dist := probe_distance ht.capacity e.hash idx
      if i > dist then some none
      else if e.hash = h ∧ e.key = some key then some (some idx)
      else ht_find_loop fuel ht key h (i + 1)
    else ht_find_loop fuel ht key h (i + 1)

/-- Source `ht_find`: the slot holding `key`, as a slot index. -/
def ht_find {α : Type} (ht : hashtable_t α) (key : CStr) : Option (Option Nat) :=
  ht_find_loop (probe_fuel ht.capacity) ht key (ht_hash key) 0

/-- Source `ht_get`: `e ? e->value : NULL`. -/
def ht_get {α : Type} (ht : hashtable_t α) (key : CStr) : Option (Option α) :=
  match ht_find ht key with
  | none => none
  | some none => some none
  | some (some idx) => some (slot_at ht.entries idx).value

/-- Source `ht_exists`: `ht_find(ht, key) != NULL`. -/
def ht_exists {α : Type} (ht : hashtable_t α) (key : CStr) : Option Int :=
  match ht_find ht key with
  | none => none
  | some none => some 0
  | some (some _) => some 1

/-- Source `ht_size`. -/
def ht_size {α : Type} (ht : hashtable_t α) : Nat := ht.size

/-- Source `ht_delete`: tombstone the slot of `key`, shrink when the load is too
low. Returns the table and the C return value (1 removed, 0 not found). -/
def ht_delete {α : Type} (ht : hashtable_t α) (key : CStr) : Option (hashtable_t α × Int) :=
  match ht_find ht key with
  | none => none
  | some none => some (ht, 0)
  | some (some idx) =>
    let e := slot_at ht.entries idx
    let ht1 : hashtable_t α :=
      { ht with
        entries := ht.entries.set idx ({ e with key := none, value := none, occupied := 2 }),
        size := ht.size - 1,
        tombstones := ht.tombstones + 1 }
    if ht1.capacity > HT_MIN_CAP ∧ ht1.size * 100 / ht1.capacity < HT_LOAD_LOW_PCT then
      match ht_resize ht1 (ht1.capacity / 2) with
      | none => none
      | some ht2 => some (ht2, 1)
    else some (ht1, 1)

/-- The live slots of a table with their indices, in slot order. -/
def ht_live {α : Type} (ht : hashtable_t α) : List (Nat × ht_entry_t α) :=
  (ht.entries.enum).filter (fun p => p.2.occupied = 1)

/-- One call of the public mutating interface of the table. -/
inductive ht_op (α : Type) where
  | set (key : CStr) (value : α)
  | delete (key : CStr)
deriving DecidableEq, Repr

/-- Apply one call to the table. -/
def ht_apply {α : Type} (ht : hashtable_t α) : ht_op α → Option (hashtable_t α)
  | .set key value => (ht_set ht key (some value)).map Prod.fst
  | .delete key => (ht_delete ht key).map Prod.fst

/-- Apply a sequence of calls, first to last. -/
def ht_run {α : Type} : List (ht_op α) → hashtable_t α → Option (hashtable_t α)
  | [], ht => some ht
  | op :: ops, ht =>
    match ht_apply ht op with
    | none => none
    | some ht1 => ht_run ops ht1

/-- The reference map of the specification: an association list, newest binding first. -/
abbrev ref_map (α : Type) := List (CStr × α)

/-- Lookup in the reference map. -/
def ref_get {α : Type} (m : ref_map α) (key : CStr) : Option α :=
  (m.find? (fun p => p.1 = key)).map Prod.snd

/-- Insert-or-overwrite, respectively remove, on the reference map. -/
def ref_apply {α : Type} (m : ref_map α) : ht_op α → ref_map α
  | .set key value => (key, value) :: m.filter (fun p => p.1 ≠ key)
  | .delete key => m.filter (fun p => p.1 ≠ key)

/-- Apply a sequence of calls to the reference map. -/
def ref_run {α : Type} (ops : List (ht_op α)) (m : ref_map α) : ref_map α :=
  ops.foldl ref_apply m

/-! ## list.c -/

/-- A list node, `list_node_t`; `prev` and `next` are addresses, 0 is `NULL`. -/
structure list_node_t where
  prev : Nat
  next : Nat
  value : Option CStr
deriving DecidableEq, Repr

/-- The list header `list_t` together with the nodes it owns: the node at
address `a` (from 1) is `nodes[a - 1]`, and `none` marks a released node. -/
structure list_t where
  nodes : List (Option list_node_t)
  head : Nat
  tail : Nat
  length : Nat
deriving DecidableEq, Repr

/-- The node stored at address `a`, if `a` is an allocated address. -/
def node_at (nodes : List (Option list_node_t)) (a : Nat) : Option list_node_t :=
  if a = 0 then none else (nodes[a - 1]?).join

/-- Read through a node pointer; the zero node stands for an unallocated address. -/
def node_read (nodes : List (Option list_node_t)) (a : Nat) : list_node_t :=
  (node_at nodes a).getD { prev := 0, next := 0, value := none }

/-- Write through a node pointer. -/
def node_write (nodes : List (Option list_node_t)) (a : Nat) (n : list_node_t) :
    List (Option list_node_t) :=
  if a = 0 then nodes else nodes.set (a - 1) (some n)

/-- Release the node at address `a`. -/
def node_free (nodes : List (Option list_node_t)) (a : Nat) : List (Option list_node_t) :=
  if a = 0 then nodes else nodes.set (a - 1) none

/-- Source `list_create`: `calloc` of the header. -/
def list_create : list_t := { nodes := [], head := 0, tail := 0, length := 0 }

/-- Source `make_node`: a fresh node holding a copy of `value`; returns the
node store and the address of the new node. -/
def make_node (nodes : List (Option list_node_t)) (value : Option CStr) :
    List (Option list_node_t) × Nat :=
  (nodes ++ [some { prev := 0, next := 0, value := value }], nodes.length + 1)

/-- Source `list_lpush`. -/
def list_lpush (list : list_t) (value : Option CStr) : list_t :=
  let (nodes, n) := make_node list.nodes value
  if list.head ≠ 0 then
    let nodes := node_write nodes n { node_read nodes n with next := list.head }
    let nodes := node_write nodes list.head { node_read nodes list.head with prev := n }
    { nodes := nodes, head := n, tail := list.tail, length := list.length + 1 }
  else
    { nodes := nodes, head := n, tail := n, length := list.length + 1 }

/-- Source `list_rpush`. -/
def list_rpush (list : list_t) (value : Option CStr) : list_t :=
  let (nodes, n) := make_node list.nodes value
  if list.tail ≠ 0 then
    let nodes := node_write nodes n { node_read nodes n with prev := list.tail }
    let nodes := node_write nodes list.tail { node_read nodes list.tail with next := n }
    { nodes := nodes, head := list.head, tail := n, length := list.length + 1 }
  else
    { nodes := nodes, head := n, tail := n, length := list.length + 1 }

/-- Source `list_lpop`: the list afterwards and the returned string (`none` is `NULL`). -/
def list_lpop (list : list_t) : list_t × Option CStr :=
  if list.head = 0 then (list, none)
  else
    let n := list.head
    let node := node_read list.nodes n
    let head := node.next
    let nodes :=
      if head ≠ 0 then node_write list.nodes head { node_read list.nodes head with prev := 0 }
      else list.nodes
    let tail := if head ≠ 0 then list.tail else 0
    ({ nodes := node_free nodes n, head := head, tail := tail, length := list.length - 1 },
     node.value)

/-- Source `list_rpop`: the list afterwards and the returned string (`none` is `NULL`). -/
def list_rpop (list : list_t) : list_t × Option CStr :=
  if list.tail = 0 then (list, none)
  else
    let n := list.tail
    let node := node_read list.nodes n
    let tail := node.prev
    let nodes :=
      if tail ≠ 0 then node_write list.nodes tail { node_read list.nodes tail with next := 0 }
      else list.nodes
    let head := if tail ≠ 0 then list.head else 0
    ({ nodes := node_free nodes n, head := head, tail := tail, length := list.length - 1 },
     node.value)

/-- Source `list_length`. -/
def list_length (list : list_t) : Nat := list.length

/-- The C conversion of an integer to `int` (two's complement, 32 bits). -/
def to_int32 (x : Int) : Int := (x + 2 ^ 31) % 2 ^ 32 - 2 ^ 31

/-- The C conversion of an integer to `int64_t` (two's complement, 64 bits). -/
def to_int64 (x : Int) : Int := (x + 2 ^ 63) % 2 ^ 64 - 2 ^ 63

/-- The loop `for (i = 0; i < start; i++) node = node->next` of `list_range`. -/
def list_skip (nodes : List (Option list_node_t)) : Nat → Nat → Nat
  | 0, node => node
  | k + 1, node => list_skip nodes k (node_read nodes node).next

/-- The loop of `list_range` that fills `result[0 .. n)` from `node` on. -/
def list_collect (nodes : List (Option list_node_t)) : Nat → Nat → List (Option CStr)
  | 0, _ => []
  | k + 1, node => (node_read nodes node).value :: list_collect nodes k (node_read nodes node).next

/-- Source `list_range`: the returned array (`none` is `NULL`) and `*count`. -/
def list_range (list : list_t) (start stop : Int) : Option (List (Option CStr)) × Nat :=
  let len : Int := to_int32 list.length
  let start := if start < 0 then len + start else start
  let stop := if stop < 0 then len + stop else stop
  let start := if start < 0 then 0 else start
  let stop := if stop ≥ len then len - 1 else stop
  if start > stop ∨ start ≥ len then (none, 0)
  else
    let n : Nat := (stop - start + 1).toNat
    let node := list_skip list.nodes start.toNat list.head
    (some (list_collect list.nodes n node), n)

/-- The elements of the list read from `node` along the `next` pointers. -/
def list_walk (nodes : List (Option list_node_t)) : Nat → Nat → List (Option CStr)
  | 0, _ => []
  | fuel + 1, node =>
    if node = 0 then []
    else (node_read nodes node).value :: list_walk nodes fuel (node_read nodes node).next

/-- The elements of the list, head to tail. -/
def list_elems (list : list_t) : List (Option CStr) :=
  list_walk list.nodes list.nodes.length list.head

/-- The elements of the list read from `node` along the `prev` pointers. -/
def list_walk_back (nodes : List (Option list_node_t)) : Nat → Nat → List (Option CStr)
  | 0, _ => []
  | fuel + 1, node =>
    if node = 0 then []
    else (node_read nodes node).value :: list_walk_back nodes fuel (node_read nodes node).prev

/-- The elements of the list, tail to head. -/
def list_elems_back (list : list_t) : List (Option CStr) :=
  list_walk_back list.nodes list.nodes.length list.tail

/-! ## libc functions used by the sources -/

/-- Library `isspace` in the C locale: space and the controls `\t \n \v \f \r`. -/
def c_isspace (c : Nat) : Bool := c == 32 || (9 ≤ c && c ≤ 13)

/-- Library `isdigit`. -/
def c_isdigit (c : Nat) : Bool := 48 ≤ c && c ≤ 57

/-- Library `tolower` in the C locale. -/
def c_tolower (c : Nat) : Nat := if 65 ≤ c ∧ c ≤ 90 then c + 32 else c

def LLONG_MAX : Int := 2 ^ 63 - 1

def LLONG_MIN : Int := -(2 ^ 63)

def INT64_MIN : Int := -(2 ^ 63)

/-- Value of a run of decimal digits. -/
def dec_value (digits : List Nat) : Nat :=
  digits.foldl (fun acc d => acc * 10 + (d - 48)) 0

/-- What `strtoll` hands back: the value, the string `*endptr` points at, and
whether `errno` was set to `ERANGE`. -/
structure strtoll_result where
  val : Int
  rest : CStr
  erange : Bool
deriving DecidableEq, Repr

/-- Library `strtoll(nptr, &end, 10)` as ISO C defines it: leading white space is
skipped, then an optional sign and the longest run of decimal digits are read.
Without a digit nothing is converted: the value is 0 and `end` is `nptr`.
A value outside `long long` is clamped and reported through `errno`. -/
def strtoll (nptr : CStr) : strtoll_result :=
  let s := nptr.dropWhile c_isspace
  let neg : Bool := s.head? = some 45
  let s1 := if s.head? = some 45 ∨ s.head? = some 43 then s.tail else s
  let digits := s1.takeWhile c_isdigit
  let rest := s1.dropWhile c_isdigit
  if digits = [] then { val := 0, rest := nptr, erange := false }
  else
    let v : Int := if neg then -(dec_value digits : Int) else (dec_value digits : Int)
    if v > LLONG_MAX then { val := LLONG_MAX, rest := rest, erange := true }
    else if v < LLONG_MIN then { val := LLONG_MIN, rest := rest, erange := true }
    else { val := v, rest := rest, erange := false }

/-- Decimal digits of `n`, most significant first, pushed in front of `acc`. -/
def fmt_nat_aux : Nat → Nat → List Nat → List Nat
  | 0, _, acc => acc
  | fuel + 1, n, acc =>
    if n < 10 then (48 + n) :: acc else fmt_nat_aux fuel (n / 10) ((48 + n % 10) :: acc)

/-- What `printf` writes for `%zu`. -/
def fmt_nat (n : Nat) : List Nat := fmt_nat_aux (n + 1) n []

/-- What `printf` writes for `%lld` and `PRId64`. -/
def fmt_int (n : Int) : List Nat :=
  if n < 0 then 45 :: fmt_nat n.natAbs else fmt_nat n.toNat

/-! ## util.c -/

/-- Source `imdb_strcasecmp`: difference of the first pair of bytes that differ
after `tolower`, the terminating NUL counting as byte 0. -/
def imdb_strcasecmp : CStr → CStr → Int
  | a :: as, b :: bs =>
    if c_tolower a ≠ c_tolower b then (c_tolower a : Int) - (c_tolower b : Int)
    else imdb_strcasecmp as bs
  | a :: _, [] => (c_tolower a : Int)
  | [], b :: _ => -(c_tolower b : Int)
  | [], [] => 0

/-! ## object.c -/

/-- The value object `dbobj_t`: a string (the pointer may be `NULL`), an
integer or a list. -/
inductive dbobj_t where
  | str (s : Option CStr)
  | num (n : Int)
  | list (l : list_t)
deriving DecidableEq, Repr

/-- Source `obj_create_string`. -/
def obj_create_string (str : Option CStr) : dbobj_t := .str str

/-- Source `obj_create_int`. -/
def obj_create_int (num : Int) : dbobj_t := .num num

/-- Source `obj_create_list`. -/
def obj_create_list : dbobj_t := .list list_create

/-- Source `obj_try_parse_int`: `some n` when it returns 1 with `*out = n`, `none`
when it returns 0. -/
def obj_try_parse_int (str : Option CStr) : Option Int :=
  match str with
  | none => none
  | some [] => none
  | some s =>
    let r := strtoll s
    if r.erange ∨ r.rest ≠ [] then none else some (to_int64 r.val)

/-! ## resp.c, the reply writers -/

def CRLF : List Nat := [13, 10]

/-- Source `resp_buf_appendf` with a `%s` argument: `vsnprintf` formats the text
into `char tmp[128]` and returns its whole length `n`, and `n` bytes of `tmp` are
appended. A text of at most 127 bytes is appended whole; of a text of 128 bytes the
first 127 are appended and then the NUL that `vsnprintf` stored; for a longer text
the source reads past `tmp` (`none`). -/
def resp_buf_appendf (text : List Nat) : Option (List Nat) :=
  if text.length < 128 then some text
  else if text.length = 128 then some (text.take 127 ++ [0])
  else none

/-- Source `resp_write_simple_string`: the bytes appended to the reply. -/
def resp_write_simple_string (str : CStr) : Option (List Nat) :=
  resp_buf_appendf (43 :: str ++ CRLF)

/-- Source `resp_write_error`: the bytes appended to the reply. -/
def resp_write_error (str : CStr) : Option (List Nat) :=
  resp_buf_appendf (45 :: str ++ CRLF)

/-- Source `resp_write_integer`: the bytes appended to the reply. -/
def resp_write_integer (num : Int) : List Nat :=
  58 :: fmt_int num ++ CRLF

/-- Source `resp_write_bulk_string`: the bytes appended to the reply. -/
def resp_write_bulk_string (str : CStr) (len : Nat) : List Nat :=
  36 :: fmt_nat len ++ CRLF ++ str.take len ++ CRLF

/-- Source `resp_write_nil`: the bytes appended to the reply. -/
def resp_write_nil : List Nat := [36, 45, 49, 13, 10]

/-- Source `resp_write_array_header`: the bytes appended to the reply. -/
def resp_write_array_header (count : Nat) : List Nat :=
  42 :: fmt_nat count ++ CRLF

/-! ## db.c

The table stores `db_entry_t *` values. In the embedding the entry sits in its
slot, and a `db_entry_t *` obtained from the table is the index of that slot:
reading through the pointer reads the slot, writing through it rewrites the slot. -/

/-- A keyspace entry, `db_entry_t`: `expire` is -1 or a deadline in milliseconds. -/
structure db_entry_t where
  obj : dbobj_t
  expire : Int
deriving DecidableEq, Repr

/-- The keyspace, `database_t`. -/
structure database_t where
  ht : hashtable_t db_entry_t
  last_expire_sweep : Int
deriving DecidableEq, Repr

/-- Source `db_create`; `now` is the reading of the clock. -/
def db_create (now : Int) : Option database_t :=
  match ht_create db_entry_t 64 with
  | none => none
  | some ht => some { ht := ht, last_expire_sweep := now }

/-- The pointer `(db_entry_t *)ht_get(db->ht, key)`: the slot index and the entry
it points at, `none` for `NULL`. -/
def db_lookup (db : database_t) (key : CStr) : Option (Option (Nat × db_entry_t)) :=
  match ht_find db.ht key with
  | none => none
  | some none => some none
  | some (some idx) =>
    match (slot_at db.ht.entries idx).value with
    | none => some none
    | some entry => some (some (idx, entry))

/-- A write through an entry pointer: the entry in slot `idx` becomes `entry`. -/
def db_store (db : database_t) (idx : Nat) (entry : db_entry_t) : database_t :=
  { db with ht := { db.ht with
      entries := db.ht.entries.set idx ({ slot_at db.ht.entries idx with value := some entry }) } }

/-- Source `check_expired`: remove `key` when its deadline has passed; returns 1
when it did. A `NULL` entry pointer is dereferenced without a check. -/
def check_expired (db : database_t) (now : Int) (key : CStr) : Option (database_t × Int) :=
  match ht_find db.ht key with
  | none => none
  | some none => some (db, 0)
  | some (some idx) =>
    match (slot_at db.ht.entries idx).value with
    | none => none
    | some entry =>
      if entry.expire ≥ 0 ∧ now > entry.expire then
        match ht_delete db.ht key with
        | none => none
        | some (ht, _) => some ({ db with ht := ht }, 1)
      else some (db, 0)

/-- Source `db_get_entry`: the entry pointer, `none` for `NULL`. -/
def db_get_entry (db : database_t) (now : Int) (key : CStr) :
    Option (database_t × Option (Nat × db_entry_t)) :=
  match check_expired db now key with
  | none => none
  | some (db1, expired) =>
    if expired ≠ 0 then some (db1, none)
    else
      match db_lookup db1 key with
      | none => none
      | some r => some (db1, r)

/-- Source `db_set`. -/
def db_set (db : database_t) (key : CStr) (value : Option CStr) : Option (database_t × Int) :=
  let obj :=
    match obj_try_parse_int value with
    | some num => obj_create_int num
    | none => obj_create_string value
  match ht_set db.ht key (some { obj := obj, expire := -1 }) with
  | none => none
  | some (ht, _) => some ({ db with ht := ht }, 1)

/-- Source `db_get`: the value object, `none` for `NULL`. -/
def db_get (db : database_t) (now : Int) (key : CStr) : Option (database_t × Option dbobj_t) :=
  match db_get_entry db now key with
  | none => none
  | some (db1, r) => some (db1, r.map (fun p => p.2.obj))

/-- Source `db_del`. -/
def db_del (db : database_t) (now : Int) (key : CStr) : Option (database_t × Int) :=
  match check_expired db now key with
  | none => none
  | some (db1, _) =>
    match ht_delete db1.ht key with
    | none => none
    | some (ht, r) => some ({ db1 with ht := ht }, r)

/-- Source `db_exists`. -/
def db_exists (db : database_t) (now : Int) (key : CStr) : Option (database_t × Int) :=
  match check_expired db now key with
  | none => none
  | some (db1, expired) =>
    if expired ≠ 0 then some (db1, 0)
    else
      match ht_exists db1.ht key with
      | none => none
      | some r => some (db1, r)

/-- The two places of `db_incr` that create the key: a fresh integer entry
holding `delta` is inserted and `delta` returned. -/
def db_incr_fresh (db : database_t) (key : CStr) (delta : Int) : Option (database_t × Int) :=
  match ht_set db.ht key (some { obj := obj_create_int delta, expire := -1 }) with
  | none => none
  | some (ht, _) => some ({ db with ht := ht }, delta)

/-- Source `db_incr`: the new value, or `INT64_MIN` on a type error. -/
def db_incr (db : database_t) (now : Int) (key : CStr) (delta : Int) :
    Option (database_t × Int) :=
  match check_expired db now key with
  | none => none
  | some (db1, expired) =>
    if expired ≠ 0 then db_incr_fresh db1 key delta
    else
      match db_lookup db1 key with
      | none => none
      | some none => db_incr_fresh db1 key delta
      | some (some (idx, entry)) =>
        match entry.obj with
        | .num n =>
          some (db_store db1 idx { entry with obj := .num (to_int64 (n + delta)) },
                to_int64 (n + delta))
        | .str s =>
          match obj_try_parse_int s with
          | some num =>
            some (db_store db1 idx { entry with obj := obj_create_int (to_int64 (num + delta)) },
                  to_int64 (num + delta))
          | none => some (db1, INT64_MIN)
        | .list _ => some (db1, INT64_MIN)

/-- Source `db_expire`. -/
def db_expire (db : database_t) (now : Int) (key : CStr) (seconds : Int) :
    Option (database_t × Int) :=
  match db_get_entry db now key with
  | none => none
  | some (db1, none) => some (db1, 0)
  | some (db1, some (idx, entry)) =>
    some (db_store db1 idx { entry with expire := to_int64 (now + to_int64 (seconds * 1000)) }, 1)

/-- Source `db_ttl`. -/
def db_ttl (db : database_t) (now : Int) (key : CStr) : Option (database_t × Int) :=
  match db_get_entry db now key with
  | none => none
  | some (db1, none) => some (db1, -2)
  | some (db1, some (_, entry)) =>
    if entry.expire < 0 then some (db1, -1)
    else
      let remaining := Int.tdiv (to_int64 (entry.expire - now)) 1000
      some (db1, if remaining > 0 then remaining else 0)

/-- Source `db_persist`. -/
def db_persist (db : database_t) (now : Int) (key : CStr) : Option (database_t × Int) :=
  match db_get_entry db now key with
  | none => none
  | some (db1, none) => some (db1, 0)
  | some (db1, some (idx, entry)) =>
    if entry.expire < 0 then some (db1, 0)
    else some (db_store db1 idx { entry with expire := -1 }, 1)

/-- The body shared by `db_lpush` and `db_rpush`: `get_or_create_list`, the type
check and the push. For a missing key the source inserts the entry that holds the
empty list and then pushes through the entry pointer; here the entry is inserted
with the value already pushed, which leaves the same entry in the table. -/
def db_push_with (push : list_t → Option CStr → list_t) (db : database_t) (now : Int)
    (key : CStr) (value : Option CStr) : Option (database_t × Int) :=
  match check_expired db now key with
  | none => none
  | some (db1, _) =>
    match db_lookup db1 key with
    | none => none
    | some none =>
      match obj_create_list with
      | .list l0 =>
        match ht_set db1.ht key (some { obj := .list (push l0 value), expire := -1 }) with
        | none => none
        | some (ht, _) =>
          some ({ db1 with ht := ht }, to_int32 (list_length (push l0 value)))
      | _ => none
    | some (some (idx, entry)) =>
      match entry.obj with
      | .list l =>
        some (db_store db1 idx { entry with obj := .list (push l value) },
              to_int32 (list_length (push l value)))
      | _ => some (db1, -1)

/-- Source `db_lpush`: the new length, or -1 when the key holds no list. -/
def db_lpush (db : database_t) (now : Int) (key : CStr) (value : Option CStr) :
    Option (database_t × Int) :=
  db_push_with list_lpush db now key value

/-- Source `db_rpush`: the new length, or -1 when the key holds no list. -/
def db_rpush (db : database_t) (now : Int) (key : CStr) (value : Option CStr) :
    Option (database_t × Int) :=
  db_push_with list_rpush db now key value

/-- The body shared by `db_lpop` and `db_rpop`: the popped string, `none` for `NULL`. -/
def db_pop_with (pop : list_t → list_t × Option CStr) (db : database_t) (now : Int)
    (key : CStr) : Option (database_t × Option CStr) :=
  match check_expired db now key with
  | none => none
  | some (db1, expired) =>
    if expired ≠ 0 then some (db1, none)
    else
      match db_lookup db1 key with
      | none => none
      | some none => some (db1, none)
      | some (some (idx, entry)) =>
        match entry.obj with
        | .list l =>
          let db2 := db_store db1 idx { entry with obj := .list (pop l).1 }
          if list_length (pop l).1 = 0 then
            match ht_delete db2.ht key with
            | none => none
            | some (ht, _) => some ({ db2 with ht := ht }, (pop l).2)
          else some (db2, (pop l).2)
        | _ => some (db1, none)

/-- Source `db_lpop`. -/
def db_lpop (db : database_t) (now : Int) (key : CStr) : Option (database_t × Option CStr) :=
  db_pop_with list_lpop db now key

/-- Source `db_rpop`. -/
def db_rpop (db : database_t) (now : Int) (key : CStr) : Option (database_t × Option CStr) :=
  db_pop_with list_rpop db now key

/-- Source `db_llen`: the length, 0 for a missing key, -1 when the key holds no list. -/
def db_llen (db : database_t) (now : Int) (key : CStr) : Option (database_t × Int) :=
  match check_expired db now key with
  | none => none
  | some (db1, expired) =>
    if expired ≠ 0 then some (db1, 0)
    else
      match db_lookup db1 key with
      | none => none
      | some none => some (db1, 0)
      | some (some (_, entry)) =>
        match entry.obj with
        | .list l => some (db1, to_int64 (list_length l))
        | _ => some (db1, -1)

/-- Source `db_lrange`: the returned array (`none` for `NULL`) and `*count`. -/
def db_lrange (db : database_t) (now : Int) (key : CStr) (start stop : Int) :
    Option (database_t × Option (List (Option CStr)) × Nat) :=
  match check_expired db now key with
  | none => none
  | some (db1, expired) =>
    if expired ≠ 0 then some (db1, none, 0)
    else
      match db_lookup db1 key with
      | none => none
      | some none => some (db1, none, 0)
      | some (some (_, entry)) =>
        match entry.obj with
        | .list l => some (db1, list_range l start stop)
        | _ => some (db1, none, 0)

/-- Source `db_size`. -/
def db_size (db : database_t) : Nat := ht_size db.ht

/-- Source `db_flush`. -/
def db_flush (db : database_t) : Option database_t :=
  match ht_create db_entry_t 64 with
  | none => none
  | some ht => some { db with ht := ht }

/-! ## command.c: request values and the handlers of the keyspace commands -/

/-- A parsed request or reply value, `resp_value_t`. -/
inductive resp_value_t where
  | simple_string (str : CStr)
  | error (str : CStr)
  | integer (num : Int)
  | bulk_string (str : CStr)
  | array (items : List resp_value_t)
  | nil

/-- Source `get_arg`: the string of element `index`, `none` for `NULL`. -/
def get_arg (cmd : resp_value_t) (index : Nat) : Option CStr :=
  match cmd with
  | .array items =>
    match items[index]? with
    | some (.bulk_string s) => some s
    | some (.simple_string s) => some s
    | _ => none
  | _ => none

/-- Source `arg_count`. -/
def arg_count (cmd : resp_value_t) : Nat :=
  match cmd with
  | .array items => items.length
  | _ => 0

def WRONGTYPE_MSG : CStr :=
  "WRONGTYPE Operation against a key holding the wrong kind of value".toList.map Char.toNat

def NOT_INTEGER_MSG : CStr :=
  "ERR value is not an integer or out of range".toList.map Char.toNat

/-- The text `ERR wrong number of arguments for '<NAME>' command`. -/
def wrong_args_msg (name : String) : CStr :=
  ("ERR wrong number of arguments for '" ++ name ++ "' command").toList.map Char.toNat

/-- A handler takes the keyspace, the clock reading and the request; it returns
the keyspace afterwards and the bytes it appended to the reply buffer, or `none`
when it does not return (a probe loop that never ends, a `NULL` dereference). -/
abbrev cmd_handler_t := database_t → Int → resp_value_t → Option (database_t × List Nat)

/-- The `EX` loop of `cmd_set`, from argument `i` on. -/
def cmd_set_options : Nat → database_t → Int → resp_value_t → CStr → Nat →
    Option database_t
  | 0, db, _, _, _, _ => some db
  | fuel + 1, db, now, cmd, key, i =>
    if i + 1 < arg_count cmd then
      match get_arg cmd i, get_arg cmd (i + 1) with
      | some opt, some optval =>
        if imdb_strcasecmp opt [69, 88] = 0 ∧ (strtoll optval).val > 0 then
          match db_expire db now key (strtoll optval).val with
          | none => none
          | some (db1, _) => cmd_set_options fuel db1 now cmd key (i + 2)
        else cmd_set_options fuel db now cmd key (i + 2)
      | _, _ => cmd_set_options fuel db now cmd key (i + 2)
    else some db

/-- Source `cmd_set`. -/
def cmd_set : cmd_handler_t := fun db now cmd =>
  if arg_count cmd < 3 then
    (resp_write_error (wrong_args_msg "SET")).map (fun r => (db, r))
  else
    match get_arg cmd 1 with
    | none => none
    | some key =>
      match db_set db key (get_arg cmd 2) with
      | none => none
      | some (db1, _) =>
        match cmd_set_options (arg_count cmd) db1 now cmd key 3 with
        | none => none
        | some db2 => (resp_write_simple_string [79, 75]).map (fun r => (db2, r))

/-- The reply of `cmd_get` for the object found. -/
def cmd_get_reply : Option dbobj_t → Option (List Nat)
  | none => some resp_write_nil
  | some (.str none) => none
  | some (.str (some s)) => some (resp_write_bulk_string s s.length)
  | some (.num n) => some (resp_write_bulk_string (fmt_int n) (fmt_int n).length)
  | some (.list _) => resp_write_error WRONGTYPE_MSG

/-- Source `cmd_get`. -/
def cmd_get : cmd_handler_t := fun db now cmd =>
  if arg_count cmd < 2 then
    (resp_write_error (wrong_args_msg "GET")).map (fun r => (db, r))
  else
    match get_arg cmd 1 with
    | none => none
    | some key =>
      match db_get db now key with
      | none => none
      | some (db1, obj) => (cmd_get_reply obj).map (fun r => (db1, r))

/-- The loop of `cmd_del` over the arguments from `i` on. -/
def cmd_del_loop : Nat → database_t → Int → resp_value_t → Nat → Int → Option (database_t × Int)
  | 0, db, _, _, _, deleted => some (db, deleted)
  | fuel + 1, db, now, cmd, i, deleted =>
    if i < arg_count cmd then
      match get_arg cmd i with
      | none => none
      | some key =>
        match db_del db now key with
        | none => none
        | some (db1, r) => cmd_del_loop fuel db1 now cmd (i + 1) (deleted + r)
    else some (db, deleted)

/-- Source `cmd_del`. -/
def cmd_del : cmd_handler_t := fun db now cmd =>
  if arg_count cmd < 2 then
    (resp_write_error (wrong_args_msg "DEL")).map (fun r => (db, r))
  else
    match cmd_del_loop (arg_count cmd) db now cmd 1 0 with
    | none => none
    | some (db1, deleted) => some (db1, resp_write_integer deleted)

/-- Source `cmd_exists`. -/
def cmd_exists : cmd_handler_t := fun db now cmd =>
  if arg_count cmd < 2 then
    (resp_write_error (wrong_args_msg "EXISTS")).map (fun r => (db, r))
  else
    match get_arg cmd 1 with
    | none => none
    | some key =>
      match db_exists db now key with
      | none => none
      | some (db1, r) => some (db1, resp_write_integer r)

/-- Source `cmd_incr`. -/
def cmd_incr : cmd_handler_t := fun db now cmd =>
  if arg_count cmd < 2 then
    (resp_write_error (wrong_args_msg "INCR")).map (fun r => (db, r))
  else
    match get_arg cmd 1 with
    | none => none
    | some key =>
      match db_incr db now key 1 with
      | none => none
      | some (db1, val) =>
        if val = INT64_MIN then (resp_write_error NOT_INTEGER_MSG).map (fun r => (db1, r))
        else some (db1, resp_write_integer val)

/-- Source `cmd_decr`. -/
def cmd_decr : cmd_handler_t := fun db now cmd =>
  if arg_count cmd < 2 then
    (resp_write_error (wrong_args_msg "DECR")).map (fun r => (db, r))
  else
    match get_arg cmd 1 with
    | none => none
    | some key =>
      match db_incr db now key (-1) with
      | none => none
      | some (db1, val) =>
        if val = INT64_MIN then (resp_write_error NOT_INTEGER_MSG).map (fun r => (db1, r))
        else some (db1, resp_write_integer val)

/-- Library `atoi`: `(int) strtol(nptr, NULL, 10)`, with `long` of 64 bits. -/
def atoi (nptr : CStr) : Int := to_int32 (strtoll nptr).val

/-- The loop of `cmd_lpush` and `cmd_rpush` over the values from argument `i` on;
`none` in the result stands for the `WRONGTYPE` exit. -/
def cmd_push_loop (push : database_t → Int → CStr → Option CStr → Option (database_t × Int)) :
    Nat → database_t → Int → resp_value_t → CStr → Nat → Int → Option (database_t × Option Int)
  | 0, db, _, _, _, _, result => some (db, some result)
  | fuel + 1, db, now, cmd, key, i, result =>
    if i < arg_count cmd then
      match push db now key (get_arg cmd i) with
      | none => none
      | some (db1, r) =>
        if r < 0 then some (db1, none)
        else cmd_push_loop push fuel db1 now cmd key (i + 1) r
    else some (db, some result)

/-- The body shared by `cmd_lpush` and `cmd_rpush`. -/
def cmd_push_with (name : String)
    (push : database_t → Int → CStr → Option CStr → Option (database_t × Int)) :
    cmd_handler_t := fun db now cmd =>
  if arg_count cmd < 3 then
    (resp_write_error (wrong_args_msg name)).map (fun r => (db, r))
  else
    match get_arg cmd 1 with
    | none => none
    | some key =>
      match cmd_push_loop push (arg_count cmd) db now cmd key 2 0 with
      | none => none
      | some (db1, none) => (resp_write_error WRONGTYPE_MSG).map (fun r => (db1, r))
      | some (db1, some result) => some (db1, resp_write_integer result)

/-- Source `cmd_lpush`. -/
def cmd_lpush : cmd_handler_t := cmd_push_with "LPUSH" db_lpush

/-- Source `cmd_rpush`. -/
def cmd_rpush : cmd_handler_t := cmd_push_with "RPUSH" db_rpush

/-- The body shared by `cmd_lpop` and `cmd_rpop`. -/
def cmd_pop_with (name : String)
    (pop : database_t → Int → CStr → Option (database_t × Option CStr)) :
    cmd_handler_t := fun db now cmd =>
  if arg_count cmd < 2 then
    (resp_write_error (wrong_args_msg name)).map (fun r => (db, r))
  else
    match get_arg cmd 1 with
    | none => none
    | some key =>
      match pop db now key with
      | none => none
      | some (db1, none) => some (db1, resp_write_nil)
      | some (db1, some val) => some (db1, resp_write_bulk_string val val.length)

/-- Source `cmd_lpop`. -/
def cmd_lpop : cmd_handler_t := cmd_pop_with "LPOP" db_lpop

/-- Source `cmd_rpop`. -/
def cmd_rpop : cmd_handler_t := cmd_pop_with "RPOP" db_rpop

/-- Source `cmd_llen`. -/
def cmd_llen : cmd_handler_t := fun db now cmd =>
  if arg_count cmd < 2 then
    (resp_write_error (wrong_args_msg "LLEN")).map (fun r => (db, r))
  else
    match get_arg cmd 1 with
    | none => none
    | some key =>
      match db_llen db now key with
      | none => none
      | some (db1, len) =>
        if len < 0 then (resp_write_error WRONGTYPE_MSG).map (fun r => (db1, r))
        else some (db1, resp_write_integer len)

/-- The loop of `cmd_lrange` that writes the items as bulk strings; a `NULL` item
is passed to `strlen`. -/
def cmd_lrange_items : List (Option CStr) → Option (List Nat)
  | [] => some []
  | none :: _ => none
  | some s :: rest => (cmd_lrange_items rest).map (fun r => resp_write_bulk_string s s.length ++ r)

/-- Source `cmd_lrange`. -/
def cmd_lrange : cmd_handler_t := fun db now cmd =>
  if arg_count cmd < 4 then
    (resp_write_error (wrong_args_msg "LRANGE")).map (fun r => (db, r))
  else
    match get_arg cmd 2, get_arg cmd 3, get_arg cmd 1 with
    | some a2, some a3, some key =>
      match db_lrange db now key (atoi a2) (atoi a3) with
      | none => none
      | some (db1, items, count) =>
        (cmd_lrange_items ((items.getD []).take count)).map
          (fun r => (db1, resp_write_array_header count ++ r))
    | _, _, _ => none

/-- Source `cmd_expire`. -/
def cmd_expire : cmd_handler_t := fun db now cmd =>
  if arg_count cmd < 3 then
    (resp_write_error (wrong_args_msg "EXPIRE")).map (fun r => (db, r))
  else
    match get_arg cmd 2, get_arg cmd 1 with
    | some a2, some key =>
      match db_expire db now key (strtoll a2).val with
      | none => none
      | some (db1, r) => some (db1, resp_write_integer r)
    | _, _ => none

/-- Source `cmd_ttl`. -/
def cmd_ttl : cmd_handler_t := fun db now cmd =>
  if arg_count cmd < 2 then
    (resp_write_error (wrong_args_msg "TTL")).map (fun r => (db, r))
  else
    match get_arg cmd 1 with
    | none => none
    | some key =>
      match db_ttl db now key with
      | none => none
      | some (db1, r) => some (db1, resp_write_integer r)

/-- Source `cmd_persist`. -/
def cmd_persist : cmd_handler_t := fun db now cmd =>
  if arg_count cmd < 2 then
    (resp_write_error (wrong_args_msg "PERSIST")).map (fun r => (db, r))
  else
    match get_arg cmd 1 with
    | none => none
    | some key =>
      match db_persist db now key with
      | none => none
      | some (db1, r) => some (db1, resp_write_integer r)

/-- Source `cmd_dbsize`. -/
def cmd_dbsize : cmd_handler_t := fun db _ _ =>
  some (db, resp_write_integer (to_int64 (db_size db)))

/-- Source `cmd_flushdb`. -/
def cmd_flushdb : cmd_handler_t := fun db _ _ =>
  match db_flush db with
  | none => none
  | some db1 => (resp_write_simple_string [79, 75]).map (fun r => (db1, r))

/-- Source `cmd_ping`: the argument echoed as a bulk string, or `+PONG`. A `NULL`
argument is passed to `strlen`. -/
def cmd_ping : cmd_handler_t := fun db _ cmd =>
  if arg_count cmd > 1 then
    match get_arg cmd 1 with
    | none => none
    | some msg => some (db, resp_write_bulk_string msg msg.length)
  else (resp_write_simple_string [80, 79, 78, 71]).map (fun r => (db, r))

/-- The loop of `cmd_mset` over the pairs from argument `i` on. -/
def cmd_mset_loop : Nat → database_t → resp_value_t → Nat → Option database_t
  | 0, db, _, _ => some db
  | fuel + 1, db, cmd, i =>
    if i + 1 < arg_count cmd then
      match get_arg cmd i with
      | none => none
      | some key =>
        match db_set db key (get_arg cmd (i + 1)) with
        | none => none
        | some (db1, _) => cmd_mset_loop fuel db1 cmd (i + 2)
    else some db

/-- Source `cmd_mset`. -/
def cmd_mset : cmd_handler_t := fun db _ cmd =>
  if arg_count cmd < 3 ∨ (arg_count cmd - 1) % 2 ≠ 0 then
    (resp_write_error (wrong_args_msg "MSET")).map (fun r => (db, r))
  else
    match cmd_mset_loop (arg_count cmd) db cmd 1 with
    | none => none
    | some db1 => (resp_write_simple_string [79, 75]).map (fun r => (db1, r))

/-- The reply of `cmd_mget` for one object found: a list is answered with nil. -/
def cmd_mget_reply : Option dbobj_t → Option (List Nat)
  | none => some resp_write_nil
  | some (.str none) => none
  | some (.str (some s)) => some (resp_write_bulk_string s s.length)
  | some (.num n) => some (resp_write_bulk_string (fmt_int n) (fmt_int n).length)
  | some (.list _) => some resp_write_nil

/-- The loop of `cmd_mget` over the keys from argument `i` on. -/
def cmd_mget_loop : Nat → database_t → Int → resp_value_t → Nat →
    Option (database_t × List Nat)
  | 0, db, _, _, _ => some (db, [])
  | fuel + 1, db, now, cmd, i =>
    if i < arg_count cmd then
      match get_arg cmd i with
      | none => none
      | some key =>
        match db_get db now key with
        | none => none
        | some (db1, obj) =>
          match cmd_mget_reply obj, cmd_mget_loop fuel db1 now cmd (i + 1) with
          | some r, some (db2, rest) => some (db2, r ++ rest)
          | _, _ => none
    else some (db, [])

/-- Source `cmd_mget`. -/
def cmd_mget : cmd_handler_t := fun db now cmd =>
  if arg_count cmd < 2 then
    (resp_write_error (wrong_args_msg "MGET")).map (fun r => (db, r))
  else
    match cmd_mget_loop (arg_count cmd) db now cmd 1 with
    | none => none
    | some (db1, r) => some (db1, resp_write_array_header (arg_count cmd - 1) ++ r)

/-- The handlers of `command_table` that work on the keyspace alone, in the order
of the table (`INFO`, `SAVE` and `SHUTDOWN`, which read it for a report or a dump
file, are left out). -/
def keyspace_handlers : List cmd_handler_t :=
  [cmd_ping, cmd_set, cmd_get, cmd_del, cmd_exists, cmd_incr, cmd_decr, cmd_mset, cmd_mget,
   cmd_lpush, cmd_rpush, cmd_lpop, cmd_rpop, cmd_llen, cmd_lrange, cmd_expire, cmd_ttl,
   cmd_persist, cmd_dbsize, cmd_flushdb]

/-- Serve a sequence of requests, each by the handler given with it and at the
clock reading given with it; returns the keyspace and the replies in order. -/
def serve : List (cmd_handler_t × Int × resp_value_t) → database_t →
    Option (database_t × List (List Nat))
  | [], db => some (db, [])
  | (handler, now, cmd) :: rest, db =>
    match handler db now cmd with
    | none => none
    | some (db1, reply) =>
      match serve rest db1 with
      | none => none
      | some (db2, replies) => some (db2, reply :: replies)

/-- Bytes of an ASCII text. -/
def bytes (s : String) : CStr := s.toList.map Char.toNat

/-- The request `NAME arg1 arg2 ...` as an array of bulk strings. -/
def request (args : List CStr) : resp_value_t :=
  .array (args.map resp_value_t.bulk_string)

/-! ## resp.c, the parser -/

/-- Source `find_crlf`: the index of the first `\r\n`, `none` for `NULL`. -/
def find_crlf : List Nat → Option Nat
  | [] => none
  | c :: rest =>
    if c = 13 ∧ rest.head? = some 10 then some 0
    else (find_crlf rest).map (fun i => i + 1)

/-- Source `imdb_strndup`: at most `n` bytes of `s`, up to the first NUL. -/
def imdb_strndup (s : List Nat) (n : Nat) : CStr :=
  (s.take n).takeWhile (fun b => b ≠ 0)

/-- What `resp_parse` hands back: the return value and `*out` when it was set. -/
structure parse_result where
  ret : Int
  out : Option resp_value_t

/-- The loop of `resp_parse_value` over the `count` elements of an array, with
`parse` the parser of one element; `total` bytes are consumed so far. -/
def resp_parse_items (parse : List Nat → parse_result) :
    Nat → List Nat → Nat → List resp_value_t → parse_result
  | 0, _, total, items => { ret := to_int32 total, out := some (.array items) }
  | count + 1, buf, total, items =>
    let r := parse (buf.drop total)
    if r.ret ≤ 0 then { ret := r.ret, out := none }
    else
      match r.out with
      | some v => resp_parse_items parse count buf (total + r.ret.toNat) (items ++ [v])
      | none => { ret := r.ret, out := none }

/-- Source `resp_parse_value` on the buffer `buf` of `len = buf.length` bytes; the
first argument bounds the nesting of arrays. -/
def resp_parse_value : Nat → List Nat → parse_result
  | 0, _ => { ret := 0, out := none }
  | fuel + 1, buf =>
    if buf.length = 0 then { ret := 0, out := none }
    else
      match find_crlf buf with
      | none => { ret := 0, out := none }
      | some line_len =>
        let consumed := line_len + 2
        match buf.head? with
        | some 43 =>
          { ret := to_int32 consumed,
            out := some (.simple_string (imdb_strndup (buf.drop 1) (line_len - 1))) }
        | some 45 =>
          { ret := to_int32 consumed,
            out := some (.error (imdb_strndup (buf.drop 1) (line_len - 1))) }
        | some 58 =>
          { ret := to_int32 consumed, out := some (.integer (strtoll (buf.drop 1)).val) }
        | some 36 =>
          let bulk_len := atoi (buf.drop 1)
          if bulk_len = -1 then { ret := to_int32 consumed, out := some .nil }
          else if bulk_len < 0 then { ret := -1, out := none }
          else if consumed + bulk_len.toNat + 2 > buf.length then { ret := 0, out := none }
          else
            { ret := to_int32 (consumed + bulk_len.toNat + 2),
              out := some (.bulk_string (imdb_strndup (buf.drop consumed) bulk_len.toNat)) }
        | some 42 =>
          let arr_count := atoi (buf.drop 1)
          if arr_count = -1 then { ret := to_int32 consumed, out := some .nil }
          else if arr_count < 0 then { ret := -1, out := none }
          else resp_parse_items (resp_parse_value fuel) arr_count.toNat buf consumed []
        | _ => { ret := -1, out := none }

/-- Source `resp_parse`. -/
def resp_parse (buf : List Nat) : parse_result :=
  resp_parse_value (buf.length + 1) buf

/-- The body of `resp_parse_value` with the parser of the array elements as a
parameter: `resp_parse_value (fuel + 1)` is `resp_parse_step (resp_parse_value fuel)`. -/
def resp_parse_step (parse : List Nat → parse_result) (buf : List Nat) : parse_result :=
  if buf.length = 0 then { ret := 0, out := none }
  else
    match find_crlf buf with
    | none => { ret := 0, out := none }
    | some line_len =>
      let consumed := line_len + 2
      match buf.head? with
      | some 43 =>
        { ret := to_int32 consumed,
          out := some (.simple_string (imdb_strndup (buf.drop 1) (line_len - 1))) }
      | some 45 =>
        { ret := to_int32 consumed,
          out := some (.error (imdb_strndup (buf.drop 1) (line_len - 1))) }
      | some 58 =>
        { ret := to_int32 consumed, out := some (.integer (strtoll (buf.drop 1)).val) }
      | some 36 =>
        let bulk_len := atoi (buf.drop 1)
        if bulk_len = -1 then { ret := to_int32 consumed, out := some .nil }
        else if bulk_len < 0 then { ret := -1, out := none }
        else if consumed + bulk_len.toNat + 2 > buf.length then { ret := 0, out := none }
        else
          { ret := to_int32 (consumed + bulk_len.toNat + 2),
            out := some (.bulk_string (imdb_strndup (buf.drop consumed) bulk_len.toNat)) }
      | some 42 =>
        let arr_count := atoi (buf.drop 1)
        if arr_count = -1 then { ret := to_int32 consumed, out := some .nil }
        else if arr_count < 0 then { ret := -1, out := none }
        else resp_parse_items parse arr_count.toNat buf consumed []
      | _ => { ret := -1, out := none }

mutual
/-- A value written with the `resp_write_*` functions: a scalar by its writer, an
array by `resp_write_array_header` followed by its elements in order. -/
def resp_serialize : resp_value_t → Option (List Nat)
  | .simple_string s => resp_write_simple_string s
  | .error s => resp_write_error s
  | .integer n => some (resp_write_integer n)
  | .bulk_string s => some (resp_write_bulk_string s s.length)
  | .nil => some resp_write_nil
  | .array items => (resp_serialize_items items).map (fun r => resp_write_array_header items.length ++ r)
/-- The elements of an array written one after the other. -/
def resp_serialize_items : List resp_value_t → Option (List Nat)
  | [] => some []
  | v :: rest =>
    match resp_serialize v, resp_serialize_items rest with
    | some a, some b => some (a ++ b)
    | _, _ => none
end

/-! ## hashtable.c, the iterator -/

/-- The iterator `ht_iter_t`; the table it points at is passed along with it. -/
structure ht_iter_t where
  index : Nat
deriving DecidableEq, Repr

/-- Source `ht_iter_init`. -/
def ht_iter_init : ht_iter_t := { index := 0 }

/-- The loop of `ht_iter_next` from `index` on, at most `fuel` slots: the iterator
afterwards and the slot returned, `none` for `NULL`. -/
def ht_iter_scan {α : Type} (ht : hashtable_t α) : Nat → Nat → ht_iter_t × Option Nat
  | 0, index => ({ index := index }, none)
  | fuel + 1, index =>
    if index < ht.capacity then
      if (slot_at ht.entries index).occupied = 1 then ({ index := index + 1 }, some index)
      else ht_iter_scan ht fuel (index + 1)
    else ({ index := index }, none)

/-- Source `ht_iter_next`: the next live slot at or after `iter.index`. -/
def ht_iter_next {α : Type} (ht : hashtable_t α) (iter : ht_iter_t) : ht_iter_t × Option Nat :=
  ht_iter_scan ht (ht.capacity - iter.index) iter.index

/-! ## persist.c, the writer

The file is the list of the bytes written to it. Integers are written by
`fwrite(&v, sizeof(v), 1, f)`, that is in the byte order of the host, taken to be
little-endian. -/

/-- The `k` low bytes of `v`, least significant first. -/
def le_bytes : Nat → Nat → List Nat
  | 0, _ => []
  | k + 1, v => (v % 256) :: le_bytes k (v / 256)

/-- Source `write_uint32`: the bytes written. -/
def write_uint32 (v : Nat) : List Nat := le_bytes 4 (v % 2 ^ 32)

/-- Source `write_int64`: the bytes written. -/
def write_int64 (v : Int) : List Nat := le_bytes 8 (v % 2 ^ 64).toNat

/-- Source `write_string`: the bytes written. -/
def write_string (s : CStr) (len : Nat) : List Nat :=
  write_uint32 len ++ s.take len

def RDB_MAGIC : List Nat := bytes "IMDB0001"

def RDB_EOF : Nat := 255

/-- The loop of `persist_save` over the nodes of a list: each value goes through
`strlen`, which a `NULL` value stops. -/
def persist_save_list : List (Option CStr) → Option (List Nat)
  | [] => some []
  | none :: _ => none
  | some v :: rest =>
    (persist_save_list rest).map (fun r => write_string v (v.length % 2 ^ 32) ++ r)

/-- The body of the loop of `persist_save` for the slot `he`: type byte, deadline,
key and value. `none` when a `NULL` pointer is dereferenced. -/
def persist_save_entry (he : ht_entry_t db_entry_t) : Option (List Nat) :=
  match he.value, he.key with
  | some entry, some key =>
    match entry.obj with
    | .str none => none
    | .str (some s) =>
      some ([0] ++ write_int64 entry.expire ++ write_string key (key.length % 2 ^ 32) ++
        write_string s (s.length % 2 ^ 32))
    | .num n =>
      some ([1] ++ write_int64 entry.expire ++ write_string key (key.length % 2 ^ 32) ++
        write_int64 n)
    | .list l =>
      (persist_save_list (list_elems l)).map (fun r =>
        [2] ++ write_int64 entry.expire ++ write_string key (key.length % 2 ^ 32) ++
          write_uint32 (list_length l % 2 ^ 32) ++ r)
  | _, _ => none

/-- The loop `while ((he = ht_iter_next(&iter)) != NULL)` of `persist_save`. -/
def persist_save_loop (ht : hashtable_t db_entry_t) : Nat → ht_iter_t → Option (List Nat)
  | 0, _ => some []
  | fuel + 1, iter =>
    match ht_iter_next ht iter with
    | (_, none) => some []
    | (iter1, some idx) =>
      match persist_save_entry (slot_at ht.entries idx), persist_save_loop ht fuel iter1 with
      | some a, some b => some (a ++ b)
      | _, _ => none

/-- Source `persist_save`. The argument `disk` tells whether the file operations
succeed; when they do not, `fopen` is taken to be the one that fails. Returns the
return value and, when the dump file was replaced, its content; `none` when the
walk over the table dereferences a `NULL` pointer. -/
def persist_save (disk : Bool) (db : database_t) : Option (Int × Option (List Nat)) :=
  if disk then
    match persist_save_loop db.ht (db.ht.capacity + 1) ht_iter_init with
    | none => none
    | some body => some (0, some (RDB_MAGIC ++ body ++ [RDB_EOF]))
  else some (-1, none)

/-! ## command.c: the server commands and the dispatch -/

/-- Source `cmd_info`. -/
def cmd_info : cmd_handler_t := fun db _ _ =>
  some (db, resp_write_bulk_string
    (bytes "# Server\r\ninmemdb_version:1.0.0\r\n# Keyspace\r\ndb0:keys=" ++
      fmt_nat (db_size db) ++ CRLF)
    (bytes "# Server\r\ninmemdb_version:1.0.0\r\n# Keyspace\r\ndb0:keys=" ++
      fmt_nat (db_size db) ++ CRLF).length)

/-- Source `cmd_save`. -/
def cmd_save (disk : Bool) : cmd_handler_t := fun db _ _ =>
  match persist_save disk db with
  | none => none
  | some (r, _) =>
    if r = 0 then (resp_write_simple_string [79, 75]).map (fun r => (db, r))
    else (resp_write_error (bytes "ERR failed to save database")).map (fun r => (db, r))

/-- Source `cmd_shutdown`; the stop flag it sets on the server is not modelled. -/
def cmd_shutdown (disk : Bool) : cmd_handler_t := fun db _ _ =>
  match persist_save disk db with
  | none => none
  | some _ => (resp_write_simple_string [79, 75]).map (fun r => (db, r))

/-- Source `command_table`, without the terminating `{NULL, NULL}`. -/
def command_table (disk : Bool) : List (CStr × cmd_handler_t) :=
  [(bytes "PING", cmd_ping),
   (bytes "SET", cmd_set),
   (bytes "GET", cmd_get),
   (bytes "DEL", cmd_del),
   (bytes "EXISTS", cmd_exists),
   (bytes "INCR", cmd_incr),
   (bytes "DECR", cmd_decr),
   (bytes "MSET", cmd_mset),
   (bytes "MGET", cmd_mget),
   (bytes "LPUSH", cmd_lpush),
   (bytes "RPUSH", cmd_rpush),
   (bytes "LPOP", cmd_lpop),
   (bytes "RPOP", cmd_rpop),
   (bytes "LLEN", cmd_llen),
   (bytes "LRANGE", cmd_lrange),
   (bytes "EXPIRE", cmd_expire),
   (bytes "TTL", cmd_ttl),
   (bytes "PERSIST", cmd_persist),
   (bytes "DBSIZE", cmd_dbsize),
   (bytes "FLUSHDB", cmd_flushdb),
   (bytes "INFO", cmd_info),
   (bytes "SAVE", cmd_save disk),
   (bytes "SHUTDOWN", cmd_shutdown disk)]

/-- The loop of `command_execute` over the table: the handler of the first entry
whose name `imdb_strcasecmp` finds equal to `name`. -/
def command_lookup : List (CStr × cmd_handler_t) → CStr → Option cmd_handler_t
  | [], _ => none
  | e :: rest, name =>
    if imdb_strcasecmp name e.1 = 0 then some e.2 else command_lookup rest name

/-- The test `cmd->type == RESP_ARRAY`. -/
def resp_is_array : resp_value_t → Bool
  | .array _ => true
  | _ => false

/-- Source `command_execute`; `cmd` is `none` for a `NULL` pointer. The text of the
unknown-command error goes through `char err[128]`, which `snprintf` cuts to 127
bytes. -/
def command_execute (disk : Bool) (db : database_t) (now : Int) (cmd : Option resp_value_t) :
    Option (database_t × List Nat) :=
  match cmd with
  | none => (resp_write_error (bytes "ERR invalid command format")).map (fun r => (db, r))
  | some c =>
    if resp_is_array c = false ∨ arg_count c = 0 then
      (resp_write_error (bytes "ERR invalid command format")).map (fun r => (db, r))
    else
      match get_arg c 0 with
      | none => (resp_write_error (bytes "ERR invalid command")).map (fun r => (db, r))
      | some name =>
        match command_lookup (command_table disk) name with
        | some handler => handler db now c
        | none =>
          (resp_write_error ((bytes "ERR unknown command '" ++ name ++ [39]).take 127)).map
            (fun r => (db, r))

/-! ## server.c

The sockets are not modelled: what `recv` hands over is an argument, and the bytes
queued for `send` stay in the write buffer. The listening socket, the port and the
`running` flag are left out. One clock reading serves a whole call of
`process_client_input`. -/

def MAX_CLIENTS : Nat := 1024

def CLIENT_BUF_SIZE : Nat := 65536

/-- A connection, `client_t`: `read_buf` holds the `read_len` bytes received and not
yet consumed, `write_buf` the `write_len` bytes queued. -/
structure client_t where
  fd : Int
  read_buf : List Nat
  write_buf : List Nat
  write_pos : Nat
deriving DecidableEq, Repr

/-- The server, `server_t`: the keyspace and the client table. -/
structure server_t where
  db : database_t
  clients : List (Option client_t)
  client_count : Int

/-- Source `client_queue_write`. -/
def client_queue_write (c : client_t) (data : List Nat) : client_t :=
  { c with write_buf := c.write_buf ++ data }

/-- Source `server_remove_client`. -/
def server_remove_client (srv : server_t) (index : Nat) : server_t :=
  { srv with clients := srv.clients.set index none, client_count := srv.client_count - 1 }

/-- Source `process_client_input`, on the keyspace `srv->db` and the client: at most
`fuel` requests are taken from the read buffer. The parser is handed the `read_len`
bytes received and nothing of what the array holds behind them; `strtoll` and `atoi`
stop inside these bytes whenever the number line they read has a character that is not
white space before its CR LF, and only then is the array behind `read_len` not looked
at. -/
def process_client_input : Nat → Bool → Int → database_t → client_t →
    Option (database_t × client_t)
  | 0, _, _, db, c => some (db, c)
  | fuel + 1, disk, now, db, c =>
    if c.read_buf.length > 0 then
      if (resp_parse c.read_buf).ret ≤ 0 then some (db, c)
      else
        match command_execute disk db now (resp_parse c.read_buf).out with
        | none => none
        | some (db1, reply) =>
          process_client_input fuel disk now db1
            { client_queue_write c reply with
              read_buf := c.read_buf.drop (resp_parse c.read_buf).ret.toNat }
    else some (db, c)

/-- The `Read` part of the client loop of `server_run` for slot `i`: `received` is
what `recv` hands over (`none` when it fails), cut to the room left in the read
buffer. A result of `recv` that is not positive removes the client; otherwise the
bytes are appended and `process_client_input` runs. -/
def server_run_read (disk : Bool) (now : Int) (srv : server_t) (i : Nat)
    (received : Option (List Nat)) : Option server_t :=
  match srv.clients[i]? with
  | some (some c) =>
    match received with
    | none => some (server_remove_client srv i)
    | some data =>
      if (data.take (CLIENT_BUF_SIZE - c.read_buf.length)).length = 0 then
        some (server_remove_client srv i)
      else
        match process_client_input
            (c.read_buf ++ data.take (CLIENT_BUF_SIZE - c.read_buf.length)).length disk now srv.db
            { c with read_buf := c.read_buf ++ data.take (CLIENT_BUF_SIZE - c.read_buf.length) } with
        | none => none
        | some (db1, c1) =>
          some { srv with db := db1, clients := srv.clients.set i (some c1) }
  | _ => some srv

/-! ## persist.c, the reader -/

/-- The number whose bytes, least significant first, are given. -/
def le_value : List Nat → Nat
  | [] => 0
  | b :: rest => b + 256 * le_value rest

/-- Source `read_uint32` on the rest of the file: the value read, `none` when fewer
than four bytes are left, and the rest of the file afterwards (a short read leaves
the file at its end). -/
def read_uint32 (f : List Nat) : Option Nat × List Nat :=
  if f.length < 4 then (none, []) else (some (le_value (f.take 4)), f.drop 4)

/-- Source `read_int64` on the rest of the file. -/
def read_int64 (f : List Nat) : Option Int × List Nat :=
  if f.length < 8 then (none, []) else (some (to_int64 (le_value (f.take 8))), f.drop 8)

/-- Source `read_string` on the rest of the file: the string read, `none` for `NULL`.
The buffer gets a NUL behind the `len` bytes read, so the C string ends at the first
NUL among them. -/
def read_string (f : List Nat) : Option CStr × List Nat :=
  match read_uint32 f with
  | (none, rest) => (none, rest)
  | (some len, rest) =>
    if rest.length < len then (none, [])
    else (some ((rest.take len).takeWhile (fun b => b ≠ 0)), rest.drop len)

/-- The loop of `persist_load` that skips the strings of a list that has expired. -/
def persist_skip_list : Nat → List Nat → List Nat
  | 0, f => f
  | count + 1, f => persist_skip_list count (read_string f).2

/-- The branch of `persist_load` that skips the value of an expired key. -/
def persist_skip_value (type : Nat) (f : List Nat) : List Nat :=
  if type = 0 then (read_string f).2
  else if type = 1 then (read_int64 f).2
  else if type = 2 then
    match read_uint32 f with
    | (none, rest) => rest
    | (some count, rest) => persist_skip_list count rest
  else f

/-- The loop of `persist_load` that reads the strings of a list and appends them with
`list_rpush`; it stops at the first string that cannot be read. -/
def persist_load_list : Nat → List Nat → list_t → list_t × List Nat
  | 0, f, l => (l, f)
  | count + 1, f, l =>
    match read_string f with
    | (none, rest) => (l, rest)
    | (some val, rest) => persist_load_list count rest (list_rpush l (some val))

/-- The loop `while (1)` of `persist_load` over the records, on the rest `f` of the
file; `break` returns the keyspace as it is. The first argument is fuel, one unit per
record; `none` when it runs out or an `ht_set` does not return. -/
def persist_load_loop (now : Int) : Nat → database_t → List Nat → Option database_t
  | 0, _, _ => none
  | fuel + 1, db, f =>
    match f with
    | [] => some db
    | type :: f1 =>
      if type = RDB_EOF then some db
      else
        match read_int64 f1 with
        | (none, _) => some db
        | (some expire, f2) =>
          match read_string f2 with
          | (none, _) => some db
          | (some key, f3) =>
            if expire ≥ 0 ∧ now > expire then
              persist_load_loop now fuel db (persist_skip_value type f3)
            else if type = 0 then
              match read_string f3 with
              | (none, _) => some db
              | (some val, f4) =>
                match ht_set db.ht key
                    (some { obj := obj_create_string (some val), expire := expire }) with
                | none => none
                | some (ht1, _) => persist_load_loop now fuel { db with ht := ht1 } f4
            else if type = 1 then
              match read_int64 f3 with
              | (none, _) => some db
              | (some num, f4) =>
                match ht_set db.ht key (some { obj := obj_create_int num, expire := expire }) with
                | none => none
                | some (ht1, _) => persist_load_loop now fuel { db with ht := ht1 } f4
            else if type = 2 then
              match read_uint32 f3 with
              | (none, _) => some db
              | (some count, f4) =>
                match ht_set db.ht key
                    (some { obj := .list (persist_load_list count f4 list_create).1,
                            expire := expire }) with
                | none => none
                | some (ht1, _) =>
                  persist_load_loop now fuel { db with ht := ht1 }
                    (persist_load_list count f4 list_create).2
            else some db

/-- Source `persist_load` into the keyspace `db`, at the clock reading `now`; `file`
is the content of the dump file, `none` when it cannot be opened. Returns the return
value and the keyspace, `none` when an `ht_set` does not return. Every record takes at
least its type byte, so one unit of fuel per byte and one for the end of the file are
enough. -/
def persist_load (now : Int) (db : database_t) (file : Option (List Nat)) :
    Option (Int × database_t) :=
  match file with
  | none => some (-1, db)
  | some f =>
    if f.length < 8 ∨ f.take 8 ≠ RDB_MAGIC then some (-1, db)
    else (persist_load_loop now (f.length + 1) db (f.drop 8)).map (fun db1 => (0, db1))

/-! ## db.c, the periodic sweep -/

def EXPIRE_SWEEP_INTERVAL : Int := 100

def EXPIRE_SWEEP_SAMPLES : Nat := 20

/-- The loop of `db_expire_sweep`; the first argument is the number of samples left,
`EXPIRE_SWEEP_SAMPLES - checked`. -/
def db_expire_sweep_loop (now : Int) : Nat → hashtable_t db_entry_t → ht_iter_t →
    Option (hashtable_t db_entry_t)
  | 0, ht, _ => some ht
  | left + 1, ht, iter =>
    match ht_iter_next ht iter with
    | (_, none) => some ht
    | (iter1, some idx) =>
      match (slot_at ht.entries idx).value with
      | none => none
      | some entry =>
        if entry.expire ≥ 0 ∧ now > entry.expire then
          match (slot_at ht.entries idx).key with
          | none => none
          | some key =>
            match ht_delete ht key with
            | none => none
            | some (ht1, _) => db_expire_sweep_loop now left ht1 ht_iter_init
        else db_expire_sweep_loop now left ht iter1

/-- Source `db_expire_sweep` at the clock reading `now`. -/
def db_expire_sweep (db : database_t) (now : Int) : Option database_t :=
  if now - db.last_expire_sweep < EXPIRE_SWEEP_INTERVAL then some db
  else if ht_size db.ht = 0 then some { db with last_expire_sweep := now }
  else
    (db_expire_sweep_loop now EXPIRE_SWEEP_SAMPLES db.ht ht_iter_init).map
      (fun ht1 => { db with ht := ht1, last_expire_sweep := now })

/-! ## Concrete runs used below -/

/-- Three insertions: `"i"` and `"fu"` hash to slot 4 of a 64-slot table, `"ak"` to slot 5. -/
def lost_key_ops : List (ht_op Nat) :=
  [.set (bytes "i") 1, .set (bytes "ak") 2, .set (bytes "fu") 3]

/-- Insertions and a deletion after which `"fu"` is set again: `"i"` and `"fu"`
both hash to slot 4. -/
def twice_stored_ops : List (ht_op Nat) :=
  [.set (bytes "i") 1, .set (bytes "fu") 2, .delete (bytes "i"), .set (bytes "fu") 3]

/-- Twelve keys whose ideal slots in a 64-slot table are 0, 1, 2, 2, 5, 9, 14, 20,
27, 35, 44 and 54. -/
def crowd_keys : List String :=
  ["al", "aw", "s", "cd", "ak", "v", "ch", "ap", "au", "t", "a", "w"]

/-- The requests `SET k x` for the twelve keys of `crowd_keys`, at clock 0. -/
def crowd_requests : List (cmd_handler_t × Int × resp_value_t) :=
  crowd_keys.map (fun k => (cmd_set, 0, request [bytes "SET", bytes k, bytes "x"]))

/-- The replies to `crowd_requests` when every one is `+OK`. -/
def crowd_replies : List (List Nat) :=
  crowd_keys.map (fun _ => bytes "+OK\r\n")

/-- Forty-five keys: `"cw"` and `"hr"` hash to 63 modulo 128, `"al"` to 64, and
the others to 2, 3, ..., 43. -/
def rebuild_keys : List String :=
  ["cw", "hr", "al", "s", "tr", "fu", "bb", "g", "x", "at", "fj", "bk", "l", "ah", "as",
   "fc", "bp", "u", "ag", "lm", "bd", "by", "r", "nc", "ft", "bm", "f", "cl", "au", "fm",
   "bj", "o", "ai", "fy", "fb", "bs", "t", "to", "ga", "bg", "bx", "cj", "nb", "fw", "bl"]

/-- The table after `ht_set(k, 7)` for the forty-five keys of `rebuild_keys`, in
order, on a fresh table. -/
def rebuild_table : Option (hashtable_t Nat) :=
  (ht_create Nat 64).bind (ht_run (rebuild_keys.map (fun k => ht_op.set (bytes k) 7)))

/-- Forty-five keys, in the order they are set. Modulo 128 the hashes of `"cw"` and
`"hr"` are 63, that of `"al"` 64, that of `"aw"` 65; eight keys (`"n"` ... `"ads"`)
share 49; thirteen sit alone on 2, 14, 27, 41, 67, 70, 74, 79, 85, 92, 100, 109, 119. -/
def grow_keys : List String :=
  ["cw", "hr", "al", "aw", "s", "bt", "gd", "x", "at", "fj", "ab", "l", "ah", "as", "fc",
   "ay", "u", "lm", "bd", "by", "fn", "nc", "ft", "bm", "f", "cl", "au", "q", "bj", "o",
   "ai", "fy", "fb", "bi", "nb", "ff", "n", "cy", "io", "qw", "vb", "aba", "acv", "ads", "bh"]

/-- The requests `SET k old` for the keys of `grow_keys`, at clock 0. -/
def grow_requests : List (cmd_handler_t × Int × resp_value_t) :=
  grow_keys.map (fun k => (cmd_set, 0, request [bytes "SET", bytes k, bytes "old"]))

/-- The replies to `grow_requests` when every one is `+OK`. -/
def grow_replies : List (List Nat) :=
  grow_keys.map (fun _ => bytes "+OK\r\n")

/-- Every live slot of the table is found by `ht_get` under its own key, with its
own value. -/
def all_live_found {α : Type} [DecidableEq α] (ht : hashtable_t α) : Bool :=
  (ht_live ht).all (fun p =>
    match p.2.key with
    | some k => decide (ht_get ht k = some p.2.value)
    | none => false)

/-- The number of tombstone slots of the table. -/
def count_tombstones {α : Type} (ht : hashtable_t α) : Nat :=
  (ht.entries.filter (fun e => e.occupied = 2)).length

/-- The keyspace that `db_create` returns at clock 0. -/
def fresh_db : database_t :=
  { ht := { entries := List.replicate 64 ht_entry_t.zero, capacity := 64, size := 0,
            tombstones := 0 },
    last_expire_sweep := 0 }

/-- A server with the keyspace `db` and one client in slot 0, with nothing received
and nothing queued. -/
def one_client_server (db : database_t) : server_t :=
  { db := db,
    clients := [some { fd := 5, read_buf := [], write_buf := [], write_pos := 0 }],
    client_count := 1 }

/-- The requests `SET i x`, `SET fu old`, `DEL i`, `SET fu new` at clock 0; `i` and `fu`
both hash to slot 4 of a 64-slot table. -/
def stale_copy_requests : List (cmd_handler_t × Int × resp_value_t) :=
  [(cmd_set, 0, request [bytes "SET", bytes "i", bytes "x"]),
   (cmd_set, 0, request [bytes "SET", bytes "fu", bytes "old"]),
   (cmd_del, 0, request [bytes "DEL", bytes "i"]),
   (cmd_set, 0, request [bytes "SET", bytes "fu", bytes "new"])]

/-- The keyspace after `stale_copy_requests` on a fresh keyspace. -/
def stale_copy_db : Option database_t :=
  (serve stale_copy_requests fresh_db).map Prod.fst

/-- As `stale_copy_requests`, with `EXPIRE fu 1` behind the first `SET fu`. -/
def stale_deadline_requests : List (cmd_handler_t × Int × resp_value_t) :=
  [(cmd_set, 0, request [bytes "SET", bytes "i", bytes "x"]),
   (cmd_set, 0, request [bytes "SET", bytes "fu", bytes "old"]),
   (cmd_expire, 0, request [bytes "EXPIRE", bytes "fu", bytes "1"]),
   (cmd_del, 0, request [bytes "DEL", bytes "i"]),
   (cmd_set, 0, request [bytes "SET", bytes "fu", bytes "new"])]

/-- The keyspace after `stale_deadline_requests` on a fresh keyspace. -/
def stale_deadline_db : Option database_t :=
  (serve stale_deadline_requests fresh_db).map Prod.fst

/-- The table after `ht_set` of `i` (slot 4), `ak` (slot 5), `fu` (slot 4) and `g`
(slot 6) on a fresh 64-slot table. -/
def hidden_key_table : Option (hashtable_t Nat) :=
  (ht_create Nat 64).bind (ht_run
    [.set (bytes "i") 1, .set (bytes "ak") 2, .set (bytes "fu") 3, .set (bytes "g") 4])

/-- The table after `ht_set(k, 7)` for the first forty-four keys of `rebuild_keys` on a
fresh 64-slot table. -/
def load_table : Option (hashtable_t Nat) :=
  (ht_create Nat 64).bind (ht_run ((rebuild_keys.take 44).map (fun k => ht_op.set (bytes k) 7)))

/-- A 64-slot table without a live slot whose first 45 slots are tombstones. -/
def tombstone_table : hashtable_t Nat :=
  { entries := List.replicate 45 { key := none, value := none, hash := 0, occupied := 2 } ++
      List.replicate 19 ht_entry_t.zero,
    capacity := 64, size := 0, tombstones := 45 }

/-- Forty-six keys set on a fresh table, the keys of `rebuild_keys` and `zz`, and then
twenty of them deleted. -/
def shrink_ops : List (ht_op Nat) :=
  rebuild_keys.map (fun k => ht_op.set (bytes k) 7) ++ [ht_op.set (bytes "zz") 7] ++
    ((rebuild_keys.drop 3).take 20).map (fun k => ht_op.delete (bytes k))

/-- A bulk string of 4294967295 bytes `a`. -/
def long_bulk : resp_value_t := .bulk_string (List.replicate 4294967295 97)

/-! ## Specification-side definitions -/

/-- The strict parse as the specification words it: the whole string is an
optional sign followed by one or more decimal digits, and the value lies in the
`int64_t` range. Nothing may come before the sign or after the digits. -/
def parse_strict (s : CStr) : Option Int :=
  let neg : Bool := s.head? = some 45
  let ds := if s.head? = some 45 ∨ s.head? = some 43 then s.tail else s
  if ds ≠ [] ∧ (∀ c ∈ ds, c_isdigit c = true) then
    let v : Int := if neg then -(dec_value ds : Int) else (dec_value ds : Int)
    if LLONG_MIN ≤ v ∧ v ≤ LLONG_MAX then some v else none
  else none

/-- The view `list_range` returns as the specification words it: a negative
index counts from the length, both indices are then clamped to `[0, len - 1]`, and
the elements `start .. stop` are returned, none when `start > stop`. -/
def range_claimed (xs : List (Option CStr)) (start stop : Int) : List (Option CStr) :=
  let len : Int := xs.length
  let start := if start < 0 then len + start else start
  let stop := if stop < 0 then len + stop else stop
  let start := max 0 (min start (len - 1))
  let stop := max 0 (min stop (len - 1))
  if start > stop then [] else (xs.drop start.toNat).take (stop - start + 1).toNat

/-- The view with the clamping `list_range` performs: a negative index counts
from the length, a start still below 0 becomes 0, a stop at or beyond the length
becomes `len - 1`, and the elements `start .. stop` are returned, none when
`start > stop`. -/
def range_resolved (xs : List (Option CStr)) (start stop : Int) : List (Option CStr) :=
  let len : Int := xs.length
  let start := if start < 0 then len + start else start
  let stop := if stop < 0 then len + stop else stop
  let start := max start 0
  let stop := min stop (len - 1)
  if start > stop then [] else (xs.drop start.toNat).take (stop - start + 1).toNat

/-- The number of live slots of a slot array. -/
def count_live {α : Type} (entries : List (ht_entry_t α)) : Nat :=
  entries.countP (fun e => e.occupied = 1)

/-- The number of tombstones of a slot array. -/
def count_dead {α : Type} (entries : List (ht_entry_t α)) : Nat :=
  entries.countP (fun e => e.occupied = 2)

/-- The number of slots of a slot array that are not empty. -/
def count_used {α : Type} (entries : List (ht_entry_t α)) : Nat :=
  entries.countP (fun e => e.occupied ≠ 0)

/-- The entry has a deadline and the clock reading `now` is past it. -/
def entry_expired (entry : db_entry_t) (now : Int) : Prop :=
  entry.expire ≥ 0 ∧ now > entry.expire

/-- The number of live keys as the specification counts them: the live slots whose
entry has no deadline or a deadline that has not passed at `now`. -/
def live_key_count (db : database_t) (now : Int) : Nat :=
  db.ht.entries.countP (fun e =>
    decide (e.occupied = 1) &&
    match e.value with
    | some entry => !(decide (entry.expire ≥ 0) && decide (now > entry.expire))
    | none => false)

/-- Address of the first cell, 0 when there is none. -/
def first_addr (cells : List (Nat × Option CStr)) : Nat :=
  match cells with
  | [] => 0
  | c :: _ => c.1

/-- Address of the last cell, 0 when there is none. -/
def last_addr (cells : List (Nat × Option CStr)) : Nat :=
  match cells.getLast? with
  | none => 0
  | some c => c.1

/-- The list `l` is the doubly linked chain of `cells` (address and string of
each node, head to tail): every cell is an allocated node whose `prev` and
`next` are the addresses of its neighbours (0 at the ends), no address occurs
twice, and `head`, `tail` and `length` describe the chain. -/
def list_repr (l : list_t) (cells : List (Nat × Option CStr)) : Prop :=
  (∀ l1 c l2, cells = l1 ++ c :: l2 →
    c.1 ≠ 0 ∧
    node_at l.nodes c.1 = some { prev := last_addr l1, next := first_addr l2, value := c.2 }) ∧
  (cells.map Prod.fst).Nodup ∧
  l.head = first_addr cells ∧
  l.tail = last_addr cells ∧
  l.length = cells.length

/-- The list is a well-formed doubly linked list. -/
def list_valid (l : list_t) : Prop := ∃ cells, list_repr l cells

/-- A node with `prev` and `next` exchanged. -/
def node_mirror (n : list_node_t) : list_node_t :=
  { prev := n.next, next := n.prev, value := n.value }

/-- The node store with `prev` and `next` exchanged in every node. -/
def nodes_mirror (nodes : List (Option list_node_t)) : List (Option list_node_t) :=
  nodes.map (Option.map node_mirror)

/-- The list read backwards: `prev` and `next` exchanged, `head` and `tail` exchanged. -/
def list_mirror (l : list_t) : list_t :=
  { nodes := nodes_mirror l.nodes, head := l.tail, tail := l.head, length := l.length }

/-- The table `ht_create(64, ...)` returns: 64 empty slots. -/
def ht_fresh (α : Type) : hashtable_t α :=
  { entries := List.replicate 64 ht_entry_t.zero, capacity := 64, size := 0, tombstones := 0 }

/-- The fresh table with `key` stored in its ideal slot. -/
def ht_fresh_with {α : Type} (key : CStr) (value : Option α) : hashtable_t α :=
  { entries := (ht_fresh α).entries.set (probe_index 64 (ht_hash key) 0)
      { key := some key, value := value, hash := ht_hash key, occupied := 1 },
    capacity := 64, size := 1, tombstones := 0 }

/-- The list `[a, b, c]` built by three pushes on the right. -/
def list_abc : list_t :=
  list_rpush (list_rpush (list_rpush list_create (some (bytes "a"))) (some (bytes "b")))
    (some (bytes "c"))

/-- The probe distance of the entry in slot `idx`, 0 for an empty slot. -/
def slot_cost {α : Type} (capacity : Nat) (entries : List (ht_entry_t α)) (idx : Nat) : Nat :=
  if (slot_at entries idx).occupied = 0 then 0
  else probe_distance capacity (slot_at entries idx).hash idx

/-- The sum of the probe distances of all entries of a slot array. -/
def dist_sum {α : Type} (capacity : Nat) (entries : List (ht_entry_t α)) : Nat :=
  Finset.sum (Finset.range capacity) (slot_cost capacity entries)

/-- The header of a table agrees with its slot array: the capacity is a power of
two, at least 64, and the length of the array; `size` is the number of live slots
and `tombstones` the number of tombstones. -/
structure ht_wf {α : Type} (ht : hashtable_t α) : Prop where
  cap_pow : ∃ m, ht.capacity = 2 ^ m
  cap_min : 64 ≤ ht.capacity
  len : ht.entries.length = ht.capacity
  size_eq : ht.size = count_live ht.entries
  tomb_eq : ht.tombstones = count_dead ht.entries

/-- The key is present: `ht_find` returns slot `idx`, and that slot holds `entry`. -/
def db_holds (db : database_t) (key : CStr) (idx : Nat) (entry : db_entry_t) : Prop :=
  ht_find db.ht key = some (some idx) ∧ (slot_at db.ht.entries idx).value = some entry

/-- A keyspace whose only key `k` holds the object `obj` with the deadline `expire`. -/
def db_single (k : CStr) (obj : dbobj_t) (expire : Int) : database_t :=
  { ht := ht_fresh_with k (some { obj := obj, expire := expire }), last_expire_sweep := 0 }

mutual
/-- The frame of a value as section 4.5 of the specification writes it: `+text`,
`-text`, `:decimal`, `$len` with the payload, `$-1` for nil, `*count` followed by
the frames of the elements; every line ends in CR LF. -/
def frame_of : resp_value_t → List Nat
  | .simple_string s => 43 :: s ++ [13, 10]
  | .error s => 45 :: s ++ [13, 10]
  | .integer n => 58 :: fmt_int n ++ [13, 10]
  | .bulk_string s => 36 :: fmt_nat s.length ++ [13, 10] ++ s ++ [13, 10]
  | .nil => [36, 45, 49, 13, 10]
  | .array items => 42 :: fmt_nat items.length ++ [13, 10] ++ frames_of items
/-- The frames of the elements of an array, one after the other. -/
def frames_of : List resp_value_t → List Nat
  | [] => []
  | v :: rest => frame_of v ++ frames_of rest
end

mutual
/-- The depth to which arrays are nested in a value. -/
def value_depth : resp_value_t → Nat
  | .array items => values_depth items + 1
  | _ => 0
/-- The largest depth among the elements of an array. -/
def values_depth : List resp_value_t → Nat
  | [] => 0
  | v :: rest => max (value_depth v) (values_depth rest)
end

/-- A text that a line frame carries unchanged: at most 124 bytes, none of them NUL
or CR. -/
def text_ok (s : CStr) : Prop :=
  s.length ≤ 124 ∧ ∀ b ∈ s, b ≠ 0 ∧ b ≠ 13

mutual
/-- The values whose frame the codec carries unchanged: texts as in `text_ok`,
integers of `int64_t`, bulk payloads without a NUL byte, nil, and arrays of such
values. -/
def value_ok : resp_value_t → Prop
  | .simple_string s => text_ok s
  | .error s => text_ok s
  | .integer n => LLONG_MIN ≤ n ∧ n ≤ LLONG_MAX
  | .bulk_string s => ∀ b ∈ s, b ≠ 0
  | .nil => True
  | .array items => values_ok items
/-- Every element of the array satisfies `value_ok`. -/
def values_ok : List resp_value_t → Prop
  | [] => True
  | v :: rest => value_ok v ∧ values_ok rest
end

mutual
/-- The values whose frame is a valid frame of section 4.5: the text of a `+` or `-`
line holds no CR, the elements of an array are such values again; integers, bulk
payloads and nil are not restricted. -/
def frame_valid : resp_value_t → Prop
  | .simple_string s => ∀ b ∈ s, b ≠ 13
  | .error s => ∀ b ∈ s, b ≠ 13
  | .integer _ => True
  | .bulk_string _ => True
  | .nil => True
  | .array items => frames_valid items
/-- Every element of the array satisfies `frame_valid`. -/
def frames_valid : List resp_value_t → Prop
  | [] => True
  | v :: rest => frame_valid v ∧ frames_valid rest
end

/-- The valid frames of section 4.5: the frame of a value of `frame_valid`, and the
nil array `*-1`. -/
def valid_frame (f : List Nat) : Prop :=
  (∃ v, frame_valid v ∧ f = frame_of v) ∨ f = bytes "*-1\r\n"

/-- Two strings are equal up to the case of the ASCII letters. -/
def same_letters (a b : CStr) : Prop := a.map c_tolower = b.map c_tolower

/-- The minimum number of request elements that section 4.6 gives for the commands
with arguments (`MSET`, with its rule of its own, apart). -/
def min_args : List (String × Nat) :=
  [("SET", 3), ("GET", 2), ("DEL", 2), ("EXISTS", 2), ("INCR", 2), ("DECR", 2), ("MGET", 2),
   ("LPOP", 2), ("RPOP", 2), ("LLEN", 2), ("TTL", 2), ("PERSIST", 2), ("LPUSH", 3),
   ("RPUSH", 3), ("EXPIRE", 3), ("LRANGE", 4)]

/-- Two requests with the same number of elements and the same arguments behind the
command name. -/
def same_args (c d : resp_value_t) : Prop :=
  arg_count c = arg_count d ∧ ∀ i : Nat, get_arg c (i + 1) = get_arg d (i + 1)

/-- One step of FNV-1a as the specification words it: xor the byte into the state,
then multiply by 16777619 modulo `2 ^ 32`. -/
def fnv1a_step (state byte : Nat) : Nat := ((state ^^^ byte) * 16777619) % 2 ^ 32

/-- The 32-bit FNV-1a hash of the bytes from the state `state` on. -/
def fnv1a_from : Nat → List Nat → Nat
  | state, [] => state
  | state, byte :: rest => fnv1a_from (fnv1a_step state byte) rest

/-- The 32-bit FNV-1a hash of the specification: start from 2166136261. -/
def fnv1a (key : List Nat) : Nat := fnv1a_from 2166136261 key

/-- A slot is empty, live or a tombstone, and a live slot holds a key together with
the hash of that key. -/
def slot_ok {α : Type} (e : ht_entry_t α) : Prop :=
  e.occupied ≤ 2 ∧ (e.occupied = 1 → ∃ k, e.key = some k ∧ e.hash = ht_hash k)

/-- Every slot of the array satisfies `slot_ok`. -/
def slots_ok {α : Type} (entries : List (ht_entry_t α)) : Prop :=
  ∀ e ∈ entries, slot_ok e

/-- The invariant of the table states: the header agrees with the slot array
(`ht_wf`), every slot satisfies `slot_ok`, and the live slots and the tombstones do
not fill the array. -/
structure ht_inv {α : Type} (ht : hashtable_t α) : Prop where
  wf : ht_wf ht
  slots : slots_ok ht.entries
  room : ht.size + ht.tombstones < ht.capacity

/-- Repeated `ht_iter_next` from `iter` on, at most `fuel` calls: the slots returned
before the first `NULL`, and the iterator after the last call. -/
def ht_iter_all {α : Type} (ht : hashtable_t α) : Nat → ht_iter_t → List Nat × ht_iter_t
  | 0, iter => ([], iter)
  | fuel + 1, iter =>
    match ht_iter_next ht iter with
    | (iter1, none) => ([], iter1)
    | (iter1, some idx) => (idx :: (ht_iter_all ht fuel iter1).1, (ht_iter_all ht fuel iter1).2)

/-- The live slots of the table from slot `i` on, in slot order. -/
def live_from {α : Type} (ht : hashtable_t α) (i : Nat) : List Nat :=
  (List.range' i (ht.capacity - i)).filter (fun j => (slot_at ht.entries j).occupied = 1)

/-- The requests executed one after the other by `command_execute`, at the clock
reading `now`: the keyspace afterwards and the replies, one behind the other. -/
def run_requests (disk : Bool) (now : Int) : List resp_value_t → database_t →
    Option (database_t × List Nat)
  | [], db => some (db, [])
  | r :: rest, db =>
    match command_execute disk db now (some r) with
    | none => none
    | some (db1, reply) =>
      match run_requests disk now rest db1 with
      | none => none
      | some (db2, out) => some (db2, reply ++ out)

/-! ## Theorems -/

/-- C1, refuted on the code: after `ht_set("i", 1)`, `ht_set("ak", 2)`, `ht_set("fu", 3)` on a
fresh table the reference map holds 2 for `"ak"`, but `ht_get("ak")` returns `NULL`. The
third insertion displaces `"ak"` from slot 5 and, keeping its loop counter, drops it in
slot 7 past the empty slot 6, where `ht_find` never looks. -/
theorem c1_ht_get_disagrees_with_reference_map :
    ((ht_create Nat 64).bind (ht_run lost_key_ops)).bind (fun ht => ht_get ht (bytes "ak"))
      = some none ∧
    ref_get (ref_run lost_key_ops []) (bytes "ak") = some 2 ∧
    ((ht_create Nat 64).bind (ht_run lost_key_ops)).map (fun ht => (ht_live ht).map
      (fun p => (p.1, p.2.key))) =
      some [(4, some (bytes "i")), (5, some (bytes "fu")), (7, some (bytes "ak"))] := by
  decide

/-- C2, refuted on the code: after `SET k x` for the twelve keys of `crowd_keys` on a
fresh database, `SET be world` replies `+OK` and the `GET be` that follows replies nil,
not `$5 world`. -/
theorem c2_set_then_get_replies_nil :
    ((db_create 0).bind (serve (crowd_requests ++
        [(cmd_set, 0, request [bytes "SET", bytes "be", bytes "world"]),
         (cmd_get, 0, request [bytes "GET", bytes "be"])]))).map Prod.snd
      = some (crowd_replies ++ [bytes "+OK\r\n", bytes "$-1\r\n"]) := by
  decide

/-- C3, refuted on the code: on a fresh database, after `SET i x`, `SET fu v0`, `DEL i`,
the pair `SET fu v`, `DEL fu` is followed by `EXISTS fu` replying 1 and `GET fu`
replying `v0`. -/
theorem c3_key_survives_set_del :
    ((db_create 0).bind (serve
        [(cmd_set, 0, request [bytes "SET", bytes "i", bytes "x"]),
         (cmd_set, 0, request [bytes "SET", bytes "fu", bytes "v0"]),
         (cmd_del, 0, request [bytes "DEL", bytes "i"]),
         (cmd_set, 0, request [bytes "SET", bytes "fu", bytes "v"]),
         (cmd_del, 0, request [bytes "DEL", bytes "fu"]),
         (cmd_exists, 0, request [bytes "EXISTS", bytes "fu"]),
         (cmd_get, 0, request [bytes "GET", bytes "fu"])])).map Prod.snd
      = some [bytes "+OK\r\n", bytes "+OK\r\n", bytes ":1\r\n", bytes "+OK\r\n",
              bytes ":1\r\n", bytes ":1\r\n", bytes "$2\r\nv0\r\n"] := by
  decide

/-- C4, refuted on the code: after `ht_set("i", 1)`, `ht_set("fu", 2)`, `ht_delete("i")`,
`ht_set("fu", 3)` on a fresh table, slots 4 and 5 are both live and both hold the key
`"fu"`. -/
theorem c4_two_live_slots_same_key :
    ((ht_create Nat 64).bind (ht_run twice_stored_ops)).map
        (fun ht => ((ht_live ht).map (fun p => (p.1, p.2.key, p.2.value)), ht_size ht))
      = some ([(4, some (bytes "fu"), some 3), (5, some (bytes "fu"), some 2)], 2) := by
  rfl

/-- C5, refuted on the code: the table built by forty-five `ht_set` calls has capacity 64,
45 live keys and no tombstone, and `ht_get` finds every live key; `ht_resize` to 128
slots, the rebuild the next `ht_set` performs, keeps `ht_size` at 45 and leaves no
tombstone, but `ht_get("al")` then returns `NULL`. -/
theorem c5_grow_rebuild_loses_key :
    rebuild_table.map (fun ht => (ht.capacity, ht_size ht, all_live_found ht,
        ht_get ht (bytes "al"), (ht.size + ht.tombstones + 1) * 100 / ht.capacity))
      = some (64, 45, true, some (some 7), 71) ∧
    (rebuild_table.bind (fun ht => ht_resize ht 128)).map (fun ht => (ht.capacity, ht_size ht,
        count_tombstones ht, ht_get ht (bytes "al")))
      = some (128, 45, 0, some none) := by
  constructor <;> rfl

/-- C7, refuted on the code: after `SET k x` for the twelve keys of `crowd_keys` on a
fresh database, `SET be 007` replies `+OK` and the `GET be` that follows replies nil,
not the bulk string `7`. -/
theorem c7_set_integer_then_get_replies_nil :
    ((db_create 0).bind (serve (crowd_requests ++
        [(cmd_set, 0, request [bytes "SET", bytes "be", bytes "007"]),
         (cmd_get, 0, request [bytes "GET", bytes "be"])]))).map Prod.snd
      = some (crowd_replies ++ [bytes "+OK\r\n", bytes "$-1\r\n"]) := by
  decide

/-- C8, refuted on the code: after `SET k x` for the twelve keys of `crowd_keys` on a
fresh database the key `be` is missing (`EXISTS be` replies 0), and three `INCR be` in a
row reply 1, 1, 2 instead of 1, 2, 3. -/
theorem c8_incr_twice_replies_one_twice :
    ((db_create 0).bind (serve (crowd_requests ++
        [(cmd_exists, 0, request [bytes "EXISTS", bytes "be"]),
         (cmd_incr, 0, request [bytes "INCR", bytes "be"]),
         (cmd_incr, 0, request [bytes "INCR", bytes "be"]),
         (cmd_incr, 0, request [bytes "INCR", bytes "be"])]))).map Prod.snd
      = some (crowd_replies ++ [bytes ":0\r\n", bytes ":1\r\n", bytes ":1\r\n", bytes ":2\r\n"]) := by
  decide

/-! ### Parsing integers -/

theorem to_int64_of_range (v : Int) (h1 : LLONG_MIN ≤ v) (h2 : v ≤ LLONG_MAX) : to_int64 v = v := by
  unfold to_int64
  unfold LLONG_MIN at h1
  unfold LLONG_MAX at h2
  omega

theorem takeWhile_nil_not_all (p : Nat → Bool) (ds : List Nat) (h : ds.takeWhile p = []) :
    ¬ (ds ≠ [] ∧ ∀ c ∈ ds, p c = true) := by
  rintro ⟨hne, hall⟩
  cases ds with
  | nil => exact hne rfl
  | cons d t =>
    have hd : p d = true := hall d (by simp)
    simp [List.takeWhile, hd] at h

/-- C6, refuted as worded: the string `" 42"` starts with white space and is not a signed
decimal as a whole, yet `obj_try_parse_int` accepts it with the value 42. -/
theorem c6_leading_space_accepted :
    c_isspace 32 = true ∧ parse_strict (bytes " 42") = none ∧
    obj_try_parse_int (some (bytes " 42")) = some 42 := by decide

/-- C6, amended: `obj_try_parse_int` succeeds exactly when the string, once its leading
white space is skipped, is as a whole an optional sign and one or more decimal digits with
a value in the `int64_t` range, and it then returns that value. The empty string, a string
with bytes after the digits and an out-of-range value are rejected; leading white space is
skipped, not rejected. -/
theorem c6_parse_int_after_white_space (s : CStr) :
    obj_try_parse_int (some s) = parse_strict (s.dropWhile c_isspace) := by
  cases s with
  | nil => simp [obj_try_parse_int, parse_strict]
  | cons c t =>
    simp only [obj_try_parse_int, strtoll, parse_strict]
    generalize hs : List.dropWhile c_isspace (c :: t) = s'
    generalize hds : (if s'.head? = some 45 ∨ s'.head? = some 43 then s'.tail else s') = ds
    by_cases hdig : List.takeWhile c_isdigit ds = []
    · have := takeWhile_nil_not_all c_isdigit ds hdig
      simp [hdig, this]
    · by_cases hrest : List.dropWhile c_isdigit ds = []
      · have hall : ∀ x ∈ ds, c_isdigit x = true := by
          simpa [List.dropWhile_eq_nil_iff] using hrest
        have htw : List.takeWhile c_isdigit ds = ds := by
          simpa [List.takeWhile_eq_self_iff] using hall
        have hne : ds ≠ [] := by
          intro h; apply hdig; simp [h]
        generalize hv : (if (decide (s'.head? = some 45)) = true then -(dec_value ds : Int)
          else (dec_value ds : Int)) = v
        simp only [htw, hne, hrest, hv, ne_eq, not_false_eq_true, hall, implies_true, and_self,
          if_true, if_false]
        by_cases h1 : v > LLONG_MAX
        · have : ¬ (v ≤ LLONG_MAX) := by omega
          simp [h1, this]
        · by_cases h2 : v < LLONG_MIN
          · have : ¬ (LLONG_MIN ≤ v) := by omega
            simp [h1, h2, this]
          · have h3 : LLONG_MIN ≤ v := by omega
            have h4 : v ≤ LLONG_MAX := by omega
            simp [h1, h2, h3, h4, to_int64_of_range]
            exact hall
      · have hnall : ¬ (∀ x ∈ ds, c_isdigit x = true) := by
          intro hall; apply hrest
          simpa [List.dropWhile_eq_nil_iff] using hall
        have hnall2 : ¬ (ds ≠ [] ∧ ∀ x ∈ ds, c_isdigit x = true) := fun h => hnall h.2
        simp only [hdig, hnall2, if_false]
        split_ifs <;> simp_all

/-! ## The linked list as a deque -/

/-! ### The node store -/

theorem node_at_zero (nodes : List (Option list_node_t)) : node_at nodes 0 = none := by
  simp [node_at]

theorem node_at_bound {nodes : List (Option list_node_t)} {a : Nat} {x : list_node_t}
    (h : node_at nodes a = some x) : a ≠ 0 ∧ a ≤ nodes.length := by
  unfold node_at at h
  by_cases ha : a = 0
  · simp [ha] at h
  · refine ⟨ha, ?_⟩
    by_contra hlt
    have : nodes[a - 1]? = none := List.getElem?_eq_none (by omega)
    simp [ha, this] at h

theorem node_at_append {nodes : List (Option list_node_t)} {a : Nat} {x : list_node_t}
    (z : List (Option list_node_t)) (h : node_at nodes a = some x) :
    node_at (nodes ++ z) a = some x := by
  have hb := node_at_bound h
  unfold node_at at h ⊢
  rw [List.getElem?_append_left (by omega)]
  exact h

theorem node_at_append_new (nodes : List (Option list_node_t)) (x : list_node_t) :
    node_at (nodes ++ [some x]) (nodes.length + 1) = some x := by
  simp [node_at]

theorem node_at_write_same {nodes : List (Option list_node_t)} {a : Nat} {y : list_node_t}
    (x : list_node_t) (h : node_at nodes a = some y) :
    node_at (node_write nodes a x) a = some x := by
  have hb := node_at_bound h
  have hlt : a - 1 < nodes.length := by omega
  simp [node_at, node_write, hb.1, List.getElem?_set_self, hlt]

theorem node_at_write_ne {nodes : List (Option list_node_t)} {a b : Nat} (x : list_node_t)
    (h : b ≠ a) : node_at (node_write nodes a x) b = node_at nodes b := by
  unfold node_at node_write
  by_cases ha : a = 0
  · simp [ha]
  · by_cases hb : b = 0
    · simp [hb]
    · have : a - 1 ≠ b - 1 := by omega
      simp [ha, hb, List.getElem?_set_ne this]

theorem node_at_free_ne {nodes : List (Option list_node_t)} {a b : Nat}
    (h : b ≠ a) : node_at (node_free nodes a) b = node_at nodes b := by
  unfold node_at node_free
  by_cases ha : a = 0
  · simp [ha]
  · by_cases hb : b = 0
    · simp [hb]
    · have : a - 1 ≠ b - 1 := by omega
      simp [ha, hb, List.getElem?_set_ne this]

theorem node_read_eq {nodes : List (Option list_node_t)} {a : Nat} {x : list_node_t}
    (h : node_at nodes a = some x) : node_read nodes a = x := by
  simp [node_read, h]

theorem node_write_length (nodes : List (Option list_node_t)) (a : Nat) (x : list_node_t) :
    (node_write nodes a x).length = nodes.length := by
  unfold node_write; split <;> simp

theorem node_free_length (nodes : List (Option list_node_t)) (a : Nat) :
    (node_free nodes a).length = nodes.length := by
  unfold node_free; split <;> simp

/-! ### Mirror image -/

theorem nodes_mirror_mirror (nodes : List (Option list_node_t)) :
    nodes_mirror (nodes_mirror nodes) = nodes := by
  unfold nodes_mirror
  rw [List.map_map]
  have : (Option.map node_mirror ∘ Option.map node_mirror) = id := by
    funext o; cases o <;> rfl
  rw [this, List.map_id]

theorem list_mirror_mirror (l : list_t) : list_mirror (list_mirror l) = l := by
  cases l with
  | mk nodes head tail length => simp [list_mirror, nodes_mirror_mirror]

theorem nodes_mirror_length (nodes : List (Option list_node_t)) :
    (nodes_mirror nodes).length = nodes.length := by
  simp [nodes_mirror]

theorem nodes_mirror_append (nodes : List (Option list_node_t)) (x : list_node_t) :
    nodes_mirror (nodes ++ [some x]) = nodes_mirror nodes ++ [some (node_mirror x)] := by
  simp [nodes_mirror]

theorem node_at_mirror (nodes : List (Option list_node_t)) (a : Nat) :
    node_at (nodes_mirror nodes) a = (node_at nodes a).map node_mirror := by
  unfold node_at nodes_mirror
  by_cases ha : a = 0
  · simp [ha]
  · simp only [ha, if_false, List.getElem?_map]
    cases nodes[a - 1]? with
    | none => rfl
    | some o => cases o <;> rfl

theorem node_read_mirror (nodes : List (Option list_node_t)) (a : Nat) :
    node_read (nodes_mirror nodes) a = node_mirror (node_read nodes a) := by
  unfold node_read
  rw [node_at_mirror]
  cases node_at nodes a <;> rfl

theorem nodes_mirror_write (nodes : List (Option list_node_t)) (a : Nat) (x : list_node_t) :
    nodes_mirror (node_write nodes a x) = node_write (nodes_mirror nodes) a (node_mirror x) := by
  unfold node_write nodes_mirror
  split
  · rfl
  · simp [List.map_set]

theorem nodes_mirror_free (nodes : List (Option list_node_t)) (a : Nat) :
    nodes_mirror (node_free nodes a) = node_free (nodes_mirror nodes) a := by
  unfold node_free nodes_mirror
  split
  · rfl
  · simp [List.map_set]

theorem node_mirror_set_next (x : list_node_t) (t : Nat) :
    ({ node_mirror x with next := t } : list_node_t) = node_mirror { x with prev := t } := rfl

theorem node_mirror_set_prev (x : list_node_t) (t : Nat) :
    ({ node_mirror x with prev := t } : list_node_t) = node_mirror { x with next := t } := rfl

theorem list_rpush_eq_mirror (l : list_t) (v : Option CStr) :
    list_rpush l v = list_mirror (list_lpush (list_mirror l) v) := by
  cases l with
  | mk nodes head tail length =>
    have hM : nodes_mirror nodes ++ [some ({ prev := 0, next := 0, value := v } : list_node_t)]
        = nodes_mirror (nodes ++ [some { prev := 0, next := 0, value := v }]) := by
      rw [nodes_mirror_append]; rfl
    by_cases ht : tail = 0
    · simp only [list_rpush, list_lpush, make_node, list_mirror, ht, ne_eq, not_true_eq_false,
        if_false, nodes_mirror_length]
      rw [hM, nodes_mirror_mirror]
    · simp only [list_rpush, list_lpush, make_node, list_mirror, ht, ne_eq, not_false_eq_true,
        if_true, nodes_mirror_length]
      rw [hM, node_read_mirror, node_mirror_set_next, ← nodes_mirror_write, node_read_mirror,
        node_mirror_set_prev, ← nodes_mirror_write, nodes_mirror_mirror]

theorem list_rpop_eq_mirror (l : list_t) :
    list_rpop l = (list_mirror (list_lpop (list_mirror l)).1, (list_lpop (list_mirror l)).2) := by
  cases l with
  | mk nodes head tail length =>
    by_cases ht : tail = 0
    · simp [list_rpop, list_lpop, list_mirror, ht, nodes_mirror_mirror]
    · simp only [list_rpop, list_lpop, list_mirror, ht, ne_eq, if_false, node_read_mirror]
      by_cases hp : (node_read nodes tail).prev = 0
      · have hp2 : (node_mirror (node_read nodes tail)).next = 0 := hp
        simp only [hp, hp2, not_true_eq_false, if_false, ← nodes_mirror_free, nodes_mirror_mirror]
        rfl
      · have hp2 : ¬ (node_mirror (node_read nodes tail)).next = 0 := hp
        have hp3 : (node_mirror (node_read nodes tail)).next = (node_read nodes tail).prev := rfl
        simp only [hp, hp2, not_false_eq_true, if_true, hp3]
        rw [node_mirror_set_prev, ← nodes_mirror_write, ← nodes_mirror_free, nodes_mirror_mirror]
        rfl

/-! ### Chains of cells -/

theorem first_addr_cons (x : Nat × Option CStr) (l : List (Nat × Option CStr)) :
    first_addr (x :: l) = x.1 := rfl

theorem last_addr_cons (x : Nat × Option CStr) (l : List (Nat × Option CStr)) :
    last_addr (x :: l) = if l = [] then x.1 else last_addr l := by
  cases l with
  | nil => simp [last_addr]
  | cons y t => simp [last_addr, List.getLast?_cons_cons]

theorem last_addr_reverse (l : List (Nat × Option CStr)) :
    last_addr l.reverse = first_addr l := by
  cases l <;> simp [last_addr, first_addr]

theorem first_addr_reverse (l : List (Nat × Option CStr)) :
    first_addr l.reverse = last_addr l := by
  have := last_addr_reverse l.reverse
  rw [List.reverse_reverse] at this
  exact this.symm

theorem list_repr_mem {l : list_t} {cells : List (Nat × Option CStr)} (h : list_repr l cells)
    {c : Nat × Option CStr} (hc : c ∈ cells) : c.1 ≠ 0 ∧ c.1 ≤ l.nodes.length := by
  obtain ⟨s, t, hst⟩ := List.append_of_mem hc
  have := h.1 s c t hst
  exact ⟨this.1, (node_at_bound this.2).2⟩

theorem list_repr_length_le {l : list_t} {cells : List (Nat × Option CStr)}
    (h : list_repr l cells) : cells.length ≤ l.nodes.length := by
  have hnd := h.2.1
  have hsub : (cells.map Prod.fst).toFinset ⊆ Finset.Icc 1 l.nodes.length := by
    intro a ha
    simp only [List.mem_toFinset, List.mem_map] at ha
    obtain ⟨c, hc, rfl⟩ := ha
    have := list_repr_mem h hc
    simp only [Finset.mem_Icc]
    omega
  have hcard := Finset.card_le_card hsub
  rw [List.toFinset_card_of_nodup hnd] at hcard
  simpa using hcard

theorem list_repr_mirror {l : list_t} {cells : List (Nat × Option CStr)}
    (h : list_repr l cells) : list_repr (list_mirror l) cells.reverse := by
  obtain ⟨hcell, hnd, hhead, htail, hlen⟩ := h
  refine ⟨?_, ?_, ?_, ?_, ?_⟩
  · intro l1 c l2 hc
    have hc2 : cells = l2.reverse ++ c :: l1.reverse := by
      have := congrArg List.reverse hc
      simpa using this
    obtain ⟨h0, hn⟩ := hcell _ _ _ hc2
    refine ⟨h0, ?_⟩
    simp only [list_mirror]
    rw [node_at_mirror, hn]
    simp [node_mirror, last_addr_reverse, first_addr_reverse]
  · simpa [List.map_reverse] using hnd
  · simp [list_mirror, first_addr_reverse, htail]
  · simp [list_mirror, last_addr_reverse, hhead]
  · simp [list_mirror, hlen]

theorem list_repr_of_mirror {l : list_t} {cells : List (Nat × Option CStr)}
    (h : list_repr (list_mirror l) cells) : list_repr l cells.reverse := by
  have := list_repr_mirror h
  rwa [list_mirror_mirror] at this

theorem list_repr_lpush {l : list_t} {cells : List (Nat × Option CStr)}
    (h : list_repr l cells) (v : Option CStr) :
    list_repr (list_lpush l v) ((l.nodes.length + 1, v) :: cells) := by
  have hbound := fun c hc => list_repr_mem h (c := c) hc
  obtain ⟨hcell, hnd, hhead, htail, hlen⟩ := h
  have hfresh : ∀ c ∈ cells, c.1 ≠ l.nodes.length + 1 := by
    intro c hc; have := (hbound c hc).2; omega
  cases cells with
  | nil =>
    have hh : l.head = 0 := hhead
    refine ⟨?_, by simp, ?_, ?_, ?_⟩
    · intro l1 c l2 hc
      rw [List.cons_eq_append_iff] at hc
      rcases hc with ⟨rfl, hc⟩ | ⟨a, _, hc⟩
      · simp only [List.cons.injEq] at hc
        obtain ⟨rfl, rfl⟩ := hc
        simp [list_lpush, make_node, hh, node_at_append_new, last_addr, first_addr]
      · simp at hc
    · simp [list_lpush, make_node, hh, first_addr]
    · simp [list_lpush, make_node, hh, last_addr]
    · simp [list_lpush, make_node, hh, hlen]
  | cons c0 rest =>
    have hh : l.head = c0.1 := hhead
    obtain ⟨h0, hn0⟩ := hcell [] c0 rest rfl
    have hne : ¬ l.head = 0 := by rw [hh]; exact h0
    have hc0n : c0.1 ≠ l.nodes.length + 1 := hfresh c0 (by simp)
    -- the node store after the two writes
    have hnodes : (list_lpush l v).nodes =
        node_write (node_write (l.nodes ++ [some { prev := 0, next := 0, value := v }])
          (l.nodes.length + 1) { prev := 0, next := c0.1, value := v })
          c0.1 { prev := l.nodes.length + 1, next := first_addr rest, value := c0.2 } := by
      simp only [list_lpush, make_node, hne, ne_eq, not_false_eq_true, if_true]
      rw [node_read_eq (node_at_append_new _ _)]
      have h1 : node_at (node_write (l.nodes ++ [some { prev := 0, next := 0, value := v }])
          (l.nodes.length + 1) { prev := 0, next := l.head, value := v }) l.head
          = some { prev := 0, next := first_addr rest, value := c0.2 } := by
        rw [hh, node_at_write_ne _ hc0n]
        exact node_at_append _ hn0
      rw [node_read_eq h1, hh]
    refine ⟨?_, ?_, ?_, ?_, ?_⟩
    · intro l1 c l2 hc
      rw [hnodes]
      rw [List.cons_eq_append_iff] at hc
      rcases hc with ⟨rfl, hc⟩ | ⟨l1a, rfl, hc⟩
      · simp only [List.cons.injEq] at hc
        obtain ⟨rfl, rfl⟩ := hc
        refine ⟨by simp, ?_⟩
        rw [node_at_write_ne _ (Ne.symm hc0n)]
        rw [node_at_write_same _ (node_at_append_new _ _)]
        simp [last_addr, first_addr]
      · rw [List.cons_eq_append_iff] at hc
        rcases hc with ⟨rfl, hc⟩ | ⟨l1b, rfl, hc⟩
        · simp only [List.cons.injEq] at hc
          obtain ⟨hcc, hll⟩ := hc
          rw [hcc, hll]
          refine ⟨h0, ?_⟩
          have hal : node_at (node_write (l.nodes ++ [some { prev := 0, next := 0, value := v }])
              (l.nodes.length + 1) { prev := 0, next := c0.1, value := v }) c0.1
              = some { prev := 0, next := first_addr rest, value := c0.2 } := by
            rw [node_at_write_ne _ hc0n]
            exact node_at_append _ hn0
          rw [node_at_write_same _ hal]
          simp [last_addr]
        · obtain ⟨hc1, hcn⟩ := hcell (c0 :: l1b) c l2 (by rw [hc]; rfl)
          refine ⟨hc1, ?_⟩
          have hcmem : c ∈ c0 :: rest := by rw [hc]; simp
          have hcfresh : c.1 ≠ l.nodes.length + 1 := hfresh c hcmem
          have hcc0 : c.1 ≠ c0.1 := by
            intro heq
            rw [hc] at hnd
            simp only [List.map_cons, List.map_append, List.nodup_cons, List.mem_append,
              List.mem_cons, List.mem_map] at hnd
            exact hnd.1 (Or.inr (Or.inl heq.symm))
          rw [node_at_write_ne _ hcc0, node_at_write_ne _ hcfresh, node_at_append _ hcn]
          simp [last_addr_cons]
    · simp only [List.map_cons, List.nodup_cons]
      refine ⟨?_, by simpa using hnd⟩
      intro hmem
      simp only [List.mem_cons, List.mem_map] at hmem
      rcases hmem with h1 | ⟨c, hc, h1⟩
      · exact hc0n h1.symm
      · exact hfresh c (by simp [hc]) h1
    · simp [list_lpush, make_node, hne, first_addr]
    · simp [list_lpush, make_node, hne, htail, last_addr_cons]
    · simp [list_lpush, make_node, hne, hlen]

theorem list_lpop_empty {l : list_t} (h : list_repr l []) : list_lpop l = (l, none) := by
  have hh : l.head = 0 := h.2.2.1
  simp [list_lpop, hh]

theorem list_repr_lpop {l : list_t} {c0 : Nat × Option CStr} {rest : List (Nat × Option CStr)}
    (h : list_repr l (c0 :: rest)) :
    list_repr (list_lpop l).1 rest ∧ (list_lpop l).2 = c0.2 := by
  obtain ⟨hcell, hnd, hhead, htail, hlen⟩ := h
  have hh : l.head = c0.1 := hhead
  obtain ⟨h0, hn0⟩ := hcell [] c0 rest rfl
  have hne : ¬ l.head = 0 := by rw [hh]; exact h0
  have hread : node_read l.nodes l.head = { prev := 0, next := first_addr rest, value := c0.2 } := by
    rw [hh]; exact node_read_eq hn0
  have hnd2 : c0.1 ∉ rest.map Prod.fst ∧ (rest.map Prod.fst).Nodup := by
    simpa using hnd
  cases rest with
  | nil =>
    refine ⟨⟨?_, by simp, ?_, ?_, ?_⟩, ?_⟩
    · intro l1 c l2 hc
      simp at hc
    · simp [list_lpop, hne, hread, first_addr]
    · simp [list_lpop, hne, hread, first_addr, last_addr]
    · simp [list_lpop, hne, hread, hlen]
    · simp [list_lpop, hne, hread]
  | cons c1 rest1 =>
    obtain ⟨h1, hn1⟩ := hcell [c0] c1 rest1 rfl
    have hc10 : c1.1 ≠ c0.1 := by
      intro heq; apply hnd2.1; simp [heq]
    have hnodes : (list_lpop l).1.nodes =
        node_free (node_write l.nodes c1.1 { prev := 0, next := first_addr rest1, value := c1.2 })
          c0.1 := by
      simp only [list_lpop, hne, if_false, hread, first_addr_cons, ne_eq, h1, not_false_eq_true,
        if_true]
      rw [node_read_eq hn1, hh]
    refine ⟨⟨?_, hnd2.2, ?_, ?_, ?_⟩, ?_⟩
    · intro l1 c l2 hc
      rw [hnodes]
      obtain ⟨hc0, hcn⟩ := hcell (c0 :: l1) c l2 (by rw [hc]; rfl)
      refine ⟨hc0, ?_⟩
      have hcmem : c ∈ c1 :: rest1 := by rw [hc]; simp
      have hcc0 : c.1 ≠ c0.1 := by
        intro heq; apply hnd2.1
        exact List.mem_map.mpr ⟨c, hcmem, heq⟩
      rw [node_at_free_ne hcc0]
      rw [List.cons_eq_append_iff] at hc
      rcases hc with ⟨hl1, hc⟩ | ⟨l1b, hl1, hc⟩
      · simp only [List.cons.injEq] at hc
        rw [hl1, hc.1, hc.2]
        rw [node_at_write_same _ hn1]
        simp [last_addr]
      · have hcc1 : c.1 ≠ c1.1 := by
          intro heq
          have hnd3 := hnd2.2
          rw [hc] at hnd3
          simp only [List.map_cons, List.map_append, List.nodup_cons, List.mem_append,
            List.mem_cons, List.mem_map] at hnd3
          exact hnd3.1 (Or.inr (Or.inl heq.symm))
        rw [node_at_write_ne _ hcc1, hcn, hl1]
        simp [last_addr_cons]
    · simp [list_lpop, hne, hread, first_addr_cons]
    · simp [list_lpop, hne, hread, first_addr_cons, h1, htail, last_addr_cons]
    · simp [list_lpop, hne, hread, hlen]
    · simp [list_lpop, hne, hread]

theorem list_walk_zero (nodes : List (Option list_node_t)) (fuel : Nat) :
    list_walk nodes fuel 0 = [] := by
  cases fuel <;> simp [list_walk]

theorem list_walk_cells (nodes : List (Option list_node_t)) (cells : List (Nat × Option CStr))
    (hcell : ∀ l1 c l2, cells = l1 ++ c :: l2 →
      c.1 ≠ 0 ∧
      node_at nodes c.1 = some { prev := last_addr l1, next := first_addr l2, value := c.2 }) :
    ∀ (l2 l1 : List (Nat × Option CStr)) (fuel : Nat), cells = l1 ++ l2 → l2.length ≤ fuel →
      list_walk nodes fuel (first_addr l2) = l2.map Prod.snd := by
  intro l2
  induction l2 with
  | nil => intro l1 fuel _ _; simp [first_addr, list_walk_zero]
  | cons c t ih =>
    intro l1 fuel hc hf
    obtain ⟨h0, hn⟩ := hcell l1 c t hc
    cases fuel with
    | zero => simp at hf
    | succ f =>
      have hf2 : t.length ≤ f := by simpa using hf
      simp only [list_walk, first_addr_cons, h0, if_false, node_read_eq hn, List.map_cons]
      rw [ih (l1 ++ [c]) f (by simp [hc]) hf2]

theorem list_elems_of_repr {l : list_t} {cells : List (Nat × Option CStr)}
    (h : list_repr l cells) : list_elems l = cells.map Prod.snd := by
  unfold list_elems
  rw [h.2.2.1]
  exact list_walk_cells l.nodes cells h.1 cells [] _ rfl (list_repr_length_le h)

theorem list_repr_rpush {l : list_t} {cells : List (Nat × Option CStr)}
    (h : list_repr l cells) (v : Option CStr) :
    list_repr (list_rpush l v) (cells ++ [(l.nodes.length + 1, v)]) := by
  have h1 := list_repr_mirror (list_repr_lpush (list_repr_mirror h) v)
  rw [← list_rpush_eq_mirror] at h1
  simpa [list_mirror, nodes_mirror_length] using h1

theorem list_repr_rpop {l : list_t} {c : Nat × Option CStr} {init : List (Nat × Option CStr)}
    (h : list_repr l (init ++ [c])) :
    list_repr (list_rpop l).1 init ∧ (list_rpop l).2 = c.2 := by
  have h1 := list_repr_mirror h
  rw [List.reverse_append, List.reverse_singleton, List.singleton_append] at h1
  obtain ⟨h2, h3⟩ := list_repr_lpop h1
  have h4 := list_repr_mirror h2
  rw [List.reverse_reverse] at h4
  rw [list_rpop_eq_mirror]
  exact ⟨h4, h3⟩

theorem list_rpop_empty {l : list_t} (h : list_repr l []) : list_rpop l = (l, none) := by
  have hh : l.tail = 0 := h.2.2.2.1
  simp [list_rpop, hh]

theorem list_create_repr : list_repr list_create [] := by
  refine ⟨?_, by simp, rfl, rfl, rfl⟩
  intro l1 c l2 hc
  simp at hc

theorem list_skip_cells (nodes : List (Option list_node_t)) (cells : List (Nat × Option CStr))
    (hcell : ∀ l1 c l2, cells = l1 ++ c :: l2 →
      c.1 ≠ 0 ∧
      node_at nodes c.1 = some { prev := last_addr l1, next := first_addr l2, value := c.2 }) :
    ∀ (k : Nat) (l2 l1 : List (Nat × Option CStr)), cells = l1 ++ l2 → k ≤ l2.length →
      list_skip nodes k (first_addr l2) = first_addr (l2.drop k) := by
  intro k
  induction k with
  | zero => intro l2 l1 _ _; simp [list_skip]
  | succ k ih =>
    intro l2 l1 hc hk
    cases l2 with
    | nil => simp at hk
    | cons c t =>
      obtain ⟨_, hn⟩ := hcell l1 c t hc
      simp only [list_skip, first_addr_cons, node_read_eq hn, List.drop_succ_cons]
      exact ih t (l1 ++ [c]) (by simp [hc]) (by simpa using hk)

theorem list_collect_cells (nodes : List (Option list_node_t)) (cells : List (Nat × Option CStr))
    (hcell : ∀ l1 c l2, cells = l1 ++ c :: l2 →
      c.1 ≠ 0 ∧
      node_at nodes c.1 = some { prev := last_addr l1, next := first_addr l2, value := c.2 }) :
    ∀ (n : Nat) (l2 l1 : List (Nat × Option CStr)), cells = l1 ++ l2 → n ≤ l2.length →
      list_collect nodes n (first_addr l2) = (l2.map Prod.snd).take n := by
  intro n
  induction n with
  | zero => intro l2 l1 _ _; simp [list_collect]
  | succ n ih =>
    intro l2 l1 hc hn'
    cases l2 with
    | nil => simp at hn'
    | cons c t =>
      obtain ⟨_, hn⟩ := hcell l1 c t hc
      simp only [list_collect, first_addr_cons, node_read_eq hn, List.map_cons,
        List.take_succ_cons]
      rw [ih t (l1 ++ [c]) (by simp [hc]) (by simpa using hn')]

theorem to_int32_of_lt (n : Nat) (h : n < 2 ^ 31) : to_int32 (n : Int) = (n : Int) := by
  unfold to_int32
  omega

theorem list_range_of_repr {l : list_t} {cells : List (Nat × Option CStr)}
    (h : list_repr l cells) (hlen : l.length < 2 ^ 31) (start stop : Int) :
    (list_range l start stop).1.getD [] = range_resolved (cells.map Prod.snd) start stop ∧
    (list_range l start stop).2 = (range_resolved (cells.map Prod.snd) start stop).length ∧
    ((list_range l start stop).1 = none ↔ range_resolved (cells.map Prod.snd) start stop = []) := by
  have hl : l.length = cells.length := h.2.2.2.2
  have hlen32 : to_int32 (l.length : Int) = (cells.length : Int) := by
    rw [to_int32_of_lt _ hlen, hl]
  unfold list_range range_resolved
  simp only [hlen32, List.length_map]
  generalize hs1 : (if start < 0 then (cells.length : Int) + start else start) = s1
  generalize he1 : (if stop < 0 then (cells.length : Int) + stop else stop) = e1
  have hs2 : (if s1 < 0 then 0 else s1) = max s1 0 := by
    split <;> omega
  have he2 : (if e1 ≥ (cells.length : Int) then (cells.length : Int) - 1 else e1)
      = min e1 ((cells.length : Int) - 1) := by
    split <;> omega
  rw [hs2, he2]
  generalize hs : max s1 0 = s
  generalize he : min e1 ((cells.length : Int) - 1) = e
  have hs0 : 0 ≤ s := by omega
  have hele : e ≤ (cells.length : Int) - 1 := by omega
  by_cases hgt : s > e
  · simp [hgt]
  · have hge : ¬ (s ≥ (cells.length : Int)) := by omega
    simp only [hgt, hge, or_self, if_false]
    have hk : s.toNat ≤ cells.length := by omega
    have hskip := list_skip_cells l.nodes cells h.1 s.toNat cells [] rfl hk
    rw [← h.2.2.1] at hskip
    have hn : (e - s + 1).toNat ≤ (cells.drop s.toNat).length := by
      simp only [List.length_drop]; omega
    have hcol := list_collect_cells l.nodes cells h.1 (e - s + 1).toNat (cells.drop s.toNat)
      (cells.take s.toNat) (by simp) hn
    rw [hskip, hcol, List.map_drop]
    refine ⟨rfl, ?_, ?_⟩
    · simp only [List.length_take, List.length_drop, List.length_map]; omega
    · simp only [false_iff, reduceCtorEq]
      intro hnil
      have := congrArg List.length hnil
      simp only [List.length_take, List.length_drop, List.length_map, List.length_nil] at this
      omega

/-! ### The list operations -/

theorem list_create_valid : list_valid list_create := ⟨[], list_create_repr⟩

theorem list_rpush_valid {l : list_t} (h : list_valid l) (v : Option CStr) :
    list_valid (list_rpush l v) := by
  obtain ⟨cells, hr⟩ := h
  exact ⟨_, list_repr_rpush hr v⟩

theorem list_abc_valid : list_valid list_abc :=
  list_rpush_valid (list_rpush_valid (list_rpush_valid list_create_valid _) _) _

/-- The example of the specification: `a`, `b`, `c` pushed on the left of an empty list
read `[c, b, a]`, pushed on the right `[a, b, c]`. -/
theorem list_push_examples :
    list_elems (list_lpush (list_lpush (list_lpush list_create (some (bytes "a")))
      (some (bytes "b"))) (some (bytes "c")))
      = [some (bytes "c"), some (bytes "b"), some (bytes "a")] ∧
    list_elems (list_rpush (list_rpush (list_rpush list_create (some (bytes "a")))
      (some (bytes "b"))) (some (bytes "c")))
      = [some (bytes "a"), some (bytes "b"), some (bytes "c")] := by
  decide

/-- C9: the linked list refines a deque. For every well-formed list `l`, with `list_elems l`
its elements read head to tail: `list_lpush` puts the value in front and `list_rpush` at the
end; `list_lpop` returns the first element and removes it, `list_rpop` the last; on the
empty list both return `NULL` and change nothing; `list_length` is the number of elements;
and every result is again a well-formed list. -/
theorem c9_list_refines_deque (l : list_t) (h : list_valid l) (value : Option CStr) :
    (list_valid (list_lpush l value) ∧
      list_elems (list_lpush l value) = value :: list_elems l) ∧
    (list_valid (list_rpush l value) ∧
      list_elems (list_rpush l value) = list_elems l ++ [value]) ∧
    (list_valid (list_lpop l).1 ∧ (list_lpop l).2 = (list_elems l).head?.join ∧
      list_elems (list_lpop l).1 = (list_elems l).tail) ∧
    (list_valid (list_rpop l).1 ∧ (list_rpop l).2 = (list_elems l).getLast?.join ∧
      list_elems (list_rpop l).1 = (list_elems l).dropLast) ∧
    (list_elems l = [] → list_lpop l = (l, none) ∧ list_rpop l = (l, none)) ∧
    list_length l = (list_elems l).length := by
  obtain ⟨cells, hr⟩ := h
  have he := list_elems_of_repr hr
  refine ⟨?_, ?_, ?_, ?_, ?_, ?_⟩
  · have h1 := list_repr_lpush hr value
    exact ⟨⟨_, h1⟩, by rw [list_elems_of_repr h1, he]; rfl⟩
  · have h1 := list_repr_rpush hr value
    exact ⟨⟨_, h1⟩, by rw [list_elems_of_repr h1, he]; simp⟩
  · cases cells with
    | nil =>
      rw [list_lpop_empty hr, he]
      exact ⟨⟨[], hr⟩, rfl, rfl⟩
    | cons c rest =>
      obtain ⟨h1, h2⟩ := list_repr_lpop hr
      refine ⟨⟨rest, h1⟩, ?_, ?_⟩
      · rw [h2, he]; rfl
      · rw [list_elems_of_repr h1, he]; rfl
  · rcases List.eq_nil_or_concat cells with hnil | ⟨init, c, hc⟩
    · subst hnil
      rw [list_rpop_empty hr, he]
      exact ⟨⟨[], hr⟩, rfl, rfl⟩
    · subst hc
      rw [List.concat_eq_append] at hr he
      obtain ⟨h1, h2⟩ := list_repr_rpop hr
      refine ⟨⟨init, h1⟩, ?_, ?_⟩
      · rw [h2, he]; simp
      · rw [list_elems_of_repr h1, he]; simp
  · intro hnil
    rw [he] at hnil
    have hc : cells = [] := by simpa using hnil
    subst hc
    exact ⟨list_lpop_empty hr, list_rpop_empty hr⟩
  · rw [he]
    simp [list_length, hr.2.2.2.2]

/-- C9 at the list `[a, b, c]` and the value `d`. -/
theorem c9_list_refines_deque_witness :
    list_valid list_abc ∧
    ((list_valid (list_lpush list_abc (some (bytes "d"))) ∧
      list_elems (list_lpush list_abc (some (bytes "d")))
        = some (bytes "d") :: list_elems list_abc) ∧
    (list_valid (list_rpush list_abc (some (bytes "d"))) ∧
      list_elems (list_rpush list_abc (some (bytes "d")))
        = list_elems list_abc ++ [some (bytes "d")]) ∧
    (list_valid (list_lpop list_abc).1 ∧
      (list_lpop list_abc).2 = (list_elems list_abc).head?.join ∧
      list_elems (list_lpop list_abc).1 = (list_elems list_abc).tail) ∧
    (list_valid (list_rpop list_abc).1 ∧
      (list_rpop list_abc).2 = (list_elems list_abc).getLast?.join ∧
      list_elems (list_rpop list_abc).1 = (list_elems list_abc).dropLast) ∧
    (list_elems list_abc = [] →
      list_lpop list_abc = (list_abc, none) ∧ list_rpop list_abc = (list_abc, none)) ∧
    list_length list_abc = (list_elems list_abc).length) :=
  ⟨list_abc_valid, c9_list_refines_deque list_abc list_abc_valid (some (bytes "d"))⟩

/-- C10, refuted as worded: on the list `[a, b, c]`, `list_range(5, 10)` and
`list_range(0, -10)` return no element, while clamping both indices to `[0, 2]` would
give `[c]` and `[a]`. -/
theorem c10_range_is_not_clamped_both_ways :
    list_elems list_abc = [some (bytes "a"), some (bytes "b"), some (bytes "c")] ∧
    list_range list_abc 5 10 = (none, 0) ∧
    range_claimed (list_elems list_abc) 5 10 = [some (bytes "c")] ∧
    list_range list_abc 0 (-10) = (none, 0) ∧
    range_claimed (list_elems list_abc) 0 (-10) = [some (bytes "a")] := by
  decide

/-- C10, amended: for every well-formed list shorter than `2 ^ 31` and all indices,
`list_range` resolves a negative index as `len + index`, raises a start that is still
negative to 0, lowers a stop at or beyond `len` to `len - 1`, and returns exactly the
elements at positions `start .. stop` with `*count` their number; it returns `NULL`
exactly when that range is empty. -/
theorem c10_list_range_resolved (l : list_t) (h : list_valid l)
    (hlen : list_length l < 2 ^ 31) (start stop : Int) :
    (list_range l start stop).1.getD [] = range_resolved (list_elems l) start stop ∧
    (list_range l start stop).2 = (range_resolved (list_elems l) start stop).length ∧
    ((list_range l start stop).1 = none ↔ range_resolved (list_elems l) start stop = []) := by
  obtain ⟨cells, hr⟩ := h
  rw [list_elems_of_repr hr]
  exact list_range_of_repr hr hlen start stop

/-- C10 amended, at the list `[a, b, c]` with `start = -2` and `stop = 10`. -/
theorem c10_list_range_resolved_witness :
    list_valid list_abc ∧ list_length list_abc < 2 ^ 31 ∧
    ((list_range list_abc (-2) 10).1.getD [] = range_resolved (list_elems list_abc) (-2) 10 ∧
    (list_range list_abc (-2) 10).2 = (range_resolved (list_elems list_abc) (-2) 10).length ∧
    ((list_range list_abc (-2) 10).1 = none ↔
      range_resolved (list_elems list_abc) (-2) 10 = [])) :=
  ⟨list_abc_valid, by decide, c10_list_range_resolved list_abc list_abc_valid (by decide) (-2) 10⟩

/-! ## The string commands on a fresh database

The runs above start from states in which the table has already misplaced an entry.
On a fresh database the entry written is found again, and the handlers reply as the
specification says. -/

theorem ht_create_64 (α : Type) : ht_create α 64 = some (ht_fresh α) := by
  rfl

theorem probe_index_lt_64 (h i : Nat) : probe_index 64 h i < 64 := by
  unfold probe_index
  exact Nat.lt_succ_of_le Nat.and_le_right

theorem probe_distance_self (h : Nat) : probe_distance 64 h (probe_index 64 h 0) = 0 := by
  unfold probe_distance probe_index
  have hle : h &&& 63 ≤ 63 := Nat.and_le_right
  have : (h + 0 &&& 64 - 1) + 64 - (h &&& 64 - 1) = 64 := by
    simp only [Nat.add_zero, Nat.reduceSub]; omega
  rw [this]
  decide

theorem ht_set_loop_vacant {α : Type} (fuel : Nat) (ht : hashtable_t α) (key : CStr) (h : Nat)
    (new_key : Option CStr) (new_value : Option α) (is_new : Int) (i : Nat)
    (hocc : (slot_at ht.entries (probe_index ht.capacity h i)).occupied = 0) :
    ht_set_loop (fuel + 1) ht key h new_key new_value is_new i
      = some ({ ht with
                entries := ht.entries.set (probe_index ht.capacity h i)
                  { key := new_key, value := new_value, hash := h, occupied := 1 },
                size := ht.size + 1 }, is_new) := by
  simp [ht_set_loop, hocc]

theorem ht_find_loop_hit {α : Type} (fuel : Nat) (ht : hashtable_t α) (key : CStr) (h i : Nat)
    (hocc : (slot_at ht.entries (probe_index ht.capacity h i)).occupied = 1)
    (hdist : ¬ i > probe_distance ht.capacity
      (slot_at ht.entries (probe_index ht.capacity h i)).hash (probe_index ht.capacity h i))
    (hhash : (slot_at ht.entries (probe_index ht.capacity h i)).hash = h)
    (hkey : (slot_at ht.entries (probe_index ht.capacity h i)).key = some key) :
    ht_find_loop (fuel + 1) ht key h i = some (some (probe_index ht.capacity h i)) := by
  simp only [ht_find_loop, hocc, hhash, hkey]
  simp only [hhash] at hdist
  simp [hdist]

theorem slot_at_set_self {α : Type} (entries : List (ht_entry_t α)) (idx : Nat)
    (e : ht_entry_t α) (h : idx < entries.length) : slot_at (entries.set idx e) idx = e := by
  simp [slot_at, List.getD_eq_getElem?_getD, h]

theorem slot_at_replicate {α : Type} (n idx : Nat) :
    slot_at (List.replicate n (ht_entry_t.zero : ht_entry_t α)) idx = ht_entry_t.zero := by
  simp only [slot_at, List.getD_eq_getElem?_getD, List.getElem?_replicate]
  split <;> rfl

theorem slot_at_fresh_with {α : Type} (key : CStr) (value : Option α) :
    slot_at (ht_fresh_with key value).entries (probe_index 64 (ht_hash key) 0)
      = { key := some key, value := value, hash := ht_hash key, occupied := 1 } := by
  unfold ht_fresh_with ht_fresh
  apply slot_at_set_self
  simpa using probe_index_lt_64 (ht_hash key) 0

theorem ht_set_fresh {α : Type} (key : CStr) (value : Option α) :
    ht_set (ht_fresh α) key value = some (ht_fresh_with key value, 1) := by
  have hfuel : probe_fuel 64 = 262207 + 1 := rfl
  have hcap : (ht_fresh α).capacity = 64 := rfl
  have hload : ¬ ((ht_fresh α).size + (ht_fresh α).tombstones + 1) * 100 / (ht_fresh α).capacity
      > HT_LOAD_HIGH_PCT := by
    show ¬ (0 + 0 + 1) * 100 / 64 > 70
    decide
  simp only [ht_set]
  rw [if_neg hload]
  simp only [hcap, hfuel]
  rw [ht_set_loop_vacant _ _ _ _ _ _ _ _ (by
    show (slot_at (List.replicate 64 ht_entry_t.zero) _).occupied = 0
    rw [slot_at_replicate]; rfl)]
  rfl

theorem ht_find_fresh_with {α : Type} (key : CStr) (value : Option α) :
    ht_find (ht_fresh_with key value) key = some (some (probe_index 64 (ht_hash key) 0)) := by
  have hfuel : probe_fuel 64 = 262207 + 1 := rfl
  have hcap : (ht_fresh_with key value).capacity = 64 := rfl
  simp only [ht_find, hcap, hfuel]
  apply ht_find_loop_hit <;> simp only [hcap, slot_at_fresh_with, probe_distance_self]
  omega

theorem cmd_set_plain (db : database_t) (now : Int) (name k v : CStr) :
    cmd_set db now (request [name, k, v]) =
      match db_set db k (some v) with
      | none => none
      | some (db1, _) => some (db1, bytes "+OK\r\n") := by
  have hok : resp_write_simple_string [79, 75] = some (bytes "+OK\r\n") := by decide
  simp only [cmd_set, request, arg_count, get_arg, List.map_cons, List.map_nil,
    List.length_cons, List.length_nil, Nat.reduceAdd, Nat.lt_irrefl, if_false,
    List.getElem?_cons_succ, List.getElem?_cons_zero]
  cases db_set db k (some v) with
  | none => rfl
  | some r => simp [cmd_set_options, arg_count, hok]

theorem cmd_get_plain (db : database_t) (now : Int) (name k : CStr) :
    cmd_get db now (request [name, k]) =
      match db_get db now k with
      | none => none
      | some (db1, obj) => (cmd_get_reply obj).map (fun r => (db1, r)) := by
  simp only [cmd_get, request, arg_count, get_arg, List.map_cons, List.map_nil,
    List.length_cons, List.length_nil, Nat.reduceAdd, Nat.lt_irrefl, if_false,
    List.getElem?_cons_succ, List.getElem?_cons_zero]

theorem db_get_fresh_with (t now : Int) (k : CStr) (obj : dbobj_t) :
    db_get { ht := ht_fresh_with k (some { obj := obj, expire := -1 }), last_expire_sweep := t }
        now k
      = some ({ ht := ht_fresh_with k (some { obj := obj, expire := -1 }),
                last_expire_sweep := t }, some obj) := by
  simp [db_get, db_get_entry, check_expired, db_lookup, ht_find_fresh_with, slot_at_fresh_with]

/-- On a fresh database `SET k v` replies `+OK` and the `GET k` that follows replies the
bulk string of `v`, in the decimal form `printf` gives the parsed value when `v` parses as
an integer: the reply `db_set` and `cmd_get` produce when the entry just written is found. -/
theorem set_then_get_on_fresh_database (now1 now2 : Int) (k v : CStr) :
    ((db_create now1).bind (serve
        [(cmd_set, now1, request [bytes "SET", k, v]),
         (cmd_get, now2, request [bytes "GET", k])])).map Prod.snd
      = some [bytes "+OK\r\n",
              match obj_try_parse_int (some v) with
              | some n => resp_write_bulk_string (fmt_int n) (fmt_int n).length
              | none => resp_write_bulk_string v v.length] := by
  simp only [db_create, ht_create_64, Option.bind, serve, cmd_set_plain, cmd_get_plain, db_set,
    ht_set_fresh, db_get_fresh_with]
  cases obj_try_parse_int (some v) with
  | none => simp [obj_create_string, cmd_get_reply]
  | some n => simp [obj_create_int, cmd_get_reply]

theorem ht_find_loop_vacant {α : Type} (fuel : Nat) (ht : hashtable_t α) (key : CStr) (h i : Nat)
    (hocc : (slot_at ht.entries (probe_index ht.capacity h i)).occupied = 0) :
    ht_find_loop (fuel + 1) ht key h i = some none := by
  simp [ht_find_loop, hocc]

theorem ht_find_fresh {α : Type} (key : CStr) : ht_find (ht_fresh α) key = some none := by
  have hfuel : probe_fuel 64 = 262207 + 1 := rfl
  have hcap : (ht_fresh α).capacity = 64 := rfl
  simp only [ht_find, hcap, hfuel]
  apply ht_find_loop_vacant
  show (slot_at (List.replicate 64 ht_entry_t.zero) _).occupied = 0
  rw [slot_at_replicate]; rfl

theorem db_store_fresh_with (t : Int) (k : CStr) (e1 e2 : db_entry_t) :
    db_store { ht := ht_fresh_with k (some e1), last_expire_sweep := t }
        (probe_index 64 (ht_hash k) 0) e2
      = { ht := ht_fresh_with k (some e2), last_expire_sweep := t } := by
  simp only [db_store, slot_at_fresh_with]
  simp [ht_fresh_with, List.set_set]

theorem to_int64_of_nat_lt (n : Nat) (h : n < 2 ^ 63) : to_int64 (n : Int) = (n : Int) := by
  unfold to_int64
  omega

theorem cmd_incr_plain (db : database_t) (now : Int) (name k : CStr) :
    cmd_incr db now (request [name, k]) =
      match db_incr db now k 1 with
      | none => none
      | some (db1, val) =>
        if val = INT64_MIN then (resp_write_error NOT_INTEGER_MSG).map (fun r => (db1, r))
        else some (db1, resp_write_integer val) := by
  simp only [cmd_incr, request, arg_count, get_arg, List.map_cons, List.map_nil,
    List.length_cons, List.length_nil, Nat.reduceAdd, Nat.lt_irrefl, if_false,
    List.getElem?_cons_succ, List.getElem?_cons_zero]

theorem cmd_incr_fresh (t now : Int) (name k : CStr) :
    cmd_incr { ht := ht_fresh db_entry_t, last_expire_sweep := t } now (request [name, k])
      = some ({ ht := ht_fresh_with k (some { obj := .num 1, expire := -1 }),
                last_expire_sweep := t }, resp_write_integer 1) := by
  rw [cmd_incr_plain]
  simp [db_incr, check_expired, db_lookup, ht_find_fresh, db_incr_fresh, ht_set_fresh,
    obj_create_int, INT64_MIN]

theorem cmd_incr_fresh_with (t now : Int) (name k : CStr) (m : Nat) (hm : m + 1 < 2 ^ 63) :
    cmd_incr { ht := ht_fresh_with k (some { obj := .num (m : Int), expire := -1 }),
               last_expire_sweep := t } now (request [name, k])
      = some ({ ht := ht_fresh_with k (some { obj := .num ((m + 1 : Nat) : Int), expire := -1 }),
                last_expire_sweep := t }, resp_write_integer ((m + 1 : Nat) : Int)) := by
  rw [cmd_incr_plain]
  have h64 : to_int64 ((m : Int) + 1) = ((m + 1 : Nat) : Int) := by
    have := to_int64_of_nat_lt (m + 1) hm
    simpa using this
  have hne : ¬ ((m + 1 : Nat) : Int) = INT64_MIN := by
    unfold INT64_MIN; omega
  simp only [db_incr, check_expired, db_lookup, ht_find_fresh_with, slot_at_fresh_with,
    h64, db_store_fresh_with, hne, if_false, ne_eq, not_true_eq_false, ge_iff_le,
    Int.reduceNeg, Int.reduceLE, false_and]

theorem serve_incr_from (t now : Int) (k : CStr) :
    ∀ (n m : Nat), m + n < 2 ^ 63 →
      serve (List.replicate n (cmd_incr, now, request [bytes "INCR", k]))
        { ht := ht_fresh_with k (some { obj := .num (m : Int), expire := -1 }),
          last_expire_sweep := t }
      = some ({ ht := ht_fresh_with k (some { obj := .num ((m + n : Nat) : Int), expire := -1 }),
                last_expire_sweep := t },
              (List.range' (m + 1) n).map (fun (i : Nat) => resp_write_integer (Int.ofNat i))) := by
  intro n
  induction n with
  | zero => intro m _; simp [serve]
  | succ n ih =>
    intro m hm
    have hadd : m + (n + 1) = m + 1 + n := by omega
    rw [List.replicate_succ, List.range'_succ, hadd]
    simp only [serve]
    rw [cmd_incr_fresh_with t now _ k m (by omega)]
    simp only []
    rw [ih (m + 1) (by omega)]
    simp only [List.map_cons, Int.ofNat_eq_coe]

/-- On a fresh database, `INCR k` applied `n + 1` times (fewer than `2 ^ 63`) replies 1, 2,
..., `n + 1` in turn and leaves `k` holding the integer `n + 1` without a deadline: what
`db_incr` does when the entry it wrote is found again. -/
theorem incr_n_times_on_fresh_database (t now : Int) (k : CStr) (n : Nat) (hn : n + 1 < 2 ^ 63) :
    (db_create t).bind (serve (List.replicate (n + 1) (cmd_incr, now, request [bytes "INCR", k])))
      = some ({ ht := ht_fresh_with k (some { obj := .num ((n + 1 : Nat) : Int), expire := -1 }),
                last_expire_sweep := t },
              (List.range' 1 (n + 1)).map (fun (i : Nat) => resp_write_integer (Int.ofNat i))) := by
  have hadd : n + 1 = 1 + n := by omega
  simp only [db_create, ht_create_64, Option.bind, List.replicate_succ, serve, cmd_incr_fresh]
  have h := serve_incr_from t now k n 1 (by omega)
  simp only [Nat.cast_one] at h
  rw [h, List.range'_succ, hadd]
  simp only [List.map_cons, Int.ofNat_eq_coe, Nat.cast_one]

/-! ## Lookups and writes through an entry pointer -/

theorem slot_at_set {α : Type} (entries : List (ht_entry_t α)) (idx j : Nat) (e : ht_entry_t α) :
    slot_at (entries.set idx e) j =
      if j = idx ∧ idx < entries.length then e else slot_at entries j := by
  unfold slot_at
  simp only [List.getD_eq_getElem?_getD, List.getElem?_set]
  by_cases hj : idx = j
  · subst hj
    by_cases hlt : idx < entries.length
    · simp [hlt]
    · have : entries[idx]? = none := List.getElem?_eq_none (by omega)
      simp [hlt, this]
  · have : ¬ j = idx := fun h => hj h.symm
    simp [hj, this]

theorem slot_at_zero_of_ge {α : Type} (entries : List (ht_entry_t α)) (idx : Nat)
    (h : entries.length ≤ idx) : slot_at entries idx = ht_entry_t.zero := by
  unfold slot_at
  simp [List.getD_eq_getElem?_getD, List.getElem?_eq_none h]

theorem lt_length_of_occupied {α : Type} (entries : List (ht_entry_t α)) (idx : Nat)
    (h : (slot_at entries idx).occupied ≠ 0) : idx < entries.length := by
  by_contra hge
  apply h
  rw [slot_at_zero_of_ge entries idx (by omega)]
  rfl

/-- The probe loop of `ht_find` reads only the `occupied`, `hash` and `key` fields. -/
theorem ht_find_loop_congr {α : Type} (ht ht1 : hashtable_t α) (key : CStr) (h : Nat)
    (hcap : ht1.capacity = ht.capacity)
    (hsame : ∀ j, (slot_at ht1.entries j).occupied = (slot_at ht.entries j).occupied ∧
      (slot_at ht1.entries j).hash = (slot_at ht.entries j).hash ∧
      (slot_at ht1.entries j).key = (slot_at ht.entries j).key) :
    ∀ fuel i, ht_find_loop fuel ht1 key h i = ht_find_loop fuel ht key h i := by
  intro fuel
  induction fuel with
  | zero => intro i; rfl
  | succ n ih =>
    intro i
    obtain ⟨ho, hh, hk⟩ := hsame (probe_index ht.capacity h i)
    simp only [ht_find_loop, hcap, ho, hh, hk, ih]

theorem ht_find_loop_found {α : Type} (ht : hashtable_t α) (key : CStr) (h : Nat) :
    ∀ fuel i idx, ht_find_loop fuel ht key h i = some (some idx) →
      (slot_at ht.entries idx).occupied = 1 ∧ (slot_at ht.entries idx).hash = h ∧
      (slot_at ht.entries idx).key = some key := by
  intro fuel
  induction fuel with
  | zero => intro i idx hf; simp [ht_find_loop] at hf
  | succ n ih =>
    intro i idx hf
    simp only [ht_find_loop] at hf
    split at hf
    · simp at hf
    · split at hf
      · split at hf
        · simp at hf
        · split at hf
          · rename_i hocc _ hm
            simp only [Option.some.injEq] at hf
            subst hf
            exact ⟨hocc, hm.1, hm.2⟩
          · exact ih _ _ hf
      · exact ih _ _ hf

theorem ht_find_found {α : Type} {ht : hashtable_t α} {key : CStr} {idx : Nat}
    (hf : ht_find ht key = some (some idx)) :
    (slot_at ht.entries idx).occupied = 1 ∧ (slot_at ht.entries idx).hash = ht_hash key ∧
      (slot_at ht.entries idx).key = some key ∧ idx < ht.entries.length := by
  have h := ht_find_loop_found ht key (ht_hash key) _ _ _ hf
  refine ⟨h.1, h.2.1, h.2.2, ?_⟩
  apply lt_length_of_occupied
  rw [h.1]; decide

theorem ht_find_db_store (db : database_t) (idx : Nat) (entry : db_entry_t) (key : CStr) :
    ht_find (db_store db idx entry).ht key = ht_find db.ht key := by
  unfold ht_find
  have hcap : (db_store db idx entry).ht.capacity = db.ht.capacity := rfl
  rw [hcap]
  apply ht_find_loop_congr _ _ _ _ hcap
  intro j
  simp only [db_store, slot_at_set]
  split
  · rename_i hj
    rw [hj.1]
    exact ⟨rfl, rfl, rfl⟩
  · exact ⟨rfl, rfl, rfl⟩

theorem slot_value_db_store (db : database_t) (idx : Nat) (entry : db_entry_t)
    (h : idx < db.ht.entries.length) :
    (slot_at (db_store db idx entry).ht.entries idx).value = some entry := by
  simp [db_store, slot_at_set, h]

theorem db_store_store (db : database_t) (idx : Nat) (e1 e2 : db_entry_t) :
    db_store (db_store db idx e1) idx e2 = db_store db idx e2 := by
  by_cases h : idx < db.ht.entries.length
  · simp [db_store, slot_at_set, h, List.set_set]
  · have hge : db.ht.entries.length ≤ idx := by omega
    simp [db_store, slot_at_set, h, List.set_eq_of_length_le hge]

/-- The entry pointer of `key`: the slot `ht_find` returns and the entry stored there. -/
theorem db_lookup_of_find {db : database_t} {key : CStr} {idx : Nat} {entry : db_entry_t}
    (hf : ht_find db.ht key = some (some idx))
    (hv : (slot_at db.ht.entries idx).value = some entry) :
    db_lookup db key = some (some (idx, entry)) := by
  simp [db_lookup, hf, hv]

theorem check_expired_alive {db : database_t} {key : CStr} {idx : Nat} {entry : db_entry_t}
    (now : Int) (hf : ht_find db.ht key = some (some idx))
    (hv : (slot_at db.ht.entries idx).value = some entry)
    (ha : ¬ (entry.expire ≥ 0 ∧ now > entry.expire)) :
    check_expired db now key = some (db, 0) := by
  simp only [check_expired, hf, hv, ha, if_false]

theorem check_expired_missing {db : database_t} {key : CStr} (now : Int)
    (hf : ht_find db.ht key = some none) : check_expired db now key = some (db, 0) := by
  simp only [check_expired, hf]

theorem db_get_entry_alive {db : database_t} {key : CStr} {idx : Nat} {entry : db_entry_t}
    (now : Int) (hf : ht_find db.ht key = some (some idx))
    (hv : (slot_at db.ht.entries idx).value = some entry)
    (ha : ¬ (entry.expire ≥ 0 ∧ now > entry.expire)) :
    db_get_entry db now key = some (db, some (idx, entry)) := by
  simp [db_get_entry, check_expired_alive now hf hv ha, db_lookup_of_find hf hv]

theorem db_get_entry_missing {db : database_t} {key : CStr} (now : Int)
    (hf : ht_find db.ht key = some none) : db_get_entry db now key = some (db, none) := by
  simp [db_get_entry, check_expired_missing now hf, db_lookup, hf]

/-- After a write through the entry pointer the key is found in the same slot, and the
slot holds the entry written. -/
theorem db_store_found {db : database_t} {key : CStr} {idx : Nat} (entry : db_entry_t)
    (hf : ht_find db.ht key = some (some idx)) :
    ht_find (db_store db idx entry).ht key = some (some idx) ∧
    (slot_at (db_store db idx entry).ht.entries idx).value = some entry := by
  refine ⟨by rw [ht_find_db_store]; exact hf, ?_⟩
  exact slot_value_db_store db idx entry (ht_find_found hf).2.2.2

/-! ## The header counters and the rebuild of the slot array -/

theorem countP_set_add {β : Type} (p : β → Bool) (l : List β) (i : Nat) (a : β)
    (h : i < l.length) :
    (l.set i a).countP p + (if p (l.get ⟨i, h⟩) then 1 else 0) =
      l.countP p + (if p a then 1 else 0) := by
  induction l generalizing i with
  | nil => simp at h
  | cons x l ih =>
    cases i with
    | zero =>
      simp only [List.set_cons_zero, List.countP_cons, List.get_eq_getElem,
        List.getElem_cons_zero]
      omega
    | succ i =>
      have h1 : i < l.length := by simpa using h
      have := ih i h1
      simp only [List.set_cons_succ, List.countP_cons, List.get_eq_getElem,
        List.getElem_cons_succ] at this ⊢
      omega

theorem slot_at_eq_get {α : Type} (entries : List (ht_entry_t α)) (idx : Nat)
    (h : idx < entries.length) : slot_at entries idx = entries.get ⟨idx, h⟩ := by
  unfold slot_at
  simp [List.getD_eq_getElem?_getD, List.getElem?_eq_getElem h]

theorem countP_set_slot {α : Type} (p : ht_entry_t α → Bool) (entries : List (ht_entry_t α))
    (idx : Nat) (a : ht_entry_t α) (h : idx < entries.length) :
    (entries.set idx a).countP p + (if p (slot_at entries idx) then 1 else 0) =
      entries.countP p + (if p a then 1 else 0) := by
  rw [slot_at_eq_get entries idx h]
  exact countP_set_add p entries idx a h

theorem countP_set_same {α : Type} (p : ht_entry_t α → Bool) (entries : List (ht_entry_t α))
    (idx : Nat) (a : ht_entry_t α) (hp : p a = p (slot_at entries idx)) :
    (entries.set idx a).countP p = entries.countP p := by
  by_cases h : idx < entries.length
  · have h1 := countP_set_slot p entries idx a h
    rw [hp] at h1
    omega
  · rw [List.set_eq_of_length_le (by omega)]

/-- Writing a slot whose `occupied` field keeps its value changes no counter. -/
theorem counts_set_same {α : Type} (entries : List (ht_entry_t α)) (idx : Nat)
    (a : ht_entry_t α) (ha : a.occupied = (slot_at entries idx).occupied) :
    count_live (entries.set idx a) = count_live entries ∧
    count_dead (entries.set idx a) = count_dead entries ∧
    count_used (entries.set idx a) = count_used entries := by
  unfold count_live count_dead count_used
  refine ⟨?_, ?_, ?_⟩ <;> apply countP_set_same <;> simp only [ha]

/-- Writing a live entry into an empty slot. -/
theorem counts_set_live_empty {α : Type} (entries : List (ht_entry_t α)) (idx : Nat)
    (a : ht_entry_t α) (h : idx < entries.length) (ha : a.occupied = 1)
    (hs : (slot_at entries idx).occupied = 0) :
    count_live (entries.set idx a) = count_live entries + 1 ∧
    count_dead (entries.set idx a) = count_dead entries ∧
    count_used (entries.set idx a) = count_used entries + 1 := by
  have h1 := countP_set_slot (fun e => decide (e.occupied = 1)) entries idx a h
  have h2 := countP_set_same (fun e => decide (e.occupied = 2)) entries idx a
    (by simp only [ha, hs]; rfl)
  have h3 := countP_set_slot (fun e => decide (e.occupied ≠ 0)) entries idx a h
  have p1 : decide (a.occupied = 1) = true := by simp [ha]
  have p2 : decide ((slot_at entries idx).occupied = 1) = false := by simp [hs]
  have p3 : decide (a.occupied ≠ 0) = true := by simp [ha]
  have p4 : decide ((slot_at entries idx).occupied ≠ 0) = false := by simp [hs]
  simp only [p1, p2, p3, p4, Bool.false_eq_true, if_true, if_false] at h1 h3
  unfold count_live count_dead count_used
  exact ⟨by omega, h2, by omega⟩

/-- Writing a live entry over a tombstone. -/
theorem counts_set_live_dead {α : Type} (entries : List (ht_entry_t α)) (idx : Nat)
    (a : ht_entry_t α) (h : idx < entries.length) (ha : a.occupied = 1)
    (hs : (slot_at entries idx).occupied = 2) :
    count_live (entries.set idx a) = count_live entries + 1 ∧
    count_dead (entries.set idx a) + 1 = count_dead entries ∧
    count_used (entries.set idx a) = count_used entries := by
  have h1 := countP_set_slot (fun e => decide (e.occupied = 1)) entries idx a h
  have h2 := countP_set_slot (fun e => decide (e.occupied = 2)) entries idx a h
  have h3 := countP_set_same (fun e => decide (e.occupied ≠ 0)) entries idx a
    (by simp only [ha, hs]; rfl)
  have p1 : decide (a.occupied = 1) = true := by simp [ha]
  have p2 : decide ((slot_at entries idx).occupied = 1) = false := by simp [hs]
  have p3 : decide (a.occupied = 2) = false := by simp [ha]
  have p4 : decide ((slot_at entries idx).occupied = 2) = true := by simp [hs]
  simp only [p1, p2, p3, p4, Bool.false_eq_true, if_true, if_false] at h1 h2
  unfold count_live count_dead count_used
  exact ⟨by omega, by omega, h3⟩

/-- Turning a live slot into a tombstone. -/
theorem counts_set_dead {α : Type} (entries : List (ht_entry_t α)) (idx : Nat)
    (a : ht_entry_t α) (h : idx < entries.length) (ha : a.occupied = 2)
    (hs : (slot_at entries idx).occupied = 1) :
    count_live (entries.set idx a) + 1 = count_live entries ∧
    count_dead (entries.set idx a) = count_dead entries + 1 ∧
    count_used (entries.set idx a) = count_used entries := by
  have h1 := countP_set_slot (fun e => decide (e.occupied = 1)) entries idx a h
  have h2 := countP_set_slot (fun e => decide (e.occupied = 2)) entries idx a h
  have h3 := countP_set_same (fun e => decide (e.occupied ≠ 0)) entries idx a
    (by simp only [ha, hs]; rfl)
  have p1 : decide (a.occupied = 1) = false := by simp [ha]
  have p2 : decide ((slot_at entries idx).occupied = 1) = true := by simp [hs]
  have p3 : decide (a.occupied = 2) = true := by simp [ha]
  have p4 : decide ((slot_at entries idx).occupied = 2) = false := by simp [hs]
  simp only [p1, p2, p3, p4, Bool.false_eq_true, if_true, if_false] at h1 h2
  unfold count_live count_dead count_used
  exact ⟨by omega, by omega, h3⟩

theorem counts_replicate_zero (α : Type) (n : Nat) :
    count_live (List.replicate n (ht_entry_t.zero : ht_entry_t α)) = 0 ∧
    count_dead (List.replicate n (ht_entry_t.zero : ht_entry_t α)) = 0 ∧
    count_used (List.replicate n (ht_entry_t.zero : ht_entry_t α)) = 0 := by
  unfold count_live count_dead count_used
  simp [List.countP_replicate, ht_entry_t.zero]

theorem count_live_le_length {α : Type} (entries : List (ht_entry_t α)) :
    count_live entries ≤ entries.length := List.countP_le_length _

theorem probe_index_eq_mod (m h i : Nat) : probe_index (2 ^ m) h i = (h + i) % 2 ^ m := by
  unfold probe_index
  exact Nat.and_pow_two_sub_one_eq_mod _ _

theorem probe_index_lt (m h i : Nat) : probe_index (2 ^ m) h i < 2 ^ m := by
  rw [probe_index_eq_mod]
  exact Nat.mod_lt _ (Nat.pos_pow_of_pos m (by decide))

theorem probe_distance_lt (m h s : Nat) : probe_distance (2 ^ m) h s < 2 ^ m := by
  unfold probe_distance
  rw [Nat.and_pow_two_sub_one_eq_mod]
  exact Nat.mod_lt _ (Nat.pos_pow_of_pos m (by decide))

/-- Every slot is reached from every probe position within `capacity` steps. -/
theorem exists_probe_step (m h j s : Nat) (hs : s < 2 ^ m) :
    ∃ t, t < 2 ^ m ∧ probe_index (2 ^ m) h (j + t) = s := by
  have hc : 0 < 2 ^ m := Nat.pos_pow_of_pos m (by decide)
  have hp : (h + j) % 2 ^ m < 2 ^ m := Nat.mod_lt _ hc
  refine ⟨(s + 2 ^ m - (h + j) % 2 ^ m) % 2 ^ m, Nat.mod_lt _ hc, ?_⟩
  rw [probe_index_eq_mod]
  have hq := Nat.mod_add_div (h + j) (2 ^ m)
  have e1 : h + (j + (s + 2 ^ m - (h + j) % 2 ^ m) % 2 ^ m) =
      (h + j) + (s + 2 ^ m - (h + j) % 2 ^ m) % 2 ^ m := by omega
  have e2 : h + j + (s + 2 ^ m - (h + j) % 2 ^ m) =
      s + 2 ^ m + 2 ^ m * ((h + j) / 2 ^ m) := by omega
  rw [e1, Nat.add_mod, Nat.mod_mod, ← Nat.add_mod, e2, Nat.add_mul_mod_self_left,
    Nat.add_mod_right, Nat.mod_eq_of_lt hs]

theorem slot_cost_set_ne {α : Type} (cap : Nat) (entries : List (ht_entry_t α)) (idx j : Nat)
    (a : ht_entry_t α) (h : j ≠ idx) :
    slot_cost cap (entries.set idx a) j = slot_cost cap entries j := by
  unfold slot_cost
  rw [slot_at_set]
  simp [h]

theorem dist_sum_set {α : Type} (cap : Nat) (entries : List (ht_entry_t α)) (idx : Nat)
    (a : ht_entry_t α) (h : idx < cap) :
    dist_sum cap (entries.set idx a) + slot_cost cap entries idx =
      dist_sum cap entries + slot_cost cap (entries.set idx a) idx := by
  unfold dist_sum
  have hmem : idx ∈ Finset.range cap := Finset.mem_range.mpr h
  have e1 := Finset.add_sum_erase (Finset.range cap) (slot_cost cap (entries.set idx a)) hmem
  have e2 := Finset.add_sum_erase (Finset.range cap) (slot_cost cap entries) hmem
  have e3 : ∑ x ∈ (Finset.range cap).erase idx, slot_cost cap (entries.set idx a) x =
      ∑ x ∈ (Finset.range cap).erase idx, slot_cost cap entries x := by
    apply Finset.sum_congr rfl
    intro j hj
    exact slot_cost_set_ne cap entries idx j a (Finset.ne_of_mem_erase hj)
  rw [e3] at e1
  rw [← e1, ← e2]
  omega

theorem dist_sum_le {α : Type} (m : Nat) (entries : List (ht_entry_t α)) :
    dist_sum (2 ^ m) entries ≤ 2 ^ m * (2 ^ m - 1) := by
  unfold dist_sum
  have h := Finset.sum_le_card_nsmul (Finset.range (2 ^ m)) (slot_cost (2 ^ m) entries)
    (2 ^ m - 1) (by
      intro i _
      unfold slot_cost
      split
      · exact Nat.zero_le _
      · have := probe_distance_lt m (slot_at entries i).hash i
        omega)
  simpa using h

theorem measure_step (B p q c t s n : Nat) (hpq : p < q) (hq : q ≤ B) (hs : s < c)
    (h : (B - p) * c + t < n + 1) : (B - q) * c + s < n := by
  have h1 : (B - q + 1) * c ≤ (B - p) * c := Nat.mul_le_mul_right c (by omega)
  rw [Nat.add_mul, Nat.one_mul] at h1
  generalize (B - q) * c = X at *
  generalize (B - p) * c = Y at *
  omega

/-- The inner loop of `ht_resize` returns whenever the slot array has an empty slot:
each exchange raises the sum of the probe distances, and between two exchanges the
loop walks towards the empty slot. The fuel `probe_fuel` covers that. -/
theorem ht_resize_insert_returns {α : Type} (m : Nat) :
    ∀ (fuel : Nat) (entries : List (ht_entry_t α)) (h : Nat) (k : Option CStr) (v : Option α)
      (j t : Nat),
      entries.length = 2 ^ m → t < 2 ^ m →
      (slot_at entries (probe_index (2 ^ m) h (j + t))).occupied = 0 →
      (2 ^ m * (2 ^ m - 1) - dist_sum (2 ^ m) entries) * 2 ^ m + t < fuel →
      ∃ r, ht_resize_insert fuel entries (2 ^ m) h k v j = some r ∧ r.length = 2 ^ m ∧
        count_live r = count_live entries + 1 ∧ count_dead r = count_dead entries ∧
        count_used r = count_used entries + 1 := by
  intro fuel
  induction fuel with
  | zero => intro entries h k v j t _ _ _ hm; omega
  | succ n ih =>
    intro entries h k v j t hlen ht hempty hm
    have hidx : probe_index (2 ^ m) h j < entries.length := by
      rw [hlen]; exact probe_index_lt m h j
    rw [ht_resize_insert]
    by_cases h0 : (slot_at entries (probe_index (2 ^ m) h j)).occupied = 0
    · simp only [h0, if_true]
      have hc := counts_set_live_empty entries (probe_index (2 ^ m) h j)
        { key := k, value := v, hash := h, occupied := 1 } hidx rfl h0
      exact ⟨_, rfl, by simp [hlen], hc.1, hc.2.1, hc.2.2⟩
    · simp only [h0, if_false]
      have ht0 : t ≠ 0 := by
        intro h1
        rw [h1, Nat.add_zero] at hempty
        exact h0 hempty
      by_cases hsw : probe_distance (2 ^ m) h (probe_index (2 ^ m) h j) >
          probe_distance (2 ^ m) (slot_at entries (probe_index (2 ^ m) h j)).hash
            (probe_index (2 ^ m) h j)
      · simp only [hsw, if_true]
        have hs : probe_index (2 ^ m) h (j + t) < 2 ^ m := probe_index_lt m h (j + t)
        obtain ⟨t1, ht1, hp1⟩ := exists_probe_step m
          (slot_at entries (probe_index (2 ^ m) h j)).hash (j + 1) _ hs
        have hne : probe_index (2 ^ m) h (j + t) ≠ probe_index (2 ^ m) h j := by
          intro heq
          rw [heq] at hempty
          exact h0 hempty
        have hd := dist_sum_set (2 ^ m) entries (probe_index (2 ^ m) h j)
          { key := k, value := v, hash := h,
            occupied := (slot_at entries (probe_index (2 ^ m) h j)).occupied }
          (probe_index_lt m h j)
        have hc1 : slot_cost (2 ^ m) entries (probe_index (2 ^ m) h j) =
            probe_distance (2 ^ m) (slot_at entries (probe_index (2 ^ m) h j)).hash
              (probe_index (2 ^ m) h j) := by
          simp only [slot_cost, h0, if_false]
        have hc2 : slot_cost (2 ^ m) (entries.set (probe_index (2 ^ m) h j)
            { key := k, value := v, hash := h,
              occupied := (slot_at entries (probe_index (2 ^ m) h j)).occupied })
            (probe_index (2 ^ m) h j) =
            probe_distance (2 ^ m) h (probe_index (2 ^ m) h j) := by
          simp only [slot_cost, slot_at_set, hidx, and_self, if_true, h0, if_false]
        rw [hc1, hc2] at hd
        have hle := dist_sum_le m (entries.set (probe_index (2 ^ m) h j)
            { key := k, value := v, hash := h,
              occupied := (slot_at entries (probe_index (2 ^ m) h j)).occupied })
        obtain ⟨r, hr, hl, h1, h2, h3⟩ := ih
          (entries.set (probe_index (2 ^ m) h j)
            { key := k, value := v, hash := h,
              occupied := (slot_at entries (probe_index (2 ^ m) h j)).occupied })
          (slot_at entries (probe_index (2 ^ m) h j)).hash
          (slot_at entries (probe_index (2 ^ m) h j)).key
          (slot_at entries (probe_index (2 ^ m) h j)).value (j + 1) t1
          (by simp [hlen]) ht1
          (by rw [hp1, slot_at_set]; simp only [hne, false_and, if_false]; exact hempty)
          (measure_step _ _ _ _ _ _ _ (by omega) hle ht1 hm)
        have hc := counts_set_same entries (probe_index (2 ^ m) h j)
          { key := k, value := v, hash := h,
            occupied := (slot_at entries (probe_index (2 ^ m) h j)).occupied } rfl
        exact ⟨r, hr, hl, by omega, by omega, by omega⟩
      · simp only [hsw, if_false]
        have e : j + 1 + (t - 1) = j + t := by omega
        exact ih entries h k v (j + 1) (t - 1) hlen (by omega) (by rw [e]; exact hempty)
          (by
            generalize (2 ^ m * (2 ^ m - 1) - dist_sum (2 ^ m) entries) * 2 ^ m = X at *
            omega)

/-- The outer loop of `ht_resize` returns when the new slot array has room for the
live slots still to be moved; the result holds them all. -/
theorem ht_resize_loop_returns {α : Type} (m : Nat) :
    ∀ (old : List (ht_entry_t α)) (ht : hashtable_t α),
      ht.capacity = 2 ^ m → ht.entries.length = 2 ^ m →
      count_used ht.entries + count_live old < 2 ^ m →
      ∃ r, ht_resize_loop old ht = some r ∧ r.capacity = 2 ^ m ∧ r.entries.length = 2 ^ m ∧
        r.size = ht.size + count_live old ∧ r.tombstones = ht.tombstones ∧
        count_live r.entries = count_live ht.entries + count_live old ∧
        count_dead r.entries = count_dead ht.entries := by
  intro old
  induction old with
  | nil => intro ht hcap hlen _; exact ⟨ht, rfl, hcap, hlen, rfl, rfl, rfl, rfl⟩
  | cons o rest ih =>
    intro ht hcap hlen hroom
    rw [ht_resize_loop]
    by_cases ho : o.occupied = 1
    · have hcl : count_live (o :: rest) = count_live rest + 1 := by
        simp [count_live, List.countP_cons, ho]
      rw [hcl] at hroom ⊢
      simp only [ho, if_true]
      have hex : ∃ s, s < 2 ^ m ∧ (slot_at ht.entries s).occupied = 0 := by
        by_contra hno
        have hall : count_used ht.entries = ht.entries.length := by
          unfold count_used
          rw [List.countP_eq_length]
          intro e he
          obtain ⟨i, hi, hget⟩ := List.getElem_of_mem he
          have : (slot_at ht.entries i).occupied ≠ 0 := by
            intro h0
            exact hno ⟨i, by omega, h0⟩
          rw [slot_at_eq_get ht.entries i hi] at this
          simp only [List.get_eq_getElem, hget] at this
          simpa using this
        omega
      obtain ⟨s, hs, hs0⟩ := hex
      obtain ⟨t, ht1, hp⟩ := exists_probe_step m o.hash 0 s hs
      have hB := dist_sum_le m ht.entries
      obtain ⟨r1, hr1, hl1, c1, c2, c3⟩ := ht_resize_insert_returns m (probe_fuel (2 ^ m))
        ht.entries o.hash o.key o.value 0 t hlen ht1 (by rw [hp]; exact hs0)
        (by
          unfold probe_fuel
          have h1 : (2 ^ m * (2 ^ m - 1) - dist_sum (2 ^ m) ht.entries) * 2 ^ m ≤
              2 ^ m * (2 ^ m - 1) * 2 ^ m := Nat.mul_le_mul_right _ (Nat.sub_le _ _)
          have h2 : 2 ^ m * (2 ^ m - 1) * 2 ^ m ≤ 2 ^ m * 2 ^ m * 2 ^ m :=
            Nat.mul_le_mul_right _ (Nat.mul_le_mul_left _ (Nat.sub_le _ _))
          generalize (2 ^ m * (2 ^ m - 1) - dist_sum (2 ^ m) ht.entries) * 2 ^ m = X at *
          generalize 2 ^ m * (2 ^ m - 1) * 2 ^ m = Y at *
          generalize 2 ^ m * 2 ^ m * 2 ^ m = Z at *
          omega)
      rw [← hcap] at hr1
      rw [hr1]
      obtain ⟨r, hr, e1, e2, e3, e4, e5, e6⟩ := ih
        { ht with entries := r1, size := ht.size + 1 } hcap hl1 (by simp only []; omega)
      refine ⟨r, hr, e1, e2, ?_, e4, ?_, ?_⟩
      · rw [e3]; simp only []; omega
      · rw [e5]; simp only []; omega
      · rw [e6]; exact c2
    · have hcl : count_live (o :: rest) = count_live rest := by
        simp [count_live, List.countP_cons, ho]
      rw [hcl] at hroom ⊢
      simp only [ho, if_false]
      exact ih ht hcap hlen hroom

/-! ## The header invariant under the table operations -/

theorem ht_fresh_wf (α : Type) : ht_wf (ht_fresh α) where
  cap_pow := ⟨6, rfl⟩
  cap_min := Nat.le_refl 64
  len := by simp [ht_fresh]
  size_eq := by
    have h := (counts_replicate_zero α 64).1
    simp only [ht_fresh, h]
  tomb_eq := by
    have h := (counts_replicate_zero α 64).2.1
    simp only [ht_fresh, h]

/-- Source `ht_resize` returns when the new capacity is a power of two above the
number of live slots; the new table holds exactly the live slots and no tombstone. -/
theorem ht_resize_returns {α : Type} (ht : hashtable_t α) (new_cap m : Nat)
    (hnew : (if new_cap < HT_MIN_CAP then HT_MIN_CAP else new_cap) = 2 ^ m)
    (hroom : count_live ht.entries < 2 ^ m) :
    ∃ r, ht_resize ht new_cap = some r ∧ ht_wf r ∧ r.capacity = 2 ^ m ∧
      r.size = count_live ht.entries := by
  have hz := counts_replicate_zero α (2 ^ m)
  obtain ⟨r, hr, e1, e2, e3, e4, e5, e6⟩ := ht_resize_loop_returns m ht.entries
    { entries := List.replicate (2 ^ m) ht_entry_t.zero, capacity := 2 ^ m, size := 0,
      tombstones := 0 } rfl (by simp) (by simp only [hz.2.2]; omega)
  simp only [hz.1, hz.2.1, Nat.zero_add] at e3 e4 e5 e6
  refine ⟨r, ?_, ?_, e1, e3⟩
  · unfold ht_resize
    simp only [hnew]
    exact hr
  · refine ⟨⟨m, e1⟩, ?_, by rw [e2, e1], by rw [e3, e5], by rw [e4, e6]⟩
    rw [e1, ← hnew]
    unfold HT_MIN_CAP
    split <;> omega

theorem pow_two_ge_64 (k : Nat) (h : 32 < 2 ^ k) : 64 ≤ 2 ^ k := by
  have hk : 6 ≤ k := by
    by_contra hlt
    have : 2 ^ k ≤ 2 ^ 5 := Nat.pow_le_pow_right (by decide) (by omega)
    omega
  have : 2 ^ 6 ≤ 2 ^ k := Nat.pow_le_pow_right (by decide) hk
  omega

/-- Source `ht_delete` on a key that `ht_find` finds: it returns 1, and the table it
leaves is well formed and holds one entry fewer. -/
theorem ht_delete_found {α : Type} {ht : hashtable_t α} {key : CStr} {idx : Nat}
    (hwf : ht_wf ht) (hf : ht_find ht key = some (some idx)) :
    ∃ r, ht_delete ht key = some (r, 1) ∧ ht_wf r ∧ r.size + 1 = ht.size := by
  obtain ⟨hocc, _, _, hlt⟩ := ht_find_found hf
  have hc := counts_set_dead ht.entries idx
    { key := none, value := none, hash := (slot_at ht.entries idx).hash, occupied := 2 }
    hlt rfl hocc
  have hsz : 0 < ht.size := by rw [hwf.size_eq]; omega
  unfold ht_delete
  simp only [hf]
  split
  · rename_i hshrink
    obtain ⟨hgt, hload⟩ := hshrink
    simp only [HT_MIN_CAP, HT_LOAD_LOW_PCT] at hgt hload
    obtain ⟨m, hm⟩ := hwf.cap_pow
    have hpos : 0 < ht.capacity := by have := hwf.cap_min; omega
    rw [Nat.div_lt_iff_lt_mul hpos] at hload
    cases m with
    | zero => simp at hm; omega
    | succ k =>
      have h2 : ht.capacity = 2 * 2 ^ k := by rw [hm, Nat.pow_succ]; omega
      have h64 : 64 ≤ 2 ^ k := pow_two_ge_64 k (by omega)
      obtain ⟨r, hr, hrwf, _, hrs⟩ := ht_resize_returns
        ({ ht with
            entries := ht.entries.set idx
              ({ slot_at ht.entries idx with key := none, value := none, occupied := 2 }),
            size := ht.size - 1,
            tombstones := ht.tombstones + 1 } : hashtable_t α) (ht.capacity / 2) k
        (by
          have : ht.capacity / 2 = 2 ^ k := by omega
          rw [this]; unfold HT_MIN_CAP; split <;> omega)
        (by
          have := hwf.size_eq
          dsimp only at hload ⊢
          omega)
      simp only [hr]
      refine ⟨r, rfl, hrwf, ?_⟩
      rw [hrs]
      have := hwf.size_eq
      dsimp only
      omega
  · refine ⟨_, rfl, ?_, by dsimp only; omega⟩
    refine ⟨hwf.cap_pow, hwf.cap_min, by simp [hwf.len], ?_, ?_⟩
    · have := hwf.size_eq
      dsimp only
      omega
    · have := hwf.tomb_eq
      dsimp only
      omega

theorem ht_delete_missing {α : Type} {ht : hashtable_t α} {key : CStr}
    (hf : ht_find ht key = some none) : ht_delete ht key = some (ht, 0) := by
  unfold ht_delete
  simp only [hf]

/-- Whatever `ht_delete` returns is well formed. -/
theorem ht_delete_wf {α : Type} {ht r : hashtable_t α} {key : CStr} {ret : Int}
    (hwf : ht_wf ht) (h : ht_delete ht key = some (r, ret)) : ht_wf r := by
  cases hf : ht_find ht key with
  | none => simp [ht_delete, hf] at h
  | some o =>
    cases o with
    | none =>
      rw [ht_delete_missing hf] at h
      simp only [Option.some.injEq, Prod.mk.injEq] at h
      rw [← h.1]; exact hwf
    | some idx =>
      obtain ⟨r1, hr1, hw1, _⟩ := ht_delete_found hwf hf
      rw [hr1] at h
      simp only [Option.some.injEq, Prod.mk.injEq] at h
      rw [← h.1]; exact hw1

/-- Whatever the probe loop of `ht_set` returns is well formed. -/
theorem ht_set_loop_wf {α : Type} :
    ∀ (fuel : Nat) (ht : hashtable_t α) (key : CStr) (h : Nat) (nk : Option CStr)
      (nv : Option α) (is_new : Int) (i : Nat) (r : hashtable_t α) (ret : Int),
      ht_wf ht → ht_set_loop fuel ht key h nk nv is_new i = some (r, ret) → ht_wf r := by
  intro fuel
  induction fuel with
  | zero => intro ht key h nk nv is_new i r ret _ hr; simp [ht_set_loop] at hr
  | succ n ih =>
    intro ht key h nk nv is_new i r ret hwf hr
    obtain ⟨m, hm⟩ := hwf.cap_pow
    have hidx : probe_index ht.capacity h i < ht.entries.length := by
      rw [hwf.len, hm]; exact probe_index_lt m h i
    rw [ht_set_loop] at hr
    simp only [] at hr
    split at hr
    · rename_i hvac
      simp only [Option.some.injEq, Prod.mk.injEq] at hr
      rw [← hr.1]
      rcases hvac with h0 | h2
      · have hc := counts_set_live_empty ht.entries (probe_index ht.capacity h i)
          { key := nk, value := nv, hash := h, occupied := 1 } hidx rfl h0
        refine ⟨hwf.cap_pow, hwf.cap_min, by simp [hwf.len], ?_, ?_⟩
        · simp only [hc.1, hwf.size_eq]
        · simp only [hc.2.1, h0, hwf.tomb_eq]
          simp
      · have hc := counts_set_live_dead ht.entries (probe_index ht.capacity h i)
          { key := nk, value := nv, hash := h, occupied := 1 } hidx rfl h2
        refine ⟨hwf.cap_pow, hwf.cap_min, by simp [hwf.len], ?_, ?_⟩
        · simp only [hc.1, hwf.size_eq]
        · have := hwf.tomb_eq
          simp only [h2, if_true]
          omega
    · split at hr
      · rename_i _ hhit
        simp only [Option.some.injEq, Prod.mk.injEq] at hr
        rw [← hr.1]
        have hc := counts_set_same ht.entries (probe_index ht.capacity h i)
          { slot_at ht.entries (probe_index ht.capacity h i) with value := nv } rfl
        exact ⟨hwf.cap_pow, hwf.cap_min, by simp [hwf.len], by simp only [hc.1, hwf.size_eq],
          by simp only [hc.2.1, hwf.tomb_eq]⟩
      · split at hr
        · refine ih _ _ _ _ _ _ _ _ _ ?_ hr
          have hc := counts_set_same ht.entries (probe_index ht.capacity h i)
            { key := nk, value := nv, hash := h,
              occupied := (slot_at ht.entries (probe_index ht.capacity h i)).occupied } rfl
          exact ⟨hwf.cap_pow, hwf.cap_min, by simp [hwf.len],
            by simp only [hc.1, hwf.size_eq], by simp only [hc.2.1, hwf.tomb_eq]⟩
        · exact ih _ _ _ _ _ _ _ _ _ hwf hr

/-- Whatever `ht_set` returns is well formed; the rebuild on the way returns. -/
theorem ht_set_wf {α : Type} {ht r : hashtable_t α} {key : CStr} {value : Option α}
    {ret : Int} (hwf : ht_wf ht) (h : ht_set ht key value = some (r, ret)) : ht_wf r := by
  unfold ht_set at h
  simp only [] at h
  split at h
  · simp at h
  · rename_i ht1 hg
    refine ht_set_loop_wf _ _ _ _ _ _ _ _ _ _ ?_ h
    split at hg
    · obtain ⟨m, hm⟩ := hwf.cap_pow
      have hmin := hwf.cap_min
      obtain ⟨r1, hr1, hw1, _, _⟩ := ht_resize_returns ht (ht.capacity * 2) (m + 1)
        (by rw [Nat.pow_succ, ← hm]; unfold HT_MIN_CAP; split <;> omega)
        (by
          have := count_live_le_length ht.entries
          rw [hwf.len, hm] at this
          rw [Nat.pow_succ]; omega)
      rw [hr1] at hg
      simp only [Option.some.injEq] at hg
      rw [← hg]; exact hw1
    · simp only [Option.some.injEq] at hg
      rw [← hg]; exact hwf

/-! ## The header invariant under the operations of db.c -/

theorem db_store_wf {db : database_t} (idx : Nat) (entry : db_entry_t) (hwf : ht_wf db.ht) :
    ht_wf (db_store db idx entry).ht := by
  have hc := counts_set_same db.ht.entries idx
    { slot_at db.ht.entries idx with value := some entry } rfl
  exact ⟨hwf.cap_pow, hwf.cap_min, by simp [db_store, hwf.len],
    by simp only [db_store, hc.1, hwf.size_eq], by simp only [db_store, hc.2.1, hwf.tomb_eq]⟩

theorem db_store_size (db : database_t) (idx : Nat) (entry : db_entry_t) :
    db_size (db_store db idx entry) = db_size db := rfl

/-- Source `check_expired` on an entry whose deadline has passed: the entry is
deleted through `ht_delete` and 1 returned. -/
theorem check_expired_passed {db : database_t} {key : CStr} {idx : Nat} {entry : db_entry_t}
    {now : Int} (hwf : ht_wf db.ht) (hf : ht_find db.ht key = some (some idx))
    (hv : (slot_at db.ht.entries idx).value = some entry)
    (he : entry.expire ≥ 0 ∧ now > entry.expire) :
    ∃ ht, ht_delete db.ht key = some (ht, 1) ∧ ht_wf ht ∧ ht.size + 1 = db.ht.size ∧
      check_expired db now key = some ({ db with ht := ht }, 1) := by
  obtain ⟨ht, hd, hw, hs⟩ := ht_delete_found hwf hf
  refine ⟨ht, hd, hw, hs, ?_⟩
  simp only [check_expired, hf, hv, he, and_self, if_true, hd]

theorem check_expired_wf {db db1 : database_t} {key : CStr} {now ret : Int}
    (hwf : ht_wf db.ht) (h : check_expired db now key = some (db1, ret)) : ht_wf db1.ht := by
  unfold check_expired at h
  split at h
  · simp at h
  · simp only [Option.some.injEq, Prod.mk.injEq] at h
    rw [← h.1]; exact hwf
  · split at h
    · simp at h
    · split at h
      · split at h
        · simp at h
        · rename_i ht _ hd
          simp only [Option.some.injEq, Prod.mk.injEq] at h
          rw [← h.1]
          exact ht_delete_wf hwf hd
      · simp only [Option.some.injEq, Prod.mk.injEq] at h
        rw [← h.1]; exact hwf

theorem db_get_entry_wf {db db1 : database_t} {key : CStr} {now : Int}
    {r : Option (Nat × db_entry_t)} (hwf : ht_wf db.ht)
    (h : db_get_entry db now key = some (db1, r)) : ht_wf db1.ht := by
  unfold db_get_entry at h
  split at h
  · simp at h
  · rename_i db2 e hc
    have hw2 := check_expired_wf hwf hc
    split at h
    · simp only [Option.some.injEq, Prod.mk.injEq] at h
      rw [← h.1]; exact hw2
    · split at h
      · simp at h
      · simp only [Option.some.injEq, Prod.mk.injEq] at h
        rw [← h.1]; exact hw2

theorem db_set_wf {db db1 : database_t} {key : CStr} {value : Option CStr} {ret : Int}
    (hwf : ht_wf db.ht) (h : db_set db key value = some (db1, ret)) : ht_wf db1.ht := by
  unfold db_set at h
  simp only [] at h
  split at h
  · simp at h
  · rename_i ht _ hs
    simp only [Option.some.injEq, Prod.mk.injEq] at h
    rw [← h.1]
    exact ht_set_wf hwf hs

theorem db_get_wf {db db1 : database_t} {key : CStr} {now : Int} {r : Option dbobj_t}
    (hwf : ht_wf db.ht) (h : db_get db now key = some (db1, r)) : ht_wf db1.ht := by
  unfold db_get at h
  split at h
  · simp at h
  · rename_i db2 e hc
    simp only [Option.some.injEq, Prod.mk.injEq] at h
    rw [← h.1]; exact db_get_entry_wf hwf hc

theorem db_del_wf {db db1 : database_t} {key : CStr} {now ret : Int}
    (hwf : ht_wf db.ht) (h : db_del db now key = some (db1, ret)) : ht_wf db1.ht := by
  unfold db_del at h
  split at h
  · simp at h
  · rename_i db2 e hc
    have hw2 := check_expired_wf hwf hc
    split at h
    · simp at h
    · rename_i ht _ hd
      simp only [Option.some.injEq, Prod.mk.injEq] at h
      rw [← h.1]
      exact ht_delete_wf hw2 hd

theorem db_exists_wf {db db1 : database_t} {key : CStr} {now ret : Int}
    (hwf : ht_wf db.ht) (h : db_exists db now key = some (db1, ret)) : ht_wf db1.ht := by
  unfold db_exists at h
  split at h
  · simp at h
  · rename_i db2 e hc
    have hw2 := check_expired_wf hwf hc
    split at h
    · simp only [Option.some.injEq, Prod.mk.injEq] at h
      rw [← h.1]; exact hw2
    · split at h
      · simp at h
      · simp only [Option.some.injEq, Prod.mk.injEq] at h
        rw [← h.1]; exact hw2

theorem db_incr_fresh_wf {db db1 : database_t} {key : CStr} {delta ret : Int}
    (hwf : ht_wf db.ht) (h : db_incr_fresh db key delta = some (db1, ret)) : ht_wf db1.ht := by
  unfold db_incr_fresh at h
  split at h
  · simp at h
  · rename_i ht _ hs
    simp only [Option.some.injEq, Prod.mk.injEq] at h
    rw [← h.1]
    exact ht_set_wf hwf hs

theorem db_incr_wf {db db1 : database_t} {key : CStr} {now delta ret : Int}
    (hwf : ht_wf db.ht) (h : db_incr db now key delta = some (db1, ret)) : ht_wf db1.ht := by
  unfold db_incr at h
  split at h
  · simp at h
  · rename_i db2 e hc
    have hw2 := check_expired_wf hwf hc
    split at h
    · exact db_incr_fresh_wf hw2 h
    · split at h
      · simp at h
      · exact db_incr_fresh_wf hw2 h
      · split at h
        · simp only [Option.some.injEq, Prod.mk.injEq] at h
          rw [← h.1]; exact db_store_wf _ _ hw2
        · split at h
          · simp only [Option.some.injEq, Prod.mk.injEq] at h
            rw [← h.1]; exact db_store_wf _ _ hw2
          · simp only [Option.some.injEq, Prod.mk.injEq] at h
            rw [← h.1]; exact hw2
        · simp only [Option.some.injEq, Prod.mk.injEq] at h
          rw [← h.1]; exact hw2

theorem db_expire_wf {db db1 : database_t} {key : CStr} {now seconds ret : Int}
    (hwf : ht_wf db.ht) (h : db_expire db now key seconds = some (db1, ret)) :
    ht_wf db1.ht := by
  unfold db_expire at h
  split at h
  · simp at h
  · rename_i db2 hc
    simp only [Option.some.injEq, Prod.mk.injEq] at h
    rw [← h.1]; exact db_get_entry_wf hwf hc
  · rename_i db2 idx entry hc
    simp only [Option.some.injEq, Prod.mk.injEq] at h
    rw [← h.1]; exact db_store_wf _ _ (db_get_entry_wf hwf hc)

theorem db_ttl_wf {db db1 : database_t} {key : CStr} {now ret : Int}
    (hwf : ht_wf db.ht) (h : db_ttl db now key = some (db1, ret)) : ht_wf db1.ht := by
  unfold db_ttl at h
  split at h
  · simp at h
  · rename_i db2 hc
    simp only [Option.some.injEq, Prod.mk.injEq] at h
    rw [← h.1]; exact db_get_entry_wf hwf hc
  · rename_i db2 idx entry hc
    split at h <;>
    · simp only [Option.some.injEq, Prod.mk.injEq] at h
      rw [← h.1]; exact db_get_entry_wf hwf hc

theorem db_persist_wf {db db1 : database_t} {key : CStr} {now ret : Int}
    (hwf : ht_wf db.ht) (h : db_persist db now key = some (db1, ret)) : ht_wf db1.ht := by
  unfold db_persist at h
  split at h
  · simp at h
  · rename_i db2 hc
    simp only [Option.some.injEq, Prod.mk.injEq] at h
    rw [← h.1]; exact db_get_entry_wf hwf hc
  · rename_i db2 idx entry hc
    split at h
    · simp only [Option.some.injEq, Prod.mk.injEq] at h
      rw [← h.1]; exact db_get_entry_wf hwf hc
    · simp only [Option.some.injEq, Prod.mk.injEq] at h
      rw [← h.1]; exact db_store_wf _ _ (db_get_entry_wf hwf hc)

theorem db_push_with_wf {push : list_t → Option CStr → list_t} {db db1 : database_t}
    {key : CStr} {value : Option CStr} {now ret : Int}
    (hwf : ht_wf db.ht) (h : db_push_with push db now key value = some (db1, ret)) :
    ht_wf db1.ht := by
  unfold db_push_with at h
  split at h
  · simp at h
  · rename_i db2 e hc
    have hw2 := check_expired_wf hwf hc
    split at h
    · simp at h
    · split at h
      · split at h
        · simp at h
        · rename_i ht _ hs
          simp only [Option.some.injEq, Prod.mk.injEq] at h
          rw [← h.1]
          exact ht_set_wf hw2 hs
      · simp at h
    · split at h
      · simp only [Option.some.injEq, Prod.mk.injEq] at h
        rw [← h.1]; exact db_store_wf _ _ hw2
      · simp only [Option.some.injEq, Prod.mk.injEq] at h
        rw [← h.1]; exact hw2

theorem db_pop_with_wf {pop : list_t → list_t × Option CStr} {db db1 : database_t}
    {key : CStr} {now : Int} {ret : Option CStr}
    (hwf : ht_wf db.ht) (h : db_pop_with pop db now key = some (db1, ret)) :
    ht_wf db1.ht := by
  unfold db_pop_with at h
  split at h
  · simp at h
  · rename_i db2 e hc
    have hw2 := check_expired_wf hwf hc
    split at h
    · simp only [Option.some.injEq, Prod.mk.injEq] at h
      rw [← h.1]; exact hw2
    · split at h
      · simp at h
      · simp only [Option.some.injEq, Prod.mk.injEq] at h
        rw [← h.1]; exact hw2
      · split at h
        · simp only [] at h
          split at h
          · split at h
            · simp at h
            · rename_i ht _ hd
              simp only [Option.some.injEq, Prod.mk.injEq] at h
              rw [← h.1]
              exact ht_delete_wf (db_store_wf _ _ hw2) hd
          · simp only [Option.some.injEq, Prod.mk.injEq] at h
            rw [← h.1]; exact db_store_wf _ _ hw2
        · simp only [Option.some.injEq, Prod.mk.injEq] at h
          rw [← h.1]; exact hw2

theorem db_llen_wf {db db1 : database_t} {key : CStr} {now ret : Int}
    (hwf : ht_wf db.ht) (h : db_llen db now key = some (db1, ret)) : ht_wf db1.ht := by
  unfold db_llen at h
  split at h
  · simp at h
  · rename_i db2 e hc
    have hw2 := check_expired_wf hwf hc
    split at h
    · simp only [Option.some.injEq, Prod.mk.injEq] at h
      rw [← h.1]; exact hw2
    · split at h
      · simp at h
      · simp only [Option.some.injEq, Prod.mk.injEq] at h
        rw [← h.1]; exact hw2
      · split at h <;>
        · simp only [Option.some.injEq, Prod.mk.injEq] at h
          rw [← h.1]; exact hw2

theorem db_lrange_wf {db db1 : database_t} {key : CStr} {now start stop : Int}
    {ret : Option (List (Option CStr)) × Nat}
    (hwf : ht_wf db.ht) (h : db_lrange db now key start stop = some (db1, ret)) :
    ht_wf db1.ht := by
  unfold db_lrange at h
  split at h
  · simp at h
  · rename_i db2 e hc
    have hw2 := check_expired_wf hwf hc
    split at h
    · simp only [Option.some.injEq, Prod.mk.injEq] at h
      rw [← h.1]; exact hw2
    · split at h
      · simp at h
      · simp only [Option.some.injEq, Prod.mk.injEq] at h
        rw [← h.1]; exact hw2
      · split at h <;>
        · simp only [Option.some.injEq, Prod.mk.injEq] at h
          rw [← h.1]; exact hw2

theorem db_create_wf {db : database_t} {now : Int} (h : db_create now = some db) :
    ht_wf db.ht := by
  unfold db_create at h
  rw [ht_create_64] at h
  simp only [Option.some.injEq] at h
  rw [← h]; exact ht_fresh_wf _

theorem db_flush_wf {db db1 : database_t} (h : db_flush db = some db1) : ht_wf db1.ht := by
  unfold db_flush at h
  rw [ht_create_64] at h
  simp only [Option.some.injEq] at h
  rw [← h]; exact ht_fresh_wf _

/-! ## The header invariant under the command handlers -/

theorem map_pair_wf {db db1 : database_t} {o : Option (List Nat)} {r : List Nat}
    (hwf : ht_wf db.ht) (h : o.map (fun r => (db, r)) = some (db1, r)) : ht_wf db1.ht := by
  cases o with
  | none => simp at h
  | some x =>
    simp only [Option.map_some', Option.some.injEq, Prod.mk.injEq] at h
    rw [← h.1]; exact hwf

theorem cmd_set_options_wf : ∀ (fuel : Nat) (db db1 : database_t) (now : Int)
    (cmd : resp_value_t) (key : CStr) (i : Nat), ht_wf db.ht →
    cmd_set_options fuel db now cmd key i = some db1 → ht_wf db1.ht := by
  intro fuel
  induction fuel with
  | zero =>
    intro db db1 now cmd key i hwf h
    simp only [cmd_set_options, Option.some.injEq] at h
    rw [← h]; exact hwf
  | succ n ih =>
    intro db db1 now cmd key i hwf h
    rw [cmd_set_options] at h
    split at h
    · split at h
      · split at h
        · split at h
          · simp at h
          · rename_i db2 _ he
            exact ih _ _ _ _ _ _ (db_expire_wf hwf he) h
        · exact ih _ _ _ _ _ _ hwf h
      · exact ih _ _ _ _ _ _ hwf h
    · simp only [Option.some.injEq] at h
      rw [← h]; exact hwf

theorem cmd_set_wf {db db1 : database_t} {now : Int} {cmd : resp_value_t} {r : List Nat}
    (hwf : ht_wf db.ht) (h : cmd_set db now cmd = some (db1, r)) : ht_wf db1.ht := by
  unfold cmd_set at h
  split at h
  · exact map_pair_wf hwf h
  · split at h
    · simp at h
    · split at h
      · simp at h
      · rename_i db2 _ hs
        split at h
        · simp at h
        · rename_i db3 ho
          exact map_pair_wf (cmd_set_options_wf _ _ _ _ _ _ _ (db_set_wf hwf hs) ho) h

theorem cmd_get_wf {db db1 : database_t} {now : Int} {cmd : resp_value_t} {r : List Nat}
    (hwf : ht_wf db.ht) (h : cmd_get db now cmd = some (db1, r)) : ht_wf db1.ht := by
  unfold cmd_get at h
  split at h
  · exact map_pair_wf hwf h
  · split at h
    · simp at h
    · split at h
      · simp at h
      · rename_i db2 obj hg
        exact map_pair_wf (db_get_wf hwf hg) h

theorem cmd_del_loop_wf : ∀ (fuel : Nat) (db db1 : database_t) (now : Int)
    (cmd : resp_value_t) (i : Nat) (deleted ret : Int), ht_wf db.ht →
    cmd_del_loop fuel db now cmd i deleted = some (db1, ret) → ht_wf db1.ht := by
  intro fuel
  induction fuel with
  | zero =>
    intro db db1 now cmd i deleted ret hwf h
    simp only [cmd_del_loop, Option.some.injEq, Prod.mk.injEq] at h
    rw [← h.1]; exact hwf
  | succ n ih =>
    intro db db1 now cmd i deleted ret hwf h
    rw [cmd_del_loop] at h
    split at h
    · split at h
      · simp at h
      · split at h
        · simp at h
        · rename_i db2 _ hd
          exact ih _ _ _ _ _ _ _ (db_del_wf hwf hd) h
    · simp only [Option.some.injEq, Prod.mk.injEq] at h
      rw [← h.1]; exact hwf

theorem cmd_del_wf {db db1 : database_t} {now : Int} {cmd : resp_value_t} {r : List Nat}
    (hwf : ht_wf db.ht) (h : cmd_del db now cmd = some (db1, r)) : ht_wf db1.ht := by
  unfold cmd_del at h
  split at h
  · exact map_pair_wf hwf h
  · split at h
    · simp at h
    · rename_i db2 _ hl
      simp only [Option.some.injEq, Prod.mk.injEq] at h
      rw [← h.1]; exact cmd_del_loop_wf _ _ _ _ _ _ _ _ hwf hl

theorem cmd_exists_wf {db db1 : database_t} {now : Int} {cmd : resp_value_t} {r : List Nat}
    (hwf : ht_wf db.ht) (h : cmd_exists db now cmd = some (db1, r)) : ht_wf db1.ht := by
  unfold cmd_exists at h
  split at h
  · exact map_pair_wf hwf h
  · split at h
    · simp at h
    · split at h
      · simp at h
      · rename_i db2 _ hg
        simp only [Option.some.injEq, Prod.mk.injEq] at h
        rw [← h.1]; exact db_exists_wf hwf hg

theorem cmd_incr_wf {db db1 : database_t} {now : Int} {cmd : resp_value_t} {r : List Nat}
    (hwf : ht_wf db.ht) (h : cmd_incr db now cmd = some (db1, r)) : ht_wf db1.ht := by
  unfold cmd_incr at h
  split at h
  · exact map_pair_wf hwf h
  · split at h
    · simp at h
    · split at h
      · simp at h
      · rename_i db2 _ hg
        split at h
        · exact map_pair_wf (db_incr_wf hwf hg) h
        · simp only [Option.some.injEq, Prod.mk.injEq] at h
          rw [← h.1]; exact db_incr_wf hwf hg

theorem cmd_decr_wf {db db1 : database_t} {now : Int} {cmd : resp_value_t} {r : List Nat}
    (hwf : ht_wf db.ht) (h : cmd_decr db now cmd = some (db1, r)) : ht_wf db1.ht := by
  unfold cmd_decr at h
  split at h
  · exact map_pair_wf hwf h
  · split at h
    · simp at h
    · split at h
      · simp at h
      · rename_i db2 _ hg
        split at h
        · exact map_pair_wf (db_incr_wf hwf hg) h
        · simp only [Option.some.injEq, Prod.mk.injEq] at h
          rw [← h.1]; exact db_incr_wf hwf hg

theorem cmd_ping_wf {db db1 : database_t} {now : Int} {cmd : resp_value_t} {r : List Nat}
    (hwf : ht_wf db.ht) (h : cmd_ping db now cmd = some (db1, r)) : ht_wf db1.ht := by
  unfold cmd_ping at h
  split at h
  · split at h
    · simp at h
    · simp only [Option.some.injEq, Prod.mk.injEq] at h
      rw [← h.1]; exact hwf
  · exact map_pair_wf hwf h

theorem cmd_mset_loop_wf : ∀ (fuel : Nat) (db db1 : database_t) (cmd : resp_value_t) (i : Nat),
    ht_wf db.ht → cmd_mset_loop fuel db cmd i = some db1 → ht_wf db1.ht := by
  intro fuel
  induction fuel with
  | zero =>
    intro db db1 cmd i hwf h
    simp only [cmd_mset_loop, Option.some.injEq] at h
    rw [← h]; exact hwf
  | succ n ih =>
    intro db db1 cmd i hwf h
    rw [cmd_mset_loop] at h
    split at h
    · split at h
      · simp at h
      · split at h
        · simp at h
        · rename_i db2 _ hs
          exact ih _ _ _ _ (db_set_wf hwf hs) h
    · simp only [Option.some.injEq] at h
      rw [← h]; exact hwf

theorem cmd_mset_wf {db db1 : database_t} {now : Int} {cmd : resp_value_t} {r : List Nat}
    (hwf : ht_wf db.ht) (h : cmd_mset db now cmd = some (db1, r)) : ht_wf db1.ht := by
  unfold cmd_mset at h
  split at h
  · exact map_pair_wf hwf h
  · split at h
    · simp at h
    · rename_i db2 hl
      exact map_pair_wf (cmd_mset_loop_wf _ _ _ _ _ hwf hl) h

theorem cmd_mget_loop_wf : ∀ (fuel : Nat) (db db1 : database_t) (now : Int)
    (cmd : resp_value_t) (i : Nat) (r : List Nat), ht_wf db.ht →
    cmd_mget_loop fuel db now cmd i = some (db1, r) → ht_wf db1.ht := by
  intro fuel
  induction fuel with
  | zero =>
    intro db db1 now cmd i r hwf h
    simp only [cmd_mget_loop, Option.some.injEq, Prod.mk.injEq] at h
    rw [← h.1]; exact hwf
  | succ n ih =>
    intro db db1 now cmd i r hwf h
    rw [cmd_mget_loop] at h
    split at h
    · split at h
      · simp at h
      · split at h
        · simp at h
        · rename_i db2 obj hg
          split at h
          · rename_i x db3 rest _ hl
            simp only [Option.some.injEq, Prod.mk.injEq] at h
            rw [← h.1]
            exact ih _ _ _ _ _ _ (db_get_wf hwf hg) hl
          · simp at h
    · simp only [Option.some.injEq, Prod.mk.injEq] at h
      rw [← h.1]; exact hwf

theorem cmd_mget_wf {db db1 : database_t} {now : Int} {cmd : resp_value_t} {r : List Nat}
    (hwf : ht_wf db.ht) (h : cmd_mget db now cmd = some (db1, r)) : ht_wf db1.ht := by
  unfold cmd_mget at h
  split at h
  · exact map_pair_wf hwf h
  · split at h
    · simp at h
    · rename_i db2 _ hl
      simp only [Option.some.injEq, Prod.mk.injEq] at h
      rw [← h.1]; exact cmd_mget_loop_wf _ _ _ _ _ _ _ hwf hl

theorem cmd_push_loop_wf
    (push : database_t → Int → CStr → Option CStr → Option (database_t × Int))
    (hpush : ∀ (db db1 : database_t) (now : Int) (key : CStr) (v : Option CStr) (ret : Int),
      ht_wf db.ht → push db now key v = some (db1, ret) → ht_wf db1.ht) :
    ∀ (fuel : Nat) (db db1 : database_t) (now : Int) (cmd : resp_value_t) (key : CStr)
      (i : Nat) (result : Int) (ret : Option Int), ht_wf db.ht →
      cmd_push_loop push fuel db now cmd key i result = some (db1, ret) → ht_wf db1.ht := by
  intro fuel
  induction fuel with
  | zero =>
    intro db db1 now cmd key i result ret hwf h
    simp only [cmd_push_loop, Option.some.injEq, Prod.mk.injEq] at h
    rw [← h.1]; exact hwf
  | succ n ih =>
    intro db db1 now cmd key i result ret hwf h
    rw [cmd_push_loop] at h
    split at h
    · split at h
      · simp at h
      · rename_i db2 _ hp
        split at h
        · simp only [Option.some.injEq, Prod.mk.injEq] at h
          rw [← h.1]; exact hpush _ _ _ _ _ _ hwf hp
        · exact ih _ _ _ _ _ _ _ _ (hpush _ _ _ _ _ _ hwf hp) h
    · simp only [Option.some.injEq, Prod.mk.injEq] at h
      rw [← h.1]; exact hwf

theorem cmd_push_with_wf (name : String)
    (push : database_t → Int → CStr → Option CStr → Option (database_t × Int))
    (hpush : ∀ (db db1 : database_t) (now : Int) (key : CStr) (v : Option CStr) (ret : Int),
      ht_wf db.ht → push db now key v = some (db1, ret) → ht_wf db1.ht)
    {db db1 : database_t} {now : Int} {cmd : resp_value_t} {r : List Nat}
    (hwf : ht_wf db.ht) (h : cmd_push_with name push db now cmd = some (db1, r)) :
    ht_wf db1.ht := by
  unfold cmd_push_with at h
  split at h
  · exact map_pair_wf hwf h
  · split at h
    · simp at h
    · split at h
      · simp at h
      · rename_i db2 hl
        exact map_pair_wf (cmd_push_loop_wf push hpush _ _ _ _ _ _ _ _ _ hwf hl) h
      · rename_i db2 _ hl
        simp only [Option.some.injEq, Prod.mk.injEq] at h
        rw [← h.1]; exact cmd_push_loop_wf push hpush _ _ _ _ _ _ _ _ _ hwf hl

theorem cmd_pop_with_wf (name : String)
    (pop : database_t → Int → CStr → Option (database_t × Option CStr))
    (hpop : ∀ (db db1 : database_t) (now : Int) (key : CStr) (ret : Option CStr),
      ht_wf db.ht → pop db now key = some (db1, ret) → ht_wf db1.ht)
    {db db1 : database_t} {now : Int} {cmd : resp_value_t} {r : List Nat}
    (hwf : ht_wf db.ht) (h : cmd_pop_with name pop db now cmd = some (db1, r)) :
    ht_wf db1.ht := by
  unfold cmd_pop_with at h
  split at h
  · exact map_pair_wf hwf h
  · split at h
    · simp at h
    · split at h
      · simp at h
      · rename_i db2 hp
        simp only [Option.some.injEq, Prod.mk.injEq] at h
        rw [← h.1]; exact hpop _ _ _ _ _ hwf hp
      · rename_i db2 _ hp
        simp only [Option.some.injEq, Prod.mk.injEq] at h
        rw [← h.1]; exact hpop _ _ _ _ _ hwf hp

theorem cmd_llen_wf {db db1 : database_t} {now : Int} {cmd : resp_value_t} {r : List Nat}
    (hwf : ht_wf db.ht) (h : cmd_llen db now cmd = some (db1, r)) : ht_wf db1.ht := by
  unfold cmd_llen at h
  split at h
  · exact map_pair_wf hwf h
  · split at h
    · simp at h
    · split at h
      · simp at h
      · rename_i db2 _ hg
        split at h
        · exact map_pair_wf (db_llen_wf hwf hg) h
        · simp only [Option.some.injEq, Prod.mk.injEq] at h
          rw [← h.1]; exact db_llen_wf hwf hg

theorem cmd_lrange_wf {db db1 : database_t} {now : Int} {cmd : resp_value_t} {r : List Nat}
    (hwf : ht_wf db.ht) (h : cmd_lrange db now cmd = some (db1, r)) : ht_wf db1.ht := by
  unfold cmd_lrange at h
  split at h
  · exact map_pair_wf hwf h
  · split at h
    · split at h
      · simp at h
      · rename_i db2 items count hg
        cases hi : cmd_lrange_items ((items.getD []).take count) with
        | none => simp [hi] at h
        | some x =>
          simp only [hi, Option.map_some', Option.some.injEq, Prod.mk.injEq] at h
          rw [← h.1]; exact db_lrange_wf hwf hg
    · simp at h

theorem cmd_expire_wf {db db1 : database_t} {now : Int} {cmd : resp_value_t} {r : List Nat}
    (hwf : ht_wf db.ht) (h : cmd_expire db now cmd = some (db1, r)) : ht_wf db1.ht := by
  unfold cmd_expire at h
  split at h
  · exact map_pair_wf hwf h
  · split at h
    · split at h
      · simp at h
      · rename_i db2 _ hg
        simp only [Option.some.injEq, Prod.mk.injEq] at h
        rw [← h.1]; exact db_expire_wf hwf hg
    · simp at h

theorem cmd_ttl_wf {db db1 : database_t} {now : Int} {cmd : resp_value_t} {r : List Nat}
    (hwf : ht_wf db.ht) (h : cmd_ttl db now cmd = some (db1, r)) : ht_wf db1.ht := by
  unfold cmd_ttl at h
  split at h
  · exact map_pair_wf hwf h
  · split at h
    · simp at h
    · split at h
      · simp at h
      · rename_i db2 _ hg
        simp only [Option.some.injEq, Prod.mk.injEq] at h
        rw [← h.1]; exact db_ttl_wf hwf hg

theorem cmd_persist_wf {db db1 : database_t} {now : Int} {cmd : resp_value_t} {r : List Nat}
    (hwf : ht_wf db.ht) (h : cmd_persist db now cmd = some (db1, r)) : ht_wf db1.ht := by
  unfold cmd_persist at h
  split at h
  · exact map_pair_wf hwf h
  · split at h
    · simp at h
    · split at h
      · simp at h
      · rename_i db2 _ hg
        simp only [Option.some.injEq, Prod.mk.injEq] at h
        rw [← h.1]; exact db_persist_wf hwf hg

theorem cmd_flushdb_wf {db db1 : database_t} {now : Int} {cmd : resp_value_t} {r : List Nat}
    (h : cmd_flushdb db now cmd = some (db1, r)) : ht_wf db1.ht := by
  unfold cmd_flushdb at h
  split at h
  · simp at h
  · rename_i db2 hf
    exact map_pair_wf (db_flush_wf hf) h

/-- Every handler of the keyspace commands leaves the table header in agreement with
the slot array. -/
theorem keyspace_handlers_wf {handler : cmd_handler_t} (hh : handler ∈ keyspace_handlers)
    {db db1 : database_t} {now : Int} {cmd : resp_value_t} {r : List Nat}
    (hwf : ht_wf db.ht) (h : handler db now cmd = some (db1, r)) : ht_wf db1.ht := by
  simp only [keyspace_handlers, List.mem_cons, List.mem_singleton, List.not_mem_nil,
    or_false] at hh
  rcases hh with e | e | e | e | e | e | e | e | e | e | e | e | e | e | e | e | e | e | e | e <;>
    subst e
  · exact cmd_ping_wf hwf h
  · exact cmd_set_wf hwf h
  · exact cmd_get_wf hwf h
  · exact cmd_del_wf hwf h
  · exact cmd_exists_wf hwf h
  · exact cmd_incr_wf hwf h
  · exact cmd_decr_wf hwf h
  · exact cmd_mset_wf hwf h
  · exact cmd_mget_wf hwf h
  · exact cmd_push_with_wf _ _ (fun _ _ _ _ _ _ hw hp => db_push_with_wf hw hp) hwf h
  · exact cmd_push_with_wf _ _ (fun _ _ _ _ _ _ hw hp => db_push_with_wf hw hp) hwf h
  · exact cmd_pop_with_wf _ _ (fun _ _ _ _ _ hw hp => db_pop_with_wf hw hp) hwf h
  · exact cmd_pop_with_wf _ _ (fun _ _ _ _ _ hw hp => db_pop_with_wf hw hp) hwf h
  · exact cmd_llen_wf hwf h
  · exact cmd_lrange_wf hwf h
  · exact cmd_expire_wf hwf h
  · exact cmd_ttl_wf hwf h
  · exact cmd_persist_wf hwf h
  · simp only [cmd_dbsize, Option.some.injEq, Prod.mk.injEq] at h
    rw [← h.1]; exact hwf
  · exact cmd_flushdb_wf h

theorem serve_wf : ∀ (reqs : List (cmd_handler_t × Int × resp_value_t)) (db db1 : database_t)
    (replies : List (List Nat)), (∀ q ∈ reqs, q.1 ∈ keyspace_handlers) → ht_wf db.ht →
    serve reqs db = some (db1, replies) → ht_wf db1.ht := by
  intro reqs
  induction reqs with
  | nil =>
    intro db db1 replies _ hwf h
    simp only [serve, Option.some.injEq, Prod.mk.injEq] at h
    rw [← h.1]; exact hwf
  | cons q rest ih =>
    intro db db1 replies hq hwf h
    obtain ⟨handler, now, cmd⟩ := q
    rw [serve] at h
    split at h
    · simp at h
    · rename_i db2 reply hh
      split at h
      · simp at h
      · rename_i db3 replies3 hs
        simp only [Option.some.injEq, Prod.mk.injEq] at h
        rw [← h.1]
        exact ih db2 db3 replies3 (fun q hq1 => hq q (List.mem_cons_of_mem _ hq1))
          (keyspace_handlers_wf (hq _ (List.mem_cons_self _ _)) hwf hh) hs

/-! ## Requests of a fixed shape -/

theorem cmd_exists_plain (db : database_t) (now : Int) (name k : CStr) :
    cmd_exists db now (request [name, k]) =
      match db_exists db now k with
      | none => none
      | some (db1, r) => some (db1, resp_write_integer r) := by
  simp only [cmd_exists, request, arg_count, get_arg, List.map_cons, List.map_nil,
    List.length_cons, List.length_nil, Nat.reduceAdd, Nat.lt_irrefl, if_false,
    List.getElem?_cons_succ, List.getElem?_cons_zero]

theorem cmd_ttl_plain (db : database_t) (now : Int) (name k : CStr) :
    cmd_ttl db now (request [name, k]) =
      match db_ttl db now k with
      | none => none
      | some (db1, r) => some (db1, resp_write_integer r) := by
  simp only [cmd_ttl, request, arg_count, get_arg, List.map_cons, List.map_nil,
    List.length_cons, List.length_nil, Nat.reduceAdd, Nat.lt_irrefl, if_false,
    List.getElem?_cons_succ, List.getElem?_cons_zero]

theorem cmd_persist_plain (db : database_t) (now : Int) (name k : CStr) :
    cmd_persist db now (request [name, k]) =
      match db_persist db now k with
      | none => none
      | some (db1, r) => some (db1, resp_write_integer r) := by
  simp only [cmd_persist, request, arg_count, get_arg, List.map_cons, List.map_nil,
    List.length_cons, List.length_nil, Nat.reduceAdd, Nat.lt_irrefl, if_false,
    List.getElem?_cons_succ, List.getElem?_cons_zero]

theorem cmd_expire_plain (db : database_t) (now : Int) (name k s : CStr) :
    cmd_expire db now (request [name, k, s]) =
      match db_expire db now k (strtoll s).val with
      | none => none
      | some (db1, r) => some (db1, resp_write_integer r) := by
  simp only [cmd_expire, request, arg_count, get_arg, List.map_cons, List.map_nil,
    List.length_cons, List.length_nil, Nat.reduceAdd, Nat.lt_irrefl, if_false,
    List.getElem?_cons_succ, List.getElem?_cons_zero]

theorem cmd_llen_plain (db : database_t) (now : Int) (name k : CStr) :
    cmd_llen db now (request [name, k]) =
      match db_llen db now k with
      | none => none
      | some (db1, len) =>
        if len < 0 then (resp_write_error WRONGTYPE_MSG).map (fun r => (db1, r))
        else some (db1, resp_write_integer len) := by
  simp only [cmd_llen, request, arg_count, get_arg, List.map_cons, List.map_nil,
    List.length_cons, List.length_nil, Nat.reduceAdd, Nat.lt_irrefl, if_false,
    List.getElem?_cons_succ, List.getElem?_cons_zero]

theorem cmd_pop_with_plain (cname : String)
    (pop : database_t → Int → CStr → Option (database_t × Option CStr))
    (db : database_t) (now : Int) (name k : CStr) :
    cmd_pop_with cname pop db now (request [name, k]) =
      match pop db now k with
      | none => none
      | some (db1, none) => some (db1, resp_write_nil)
      | some (db1, some val) => some (db1, resp_write_bulk_string val val.length) := by
  simp only [cmd_pop_with, request, arg_count, get_arg, List.map_cons, List.map_nil,
    List.length_cons, List.length_nil, Nat.reduceAdd, Nat.lt_irrefl, if_false,
    List.getElem?_cons_succ, List.getElem?_cons_zero]

theorem cmd_lrange_plain (db : database_t) (now : Int) (name k a b : CStr) :
    cmd_lrange db now (request [name, k, a, b]) =
      match db_lrange db now k (atoi a) (atoi b) with
      | none => none
      | some (db1, items, count) =>
        (cmd_lrange_items ((items.getD []).take count)).map
          (fun r => (db1, resp_write_array_header count ++ r)) := by
  simp only [cmd_lrange, request, arg_count, get_arg, List.map_cons, List.map_nil,
    List.length_cons, List.length_nil, Nat.reduceAdd, Nat.lt_irrefl, if_false,
    List.getElem?_cons_succ, List.getElem?_cons_zero]

/-- A push command whose first push answers -1 replies with the type error. -/
theorem cmd_push_with_refused (cname : String)
    (push : database_t → Int → CStr → Option CStr → Option (database_t × Int))
    (db : database_t) (now : Int) (name k v : CStr) (vs : List CStr)
    (h : push db now k (some v) = some (db, -1)) :
    cmd_push_with cname push db now (request (name :: k :: v :: vs)) =
      (resp_write_error WRONGTYPE_MSG).map (fun r => (db, r)) := by
  have hlt : ¬ (vs.length + 1 + 1 + 1 < 3) := by omega
  have h2 : 2 < vs.length + 1 + 1 + 1 := by omega
  simp only [cmd_push_with, request, arg_count, get_arg, List.map_cons,
    List.length_cons, List.length_map, hlt, if_false, List.getElem?_cons_succ,
    List.getElem?_cons_zero, cmd_push_loop, h2, if_true, h]
  simp

theorem wrongtype_frame : resp_write_error WRONGTYPE_MSG =
    some (bytes "-WRONGTYPE Operation against a key holding the wrong kind of value\r\n") := by
  decide

/-! ## Access to a key that is present -/

theorem db_get_alive {db : database_t} {key : CStr} {idx : Nat} {entry : db_entry_t}
    (now : Int) (hh : db_holds db key idx entry) (ha : ¬ entry_expired entry now) :
    db_get db now key = some (db, some entry.obj) := by
  simp [db_get, db_get_entry_alive now hh.1 hh.2 ha]

theorem db_lookup_holds {db : database_t} {key : CStr} {idx : Nat} {entry : db_entry_t}
    (hh : db_holds db key idx entry) : db_lookup db key = some (some (idx, entry)) :=
  db_lookup_of_find hh.1 hh.2

theorem check_expired_holds {db : database_t} {key : CStr} {idx : Nat} {entry : db_entry_t}
    (now : Int) (hh : db_holds db key idx entry) (ha : ¬ entry_expired entry now) :
    check_expired db now key = some (db, 0) :=
  check_expired_alive now hh.1 hh.2 ha

theorem db_holds_store {db : database_t} {key : CStr} {idx : Nat} {entry : db_entry_t}
    (entry1 : db_entry_t) (hh : db_holds db key idx entry) :
    db_holds (db_store db idx entry1) key idx entry1 :=
  db_store_found entry1 hh.1

theorem db_holds_single (k : CStr) (obj : dbobj_t) (expire : Int) :
    db_holds (db_single k obj expire) k (probe_index 64 (ht_hash k) 0)
      { obj := obj, expire := expire } :=
  ⟨ht_find_fresh_with k _, by simp [db_single, slot_at_fresh_with]⟩

/-! ## Lists, types, errors and deadlines: runs on the code -/

/-- C11, refuted on the code: on a fresh database, after `SET i 1`, `SET ak 2`, `SET fu 3`
the key `ak` is no longer found; `LPUSH ak a` creates a list under it (`DBSIZE` 4) and
`LPOP ak` returns `a` and removes that list (`DBSIZE` 3), yet `EXISTS ak` then replies 1
and `GET ak` replies `2`: the tombstone left by the collapse opens the way to the entry
the third `SET` had misplaced. -/
theorem c11_key_exists_after_list_collapse :
    ((db_create 0).bind (serve
        [(cmd_set, 0, request [bytes "SET", bytes "i", bytes "1"]),
         (cmd_set, 0, request [bytes "SET", bytes "ak", bytes "2"]),
         (cmd_set, 0, request [bytes "SET", bytes "fu", bytes "3"]),
         (cmd_exists, 0, request [bytes "EXISTS", bytes "ak"]),
         (cmd_lpush, 0, request [bytes "LPUSH", bytes "ak", bytes "a"]),
         (cmd_dbsize, 0, request [bytes "DBSIZE"]),
         (cmd_lpop, 0, request [bytes "LPOP", bytes "ak"]),
         (cmd_exists, 0, request [bytes "EXISTS", bytes "ak"]),
         (cmd_dbsize, 0, request [bytes "DBSIZE"]),
         (cmd_get, 0, request [bytes "GET", bytes "ak"])])).map Prod.snd
      = some [bytes "+OK\r\n", bytes "+OK\r\n", bytes "+OK\r\n", bytes ":0\r\n", bytes ":1\r\n",
              bytes ":4\r\n", bytes "$1\r\na\r\n", bytes ":1\r\n", bytes ":3\r\n",
              bytes "$1\r\n2\r\n"] := by
  decide

/-- C12, refuted as worded: on a key holding the string `v`, `LPOP` and `RPOP` reply nil
and `LRANGE` replies the empty array, not the `WRONGTYPE` error; `LLEN` and `LPUSH` on the
same key, and `GET` on a list, do reply `WRONGTYPE`. -/
theorem c12_pop_and_range_on_string_reply_no_error :
    ((db_create 0).bind (serve
        [(cmd_set, 0, request [bytes "SET", bytes "k", bytes "v"]),
         (cmd_lpop, 0, request [bytes "LPOP", bytes "k"]),
         (cmd_rpop, 0, request [bytes "RPOP", bytes "k"]),
         (cmd_lrange, 0, request [bytes "LRANGE", bytes "k", bytes "0", bytes "-1"]),
         (cmd_llen, 0, request [bytes "LLEN", bytes "k"]),
         (cmd_lpush, 0, request [bytes "LPUSH", bytes "k", bytes "a"]),
         (cmd_rpush, 0, request [bytes "RPUSH", bytes "q", bytes "a"]),
         (cmd_get, 0, request [bytes "GET", bytes "q"])])).map Prod.snd
      = some [bytes "+OK\r\n", bytes "$-1\r\n", bytes "$-1\r\n", bytes "*0\r\n",
              bytes "-WRONGTYPE Operation against a key holding the wrong kind of value\r\n",
              bytes "-WRONGTYPE Operation against a key holding the wrong kind of value\r\n",
              bytes ":1\r\n",
              bytes "-WRONGTYPE Operation against a key holding the wrong kind of value\r\n"] := by
  decide

/-- C13, refuted on the code: on a fresh database, after `SET k -9223372036854775807` the
command `DECR k` replies `ERR value is not an integer or out of range`, and the value
stored under `k` has changed: `GET k` replies `-9223372036854775808`. The new value is
`INT64_MIN`, which `db_incr` also returns to signal a type error. -/
theorem c13_decr_replies_error_and_changes_value :
    ((db_create 0).bind (serve
        [(cmd_set, 0, request [bytes "SET", bytes "k", bytes "-9223372036854775807"]),
         (cmd_get, 0, request [bytes "GET", bytes "k"]),
         (cmd_decr, 0, request [bytes "DECR", bytes "k"]),
         (cmd_get, 0, request [bytes "GET", bytes "k"])])).map Prod.snd
      = some [bytes "+OK\r\n", bytes "$20\r\n-9223372036854775807\r\n",
              bytes "-ERR value is not an integer or out of range\r\n",
              bytes "$20\r\n-9223372036854775808\r\n"] := by
  decide

set_option maxRecDepth 1000000 in
/-- C15, refuted on the code: after `SET k old` for the forty-five keys of `grow_keys` on a
fresh database and `EXPIRE al 100` (so that `TTL al` replies 100), `SET al new` replies
`+OK`, and then `TTL al` still replies 100 and `GET al` still replies `old`. The `SET`
grows the table; the rebuild misplaces the old entry, the insertion that follows wraps
around the table and carries the new entry away, and the lookup finds the old one. -/
theorem c15_set_keeps_old_deadline :
    ((db_create 0).bind (serve (grow_requests ++
        [(cmd_expire, 0, request [bytes "EXPIRE", bytes "al", bytes "100"]),
         (cmd_ttl, 0, request [bytes "TTL", bytes "al"]),
         (cmd_set, 0, request [bytes "SET", bytes "al", bytes "new"]),
         (cmd_ttl, 0, request [bytes "TTL", bytes "al"]),
         (cmd_get, 0, request [bytes "GET", bytes "al"])]))).map Prod.snd
      = some (grow_replies ++ [bytes ":1\r\n", bytes ":100\r\n", bytes "+OK\r\n",
              bytes ":100\r\n", bytes "$3\r\nold\r\n"]) := by
  rfl

/-- C16, refuted as worded: `k` is set at clock 1000 with a deadline one second later; at
clock 5000 `PERSIST k` replies 0 and the entry is not left as it was: it is removed, and
`DBSIZE` goes from 1 to 0. -/
theorem c16_persist_removes_expired_entry :
    ((db_create 0).bind (serve
        [(cmd_set, 1000, request [bytes "SET", bytes "k", bytes "v", bytes "EX", bytes "1"]),
         (cmd_dbsize, 5000, request [bytes "DBSIZE"]),
         (cmd_persist, 5000, request [bytes "PERSIST", bytes "k"]),
         (cmd_dbsize, 5000, request [bytes "DBSIZE"])])).map Prod.snd
      = some [bytes "+OK\r\n", bytes ":1\r\n", bytes ":0\r\n", bytes ":0\r\n"] := by
  decide

set_option maxRecDepth 100000 in
/-- C17, refuted as worded: after `EXPIRE k 0` at clock 1000 (reply 1), `EXISTS k` at the
same clock value replies 1 and `GET k` replies the value: the deadline is the clock value
itself and the key is dead only once the clock is past it. -/
theorem c17_expire_zero_alive_at_same_clock :
    ((db_create 0).bind (serve
        [(cmd_set, 1000, request [bytes "SET", bytes "k", bytes "v"]),
         (cmd_expire, 1000, request [bytes "EXPIRE", bytes "k", bytes "0"]),
         (cmd_exists, 1000, request [bytes "EXISTS", bytes "k"]),
         (cmd_get, 1000, request [bytes "GET", bytes "k"])])).map Prod.snd
      = some [bytes "+OK\r\n", bytes ":1\r\n", bytes ":1\r\n", bytes "$1\r\nv\r\n"] := by
  rfl

/-- C19, refuted as worded: `k` is set at clock 1000 with a deadline one second later; at
clock 5000 no key is live, and `DBSIZE` replies 1. -/
theorem c19_dbsize_counts_expired_entry :
    ((db_create 0).bind (serve
        [(cmd_set, 1000, request [bytes "SET", bytes "k", bytes "v", bytes "EX", bytes "1"])])).bind
      (fun r => (cmd_dbsize r.1 5000 (request [bytes "DBSIZE"])).map
        (fun r1 => (live_key_count r.1 5000, r1.2)))
      = some (0, bytes ":1\r\n") := by
  decide

/-- C20, refuted as worded: the frame `*-1\r\n` is parsed whole (5 bytes) as the nil
value, and the nil value is written as `$-1\r\n`. -/
theorem c20_nil_array_is_rewritten :
    (resp_parse (bytes "*-1\r\n")).ret = 5 ∧
    (resp_parse (bytes "*-1\r\n")).out.bind resp_serialize = some (bytes "$-1\r\n") ∧
    bytes "$-1\r\n" ≠ bytes "*-1\r\n" := by
  decide

/-! ## Wrong kind of value -/

/-- C12 (amended): on a key that is present and not expired, `GET` of a list replies
the `WRONGTYPE` error; on a string or an integer `LPUSH`, `RPUSH` and `LLEN` reply the
`WRONGTYPE` error, `LPOP` and `RPOP` reply nil and `LRANGE` replies the empty array.
In every case the keyspace is left as it was. -/
theorem c12_wrong_kind_replies (db : database_t) (now : Int) (key : CStr) (idx : Nat)
    (entry : db_entry_t) (name v a b : CStr) (vs : List CStr)
    (hh : db_holds db key idx entry) (ha : ¬ entry_expired entry now) :
    match entry.obj with
    | .list _ =>
      cmd_get db now (request [name, key]) = some (db,
        bytes "-WRONGTYPE Operation against a key holding the wrong kind of value\r\n")
    | _ =>
      cmd_lpush db now (request (name :: key :: v :: vs)) = some (db,
        bytes "-WRONGTYPE Operation against a key holding the wrong kind of value\r\n") ∧
      cmd_rpush db now (request (name :: key :: v :: vs)) = some (db,
        bytes "-WRONGTYPE Operation against a key holding the wrong kind of value\r\n") ∧
      cmd_llen db now (request [name, key]) = some (db,
        bytes "-WRONGTYPE Operation against a key holding the wrong kind of value\r\n") ∧
      cmd_lpop db now (request [name, key]) = some (db, bytes "$-1\r\n") ∧
      cmd_rpop db now (request [name, key]) = some (db, bytes "$-1\r\n") ∧
      cmd_lrange db now (request [name, key, a, b]) = some (db, bytes "*0\r\n") := by
  have hc := check_expired_holds now hh ha
  have hl := db_lookup_holds hh
  have hnil : resp_write_nil = bytes "$-1\r\n" := by decide
  have hz : resp_write_array_header 0 = bytes "*0\r\n" := by decide
  cases ho : entry.obj with
  | list l =>
    simp only [cmd_get_plain, db_get_alive now hh ha, ho, cmd_get_reply, wrongtype_frame,
      Option.map_some']
  | str s =>
    have hpush : ∀ push, db_push_with push db now key (some v) = some (db, -1) := by
      intro push
      simp only [db_push_with, hc, hl, ho]
    refine ⟨?_, ?_, ?_, ?_, ?_, ?_⟩
    · have h1 : db_lpush db now key (some v) = some (db, -1) := hpush list_lpush
      unfold cmd_lpush
      rw [cmd_push_with_refused _ _ _ _ _ _ _ _ h1, wrongtype_frame]; rfl
    · have h1 : db_rpush db now key (some v) = some (db, -1) := hpush list_rpush
      unfold cmd_rpush
      rw [cmd_push_with_refused _ _ _ _ _ _ _ _ h1, wrongtype_frame]; rfl
    · simp [cmd_llen_plain, db_llen, hc, hl, ho, wrongtype_frame]
    · simp [cmd_lpop, cmd_pop_with_plain, db_lpop, db_pop_with, hc, hl, ho, hnil]
    · simp [cmd_rpop, cmd_pop_with_plain, db_rpop, db_pop_with, hc, hl, ho, hnil]
    · simp [cmd_lrange_plain, db_lrange, hc, hl, ho, cmd_lrange_items, hz]
  | num n =>
    have hpush : ∀ push, db_push_with push db now key (some v) = some (db, -1) := by
      intro push
      simp only [db_push_with, hc, hl, ho]
    refine ⟨?_, ?_, ?_, ?_, ?_, ?_⟩
    · have h1 : db_lpush db now key (some v) = some (db, -1) := hpush list_lpush
      unfold cmd_lpush
      rw [cmd_push_with_refused _ _ _ _ _ _ _ _ h1, wrongtype_frame]; rfl
    · have h1 : db_rpush db now key (some v) = some (db, -1) := hpush list_rpush
      unfold cmd_rpush
      rw [cmd_push_with_refused _ _ _ _ _ _ _ _ h1, wrongtype_frame]; rfl
    · simp [cmd_llen_plain, db_llen, hc, hl, ho, wrongtype_frame]
    · simp [cmd_lpop, cmd_pop_with_plain, db_lpop, db_pop_with, hc, hl, ho, hnil]
    · simp [cmd_rpop, cmd_pop_with_plain, db_rpop, db_pop_with, hc, hl, ho, hnil]
    · simp [cmd_lrange_plain, db_lrange, hc, hl, ho, cmd_lrange_items, hz]

/-- C12 amended, at a key holding the string `v` (`LPOP`) and at a key holding the list
`[a, b, c]` (`GET`). -/
theorem c12_wrong_kind_replies_witness :
    (db_holds (db_single (bytes "k") (.str (some (bytes "v"))) (-1)) (bytes "k")
        (probe_index 64 (ht_hash (bytes "k")) 0)
        { obj := .str (some (bytes "v")), expire := -1 } ∧
      ¬ entry_expired { obj := .str (some (bytes "v")), expire := -1 } 0 ∧
      cmd_lpop (db_single (bytes "k") (.str (some (bytes "v"))) (-1)) 0
          (request [bytes "LPOP", bytes "k"]) =
        some (db_single (bytes "k") (.str (some (bytes "v"))) (-1), bytes "$-1\r\n")) ∧
    (db_holds (db_single (bytes "q") (.list list_abc) (-1)) (bytes "q")
        (probe_index 64 (ht_hash (bytes "q")) 0) { obj := .list list_abc, expire := -1 } ∧
      ¬ entry_expired { obj := .list list_abc, expire := -1 } 0 ∧
      cmd_get (db_single (bytes "q") (.list list_abc) (-1)) 0
          (request [bytes "GET", bytes "q"]) =
        some (db_single (bytes "q") (.list list_abc) (-1),
          bytes "-WRONGTYPE Operation against a key holding the wrong kind of value\r\n")) :=
  ⟨⟨db_holds_single _ _ _, by simp [entry_expired],
    (c12_wrong_kind_replies _ 0 _ _ _ (bytes "LPOP") (bytes "a") (bytes "0") (bytes "1") []
      (db_holds_single (bytes "k") (.str (some (bytes "v"))) (-1))
      (by simp [entry_expired])).2.2.2.1⟩,
   ⟨db_holds_single _ _ _, by simp [entry_expired],
    c12_wrong_kind_replies _ 0 _ _ _ (bytes "GET") (bytes "a") (bytes "0") (bytes "1") []
      (db_holds_single (bytes "q") (.list list_abc) (-1)) (by simp [entry_expired])⟩⟩

/-! ## Deadlines -/

theorem db_ttl_missing {db : database_t} {key : CStr} (now : Int)
    (hf : ht_find db.ht key = some none) : db_ttl db now key = some (db, -2) := by
  simp [db_ttl, db_get_entry_missing now hf]

theorem db_ttl_no_deadline {db : database_t} {key : CStr} {idx : Nat} {entry : db_entry_t}
    (now : Int) (hh : db_holds db key idx entry) (hd : entry.expire < 0) :
    db_ttl db now key = some (db, -1) := by
  have ha : ¬ (entry.expire ≥ 0 ∧ now > entry.expire) := by omega
  simp [db_ttl, db_get_entry_alive now hh.1 hh.2 ha, hd]

theorem db_ttl_deadline {db : database_t} {key : CStr} {idx : Nat} {entry : db_entry_t}
    (now : Int) (hh : db_holds db key idx entry) (hd : 0 ≤ entry.expire)
    (hn : now ≤ entry.expire) (hr : entry.expire - now ≤ LLONG_MAX) :
    db_ttl db now key = some (db, (entry.expire - now) / 1000) := by
  have ha : ¬ (entry.expire ≥ 0 ∧ now > entry.expire) := by omega
  have hnd : ¬ entry.expire < 0 := by omega
  have h64 : to_int64 (entry.expire - now) = entry.expire - now :=
    to_int64_of_range _ (by unfold LLONG_MIN; omega) hr
  have hdiv : Int.tdiv (entry.expire - now) 1000 = (entry.expire - now) / 1000 :=
    Int.tdiv_eq_ediv (by omega) (by decide)
  simp only [db_ttl, db_get_entry_alive now hh.1 hh.2 ha, hnd, if_false, h64, hdiv]
  by_cases hp : (entry.expire - now) / 1000 > 0
  · simp only [hp, if_true]
  · simp only [hp, if_false]
    have : (entry.expire - now) / 1000 = 0 := by omega
    rw [this]

theorem db_expire_holds {db : database_t} {key : CStr} {idx : Nat} {entry : db_entry_t}
    (now seconds : Int) (hh : db_holds db key idx entry) (ha : ¬ entry_expired entry now)
    (h1 : LLONG_MIN ≤ seconds * 1000) (h2 : seconds * 1000 ≤ LLONG_MAX)
    (h3 : LLONG_MIN ≤ now + seconds * 1000) (h4 : now + seconds * 1000 ≤ LLONG_MAX) :
    db_expire db now key seconds =
      some (db_store db idx { entry with expire := now + seconds * 1000 }, 1) := by
  have e1 : to_int64 (seconds * 1000) = seconds * 1000 := to_int64_of_range _ h1 h2
  have e2 : to_int64 (now + seconds * 1000) = now + seconds * 1000 := to_int64_of_range _ h3 h4
  simp only [db_expire, db_get_entry_alive now hh.1 hh.2 ha, e1, e2]

/-- C14: `db_ttl` returns -2 for a key that is not in the table and -1 for a key
without a deadline; and when `EXPIRE k 10` is served at the clock reading `t` for a
key that is present and not expired (`t` not negative, the deadline `t + 10000`
within `int64_t`), it replies 1 and `TTL k` served at any `t'` with
`t ≤ t' < t + 10000` replies an integer between 0 and 10. -/
theorem c14_ttl_answers (db : database_t) (key : CStr) (idx : Nat) (entry : db_entry_t)
    (t t' : Int) (name1 name2 : CStr) :
    (ht_find db.ht key = some none → db_ttl db t key = some (db, -2)) ∧
    (db_holds db key idx entry → entry.expire < 0 → db_ttl db t key = some (db, -1)) ∧
    (db_holds db key idx entry → ¬ entry_expired entry t → 0 ≤ t → t + 10000 ≤ LLONG_MAX →
      t ≤ t' → t' < t + 10000 →
      ∃ db1 r, cmd_expire db t (request [name1, key, bytes "10"]) = some (db1, bytes ":1\r\n") ∧
        db_ttl db1 t' key = some (db1, r) ∧ 0 ≤ r ∧ r ≤ 10 ∧
        cmd_ttl db1 t' (request [name2, key]) = some (db1, resp_write_integer r)) := by
  refine ⟨db_ttl_missing t, db_ttl_no_deadline t, ?_⟩
  intro hh ha h0 hmax hle hlt
  have hs : (strtoll (bytes "10")).val = 10 := by decide
  have hone : resp_write_integer 1 = bytes ":1\r\n" := by decide
  unfold LLONG_MAX at hmax
  have he := db_expire_holds t 10 hh ha (by unfold LLONG_MIN; omega)
    (by unfold LLONG_MAX; omega) (by unfold LLONG_MIN; omega) (by unfold LLONG_MAX; omega)
  have hh1 := db_holds_store { entry with expire := t + 10 * 1000 } hh
  have ht := db_ttl_deadline t' hh1 (by simp only []; omega) (by simp only []; omega)
    (by unfold LLONG_MAX; simp only []; omega)
  refine ⟨_, _, ?_, ht, ?_, ?_, ?_⟩
  · simp only [cmd_expire_plain, hs, he, hone]
  · simp only []; omega
  · simp only []; omega
  · simp only [cmd_ttl_plain, ht]

/-- C14 at an empty keyspace, at a key without a deadline, and for `EXPIRE k 10` at the
clock reading 1000 followed by `TTL k` at 4000. -/
theorem c14_ttl_answers_witness :
    (ht_find ({ ht := ht_fresh db_entry_t, last_expire_sweep := 0 } : database_t).ht
        (bytes "k") = some none ∧
      db_ttl { ht := ht_fresh db_entry_t, last_expire_sweep := 0 } 1000 (bytes "k") =
        some ({ ht := ht_fresh db_entry_t, last_expire_sweep := 0 }, -2)) ∧
    (db_holds (db_single (bytes "k") (.str (some (bytes "v"))) (-1)) (bytes "k")
        (probe_index 64 (ht_hash (bytes "k")) 0)
        { obj := .str (some (bytes "v")), expire := -1 } ∧
      db_ttl (db_single (bytes "k") (.str (some (bytes "v"))) (-1)) 1000 (bytes "k") =
        some (db_single (bytes "k") (.str (some (bytes "v"))) (-1), -1)) ∧
    ¬ entry_expired { obj := .str (some (bytes "v")), expire := -1 } 1000 ∧
    (0 : Int) ≤ 1000 ∧ (1000 : Int) + 10000 ≤ LLONG_MAX ∧ (1000 : Int) ≤ 4000 ∧
    (4000 : Int) < 1000 + 10000 ∧
    ∃ db1 r, cmd_expire (db_single (bytes "k") (.str (some (bytes "v"))) (-1)) 1000
        (request [bytes "EXPIRE", bytes "k", bytes "10"]) = some (db1, bytes ":1\r\n") ∧
      db_ttl db1 4000 (bytes "k") = some (db1, r) ∧ 0 ≤ r ∧ r ≤ 10 ∧
      cmd_ttl db1 4000 (request [bytes "TTL", bytes "k"]) = some (db1, resp_write_integer r) :=
  ⟨⟨ht_find_fresh _,
    (c14_ttl_answers { ht := ht_fresh db_entry_t, last_expire_sweep := 0 } (bytes "k") 0
      { obj := .num 0, expire := -1 } 1000 1000 [] []).1 (ht_find_fresh _)⟩,
   ⟨db_holds_single _ _ _,
    (c14_ttl_answers _ (bytes "k") _ _ 1000 1000 [] []).2.1 (db_holds_single _ _ _)
      (by decide)⟩,
   by simp [entry_expired], by decide, by decide, by decide, by decide,
   (c14_ttl_answers _ (bytes "k") _ _ 1000 4000 (bytes "EXPIRE") (bytes "TTL")).2.2
      (db_holds_single _ _ _) (by simp [entry_expired]) (by decide) (by decide) (by decide)
      (by decide)⟩

theorem ht_fresh_with_wf {α : Type} (key : CStr) (value : Option α) :
    ht_wf (ht_fresh_with key value) := by
  have hz := counts_replicate_zero α 64
  have hc := counts_set_live_empty (List.replicate 64 (ht_entry_t.zero : ht_entry_t α))
    (probe_index 64 (ht_hash key) 0)
    { key := some key, value := value, hash := ht_hash key, occupied := 1 }
    (by simp only [List.length_replicate]; exact probe_index_lt_64 _ _) rfl
    (by rw [slot_at_replicate]; rfl)
  refine ⟨⟨6, rfl⟩, Nat.le_refl 64, by simp [ht_fresh_with, ht_fresh], ?_, ?_⟩
  · simp only [ht_fresh_with, ht_fresh, hc.1, hz.1]
  · simp only [ht_fresh_with, ht_fresh, hc.2.1, hz.2.1]

theorem db_single_wf (k : CStr) (obj : dbobj_t) (expire : Int) :
    ht_wf (db_single k obj expire).ht := ht_fresh_with_wf _ _

theorem db_get_entry_passed {db : database_t} {key : CStr} {idx : Nat} {entry : db_entry_t}
    (now : Int) (hwf : ht_wf db.ht) (hh : db_holds db key idx entry)
    (he : entry_expired entry now) :
    ∃ ht, ht_delete db.ht key = some (ht, 1) ∧ ht_wf ht ∧ ht.size + 1 = db.ht.size ∧
      check_expired db now key = some ({ db with ht := ht }, 1) ∧
      db_get_entry db now key = some ({ db with ht := ht }, none) := by
  obtain ⟨ht, hd, hw, hs, hc⟩ := check_expired_passed hwf hh.1 hh.2 he
  exact ⟨ht, hd, hw, hs, hc, by simp [db_get_entry, hc]⟩

/-- C16 (amended): `db_persist` returns 1 exactly for a key that is present, not
expired and has a deadline; the deadline is then cleared, `db_ttl` returns -1 and
`db_get` returns the object stored before. It returns 0 for a key that is not in the
table and for a key without a deadline, and leaves the keyspace as it was; and it
returns 0 for an entry whose deadline has passed, which it deletes from the table. -/
theorem c16_persist_cases (db : database_t) (key : CStr) (idx : Nat) (entry : db_entry_t)
    (now t' : Int) :
    (ht_find db.ht key = some none → db_persist db now key = some (db, 0)) ∧
    (db_holds db key idx entry → entry.expire < 0 → db_persist db now key = some (db, 0)) ∧
    (db_holds db key idx entry → 0 ≤ entry.expire → now ≤ entry.expire →
      db_persist db now key = some (db_store db idx { entry with expire := -1 }, 1) ∧
      db_ttl (db_store db idx { entry with expire := -1 }) t' key =
        some (db_store db idx { entry with expire := -1 }, -1) ∧
      db_get (db_store db idx { entry with expire := -1 }) t' key =
        some (db_store db idx { entry with expire := -1 }, some entry.obj)) ∧
    (ht_wf db.ht → db_holds db key idx entry → 0 ≤ entry.expire → now > entry.expire →
      ∃ ht, ht_delete db.ht key = some (ht, 1) ∧ ht.size + 1 = db.ht.size ∧
        db_persist db now key = some ({ db with ht := ht }, 0)) := by
  refine ⟨?_, ?_, ?_, ?_⟩
  · intro hf
    simp [db_persist, db_get_entry_missing now hf]
  · intro hh hd
    have ha : ¬ (entry.expire ≥ 0 ∧ now > entry.expire) := by omega
    simp [db_persist, db_get_entry_alive now hh.1 hh.2 ha, hd]
  · intro hh hd hn
    have ha : ¬ (entry.expire ≥ 0 ∧ now > entry.expire) := by omega
    have hnd : ¬ entry.expire < 0 := by omega
    have hh1 := db_holds_store { entry with expire := -1 } hh
    have h2 := db_ttl_no_deadline t' hh1 (show (-1 : Int) < 0 by decide)
    have h3 := db_get_alive t' hh1 (by simp [entry_expired])
    refine ⟨?_, h2, h3⟩
    simp only [db_persist, db_get_entry_alive now hh.1 hh.2 ha, hnd, if_false]
  · intro hwf hh hd hn
    obtain ⟨ht, hdel, _, hs, _, hg⟩ := db_get_entry_passed now hwf hh ⟨hd, hn⟩
    exact ⟨ht, hdel, hs, by simp only [db_persist, hg]⟩

/-- C16 amended, at an empty keyspace, at a key without a deadline, and at a key with the
deadline 2000, before the deadline (clock 1000) and after it (clock 5000). -/
theorem c16_persist_cases_witness :
    (ht_find ({ ht := ht_fresh db_entry_t, last_expire_sweep := 0 } : database_t).ht
        (bytes "k") = some none ∧
      db_persist { ht := ht_fresh db_entry_t, last_expire_sweep := 0 } 1000 (bytes "k") =
        some ({ ht := ht_fresh db_entry_t, last_expire_sweep := 0 }, 0)) ∧
    (db_holds (db_single (bytes "k") (.str (some (bytes "v"))) (-1)) (bytes "k")
        (probe_index 64 (ht_hash (bytes "k")) 0)
        { obj := .str (some (bytes "v")), expire := -1 } ∧
      db_persist (db_single (bytes "k") (.str (some (bytes "v"))) (-1)) 1000 (bytes "k") =
        some (db_single (bytes "k") (.str (some (bytes "v"))) (-1), 0)) ∧
    (db_holds (db_single (bytes "k") (.str (some (bytes "v"))) 2000) (bytes "k")
        (probe_index 64 (ht_hash (bytes "k")) 0)
        { obj := .str (some (bytes "v")), expire := 2000 } ∧
      (0 : Int) ≤ 2000 ∧ (1000 : Int) ≤ 2000 ∧
      db_persist (db_single (bytes "k") (.str (some (bytes "v"))) 2000) 1000 (bytes "k") =
        some (db_store (db_single (bytes "k") (.str (some (bytes "v"))) 2000)
          (probe_index 64 (ht_hash (bytes "k")) 0)
          { obj := .str (some (bytes "v")), expire := -1 }, 1)) ∧
    (ht_wf (db_single (bytes "k") (.str (some (bytes "v"))) 2000).ht ∧ (5000 : Int) > 2000 ∧
      ∃ ht, ht_delete (db_single (bytes "k") (.str (some (bytes "v"))) 2000).ht (bytes "k") =
          some (ht, 1) ∧
        ht.size + 1 = (db_single (bytes "k") (.str (some (bytes "v"))) 2000).ht.size ∧
        db_persist (db_single (bytes "k") (.str (some (bytes "v"))) 2000) 5000 (bytes "k") =
          some ({ db_single (bytes "k") (.str (some (bytes "v"))) 2000 with ht := ht }, 0)) :=
  ⟨⟨ht_find_fresh _,
    (c16_persist_cases { ht := ht_fresh db_entry_t, last_expire_sweep := 0 } (bytes "k") 0
      { obj := .num 0, expire := -1 } 1000 1000).1 (ht_find_fresh _)⟩,
   ⟨db_holds_single _ _ _,
    (c16_persist_cases _ (bytes "k") _ _ 1000 1000).2.1 (db_holds_single _ _ _) (by decide)⟩,
   ⟨db_holds_single _ _ _, by decide, by decide,
    ((c16_persist_cases _ (bytes "k") _ _ 1000 1000).2.2.1 (db_holds_single _ _ _) (by decide)
      (by decide)).1⟩,
   ⟨db_single_wf _ _ _, by decide,
    (c16_persist_cases _ (bytes "k") _ _ 5000 5000).2.2.2 (db_single_wf _ _ _)
      (db_holds_single _ _ _) (by decide) (by decide)⟩⟩

/-- C17 (amended): when `EXPIRE k seconds` with `seconds ≤ 0` is served at the clock
reading `t` for a key that is present and not expired, and the deadline
`t + 1000 * seconds` is not negative, the reply is 1, and at every clock reading
later than that deadline the next `EXISTS k` replies 0 and the next `GET k` replies
nil. -/
theorem c17_expire_then_access (db : database_t) (key : CStr) (idx : Nat) (entry : db_entry_t)
    (t t' : Int) (s name1 name2 name3 : CStr)
    (hwf : ht_wf db.ht) (hh : db_holds db key idx entry) (ha : ¬ entry_expired entry t)
    (hs : (strtoll s).val ≤ 0) (h1 : LLONG_MIN ≤ (strtoll s).val * 1000)
    (h0 : 0 ≤ t + (strtoll s).val * 1000) (ht : t ≤ LLONG_MAX)
    (hlt : t + (strtoll s).val * 1000 < t') :
    ∃ db1, cmd_expire db t (request [name1, key, s]) = some (db1, bytes ":1\r\n") ∧
      (∃ db2, cmd_exists db1 t' (request [name2, key]) = some (db2, bytes ":0\r\n")) ∧
      (∃ db2, cmd_get db1 t' (request [name3, key]) = some (db2, bytes "$-1\r\n")) := by
  have hone : resp_write_integer 1 = bytes ":1\r\n" := by decide
  have hzero : resp_write_integer 0 = bytes ":0\r\n" := by decide
  have hnil : resp_write_nil = bytes "$-1\r\n" := by decide
  have he := db_expire_holds t (strtoll s).val hh ha h1 (by unfold LLONG_MAX; omega)
    (by unfold LLONG_MIN; omega) (by omega)
  have hh1 := db_holds_store { entry with expire := t + (strtoll s).val * 1000 } hh
  obtain ⟨ht1, _, _, _, hc, hg⟩ := db_get_entry_passed t'
    (db_store_wf idx { entry with expire := t + (strtoll s).val * 1000 } hwf) hh1 ⟨h0, hlt⟩
  have hx : cmd_exists (db_store db idx { entry with expire := t + (strtoll s).val * 1000 }) t'
      (request [name2, key]) =
      some ({ db_store db idx { entry with expire := t + (strtoll s).val * 1000 } with
        ht := ht1 }, bytes ":0\r\n") := by
    simp only [cmd_exists_plain, db_exists, hc, hzero]
    rfl
  have hy : cmd_get (db_store db idx { entry with expire := t + (strtoll s).val * 1000 }) t'
      (request [name3, key]) =
      some ({ db_store db idx { entry with expire := t + (strtoll s).val * 1000 } with
        ht := ht1 }, bytes "$-1\r\n") := by
    simp only [cmd_get_plain, db_get, hg, Option.map_none', cmd_get_reply, hnil,
      Option.map_some']
  exact ⟨db_store db idx { entry with expire := t + (strtoll s).val * 1000 },
    by simp only [cmd_expire_plain, he, hone], ⟨_, hx⟩, ⟨_, hy⟩⟩

/-- C17 amended, for `EXPIRE k -2` at the clock reading 5000 and the accesses at 5000. -/
theorem c17_expire_then_access_witness :
    ht_wf (db_single (bytes "k") (.str (some (bytes "v"))) (-1)).ht ∧
    db_holds (db_single (bytes "k") (.str (some (bytes "v"))) (-1)) (bytes "k")
      (probe_index 64 (ht_hash (bytes "k")) 0)
      { obj := .str (some (bytes "v")), expire := -1 } ∧
    ¬ entry_expired { obj := .str (some (bytes "v")), expire := -1 } 5000 ∧
    (strtoll (bytes "-2")).val ≤ 0 ∧ LLONG_MIN ≤ (strtoll (bytes "-2")).val * 1000 ∧
    0 ≤ 5000 + (strtoll (bytes "-2")).val * 1000 ∧ (5000 : Int) ≤ LLONG_MAX ∧
    5000 + (strtoll (bytes "-2")).val * 1000 < 5000 ∧
    ∃ db1, cmd_expire (db_single (bytes "k") (.str (some (bytes "v"))) (-1)) 5000
        (request [bytes "EXPIRE", bytes "k", bytes "-2"]) = some (db1, bytes ":1\r\n") ∧
      (∃ db2, cmd_exists db1 5000 (request [bytes "EXISTS", bytes "k"]) =
        some (db2, bytes ":0\r\n")) ∧
      (∃ db2, cmd_get db1 5000 (request [bytes "GET", bytes "k"]) =
        some (db2, bytes "$-1\r\n")) :=
  ⟨db_single_wf _ _ _, db_holds_single _ _ _, by simp [entry_expired], by decide, by decide,
    by decide, by decide, by decide,
    c17_expire_then_access _ (bytes "k") _ _ 5000 5000 (bytes "-2") (bytes "EXPIRE")
      (bytes "EXISTS") (bytes "GET") (db_single_wf _ _ _) (db_holds_single _ _ _)
      (by simp [entry_expired]) (by decide) (by decide) (by decide) (by decide) (by decide)⟩

/-! ## Lazy expiry -/

theorem live_key_count_le (db : database_t) (now : Int) :
    live_key_count db now ≤ count_live db.ht.entries := by
  unfold live_key_count count_live
  apply List.countP_mono_left
  intro e _ h
  simp only [Bool.and_eq_true, decide_eq_true_eq] at h
  simp only [decide_eq_true_eq]
  exact h.1

/-- C19 (amended): after every sequence of keyspace commands served on a fresh
database, `DBSIZE` replies the number of live slots of the table, that is the number
of entries stored, those whose deadline has passed but which no access has deleted
yet included; this number is at least the number of keys that are present and not
expired at the time of the call. -/
theorem c19_dbsize_counts_stored_entries (t : Int)
    (reqs : List (cmd_handler_t × Int × resp_value_t)) (db0 db : database_t)
    (replies : List (List Nat)) (now : Int) (cmd : resp_value_t)
    (h0 : db_create t = some db0) (hq : ∀ q ∈ reqs, q.1 ∈ keyspace_handlers)
    (hs : serve reqs db0 = some (db, replies)) :
    cmd_dbsize db now cmd =
      some (db, resp_write_integer (to_int64 (count_live db.ht.entries))) ∧
    live_key_count db now ≤ count_live db.ht.entries := by
  have hwf := serve_wf reqs db0 db replies hq (db_create_wf h0) hs
  refine ⟨?_, live_key_count_le db now⟩
  simp only [cmd_dbsize, db_size, ht_size, hwf.size_eq]

set_option maxRecDepth 100000 in
/-- C19 amended, after `SET k v EX 1` served at the clock reading 1000 on a fresh
database, with `DBSIZE` asked at 5000. -/
theorem c19_dbsize_counts_stored_entries_witness :
    db_create 0 = some { ht := ht_fresh db_entry_t, last_expire_sweep := 0 } ∧
    (∀ q ∈ [(cmd_set, (1000 : Int),
        request [bytes "SET", bytes "k", bytes "v", bytes "EX", bytes "1"])],
      q.1 ∈ keyspace_handlers) ∧
    serve [(cmd_set, 1000, request [bytes "SET", bytes "k", bytes "v", bytes "EX", bytes "1"])]
        { ht := ht_fresh db_entry_t, last_expire_sweep := 0 } =
      some (db_single (bytes "k") (.str (some (bytes "v"))) 2000, [bytes "+OK\r\n"]) ∧
    cmd_dbsize (db_single (bytes "k") (.str (some (bytes "v"))) 2000) 5000
        (request [bytes "DBSIZE"]) =
      some (db_single (bytes "k") (.str (some (bytes "v"))) 2000,
        resp_write_integer (to_int64 (count_live
          (db_single (bytes "k") (.str (some (bytes "v"))) 2000).ht.entries))) :=
  ⟨rfl, by simp [keyspace_handlers], by rfl,
    (c19_dbsize_counts_stored_entries 0
      [(cmd_set, 1000, request [bytes "SET", bytes "k", bytes "v", bytes "EX", bytes "1"])]
      _ _ _ 5000 (request [bytes "DBSIZE"]) rfl (by simp [keyspace_handlers]) (by rfl)).1⟩

/-! ## The codec -/

theorem takeWhile_append_stop {β : Type} (p : β → Bool) (ds : List β) (x : β) (rest : List β)
    (hds : ∀ d ∈ ds, p d = true) (hx : p x = false) :
    (ds ++ x :: rest).takeWhile p = ds := by
  induction ds with
  | nil => simp [List.takeWhile_cons, hx]
  | cons d ds ih =>
    have hd := hds d (List.mem_cons_self _ _)
    simp only [List.cons_append, List.takeWhile_cons, hd, if_true]
    rw [ih (fun y hy => hds y (List.mem_cons_of_mem _ hy))]

/-- The digits `fmt_nat_aux` pushes in front of `acc`: not empty, all decimal digits,
and of value `n`. -/
theorem fmt_nat_aux_digits : ∀ (fuel n : Nat) (acc : List Nat), n < fuel →
    ∃ ds, fmt_nat_aux fuel n acc = ds ++ acc ∧ ds ≠ [] ∧ (∀ d ∈ ds, c_isdigit d = true) ∧
      ∀ init : Nat, ds.foldl (fun a d => a * 10 + (d - 48)) init = init * 10 ^ ds.length + n := by
  intro fuel
  induction fuel with
  | zero => intro n acc h; omega
  | succ k ih =>
    intro n acc hn
    rw [fmt_nat_aux]
    by_cases h10 : n < 10
    · simp only [h10, if_true]
      refine ⟨[48 + n], rfl, by simp, ?_, ?_⟩
      · intro d hd
        simp only [List.mem_singleton] at hd
        subst hd
        simp only [c_isdigit, Bool.and_eq_true, decide_eq_true_eq]
        omega
      · intro init
        simp only [List.foldl_cons, List.foldl_nil, List.length_singleton, pow_one]
        omega
    · simp only [h10, if_false]
      obtain ⟨ds, he, hne, hdig, hval⟩ := ih (n / 10) ((48 + n % 10) :: acc) (by omega)
      refine ⟨ds ++ [48 + n % 10], by rw [he]; simp, by simp, ?_, ?_⟩
      · intro d hd
        rcases List.mem_append.mp hd with h1 | h1
        · exact hdig d h1
        · simp only [List.mem_singleton] at h1
          subst h1
          simp only [c_isdigit, Bool.and_eq_true, decide_eq_true_eq]
          omega
      · intro init
        rw [List.foldl_append, hval init]
        simp only [List.foldl_cons, List.foldl_nil, List.length_append, List.length_singleton,
          pow_succ]
        have : init * 10 ^ ds.length * 10 = init * (10 ^ ds.length * 10) := Nat.mul_assoc _ _ _
        generalize init * (10 ^ ds.length * 10) = X at *
        generalize init * 10 ^ ds.length = Y at *
        omega

theorem fmt_nat_digits (n : Nat) :
    fmt_nat n ≠ [] ∧ (∀ d ∈ fmt_nat n, c_isdigit d = true) ∧ dec_value (fmt_nat n) = n := by
  obtain ⟨ds, he, hne, hdig, hval⟩ := fmt_nat_aux_digits (n + 1) n [] (by omega)
  rw [List.append_nil] at he
  unfold fmt_nat dec_value
  rw [he]
  refine ⟨hne, hdig, ?_⟩
  simpa using hval 0

theorem isdigit_ne_13 {d : Nat} (h : c_isdigit d = true) : d ≠ 13 ∧ d ≠ 45 ∧ d ≠ 43 ∧
    c_isspace d = false := by
  simp only [c_isdigit, Bool.and_eq_true, decide_eq_true_eq] at h
  refine ⟨by omega, by omega, by omega, ?_⟩
  simp only [c_isspace, Bool.or_eq_false_iff, beq_eq_false_iff_ne, ne_eq, Bool.and_eq_false_iff,
    decide_eq_false_iff_not]
  omega

/-- Library `strtoll` reads back what `printf` wrote for `%lld`, up to a byte that is
no digit. -/
theorem strtoll_fmt_int (n : Int) (x : Nat) (rest : List Nat) (hx : c_isdigit x = false)
    (h1 : LLONG_MIN ≤ n) (h2 : n ≤ LLONG_MAX) : (strtoll (fmt_int n ++ x :: rest)).val = n := by
  unfold fmt_int
  by_cases hn : n < 0
  · simp only [hn, if_true]
    obtain ⟨hne, hdig, hval⟩ := fmt_nat_digits n.natAbs
    have htw := takeWhile_append_stop c_isdigit (fmt_nat n.natAbs) x rest hdig hx
    have hsp : c_isspace 45 = false := by decide
    unfold strtoll
    simp only [List.cons_append, List.dropWhile_cons, hsp, Bool.false_eq_true, if_false,
      List.head?_cons, true_or, if_true, List.tail_cons, htw, hne, hval]
    have hv : -((n.natAbs : Nat) : Int) = n := by omega
    simp only [decide_True, if_true, hv]
    have a1 : ¬ n > LLONG_MAX := by omega
    have a2 : ¬ n < LLONG_MIN := by omega
    simp only [a1, a2, if_false]
  · simp only [hn, if_false]
    obtain ⟨hne, hdig, hval⟩ := fmt_nat_digits n.toNat
    have htw := takeWhile_append_stop c_isdigit (fmt_nat n.toNat) x rest hdig hx
    obtain ⟨d, ds, hds⟩ := List.exists_cons_of_ne_nil hne
    have hd : c_isdigit d = true := hdig d (by rw [hds]; exact List.mem_cons_self _ _)
    obtain ⟨_, hd45, hd43, hdsp⟩ := isdigit_ne_13 hd
    unfold strtoll
    rw [hds] at htw hval ⊢
    have hs1 : ¬ (some d = some 45 ∨ some d = some 43) := by
      simp only [Option.some.injEq, not_or]
      exact ⟨hd45, hd43⟩
    have hneg : ¬ (some d = some 45) := by
      simp only [Option.some.injEq]; exact hd45
    simp only [List.cons_append, List.dropWhile_cons, hdsp, Bool.false_eq_true, if_false,
      List.head?_cons, Option.some.injEq, hd45, hd43, or_self, decide_False] at htw ⊢
    rw [htw]
    simp only [hval]
    have hv : ((n.toNat : Nat) : Int) = n := by omega
    rw [hv]
    have a1 : ¬ n > LLONG_MAX := by omega
    have a2 : ¬ n < LLONG_MIN := by omega
    simp only [a1, a2, if_false]
    simp

theorem fmt_int_of_nat (k : Nat) : fmt_int (k : Int) = fmt_nat k := by
  unfold fmt_int
  have h : ¬ ((k : Int) < 0) := by omega
  simp only [h, if_false, Int.toNat_ofNat]

theorem atoi_fmt_nat (k x : Nat) (rest : List Nat) (hx : c_isdigit x = false)
    (hk : k < 2 ^ 31) : atoi (fmt_nat k ++ x :: rest) = (k : Int) := by
  unfold atoi
  rw [← fmt_int_of_nat, strtoll_fmt_int (k : Int) x rest hx (by unfold LLONG_MIN; omega)
    (by unfold LLONG_MAX; omega)]
  exact to_int32_of_lt k hk

theorem atoi_minus_one (rest : List Nat) : atoi (45 :: 49 :: 13 :: rest) = -1 := by
  have h := strtoll_fmt_int (-1) 13 rest (by decide) (by decide) (by decide)
  have hf : fmt_int (-1) = [45, 49] := by decide
  rw [hf] at h
  unfold atoi
  simp only [List.cons_append, List.nil_append] at h
  rw [h]
  decide

theorem fmt_int_no_cr (n : Int) : ∀ b ∈ fmt_int n, b ≠ 13 := by
  intro b hb
  unfold fmt_int at hb
  split at hb
  · rcases List.mem_cons.mp hb with h | h
    · omega
    · exact (isdigit_ne_13 ((fmt_nat_digits _).2.1 b h)).1
  · exact (isdigit_ne_13 ((fmt_nat_digits _).2.1 b hb)).1

theorem fmt_nat_no_cr (n : Nat) : ∀ b ∈ fmt_nat n, b ≠ 13 := fun b hb =>
  (isdigit_ne_13 ((fmt_nat_digits _).2.1 b hb)).1

/-- Source `find_crlf` stops at the first CR LF: behind a prefix without CR. -/
theorem find_crlf_behind (pre rest : List Nat) (h : ∀ b ∈ pre, b ≠ 13) :
    find_crlf (pre ++ 13 :: 10 :: rest) = some pre.length := by
  induction pre with
  | nil => simp [find_crlf]
  | cons b pre ih =>
    have hb := h b (List.mem_cons_self _ _)
    rw [List.cons_append, find_crlf]
    simp only [hb, false_and, if_false]
    rw [ih (fun y hy => h y (List.mem_cons_of_mem _ hy))]
    rfl

/-- Source `imdb_strndup` copies `n` bytes when none of them is NUL. -/
theorem imdb_strndup_whole (s rest : List Nat) (h : ∀ b ∈ s, b ≠ 0) :
    imdb_strndup (s ++ rest) s.length = s := by
  unfold imdb_strndup
  rw [List.take_left']
  · rw [List.takeWhile_eq_self_iff]
    intro b hb
    simpa using h b hb
  · rfl

theorem value_depth_le_of_mem : ∀ (items : List resp_value_t) (x : resp_value_t),
    x ∈ items → value_depth x ≤ values_depth items := by
  intro items
  induction items with
  | nil => intro x hx; simp at hx
  | cons v rest ih =>
    intro x hx
    rw [values_depth]
    rcases List.mem_cons.mp hx with h | h
    · subst h; exact Nat.le_max_left _ _
    · exact Nat.le_trans (ih x h) (Nat.le_max_right _ _)

theorem values_ok_mem : ∀ (items : List resp_value_t), values_ok items →
    ∀ x ∈ items, value_ok x := by
  intro items
  induction items with
  | nil => intro _ x hx; simp at hx
  | cons v rest ih =>
    intro hok x hx
    rw [values_ok] at hok
    rcases List.mem_cons.mp hx with h | h
    · subst h; exact hok.1
    · exact ih hok.2 x h

theorem frame_of_length_pos (v : resp_value_t) : 0 < (frame_of v).length := by
  cases v <;> simp [frame_of]

/-- The element loop of the array parser on the frames of `todo`, given that the
element parser reads every one of these frames. -/
theorem resp_parse_items_frames (parse : List Nat → parse_result) :
    ∀ (todo done : List resp_value_t) (pre rest : List Nat),
      (∀ x ∈ todo, ∀ tail : List Nat,
        parse (frame_of x ++ tail) = { ret := ((frame_of x).length : Int), out := some x }) →
      pre.length + (frames_of todo).length < 2 ^ 31 →
      resp_parse_items parse todo.length (pre ++ frames_of todo ++ rest) pre.length done =
        { ret := ((pre.length + (frames_of todo).length : Nat) : Int),
          out := some (.array (done ++ todo)) } := by
  intro todo
  induction todo with
  | nil =>
    intro done pre rest _ hlen
    simp only [frames_of, List.length_nil, Nat.add_zero, resp_parse_items, List.append_nil] at hlen ⊢
    rw [to_int32_of_lt _ hlen]
  | cons x xs ih =>
    intro done pre rest hparse hlen
    simp only [frames_of, List.length_append] at hlen
    have hx := hparse x (List.mem_cons_self _ _) (frames_of xs ++ rest)
    have hdrop : (pre ++ frames_of (x :: xs) ++ rest).drop pre.length =
        frame_of x ++ (frames_of xs ++ rest) := by
      simp only [frames_of, List.append_assoc]
      rw [List.drop_left']
      rfl
    have hpos := frame_of_length_pos x
    simp only [List.length_cons, resp_parse_items, hdrop, hx]
    have hnot : ¬ (((frame_of x).length : Int) ≤ 0) := by omega
    simp only [hnot, if_false, Int.toNat_ofNat]
    have hre : pre ++ frames_of (x :: xs) ++ rest = (pre ++ frame_of x) ++ frames_of xs ++ rest := by
      simp only [frames_of, List.append_assoc]
    have hl : pre.length + (frame_of x).length = (pre ++ frame_of x).length := by
      simp only [List.length_append]
    rw [hre, hl, ih (done ++ [x]) (pre ++ frame_of x) rest
      (fun y hy => hparse y (List.mem_cons_of_mem _ hy))
      (by simp only [List.length_append]; omega)]
    simp only [List.length_append, List.append_assoc, List.singleton_append, frames_of,
      Nat.add_assoc]

theorem resp_parse_value_line (c : Nat) (pre tail : List Nat) (hc : c ≠ 13)
    (hpre : ∀ b ∈ pre, b ≠ 13) :
    (c :: (pre ++ 13 :: 10 :: tail)).length ≠ 0 ∧
    find_crlf (c :: (pre ++ 13 :: 10 :: tail)) = some (pre.length + 1) := by
  refine ⟨by simp, ?_⟩
  have h := find_crlf_behind (c :: pre) tail (by
    intro b hb
    rcases List.mem_cons.mp hb with h | h
    · omega
    · exact hpre b h)
  simpa using h

theorem drop_line (c : Nat) (pre tail : List Nat) :
    (c :: (pre ++ 13 :: 10 :: tail)).drop (pre.length + 1 + 2) = tail := by
  have h : c :: (pre ++ 13 :: 10 :: tail) = (c :: pre ++ [13, 10]) ++ tail := by simp
  rw [h, List.drop_left']
  simp

theorem frames_of_length_ge : ∀ (items : List resp_value_t),
    items.length ≤ (frames_of items).length := by
  intro items
  induction items with
  | nil => simp [frames_of]
  | cons v rest ih =>
    have := frame_of_length_pos v
    simp only [frames_of, List.length_cons, List.length_append]
    omega

theorem frame_length_le_of_mem : ∀ (items : List resp_value_t) (x : resp_value_t),
    x ∈ items → (frame_of x).length ≤ (frames_of items).length := by
  intro items
  induction items with
  | nil => intro x hx; simp at hx
  | cons v rest ih =>
    intro x hx
    simp only [frames_of, List.length_append]
    rcases List.mem_cons.mp hx with h | h
    · subst h; omega
    · have := ih x h; omega

/-- Source `resp_parse_value` reads the frame of every value of `value_ok` back,
consuming the frame and nothing more, whatever follows it in the buffer. -/
theorem resp_parse_value_frame : ∀ (fuel : Nat) (v : resp_value_t) (rest : List Nat),
    value_depth v < fuel → value_ok v → (frame_of v).length < 2 ^ 31 →
    resp_parse_value fuel (frame_of v ++ rest) =
      { ret := ((frame_of v).length : Int), out := some v } := by
  intro fuel
  induction fuel with
  | zero => intro v rest h; omega
  | succ k ih =>
    intro v rest hdepth hok hlen
    cases v with
    | simple_string s =>
      rw [value_ok] at hok
      obtain ⟨hl, hcr⟩ := resp_parse_value_line 43 s rest (by decide) (fun b hb => (hok.2 b hb).2)
      have hbuf : frame_of (.simple_string s) ++ rest = 43 :: (s ++ 13 :: 10 :: rest) := by
        simp [frame_of]
      have hdup := imdb_strndup_whole s (13 :: 10 :: rest) (fun b hb => (hok.2 b hb).1)
      have h32 : to_int32 ((s.length + 1 + 2 : Nat) : Int) = ((s.length + 1 + 2 : Nat) : Int) :=
        to_int32_of_lt _ (by have := hok.1; omega)
      rw [hbuf, resp_parse_value]
      simp only [hl, if_false, hcr, List.head?_cons, List.drop_succ_cons, List.drop_zero,
        Nat.add_sub_cancel, hdup]
      rw [h32]
      simp [frame_of]
      omega
    | error s =>
      rw [value_ok] at hok
      obtain ⟨hl, hcr⟩ := resp_parse_value_line 45 s rest (by decide) (fun b hb => (hok.2 b hb).2)
      have hbuf : frame_of (.error s) ++ rest = 45 :: (s ++ 13 :: 10 :: rest) := by
        simp [frame_of]
      have hdup := imdb_strndup_whole s (13 :: 10 :: rest) (fun b hb => (hok.2 b hb).1)
      have h32 : to_int32 ((s.length + 1 + 2 : Nat) : Int) = ((s.length + 1 + 2 : Nat) : Int) :=
        to_int32_of_lt _ (by have := hok.1; omega)
      rw [hbuf, resp_parse_value]
      simp only [hl, if_false, hcr, List.head?_cons, List.drop_succ_cons, List.drop_zero,
        Nat.add_sub_cancel, hdup]
      rw [h32]
      simp [frame_of]
      omega
    | integer n =>
      rw [value_ok] at hok
      obtain ⟨hl, hcr⟩ := resp_parse_value_line 58 (fmt_int n) rest (by decide) (fmt_int_no_cr n)
      have hbuf : frame_of (.integer n) ++ rest = 58 :: (fmt_int n ++ 13 :: 10 :: rest) := by
        simp [frame_of]
      have hval := strtoll_fmt_int n 13 (10 :: rest) (by decide) hok.1 hok.2
      have hfl : (frame_of (.integer n)).length = (fmt_int n).length + 1 + 2 := by
        simp [frame_of]
      have h32 : to_int32 (((fmt_int n).length + 1 + 2 : Nat) : Int) =
          (((fmt_int n).length + 1 + 2 : Nat) : Int) := to_int32_of_lt _ (by omega)
      rw [hbuf, resp_parse_value]
      simp only [hl, if_false, hcr, List.head?_cons, List.drop_succ_cons, List.drop_zero, hval]
      rw [h32, hfl]
    | bulk_string s =>
      rw [value_ok] at hok
      obtain ⟨hl, hcr⟩ := resp_parse_value_line 36 (fmt_nat s.length) (s ++ 13 :: 10 :: rest)
        (by decide) (fmt_nat_no_cr _)
      have hbuf : frame_of (.bulk_string s) ++ rest =
          36 :: (fmt_nat s.length ++ 13 :: 10 :: (s ++ 13 :: 10 :: rest)) := by
        simp [frame_of]
      have hfl : (frame_of (.bulk_string s)).length =
          (fmt_nat s.length).length + 1 + 2 + s.length + 2 := by
        simp [frame_of]; omega
      have hat := atoi_fmt_nat s.length 13 (10 :: (s ++ 13 :: 10 :: rest)) (by decide) (by omega)
      have hdup := imdb_strndup_whole s (13 :: 10 :: rest) hok
      have hdrop := drop_line 36 (fmt_nat s.length) (s ++ 13 :: 10 :: rest)
      have h32 : to_int32 (((fmt_nat s.length).length + 1 + 2 + s.length + 2 : Nat) : Int) =
          (((fmt_nat s.length).length + 1 + 2 + s.length + 2 : Nat) : Int) :=
        to_int32_of_lt _ (by omega)
      have e32 : (((fmt_nat s.length).length + 1 + 2 : Nat) : Int) + (s.length : Int) + 2 =
          (((fmt_nat s.length).length + 1 + 2 + s.length + 2 : Nat) : Int) := by omega
      have c1 : ¬ ((s.length : Int) = -1) := by omega
      have c2 : ¬ ((s.length : Int) < 0) := by omega
      have c3 : ¬ ((fmt_nat s.length).length + 1 + 2 + s.length + 2 >
          (36 :: (fmt_nat s.length ++ 13 :: 10 :: (s ++ 13 :: 10 :: rest))).length) := by
        simp only [List.length_cons, List.length_append]; omega
      rw [hbuf, resp_parse_value]
      simp only [hl, if_false, hcr, List.head?_cons, List.drop_succ_cons, List.drop_zero, hat,
        c1, c2, Int.toNat_ofNat, c3, hdrop, hdup]
      rw [e32, h32, hfl]
    | nil =>
      obtain ⟨hl, hcr⟩ := resp_parse_value_line 36 [45, 49] rest (by decide) (by decide)
      have hcr1 : find_crlf (36 :: 45 :: 49 :: 13 :: 10 :: rest) = some 3 := by simpa using hcr
      have hbuf : frame_of .nil ++ rest = 36 :: 45 :: 49 :: 13 :: 10 :: rest := by
        simp [frame_of]
      have hat := atoi_minus_one (10 :: rest)
      have h5 : to_int32 ((3 + 2 : Nat) : Int) = 5 := by decide
      rw [hbuf, resp_parse_value]
      simp only [List.length_cons, Nat.succ_ne_zero, if_false, hcr1, List.head?_cons,
        List.drop_succ_cons, List.drop_zero, hat, if_true, h5]
      simp [frame_of]
    | array items =>
      rw [value_ok] at hok
      rw [value_depth] at hdepth
      obtain ⟨hl, hcr⟩ := resp_parse_value_line 42 (fmt_nat items.length)
        (frames_of items ++ rest) (by decide) (fmt_nat_no_cr _)
      have hbuf : frame_of (.array items) ++ rest =
          42 :: (fmt_nat items.length ++ 13 :: 10 :: (frames_of items ++ rest)) := by
        simp [frame_of]
      have hfl : (frame_of (.array items)).length =
          (fmt_nat items.length).length + 1 + 2 + (frames_of items).length := by
        simp [frame_of]; omega
      have hge := frames_of_length_ge items
      have hat := atoi_fmt_nat items.length 13 (10 :: (frames_of items ++ rest)) (by decide)
        (by omega)
      have c1 : ¬ ((items.length : Int) = -1) := by omega
      have c2 : ¬ ((items.length : Int) < 0) := by omega
      have hpre : (42 :: (fmt_nat items.length ++ 13 :: 10 :: (frames_of items ++ rest))) =
          (42 :: fmt_nat items.length ++ [13, 10]) ++ frames_of items ++ rest := by simp
      have hpl : (fmt_nat items.length).length + 1 + 2 =
          (42 :: fmt_nat items.length ++ [13, 10]).length := by simp
      have hitems := resp_parse_items_frames (resp_parse_value k) items []
        (42 :: fmt_nat items.length ++ [13, 10]) rest
        (fun x hx tail => ih x tail
          (by have := value_depth_le_of_mem items x hx; omega)
          (values_ok_mem items hok x hx)
          (by have := frame_length_le_of_mem items x hx; omega))
        (by rw [← hpl]; omega)
      rw [hbuf, resp_parse_value]
      simp only [hl, if_false, hcr, List.head?_cons, List.drop_succ_cons, List.drop_zero, hat,
        c1, c2, Int.toNat_ofNat, Nat.reduceAdd]
      rw [hpre, hpl, hitems, hfl, ← hpl]
      simp

theorem values_depth_le_frames : ∀ (items : List resp_value_t),
    (∀ x ∈ items, value_depth x < (frame_of x).length) →
    values_depth items ≤ (frames_of items).length := by
  intro items
  induction items with
  | nil => intro _; simp [values_depth]
  | cons v rest ih =>
    intro h
    have h1 := h v (List.mem_cons_self _ _)
    have h2 := ih (fun x hx => h x (List.mem_cons_of_mem _ hx))
    simp only [values_depth, frames_of, List.length_append]
    omega

/-- A frame is longer than the nesting of the value it carries, so `resp_parse`
grants `resp_parse_value` enough nesting. -/
theorem value_depth_lt_frame : ∀ (n : Nat) (v : resp_value_t),
    value_depth v < n → value_depth v < (frame_of v).length := by
  intro n
  induction n with
  | zero => intro v h; omega
  | succ k ih =>
    intro v h
    cases v with
    | array items =>
      rw [value_depth] at h ⊢
      have hi := values_depth_le_frames items (fun x hx => ih x (by
        have := value_depth_le_of_mem items x hx; omega))
      simp only [frame_of, List.length_cons, List.length_append, List.length_nil]
      omega
    | simple_string s => simp [value_depth, frame_of]
    | error s => simp [value_depth, frame_of]
    | integer m => simp [value_depth, frame_of]
    | bulk_string s => simp [value_depth, frame_of]
    | nil => simp [value_depth, frame_of]

theorem resp_serialize_items_frames : ∀ (items : List resp_value_t),
    (∀ x ∈ items, resp_serialize x = some (frame_of x)) →
    resp_serialize_items items = some (frames_of items) := by
  intro items
  induction items with
  | nil => intro _; simp [resp_serialize_items, frames_of]
  | cons v rest ih =>
    intro h
    rw [resp_serialize_items, h v (List.mem_cons_self _ _),
      ih (fun x hx => h x (List.mem_cons_of_mem _ hx))]
    simp [frames_of]

/-- The reply writers produce the frame of every value of `value_ok`. -/
theorem resp_serialize_frame : ∀ (n : Nat) (v : resp_value_t),
    value_depth v < n → value_ok v → resp_serialize v = some (frame_of v) := by
  intro n
  induction n with
  | zero => intro v h; omega
  | succ k ih =>
    intro v hdepth hok
    cases v with
    | simple_string s =>
      rw [value_ok] at hok
      have hl : (43 :: s ++ CRLF).length < 128 := by
        have := hok.1
        simp [CRLF]; omega
      simp only [resp_serialize, resp_write_simple_string, resp_buf_appendf, hl, if_true]
      simp [frame_of, CRLF]
    | error s =>
      rw [value_ok] at hok
      have hl : (45 :: s ++ CRLF).length < 128 := by
        have := hok.1
        simp [CRLF]; omega
      simp only [resp_serialize, resp_write_error, resp_buf_appendf, hl, if_true]
      simp [frame_of, CRLF]
    | integer m => simp [resp_serialize, resp_write_integer, frame_of, CRLF]
    | bulk_string s => simp [resp_serialize, resp_write_bulk_string, frame_of, CRLF]
    | nil => simp [resp_serialize, resp_write_nil, frame_of]
    | array items =>
      rw [value_ok] at hok
      rw [value_depth] at hdepth
      have hi := resp_serialize_items_frames items (fun x hx => ih x
        (by have := value_depth_le_of_mem items x hx; omega) (values_ok_mem items hok x hx))
      simp [resp_serialize, hi, resp_write_array_header, frame_of, CRLF]

/-- C20 (amended): take a frame whose simple-string and error texts have at most 124
bytes, none of them NUL or CR, whose integers are `int64_t` values and whose numbers
are written the way `printf` writes them, whose bulk payloads hold no NUL byte and
whose nil is `$-1`, arrays of such frames included, the whole shorter than `2 ^ 31`
bytes. `resp_parse` consumes exactly the frame, whatever follows it in the buffer, and
the value it returns, written back with the `resp_write_*` functions (array header
first, then each element), is the frame byte for byte. -/
theorem c20_codec_round_trip (v : resp_value_t) (rest : List Nat) (hok : value_ok v)
    (hlen : (frame_of v).length < 2 ^ 31) :
    resp_parse (frame_of v ++ rest) = { ret := ((frame_of v).length : Int), out := some v } ∧
    resp_serialize v = some (frame_of v) ∧
    (resp_parse (frame_of v ++ rest)).out.bind resp_serialize = some (frame_of v) := by
  have hd := value_depth_lt_frame (value_depth v + 1) v (Nat.lt_succ_self _)
  have hp : resp_parse (frame_of v ++ rest) =
      { ret := ((frame_of v).length : Int), out := some v } := by
    unfold resp_parse
    exact resp_parse_value_frame _ v rest (by simp only [List.length_append]; omega) hok hlen
  have hs := resp_serialize_frame (value_depth v + 1) v (Nat.lt_succ_self _) hok
  refine ⟨hp, hs, ?_⟩
  rw [hp]
  exact hs

/-- C20 amended, at an array that holds one value of each shape, followed in the buffer
by the start of another frame. -/
theorem c20_codec_round_trip_witness :
    value_ok (.array [.bulk_string (bytes "SET"), .integer (-5), .simple_string (bytes "OK"),
      .error (bytes "ERR no"), .nil, .array [.bulk_string (bytes "a\r\nb")]]) ∧
    (frame_of (.array [.bulk_string (bytes "SET"), .integer (-5), .simple_string (bytes "OK"),
      .error (bytes "ERR no"), .nil, .array [.bulk_string (bytes "a\r\nb")]])).length < 2 ^ 31 ∧
    (resp_parse (frame_of (.array [.bulk_string (bytes "SET"), .integer (-5),
      .simple_string (bytes "OK"), .error (bytes "ERR no"), .nil,
      .array [.bulk_string (bytes "a\r\nb")]]) ++ bytes "+next")).out.bind resp_serialize =
      some (frame_of (.array [.bulk_string (bytes "SET"), .integer (-5),
        .simple_string (bytes "OK"), .error (bytes "ERR no"), .nil,
        .array [.bulk_string (bytes "a\r\nb")]])) :=
  ⟨by simp [value_ok, values_ok, text_ok, bytes, LLONG_MIN, LLONG_MAX], by decide,
    (c20_codec_round_trip _ (bytes "+next")
      (by simp [value_ok, values_ok, text_ok, bytes, LLONG_MIN, LLONG_MAX]) (by decide)).2.2⟩

/-! ## The parser: the nesting bound and the unfolding of `resp_parse` -/

theorem resp_parse_value_succ (k : Nat) (buf : List Nat) :
    resp_parse_value (k + 1) buf = resp_parse_step (resp_parse_value k) buf := by
  rw [resp_parse_value]; rfl

theorem resp_parse_items_congr (P Q : List Nat → parse_result) (buf : List Nat)
    (h : ∀ t : Nat, P (buf.drop (t + 2)) = Q (buf.drop (t + 2))) :
    ∀ (count t : Nat) (items : List resp_value_t),
      resp_parse_items P count buf (t + 2) items = resp_parse_items Q count buf (t + 2) items := by
  intro count
  induction count with
  | zero => intro t items; simp only [resp_parse_items]
  | succ n ih =>
    intro t items
    simp only [resp_parse_items, h t]
    split
    · rfl
    · split
      · have e : t + 2 + (Q (List.drop (t + 2) buf)).ret.toNat =
            (t + (Q (List.drop (t + 2) buf)).ret.toNat) + 2 := by omega
        rw [e]
        exact ih _ _
      · rfl

theorem resp_parse_step_congr (P Q : List Nat → parse_result) (buf : List Nat)
    (h : ∀ t : Nat, P (buf.drop (t + 2)) = Q (buf.drop (t + 2))) :
    resp_parse_step P buf = resp_parse_step Q buf := by
  unfold resp_parse_step
  simp only [resp_parse_items_congr P Q buf h]

/-- The nesting bound of `resp_parse_value` does not matter once it exceeds the
length of the buffer. -/
theorem resp_parse_value_fuel : ∀ (k1 k2 : Nat) (buf : List Nat),
    buf.length < k1 → buf.length < k2 → resp_parse_value k1 buf = resp_parse_value k2 buf := by
  intro k1
  induction k1 with
  | zero => intro k2 buf h; omega
  | succ n ih =>
    intro k2 buf h1 h2
    cases k2 with
    | zero => omega
    | succ m =>
      rw [resp_parse_value_succ, resp_parse_value_succ]
      by_cases hb : buf.length = 0
      · unfold resp_parse_step; simp only [hb, if_true]
      · apply resp_parse_step_congr
        intro t
        apply ih
        · rw [List.length_drop]; omega
        · rw [List.length_drop]; omega

/-- Source `resp_parse` unfolds to the body of `resp_parse_value` with `resp_parse`
itself as the parser of the array elements. -/
theorem resp_parse_fix (buf : List Nat) : resp_parse buf = resp_parse_step resp_parse buf := by
  unfold resp_parse
  rw [resp_parse_value_succ]
  by_cases hb : buf.length = 0
  · unfold resp_parse_step; simp only [hb, if_true]
  · apply resp_parse_step_congr
    intro t
    apply resp_parse_value_fuel
    · rw [List.length_drop]; omega
    · omega

/-! ## Frames read whole and frames cut short -/

theorem frames_valid_mem : ∀ (items : List resp_value_t), frames_valid items →
    ∀ x ∈ items, frame_valid x := by
  intro items
  induction items with
  | nil => intro _ x hx; simp at hx
  | cons v rest ih =>
    intro hok x hx
    rw [frames_valid] at hok
    rcases List.mem_cons.mp hx with h | h
    · subst h; exact hok.1
    · exact ih hok.2 x h

/-- The element loop of the array parser on the frames of `todo` followed by anything,
given that the element parser consumes every one of these frames. -/
theorem resp_parse_items_consumes (parse : List Nat → parse_result) :
    ∀ (todo done : List resp_value_t) (pre rest : List Nat),
      (∀ x ∈ todo, ∀ tail : List Nat, ∃ w,
        parse (frame_of x ++ tail) = { ret := ((frame_of x).length : Int), out := some w }) →
      pre.length + (frames_of todo).length < 2 ^ 31 →
      ∃ ws, resp_parse_items parse todo.length (pre ++ frames_of todo ++ rest) pre.length done =
        { ret := ((pre.length + (frames_of todo).length : Nat) : Int),
          out := some (.array ws) } := by
  intro todo
  induction todo with
  | nil =>
    intro done pre rest _ hlen
    simp only [frames_of, List.length_nil, Nat.add_zero, resp_parse_items, List.append_nil] at hlen ⊢
    rw [to_int32_of_lt _ hlen]
    exact ⟨done, rfl⟩
  | cons x xs ih =>
    intro done pre rest hparse hlen
    simp only [frames_of, List.length_append] at hlen
    obtain ⟨w, hx⟩ := hparse x (List.mem_cons_self _ _) (frames_of xs ++ rest)
    have hdrop : (pre ++ frames_of (x :: xs) ++ rest).drop pre.length =
        frame_of x ++ (frames_of xs ++ rest) := by
      simp only [frames_of, List.append_assoc]
      rw [List.drop_left']
      rfl
    have hpos := frame_of_length_pos x
    simp only [List.length_cons, resp_parse_items, hdrop, hx]
    have hnot : ¬ (((frame_of x).length : Int) ≤ 0) := by omega
    simp only [hnot, if_false, Int.toNat_ofNat]
    have hre : pre ++ frames_of (x :: xs) ++ rest = (pre ++ frame_of x) ++ frames_of xs ++ rest := by
      simp only [frames_of, List.append_assoc]
    have hl : pre.length + (frame_of x).length = (pre ++ frame_of x).length := by
      simp only [List.length_append]
    obtain ⟨ws, hws⟩ := ih (done ++ [w]) (pre ++ frame_of x) rest
      (fun y hy => hparse y (List.mem_cons_of_mem _ hy))
      (by simp only [List.length_append]; omega)
    rw [hre, hl, hws]
    refine ⟨ws, ?_⟩
    simp only [List.length_append, frames_of, Nat.add_assoc]

/-- Source `resp_parse` consumes a valid frame and nothing more, whatever follows it
in the buffer, and constructs a value. -/
theorem resp_parse_consumes : ∀ (n : Nat) (v : resp_value_t), value_depth v < n →
    frame_valid v → (frame_of v).length < 2 ^ 31 → ∀ rest : List Nat, ∃ w,
    resp_parse (frame_of v ++ rest) = { ret := ((frame_of v).length : Int), out := some w } := by
  intro n
  induction n with
  | zero => intro v h; omega
  | succ k ih =>
    intro v hdepth hok hlen rest
    cases v with
    | simple_string s =>
      rw [frame_valid] at hok
      obtain ⟨hl, hcr⟩ := resp_parse_value_line 43 s rest (by decide) hok
      have hbuf : frame_of (.simple_string s) ++ rest = 43 :: (s ++ 13 :: 10 :: rest) := by
        simp [frame_of]
      have hfl : (frame_of (.simple_string s)).length = s.length + 1 + 2 := by
        simp [frame_of]
      have h32 : to_int32 ((s.length + 1 + 2 : Nat) : Int) = ((s.length + 1 + 2 : Nat) : Int) :=
        to_int32_of_lt _ (by omega)
      rw [hbuf, resp_parse_fix]
      unfold resp_parse_step
      simp only [hl, if_false, hcr, List.head?_cons]
      rw [h32, hfl]
      exact ⟨_, rfl⟩
    | error s =>
      rw [frame_valid] at hok
      obtain ⟨hl, hcr⟩ := resp_parse_value_line 45 s rest (by decide) hok
      have hbuf : frame_of (.error s) ++ rest = 45 :: (s ++ 13 :: 10 :: rest) := by
        simp [frame_of]
      have hfl : (frame_of (.error s)).length = s.length + 1 + 2 := by
        simp [frame_of]
      have h32 : to_int32 ((s.length + 1 + 2 : Nat) : Int) = ((s.length + 1 + 2 : Nat) : Int) :=
        to_int32_of_lt _ (by omega)
      rw [hbuf, resp_parse_fix]
      unfold resp_parse_step
      simp only [hl, if_false, hcr, List.head?_cons]
      rw [h32, hfl]
      exact ⟨_, rfl⟩
    | integer m =>
      obtain ⟨hl, hcr⟩ := resp_parse_value_line 58 (fmt_int m) rest (by decide) (fmt_int_no_cr m)
      have hbuf : frame_of (.integer m) ++ rest = 58 :: (fmt_int m ++ 13 :: 10 :: rest) := by
        simp [frame_of]
      have hfl : (frame_of (.integer m)).length = (fmt_int m).length + 1 + 2 := by
        simp [frame_of]
      have h32 : to_int32 (((fmt_int m).length + 1 + 2 : Nat) : Int) =
          (((fmt_int m).length + 1 + 2 : Nat) : Int) := to_int32_of_lt _ (by omega)
      rw [hbuf, resp_parse_fix]
      unfold resp_parse_step
      simp only [hl, if_false, hcr, List.head?_cons]
      rw [h32, hfl]
      exact ⟨_, rfl⟩
    | bulk_string s =>
      obtain ⟨hl, hcr⟩ := resp_parse_value_line 36 (fmt_nat s.length) (s ++ 13 :: 10 :: rest)
        (by decide) (fmt_nat_no_cr _)
      have hbuf : frame_of (.bulk_string s) ++ rest =
          36 :: (fmt_nat s.length ++ 13 :: 10 :: (s ++ 13 :: 10 :: rest)) := by
        simp [frame_of]
      have hfl : (frame_of (.bulk_string s)).length =
          (fmt_nat s.length).length + 1 + 2 + s.length + 2 := by
        simp [frame_of]; omega
      have hat := atoi_fmt_nat s.length 13 (10 :: (s ++ 13 :: 10 :: rest)) (by decide) (by omega)
      have h32 : to_int32 (((fmt_nat s.length).length + 1 + 2 + s.length + 2 : Nat) : Int) =
          (((fmt_nat s.length).length + 1 + 2 + s.length + 2 : Nat) : Int) :=
        to_int32_of_lt _ (by omega)
      have e32 : (((fmt_nat s.length).length + 1 + 2 : Nat) : Int) + (s.length : Int) + 2 =
          (((fmt_nat s.length).length + 1 + 2 + s.length + 2 : Nat) : Int) := by omega
      have c1 : ¬ ((s.length : Int) = -1) := by omega
      have c2 : ¬ ((s.length : Int) < 0) := by omega
      have c3 : ¬ ((fmt_nat s.length).length + 1 + 2 + s.length + 2 >
          (36 :: (fmt_nat s.length ++ 13 :: 10 :: (s ++ 13 :: 10 :: rest))).length) := by
        simp only [List.length_cons, List.length_append]; omega
      rw [hbuf, resp_parse_fix]
      unfold resp_parse_step
      simp only [hl, if_false, hcr, List.head?_cons, List.drop_succ_cons, List.drop_zero, hat,
        c1, c2, Int.toNat_ofNat, c3]
      rw [e32, h32, hfl]
      exact ⟨_, rfl⟩
    | nil =>
      obtain ⟨hl, hcr⟩ := resp_parse_value_line 36 [45, 49] rest (by decide) (by decide)
      have hcr1 : find_crlf (36 :: 45 :: 49 :: 13 :: 10 :: rest) = some 3 := by simpa using hcr
      have hbuf : frame_of .nil ++ rest = 36 :: 45 :: 49 :: 13 :: 10 :: rest := by
        simp [frame_of]
      have hat := atoi_minus_one (10 :: rest)
      have h5 : to_int32 ((3 + 2 : Nat) : Int) = 5 := by decide
      rw [hbuf, resp_parse_fix]
      unfold resp_parse_step
      simp only [List.length_cons, Nat.succ_ne_zero, if_false, hcr1, List.head?_cons,
        List.drop_succ_cons, List.drop_zero, hat, if_true, h5]
      exact ⟨.nil, by simp [frame_of]⟩
    | array items =>
      rw [frame_valid] at hok
      rw [value_depth] at hdepth
      obtain ⟨hl, hcr⟩ := resp_parse_value_line 42 (fmt_nat items.length)
        (frames_of items ++ rest) (by decide) (fmt_nat_no_cr _)
      have hbuf : frame_of (.array items) ++ rest =
          42 :: (fmt_nat items.length ++ 13 :: 10 :: (frames_of items ++ rest)) := by
        simp [frame_of]
      have hfl : (frame_of (.array items)).length =
          (fmt_nat items.length).length + 1 + 2 + (frames_of items).length := by
        simp [frame_of]; omega
      have hge := frames_of_length_ge items
      have hat := atoi_fmt_nat items.length 13 (10 :: (frames_of items ++ rest)) (by decide)
        (by omega)
      have c1 : ¬ ((items.length : Int) = -1) := by omega
      have c2 : ¬ ((items.length : Int) < 0) := by omega
      have hpre : (42 :: (fmt_nat items.length ++ 13 :: 10 :: (frames_of items ++ rest))) =
          (42 :: fmt_nat items.length ++ [13, 10]) ++ frames_of items ++ rest := by simp
      have hpl : (fmt_nat items.length).length + 1 + 2 =
          (42 :: fmt_nat items.length ++ [13, 10]).length := by simp
      obtain ⟨ws, hitems⟩ := resp_parse_items_consumes resp_parse items []
        (42 :: fmt_nat items.length ++ [13, 10]) rest
        (fun x hx tail => ih x
          (by have := value_depth_le_of_mem items x hx; omega)
          (frames_valid_mem items hok x hx)
          (by have := frame_length_le_of_mem items x hx; omega) tail)
        (by rw [← hpl]; omega)
      rw [hbuf, resp_parse_fix]
      unfold resp_parse_step
      simp only [hl, if_false, hcr, List.head?_cons, List.drop_succ_cons, List.drop_zero, hat,
        c1, c2, Int.toNat_ofNat, Nat.reduceAdd]
      rw [hpre, hpl, hitems, hfl, ← hpl]
      exact ⟨.array ws, rfl⟩

theorem resp_parse_no_line (p : List Nat) (h : find_crlf p = none) :
    resp_parse p = { ret := 0, out := none } := by
  rw [resp_parse_fix]
  unfold resp_parse_step
  simp only [h]
  split <;> rfl

/-- A proper prefix of a line holds no CR LF pair. -/
theorem find_crlf_cut_line : ∀ (pre p : List Nat), (∀ b ∈ pre, b ≠ 13) →
    p <+: pre ++ [13, 10] → p.length < pre.length + 2 → find_crlf p = none := by
  intro pre
  induction pre with
  | nil =>
    intro p _ hp hl
    cases p with
    | nil => rfl
    | cons a p =>
      cases p with
      | nil =>
        simp only [List.nil_append, List.cons_prefix_cons] at hp
        simp [find_crlf]
      | cons b p => simp only [List.length_cons, List.length_nil] at hl; omega
  | cons c pre ih =>
    intro p hpre hp hl
    cases p with
    | nil => rfl
    | cons a p =>
      simp only [List.cons_append, List.cons_prefix_cons] at hp
      obtain ⟨ha, hp⟩ := hp
      have hc := hpre c (List.mem_cons_self _ _)
      rw [find_crlf]
      subst ha
      simp only [hc, false_and, if_false]
      rw [ih p (fun y hy => hpre y (List.mem_cons_of_mem _ hy)) hp
        (by simp only [List.length_cons] at hl; omega)]
      rfl

/-- A prefix of `h ++ b` is a prefix of `h`, or `h` followed by a prefix of `b`. -/
theorem cut_append_cases (p h b : List Nat) (hp : p <+: h ++ b) :
    (p.length < h.length ∧ p <+: h) ∨ ∃ q, p = h ++ q ∧ q <+: b := by
  by_cases hl : p.length < h.length
  · exact Or.inl ⟨hl, List.prefix_of_prefix_length_le hp (List.prefix_append _ _) (by omega)⟩
  · right
    obtain ⟨q, hq⟩ := List.prefix_of_prefix_length_le (List.prefix_append h b) hp (by omega)
    refine ⟨q, hq.symm, ?_⟩
    rw [← hq] at hp
    exact (List.prefix_append_right_inj h).mp hp

/-- The element loop of the array parser on a buffer that ends inside the frames of
`todo`: the element that is cut reports 0 and so does the loop. -/
theorem resp_parse_items_cut (parse : List Nat → parse_result) :
    ∀ (todo done : List resp_value_t) (pre q : List Nat),
      (∀ x ∈ todo, ∀ tail : List Nat, ∃ w,
        parse (frame_of x ++ tail) = { ret := ((frame_of x).length : Int), out := some w }) →
      (∀ x ∈ todo, ∀ p : List Nat, p <+: frame_of x → p.length < (frame_of x).length →
        parse p = { ret := 0, out := none }) →
      q <+: frames_of todo → q.length < (frames_of todo).length →
      resp_parse_items parse todo.length (pre ++ q) pre.length done = { ret := 0, out := none } := by
  intro todo
  induction todo with
  | nil =>
    intro done pre q _ _ _ hl
    simp [frames_of] at hl
  | cons x xs ih =>
    intro done pre q hwhole hcut hq hl
    simp only [frames_of] at hq hl
    have hdrop : (pre ++ q).drop pre.length = q := List.drop_left' rfl
    simp only [List.length_cons, resp_parse_items, hdrop]
    rcases cut_append_cases q (frame_of x) (frames_of xs) hq with ⟨h1, h2⟩ | ⟨q1, h1, h2⟩
    · rw [hcut x (List.mem_cons_self _ _) q h2 h1]
      simp
    · obtain ⟨w, hw⟩ := hwhole x (List.mem_cons_self _ _) q1
      have hpos := frame_of_length_pos x
      have hnot : ¬ (((frame_of x).length : Int) ≤ 0) := by omega
      rw [h1, hw]
      simp only [hnot, if_false, Int.toNat_ofNat]
      have hre : pre ++ (frame_of x ++ q1) = (pre ++ frame_of x) ++ q1 := by
        simp only [List.append_assoc]
      have hpl : pre.length + (frame_of x).length = (pre ++ frame_of x).length := by
        simp only [List.length_append]
      rw [hre, hpl]
      apply ih (done ++ [w]) (pre ++ frame_of x) q1
        (fun y hy => hwhole y (List.mem_cons_of_mem _ hy))
        (fun y hy => hcut y (List.mem_cons_of_mem _ hy)) h2
      rw [h1] at hl
      simp only [List.length_append] at hl
      omega

/-- A proper prefix of the line `c :: pre ++ CR LF` is reported as incomplete. -/
theorem resp_parse_cut_line (c : Nat) (pre p : List Nat) (hc : c ≠ 13) (hpre : ∀ b ∈ pre, b ≠ 13)
    (hp : p <+: c :: pre ++ [13, 10]) (hl : p.length < pre.length + 3) :
    resp_parse p = { ret := 0, out := none } := by
  apply resp_parse_no_line
  apply find_crlf_cut_line (c :: pre) p _ hp (by simp only [List.length_cons]; omega)
  intro b hb
  rcases List.mem_cons.mp hb with h | h
  · omega
  · exact hpre b h

/-- Source `resp_parse` on a truncation of a valid frame returns 0 and constructs no
value. -/
theorem resp_parse_cut : ∀ (n : Nat) (v : resp_value_t), value_depth v < n →
    frame_valid v → (frame_of v).length < 2 ^ 31 → ∀ p : List Nat, p <+: frame_of v →
    p.length < (frame_of v).length → resp_parse p = { ret := 0, out := none } := by
  intro n
  induction n with
  | zero => intro v h; omega
  | succ k ih =>
    intro v hdepth hok hlen p hp hl
    cases v with
    | simple_string s =>
      rw [frame_valid] at hok
      exact resp_parse_cut_line 43 s p (by decide) hok hp (by simpa [frame_of] using hl)
    | error s =>
      rw [frame_valid] at hok
      exact resp_parse_cut_line 45 s p (by decide) hok hp (by simpa [frame_of] using hl)
    | integer m =>
      exact resp_parse_cut_line 58 (fmt_int m) p (by decide) (fmt_int_no_cr m) hp
        (by simpa [frame_of] using hl)
    | nil =>
      exact resp_parse_cut_line 36 [45, 49] p (by decide) (by decide) hp
        (by simpa [frame_of] using hl)
    | bulk_string s =>
      have hfl : (frame_of (.bulk_string s)).length =
          (fmt_nat s.length).length + 1 + 2 + s.length + 2 := by
        simp [frame_of]; omega
      have hfr : frame_of (.bulk_string s) =
          (36 :: fmt_nat s.length ++ [13, 10]) ++ (s ++ [13, 10]) := by
        simp [frame_of]
      rw [hfl] at hl hlen
      rw [hfr] at hp
      rcases cut_append_cases p _ _ hp with ⟨h1, h2⟩ | ⟨q, h1, h2⟩
      · exact resp_parse_cut_line 36 (fmt_nat s.length) p (by decide) (fmt_nat_no_cr _) h2
          (by simpa using h1)
      · have hql : q.length < s.length + 2 := by
          rw [h1] at hl
          simp only [List.length_append, List.length_cons, List.length_nil] at hl
          omega
        obtain ⟨hl0, hcr⟩ := resp_parse_value_line 36 (fmt_nat s.length) q
          (by decide) (fmt_nat_no_cr _)
        have hbuf : (36 :: fmt_nat s.length ++ [13, 10]) ++ q =
            36 :: (fmt_nat s.length ++ 13 :: 10 :: q) := by simp
        have hat := atoi_fmt_nat s.length 13 (10 :: q) (by decide) (by omega)
        have c1 : ¬ ((s.length : Int) = -1) := by omega
        have c2 : ¬ ((s.length : Int) < 0) := by omega
        have c3 : (fmt_nat s.length).length + 1 + 2 + s.length + 2 >
            (36 :: (fmt_nat s.length ++ 13 :: 10 :: q)).length := by
          simp only [List.length_cons, List.length_append]; omega
        rw [h1, hbuf, resp_parse_fix]
        unfold resp_parse_step
        simp only [hl0, if_false, hcr, List.head?_cons, List.drop_succ_cons, List.drop_zero, hat,
          c1, c2, Int.toNat_ofNat, c3, if_true]
    | array items =>
      rw [frame_valid] at hok
      rw [value_depth] at hdepth
      have hfl : (frame_of (.array items)).length =
          (fmt_nat items.length).length + 1 + 2 + (frames_of items).length := by
        simp [frame_of]; omega
      have hfr : frame_of (.array items) =
          (42 :: fmt_nat items.length ++ [13, 10]) ++ frames_of items := by
        simp [frame_of]
      rw [hfl] at hl hlen
      rw [hfr] at hp
      rcases cut_append_cases p _ _ hp with ⟨h1, h2⟩ | ⟨q, h1, h2⟩
      · exact resp_parse_cut_line 42 (fmt_nat items.length) p (by decide) (fmt_nat_no_cr _) h2
          (by simpa using h1)
      · have hql : q.length < (frames_of items).length := by
          rw [h1] at hl
          simp only [List.length_append, List.length_cons, List.length_nil] at hl
          omega
        obtain ⟨hl0, hcr⟩ := resp_parse_value_line 42 (fmt_nat items.length) q
          (by decide) (fmt_nat_no_cr _)
        have hbuf : (42 :: fmt_nat items.length ++ [13, 10]) ++ q =
            42 :: (fmt_nat items.length ++ 13 :: 10 :: q) := by simp
        have hge := frames_of_length_ge items
        have hat := atoi_fmt_nat items.length 13 (10 :: q) (by decide) (by omega)
        have c1 : ¬ ((items.length : Int) = -1) := by omega
        have c2 : ¬ ((items.length : Int) < 0) := by omega
        have hpl : (fmt_nat items.length).length + 1 + 2 =
            (42 :: fmt_nat items.length ++ [13, 10]).length := by simp
        have hitems := resp_parse_items_cut resp_parse items []
          (42 :: fmt_nat items.length ++ [13, 10]) q
          (fun x hx tail => resp_parse_consumes k x
            (by have := value_depth_le_of_mem items x hx; omega)
            (frames_valid_mem items hok x hx)
            (by have := frame_length_le_of_mem items x hx; omega) tail)
          (fun x hx p1 hp1 hl1 => ih x
            (by have := value_depth_le_of_mem items x hx; omega)
            (frames_valid_mem items hok x hx)
            (by have := frame_length_le_of_mem items x hx; omega) p1 hp1 hl1)
          h2 hql
        rw [h1, resp_parse_fix]
        rw [hbuf]
        unfold resp_parse_step
        simp only [hl0, if_false, hcr, List.head?_cons, List.drop_succ_cons, List.drop_zero, hat,
          c1, c2, Int.toNat_ofNat, Nat.reduceAdd]
        rw [← hbuf, hpl, hitems]

/-- C21: take a valid frame of section 4.5, the frame of a value whose text lines hold
no CR, arrays of such values nested to any depth included, or the nil array `*-1`,
shorter than `2 ^ 31` bytes. On every proper prefix of the frame, the empty one
included, `resp_parse` returns 0 and constructs no value. -/
theorem c21_truncated_frame_is_incomplete (f p : List Nat) (hf : valid_frame f)
    (hlen : f.length < 2 ^ 31) (hp : p <+: f) (hne : p ≠ f) :
    resp_parse p = { ret := 0, out := none } := by
  have hl : p.length < f.length := by
    rcases Nat.lt_or_ge p.length f.length with h | h
    · exact h
    · exact absurd (List.IsPrefix.eq_of_length_le hp h) hne
  rcases hf with ⟨v, hok, rfl⟩ | rfl
  · exact resp_parse_cut (value_depth v + 1) v (Nat.lt_succ_self _) hok hlen p hp hl
  · exact resp_parse_cut_line 42 [45, 49] p (by decide) (by decide) hp (by simpa [bytes] using hl)

/-- C21 at the frame `*2 $3 GET *2 :5 $-1` cut before its last byte, and at the empty
prefix of `$-1`. -/
theorem c21_truncated_frame_is_incomplete_witness :
    frame_of (.array [.bulk_string (bytes "GET"), .array [.integer 5, .nil]]) =
      bytes "*2\r\n$3\r\nGET\r\n*2\r\n:5\r\n$-1\r\n" ∧
    resp_parse (bytes "*2\r\n$3\r\nGET\r\n*2\r\n:5\r\n$-1\r") = { ret := 0, out := none } ∧
    resp_parse [] = { ret := 0, out := none } :=
  ⟨by decide,
    c21_truncated_frame_is_incomplete
      (frame_of (.array [.bulk_string (bytes "GET"), .array [.integer 5, .nil]]))
      (bytes "*2\r\n$3\r\nGET\r\n*2\r\n:5\r\n$-1\r")
      (Or.inl ⟨_, by simp [frame_valid, frames_valid], rfl⟩) (by decide) ⟨[10], by decide⟩
      (by decide),
    c21_truncated_frame_is_incomplete (frame_of .nil) []
      (Or.inl ⟨.nil, by simp [frame_valid], rfl⟩) (by decide) ⟨_, rfl⟩ (by decide)⟩

/-- The frame of a bulk string of 4294967295 bytes is the line `$4294967295` followed by
the payload and CR LF. -/
theorem bulk_frame_long (s : List Nat) (hs : s.length = 4294967295) :
    frame_of (.bulk_string s) = bytes "$4294967295\r\n" ++ (s ++ [13, 10]) := by
  have h : fmt_nat 4294967295 = bytes "4294967295" := by decide
  have hb : bytes "$4294967295\r\n" = 36 :: (bytes "4294967295" ++ [13, 10]) := by decide
  rw [frame_of, hs, h, hb]
  simp only [List.append_assoc, List.cons_append]

/-- The frame of a bulk string of 4294967295 bytes is a valid frame, and the line
`$4294967295` CR LF is a proper prefix of it. -/
theorem bulk_header_cut (s : List Nat) (hs : s.length = 4294967295) :
    valid_frame (frame_of (.bulk_string s)) ∧
      bytes "$4294967295\r\n" <+: frame_of (.bulk_string s) ∧
      bytes "$4294967295\r\n" ≠ frame_of (.bulk_string s) := by
  refine ⟨Or.inl ⟨.bulk_string s, by rw [frame_valid]; trivial, rfl⟩, ?_, ?_⟩
  · rw [bulk_frame_long s hs]
    exact ⟨_, rfl⟩
  · intro h
    have h2 := congrArg List.length h
    rw [bulk_frame_long s hs, List.length_append, List.length_append, hs] at h2
    omega

/-- C21 fails on a frame of `2 ^ 31` bytes or more: the frame of a bulk string of
4294967295 bytes is valid and the line `$4294967295` CR LF is a proper prefix of it, yet
`resp_parse` on that prefix returns 13 and constructs nil. -/
theorem c21_long_bulk_header_is_read_as_nil :
    valid_frame (frame_of long_bulk) ∧ bytes "$4294967295\r\n" <+: frame_of long_bulk ∧
    bytes "$4294967295\r\n" ≠ frame_of long_bulk ∧
    resp_parse (bytes "$4294967295\r\n") = { ret := 13, out := some .nil } :=
  ⟨(bulk_header_cut _ (List.length_replicate _ _)).1,
    (bulk_header_cut _ (List.length_replicate _ _)).2.1,
    (bulk_header_cut _ (List.length_replicate _ _)).2.2, rfl⟩

/-! ## Scalars written and read back -/

theorem fmt_nat_aux_length : ∀ (fuel n : Nat) (acc : List Nat) (k : Nat), n < 10 ^ k → 0 < k →
    (fmt_nat_aux fuel n acc).length ≤ acc.length + k := by
  intro fuel
  induction fuel with
  | zero => intro n acc k _ hk; simp [fmt_nat_aux]
  | succ f ih =>
    intro n acc k hn hk
    rw [fmt_nat_aux]
    by_cases h10 : n < 10
    · simp only [h10, if_true, List.length_cons]; omega
    · simp only [h10, if_false]
      obtain ⟨j, rfl⟩ : ∃ j, k = j + 1 := ⟨k - 1, by omega⟩
      have hj : 0 < j := by
        rcases Nat.eq_zero_or_pos j with h | h
        · subst h; simp at hn; omega
        · exact h
      have hdiv : n / 10 < 10 ^ j := by
        rw [pow_succ] at hn
        exact Nat.div_lt_of_lt_mul (by omega)
      have := ih (n / 10) ((48 + n % 10) :: acc) j hdiv hj
      simp only [List.length_cons] at this
      omega

theorem fmt_nat_length (n : Nat) (h : n < 2 ^ 64) : (fmt_nat n).length ≤ 20 := by
  have := fmt_nat_aux_length (n + 1) n [] 20 (by
    have : (2 : Nat) ^ 64 < 10 ^ 20 := by norm_num
    omega) (by omega)
  simpa [fmt_nat] using this

theorem fmt_int_length (n : Int) (h1 : LLONG_MIN ≤ n) (h2 : n ≤ LLONG_MAX) :
    (fmt_int n).length ≤ 21 := by
  unfold LLONG_MIN at h1
  unfold LLONG_MAX at h2
  unfold fmt_int
  split
  · have := fmt_nat_length n.natAbs (by omega)
    simp only [List.length_cons]; omega
  · have := fmt_nat_length n.toNat (by omega)
    omega

/-- Source `imdb_strndup` copies the first `n` bytes up to the first NUL. -/
theorem imdb_strndup_left (s rest : List Nat) :
    imdb_strndup (s ++ rest) s.length = s.takeWhile (fun b => b ≠ 0) := by
  unfold imdb_strndup
  rw [List.take_left']
  rfl

/-- Source `resp_parse` on the frame `resp_write_bulk_string` writes: the payload is
skipped by its announced length, the value holds its bytes up to the first NUL. -/
theorem resp_parse_bulk (s rest : List Nat)
    (hlen : (resp_write_bulk_string s s.length).length < 2 ^ 31) :
    resp_parse (resp_write_bulk_string s s.length ++ rest) =
      { ret := ((resp_write_bulk_string s s.length).length : Int),
        out := some (.bulk_string (s.takeWhile (fun b => b ≠ 0))) } := by
  have hw : resp_write_bulk_string s s.length = 36 :: fmt_nat s.length ++ [13, 10] ++ s ++ [13, 10] := by
    simp [resp_write_bulk_string, CRLF]
  rw [hw] at hlen ⊢
  obtain ⟨hl, hcr⟩ := resp_parse_value_line 36 (fmt_nat s.length) (s ++ 13 :: 10 :: rest)
    (by decide) (fmt_nat_no_cr _)
  have hbuf : 36 :: fmt_nat s.length ++ [13, 10] ++ s ++ [13, 10] ++ rest =
      36 :: (fmt_nat s.length ++ 13 :: 10 :: (s ++ 13 :: 10 :: rest)) := by
    simp
  have hfl : (36 :: fmt_nat s.length ++ [13, 10] ++ s ++ [13, 10]).length =
      (fmt_nat s.length).length + 1 + 2 + s.length + 2 := by
    simp; omega
  rw [hfl] at hlen
  have hat := atoi_fmt_nat s.length 13 (10 :: (s ++ 13 :: 10 :: rest)) (by decide) (by omega)
  have hdup := imdb_strndup_left s (13 :: 10 :: rest)
  have hdrop := drop_line 36 (fmt_nat s.length) (s ++ 13 :: 10 :: rest)
  have h32 : to_int32 (((fmt_nat s.length).length + 1 + 2 + s.length + 2 : Nat) : Int) =
      (((fmt_nat s.length).length + 1 + 2 + s.length + 2 : Nat) : Int) :=
    to_int32_of_lt _ (by omega)
  have e32 : (((fmt_nat s.length).length + 1 + 2 : Nat) : Int) + (s.length : Int) + 2 =
      (((fmt_nat s.length).length + 1 + 2 + s.length + 2 : Nat) : Int) := by omega
  have c1 : ¬ ((s.length : Int) = -1) := by omega
  have c2 : ¬ ((s.length : Int) < 0) := by omega
  have c3 : ¬ ((fmt_nat s.length).length + 1 + 2 + s.length + 2 >
      (36 :: (fmt_nat s.length ++ 13 :: 10 :: (s ++ 13 :: 10 :: rest))).length) := by
    simp only [List.length_cons, List.length_append]; omega
  rw [hbuf, resp_parse, resp_parse_value]
  simp only [hl, if_false, hcr, List.head?_cons, List.drop_succ_cons, List.drop_zero, hat,
    c1, c2, Int.toNat_ofNat, c3, hdrop, hdup]
  rw [e32, h32, hfl]

/-- C22, refuted on the code: `resp_write_bulk_string` writes the three bytes `a`, NUL,
`b` as `$3`, the bytes and CR LF; `resp_parse` consumes these nine bytes and returns
the bulk string `a`, since `imdb_strndup` copies up to the first NUL. -/
theorem c22_bulk_string_is_cut_at_nul :
    resp_write_bulk_string [97, 0, 98] 3 = bytes "$3\r\n" ++ [97, 0, 98] ++ bytes "\r\n" ∧
    resp_parse (resp_write_bulk_string [97, 0, 98] 3) =
      { ret := 9, out := some (.bulk_string [97]) } := ⟨rfl, rfl⟩

/-- C22 (amended): for every byte string `s`, CR and LF included, whose frame is shorter
than `2 ^ 31` bytes, `resp_parse` on the output of `resp_write_bulk_string(s, n)`
consumes exactly the bytes written, whatever follows them, and returns the bulk string
that holds `s` up to its first NUL byte, which is `s` itself when `s` holds no NUL; the
output of `resp_write_integer(v)` parses to `v` for every `int64_t` value `v`, and the
output of `resp_write_nil` parses to nil. -/
theorem c22_scalars_read_back (s : List Nat) (v : Int) (rest : List Nat)
    (hlen : (resp_write_bulk_string s s.length).length < 2 ^ 31)
    (hv1 : LLONG_MIN ≤ v) (hv2 : v ≤ LLONG_MAX) :
    resp_parse (resp_write_bulk_string s s.length ++ rest) =
      { ret := ((resp_write_bulk_string s s.length).length : Int),
        out := some (.bulk_string (s.takeWhile (fun b => b ≠ 0))) } ∧
    ((∀ b ∈ s, b ≠ 0) → resp_parse (resp_write_bulk_string s s.length ++ rest) =
      { ret := ((resp_write_bulk_string s s.length).length : Int),
        out := some (.bulk_string s) }) ∧
    resp_parse (resp_write_integer v ++ rest) =
      { ret := ((resp_write_integer v).length : Int), out := some (.integer v) } ∧
    resp_parse (resp_write_nil ++ rest) =
      { ret := (resp_write_nil.length : Int), out := some .nil } := by
  have hb := resp_parse_bulk s rest hlen
  refine ⟨hb, ?_, ?_, ?_⟩
  · intro h0
    rw [hb]
    have : s.takeWhile (fun b => b ≠ 0) = s := by
      rw [List.takeWhile_eq_self_iff]
      intro b hb
      simpa using h0 b hb
    rw [this]
  · have hi : resp_write_integer v = frame_of (.integer v) := by
      simp [resp_write_integer, frame_of, CRLF]
    have hl := fmt_int_length v hv1 hv2
    rw [hi]
    exact resp_parse_value_frame _ (.integer v) rest (by simp [value_depth])
      (by rw [value_ok]; exact ⟨hv1, hv2⟩) (by simp [frame_of]; omega)
  · exact resp_parse_value_frame _ .nil rest (by simp [value_depth]) (by rw [value_ok]; trivial)
      (by decide)

/-- C22 amended, at the payload `a CR LF b`, the integer -42 and nil, each followed in
the buffer by another byte. -/
theorem c22_scalars_read_back_witness :
    resp_parse (resp_write_bulk_string (bytes "a\r\nb") 4 ++ [58]) =
      { ret := 10, out := some (.bulk_string (bytes "a\r\nb")) } ∧
    resp_parse (resp_write_integer (-42) ++ [58]) = { ret := 6, out := some (.integer (-42)) } ∧
    resp_parse (resp_write_nil ++ [58]) = { ret := 5, out := some .nil } :=
  have h := c22_scalars_read_back (bytes "a\r\nb") (-42) [58] (by decide) (by decide) (by decide)
  ⟨h.2.1 (by decide), h.2.2.1, h.2.2.2⟩

/-! ## The first byte and the bytes behind a frame -/

/-- Source `find_crlf` finds a line end exactly when the buffer holds a CR LF pair. -/
theorem find_crlf_isSome_iff (l : List Nat) :
    (find_crlf l).isSome = true ↔ ∃ pre tail, l = pre ++ 13 :: 10 :: tail := by
  induction l with
  | nil => simp [find_crlf]
  | cons c rest ih =>
    rw [find_crlf]
    by_cases hc : c = 13 ∧ rest.head? = some 10
    · simp only [hc, and_self, if_true, Option.isSome_some, true_iff]
      obtain ⟨h1, h2⟩ := hc
      cases rest with
      | nil => simp at h2
      | cons d tail =>
        simp only [List.head?_cons, Option.some.injEq] at h2
        exact ⟨[], tail, by simp [h1, h2]⟩
    · simp only [hc, if_false, Option.isSome_map']
      rw [ih]
      constructor
      · rintro ⟨pre, tail, h⟩
        exact ⟨c :: pre, tail, by simp [h]⟩
      · rintro ⟨pre, tail, h⟩
        cases pre with
        | nil =>
          simp only [List.nil_append, List.cons.injEq] at h
          exact absurd ⟨h.1, by simp [h.2]⟩ hc
        | cons b pre =>
          simp only [List.cons_append, List.cons.injEq] at h
          exact ⟨pre, tail, h.2⟩


/-- C23, refuted on the code: the buffers `x` and `GET k`, whose first byte is none of
`+ - : $ *`, hold no CR LF, and `resp_parse` returns 0 on them, the answer for an
incomplete frame; with CR LF behind `GET k` it returns -1. -/
theorem c23_unknown_first_byte_without_line_end :
    resp_parse (bytes "x") = { ret := 0, out := none } ∧
    resp_parse (bytes "GET k") = { ret := 0, out := none } ∧
    resp_parse (bytes "GET k\r\n") = { ret := -1, out := none } := ⟨rfl, rfl, rfl⟩

/-- C23 (amended): on a buffer whose first byte is none of `+ - : $ *`, `resp_parse`
returns -1 when the buffer holds a CR LF pair somewhere, and 0, as for an incomplete
frame, when it holds none; it constructs no value in either case. -/
theorem c23_unknown_first_byte (c : Nat) (rest : List Nat)
    (h : c ≠ 43 ∧ c ≠ 45 ∧ c ≠ 58 ∧ c ≠ 36 ∧ c ≠ 42) :
    ((∃ pre tail, c :: rest = pre ++ 13 :: 10 :: tail) →
      resp_parse (c :: rest) = { ret := -1, out := none }) ∧
    ((¬ ∃ pre tail, c :: rest = pre ++ 13 :: 10 :: tail) →
      resp_parse (c :: rest) = { ret := 0, out := none }) := by
  obtain ⟨h1, h2, h3, h4, h5⟩ := h
  have hp : resp_parse (c :: rest) =
      { ret := if (find_crlf (c :: rest)).isSome = true then -1 else 0, out := none } := by
    rw [resp_parse_fix]
    unfold resp_parse_step
    cases hf : find_crlf (c :: rest) with
    | none => simp
    | some n =>
      simp only [List.length_cons, Nat.succ_ne_zero, if_false, List.head?_cons,
        Option.isSome_some, if_true]
      split <;> simp_all
  constructor
  · intro hex
    rw [hp, if_pos ((find_crlf_isSome_iff _).mpr hex)]
  · intro hno
    rw [hp, if_neg (fun hs => hno ((find_crlf_isSome_iff _).mp hs))]

/-- C23 amended, at the buffers `xyz CR LF` and `xyz`. -/
theorem c23_unknown_first_byte_witness :
    resp_parse (bytes "xyz\r\n") = { ret := -1, out := none } ∧
    resp_parse (bytes "xyz") = { ret := 0, out := none } :=
  ⟨(c23_unknown_first_byte 120 (bytes "yz\r\n") (by decide)).1 ⟨bytes "xyz", [], by decide⟩,
    (c23_unknown_first_byte 120 (bytes "yz") (by decide)).2
      (fun hex => absurd ((find_crlf_isSome_iff (bytes "xyz")).mpr hex) (by decide))⟩

/-- C24, refuted on the code: on the buffer `: CR LF 5 CR LF` `resp_parse` returns 3 and
the integer 5, on its first three bytes alone it returns 3 and the integer 0; on
`$ CR LF CR LF CR LF CR LF CR LF 5 CR LF abc` it returns 10 and a bulk string of five
bytes, on the first ten bytes of that buffer 5 and the empty bulk string. `strtoll`
and `atoi` are handed the buffer behind the first byte, not the line: they skip the
CR and LF that end an empty number line as white space and read the digits behind. -/
theorem c24_value_read_from_behind_the_frame :
    resp_parse (bytes ":\r\n5\r\n") = { ret := 3, out := some (.integer 5) } ∧
    resp_parse ((bytes ":\r\n5\r\n").take 3) = { ret := 3, out := some (.integer 0) } ∧
    resp_parse (bytes "$\r\n\r\n\r\n\r\n\r\n5\r\nabc") =
      { ret := 10, out := some (.bulk_string (bytes "\r\n\r\n\r")) } ∧
    resp_parse ((bytes "$\r\n\r\n\r\n\r\n\r\n5\r\nabc").take 10) =
      { ret := 5, out := some (.bulk_string []) } := ⟨rfl, rfl, rfl, rfl⟩

/-! ## The dispatch of `command_execute` -/

/-- Source `imdb_strcasecmp` sees its first argument only up to the case of the letters. -/
theorem imdb_strcasecmp_congr : ∀ (a a1 b : CStr), same_letters a a1 →
    imdb_strcasecmp a b = imdb_strcasecmp a1 b := by
  intro a
  induction a with
  | nil =>
    intro a1 b h
    cases a1 with
    | nil => rfl
    | cons x xs => simp [same_letters] at h
  | cons x xs ih =>
    intro a1 b h
    cases a1 with
    | nil => simp [same_letters] at h
    | cons y ys =>
      simp only [same_letters, List.map_cons, List.cons.injEq] at h
      cases b with
      | nil => simp only [imdb_strcasecmp, h.1]
      | cons z zs =>
        simp only [imdb_strcasecmp, h.1]
        rw [ih ys zs h.2]

theorem c_tolower_eq_zero (x : Nat) : c_tolower x = 0 ↔ x = 0 := by
  unfold c_tolower
  split <;> omega

/-- Source `imdb_strcasecmp` returns 0 only for strings equal up to letter case. -/
theorem imdb_strcasecmp_zero : ∀ (a b : CStr), (∀ x ∈ a, x ≠ 0) → (∀ x ∈ b, x ≠ 0) →
    imdb_strcasecmp a b = 0 → same_letters a b := by
  intro a
  induction a with
  | nil =>
    intro b _ hb h
    cases b with
    | nil => rfl
    | cons z zs =>
      simp only [imdb_strcasecmp] at h
      have := (c_tolower_eq_zero z).mp (by omega)
      exact absurd this (hb z (List.mem_cons_self _ _))
  | cons x xs ih =>
    intro b ha hb h
    cases b with
    | nil =>
      simp only [imdb_strcasecmp] at h
      have := (c_tolower_eq_zero x).mp (by omega)
      exact absurd this (ha x (List.mem_cons_self _ _))
    | cons z zs =>
      simp only [imdb_strcasecmp] at h
      by_cases hxz : c_tolower x = c_tolower z
      · simp only [hxz, ne_eq, not_true_eq_false, if_false] at h
        have := ih zs (fun y hy => ha y (List.mem_cons_of_mem _ hy))
          (fun y hy => hb y (List.mem_cons_of_mem _ hy)) h
        simp only [same_letters, List.map_cons, hxz, List.cons.injEq, true_and]
        exact this
      · simp only [ne_eq, hxz, not_false_eq_true, if_true] at h
        omega

theorem command_lookup_congr (name name1 : CStr) (h : same_letters name name1) :
    ∀ table : List (CStr × cmd_handler_t), command_lookup table name = command_lookup table name1 := by
  intro table
  induction table with
  | nil => rfl
  | cons e rest ih =>
    simp only [command_lookup, imdb_strcasecmp_congr name name1 e.1 h, ih]

theorem command_lookup_none (name : CStr) (hname : ∀ x ∈ name, x ≠ 0) :
    ∀ table : List (CStr × cmd_handler_t), (∀ e ∈ table, ∀ x ∈ e.1, x ≠ 0) →
      (∀ e ∈ table, ¬ same_letters name e.1) → command_lookup table name = none := by
  intro table
  induction table with
  | nil => intro _ _; rfl
  | cons e rest ih =>
    intro hnul hno
    have h1 : ¬ imdb_strcasecmp name e.1 = 0 := fun h =>
      hno e (List.mem_cons_self _ _)
        (imdb_strcasecmp_zero name e.1 hname (hnul e (List.mem_cons_self _ _)) h)
    simp only [command_lookup, h1, if_false]
    exact ih (fun y hy => hnul y (List.mem_cons_of_mem _ hy))
      (fun y hy => hno y (List.mem_cons_of_mem _ hy))

theorem command_table_names (disk : Bool) : ∀ e ∈ command_table disk, ∀ x ∈ e.1, x ≠ 0 := by
  intro e he
  simp only [command_table, List.mem_cons, List.mem_singleton, List.not_mem_nil, or_false] at he
  rcases he with h | h | h | h | h | h | h | h | h | h | h | h | h | h | h | h | h | h | h | h | h | h | h <;>
    (subst h; intro x hx; revert x; dsimp only; decide)

/-- Every name of `command_table` finds its own handler. -/
theorem command_table_lookup (disk : Bool) : ∀ e ∈ command_table disk,
    command_lookup (command_table disk) e.1 = some e.2 := by
  intro e he
  simp only [command_table, List.mem_cons, List.mem_singleton, List.not_mem_nil, or_false] at he
  rcases he with h | h | h | h | h | h | h | h | h | h | h | h | h | h | h | h | h | h | h | h | h | h | h <;>
    (subst h; rfl)

theorem command_execute_named (disk : Bool) (db : database_t) (now : Int) (name : CStr)
    (args : List resp_value_t) (h : cmd_handler_t)
    (hl : command_lookup (command_table disk) name = some h) :
    command_execute disk db now (some (.array (.bulk_string name :: args))) =
      h db now (.array (.bulk_string name :: args)) := by
  simp [command_execute, resp_is_array, arg_count, get_arg, hl]

theorem command_execute_unknown (disk : Bool) (db : database_t) (now : Int) (name : CStr)
    (args : List resp_value_t) (hl : command_lookup (command_table disk) name = none)
    (hlen : name.length ≤ 102) :
    command_execute disk db now (some (.array (.bulk_string name :: args))) =
      some (db, bytes "-ERR unknown command '" ++ name ++ bytes "'\r\n") := by
  have h1 : (bytes "ERR unknown command '" ++ name ++ [39]).length = name.length + 22 := by
    simp [bytes]
  have h2 : (bytes "ERR unknown command '" ++ name ++ [39]).take 127 =
      bytes "ERR unknown command '" ++ name ++ [39] := List.take_of_length_le (by omega)
  have h3 : (45 :: (bytes "ERR unknown command '" ++ name ++ [39]) ++ CRLF).length < 128 := by
    simp only [List.length_cons, List.length_append, h1, CRLF, List.length_nil]; omega
  have h0 : command_execute disk db now (some (.array (.bulk_string name :: args))) =
      (resp_write_error ((bytes "ERR unknown command '" ++ name ++ [39]).take 127)).map
        (fun r => (db, r)) := by
    simp [command_execute, resp_is_array, arg_count, get_arg, hl]
  rw [h0, h2]
  unfold resp_write_error resp_buf_appendf
  rw [if_pos h3]
  simp [bytes, CRLF]

theorem same_args_cons (x y : resp_value_t) (args : List resp_value_t) :
    same_args (.array (x :: args)) (.array (y :: args)) := by
  refine ⟨by simp [arg_count], ?_⟩
  intro i
  simp [get_arg]

theorem cmd_set_options_same {c d : resp_value_t} (h : same_args c d) (now : Int) (key : CStr) :
    ∀ (fuel : Nat) (db : database_t) (i : Nat),
      cmd_set_options fuel db now c key (i + 1) = cmd_set_options fuel db now d key (i + 1) := by
  intro fuel
  induction fuel with
  | zero => intro db i; rfl
  | succ k ih =>
    intro db i
    have e : i + 1 + 2 = (i + 2) + 1 := by omega
    simp only [cmd_set_options, h.1, h.2 i, h.2 (i + 1), e, ih]

theorem cmd_del_loop_same {c d : resp_value_t} (h : same_args c d) (now : Int) :
    ∀ (fuel : Nat) (db : database_t) (i : Nat) (deleted : Int),
      cmd_del_loop fuel db now c (i + 1) deleted = cmd_del_loop fuel db now d (i + 1) deleted := by
  intro fuel
  induction fuel with
  | zero => intro db i deleted; rfl
  | succ k ih =>
    intro db i deleted
    simp only [cmd_del_loop, h.1, h.2 i, ih]

theorem cmd_push_loop_same {c d : resp_value_t} (h : same_args c d) (now : Int) (key : CStr)
    (push : database_t → Int → CStr → Option CStr → Option (database_t × Int)) :
    ∀ (fuel : Nat) (db : database_t) (i : Nat) (result : Int),
      cmd_push_loop push fuel db now c key (i + 1) result =
        cmd_push_loop push fuel db now d key (i + 1) result := by
  intro fuel
  induction fuel with
  | zero => intro db i result; rfl
  | succ k ih =>
    intro db i result
    simp only [cmd_push_loop, h.1, h.2 i, ih]

theorem cmd_mset_loop_same {c d : resp_value_t} (h : same_args c d) :
    ∀ (fuel : Nat) (db : database_t) (i : Nat),
      cmd_mset_loop fuel db c (i + 1) = cmd_mset_loop fuel db d (i + 1) := by
  intro fuel
  induction fuel with
  | zero => intro db i; rfl
  | succ k ih =>
    intro db i
    have e : i + 1 + 2 = (i + 2) + 1 := by omega
    simp only [cmd_mset_loop, h.1, h.2 i, h.2 (i + 1), e, ih]

theorem cmd_mget_loop_same {c d : resp_value_t} (h : same_args c d) (now : Int) :
    ∀ (fuel : Nat) (db : database_t) (i : Nat),
      cmd_mget_loop fuel db now c (i + 1) = cmd_mget_loop fuel db now d (i + 1) := by
  intro fuel
  induction fuel with
  | zero => intro db i; rfl
  | succ k ih =>
    intro db i
    simp only [cmd_mget_loop, h.1, h.2 i, ih]

/-- No handler of `command_table` looks at the first element of the request. -/
theorem command_table_same_args (disk : Bool) {c d : resp_value_t} (h : same_args c d)
    (db : database_t) (now : Int) :
    ∀ e ∈ command_table disk, e.2 db now c = e.2 db now d := by
  have g1 : get_arg c 1 = get_arg d 1 := h.2 0
  have g2 : get_arg c 2 = get_arg d 2 := h.2 1
  have g3 : get_arg c 3 = get_arg d 3 := h.2 2
  have hset := fun key db => cmd_set_options_same h now key (arg_count d) db 2
  have hdel := cmd_del_loop_same h now (arg_count d) db 0 0
  have hpush := fun key push => cmd_push_loop_same h now key push (arg_count d) db 1 0
  have hmset := cmd_mset_loop_same h (arg_count d) db 0
  have hmget := cmd_mget_loop_same h now (arg_count d) db 0
  simp only [Nat.zero_add, Nat.reduceAdd] at hset hdel hpush hmset hmget
  intro e he
  simp only [command_table, List.mem_cons, List.mem_singleton, List.not_mem_nil, or_false] at he
  rcases he with r | r | r | r | r | r | r | r | r | r | r | r | r | r | r | r | r | r | r | r | r | r | r <;>
    subst r
  · simp only [cmd_ping, h.1, g1]
  · simp only [cmd_set, h.1, g1, g2, hset]
  · simp only [cmd_get, h.1, g1]
  · simp only [cmd_del, h.1, hdel]
  · simp only [cmd_exists, h.1, g1]
  · simp only [cmd_incr, h.1, g1]
  · simp only [cmd_decr, h.1, g1]
  · simp only [cmd_mset, h.1, hmset]
  · simp only [cmd_mget, h.1, hmget]
  · simp only [cmd_lpush, cmd_push_with, h.1, g1, hpush]
  · simp only [cmd_rpush, cmd_push_with, h.1, g1, hpush]
  · simp only [cmd_lpop, cmd_pop_with, h.1, g1]
  · simp only [cmd_rpop, cmd_pop_with, h.1, g1]
  · simp only [cmd_llen, h.1, g1]
  · simp only [cmd_lrange, h.1, g1, g2, g3]
  · simp only [cmd_expire, h.1, g1, g2]
  · simp only [cmd_ttl, h.1, g1]
  · simp only [cmd_persist, h.1, g1]
  · simp only [cmd_dbsize]
  · simp only [cmd_flushdb]
  · simp only [cmd_info]
  · simp only [cmd_save]
  · simp only [cmd_shutdown]

/-- C25: for every entry of `command_table` and every string equal to its name up to
the case of the ASCII letters, `command_execute` on a request with that string in
front returns what it returns with the upper-case name in front, reply and keyspace
alike, whatever the keyspace and the arguments: the entry's handler runs. A string
without NUL that is equal to no name of the table up to letter case finds no handler. -/
theorem c25_command_name_case (disk : Bool) (db : database_t) (now : Int) (name : CStr)
    (args : List resp_value_t) :
    (∀ e ∈ command_table disk, same_letters name e.1 →
      command_execute disk db now (some (.array (.bulk_string name :: args))) =
        command_execute disk db now (some (.array (.bulk_string e.1 :: args))) ∧
      command_execute disk db now (some (.array (.bulk_string name :: args))) =
        e.2 db now (.array (.bulk_string e.1 :: args))) ∧
    ((∀ x ∈ name, x ≠ 0) → (∀ e ∈ command_table disk, ¬ same_letters name e.1) →
      command_lookup (command_table disk) name = none) := by
  constructor
  · intro e he hs
    have h1 := command_table_lookup disk e he
    have h2 : command_lookup (command_table disk) name = some e.2 := by
      rw [command_lookup_congr name e.1 hs]; exact h1
    have h3 := command_table_same_args disk
      (same_args_cons (.bulk_string name) (.bulk_string e.1) args) db now e he
    rw [command_execute_named disk db now name args e.2 h2,
      command_execute_named disk db now e.1 args e.2 h1]
    exact ⟨h3, h3⟩
  · intro hname hno
    exact command_lookup_none name hname (command_table disk) (command_table_names disk) hno

/-- C25 at `lPuSh k v`, which runs `cmd_lpush`, and at `LPUSHX`, which finds no
handler. -/
theorem c25_command_name_case_witness :
    command_execute false fresh_db 0 (some (request [bytes "lPuSh", bytes "k", bytes "v"])) =
      cmd_lpush fresh_db 0 (request [bytes "LPUSH", bytes "k", bytes "v"]) ∧
    command_lookup (command_table false) (bytes "LPUSHX") = none :=
  ⟨((c25_command_name_case false fresh_db 0 (bytes "lPuSh")
      [.bulk_string (bytes "k"), .bulk_string (bytes "v")]).1
      (bytes "LPUSH", cmd_lpush) (by simp [command_table]) (by unfold same_letters; decide)).2,
    (c25_command_name_case false fresh_db 0 (bytes "LPUSHX") []).2 (by decide)
      (by
        intro e he
        simp only [command_table, List.mem_cons, List.mem_singleton, List.not_mem_nil,
          or_false] at he
        rcases he with r | r | r | r | r | r | r | r | r | r | r | r | r | r | r | r | r | r | r | r | r | r | r <;>
          (subst r; unfold same_letters; decide))⟩

/-- C26, refuted on the code: for the request array whose only element is the integer 5
the reply is `-ERR invalid command`, not `-ERR invalid command format`. -/
theorem c26_first_element_not_a_string :
    command_execute false fresh_db 0 (some (.array [.integer 5])) =
      some (fresh_db, bytes "-ERR invalid command\r\n") := rfl

/-- C26 (amended): `command_execute` replies `-ERR invalid command format` to a `NULL`
request, to a request that is no array and to the empty array, and
`-ERR invalid command` to a non-empty array whose first element is no string
(`get_arg` returns `NULL` for it); the keyspace is unchanged in every case. -/
theorem c26_request_shape (disk : Bool) (db : database_t) (now : Int) :
    command_execute disk db now none = some (db, bytes "-ERR invalid command format\r\n") ∧
    (∀ v, resp_is_array v = false →
      command_execute disk db now (some v) = some (db, bytes "-ERR invalid command format\r\n")) ∧
    command_execute disk db now (some (.array [])) =
      some (db, bytes "-ERR invalid command format\r\n") ∧
    (∀ first rest, get_arg (.array (first :: rest)) 0 = none →
      command_execute disk db now (some (.array (first :: rest))) =
        some (db, bytes "-ERR invalid command\r\n")) := by
  refine ⟨rfl, ?_, rfl, ?_⟩
  · intro v hv
    simp only [command_execute, hv, true_or, if_true]
    rfl
  · intro first rest h
    simp only [command_execute, resp_is_array, arg_count, List.length_cons, h]
    simp
    rfl

/-- C26 amended, at a request that is an integer and at the array whose first element
is nil. -/
theorem c26_request_shape_witness :
    command_execute false fresh_db 0 (some (.integer 7)) =
      some (fresh_db, bytes "-ERR invalid command format\r\n") ∧
    command_execute false fresh_db 0 (some (.array [.nil, .bulk_string (bytes "k")])) =
      some (fresh_db, bytes "-ERR invalid command\r\n") :=
  ⟨(c26_request_shape false fresh_db 0).2.1 (.integer 7) rfl,
    (c26_request_shape false fresh_db 0).2.2.2 .nil [.bulk_string (bytes "k")] rfl⟩

/-- C28, refuted on the code: for the request `GET` followed by the integer 5, `get_arg`
returns `NULL` for the key and `cmd_get` passes it on unchecked to `db_get`, where
`ht_hash` reads through it: `command_execute` does not return, whatever the keyspace. -/
theorem c28_get_with_integer_key_uses_missing_argument (disk : Bool) (db : database_t)
    (now : Int) :
    get_arg (.array [.bulk_string (bytes "GET"), .integer 5]) 1 = none ∧
    command_execute disk db now (some (.array [.bulk_string (bytes "GET"), .integer 5])) = none :=
  ⟨rfl, rfl⟩

set_option maxRecDepth 100000 in
/-- C29, refuted on the code: a name of 103 letters `a` matches no name of the table;
the reply to it ends in CR and a NUL byte instead of CR LF, and for a name of 104
letters `resp_buf_appendf` reads past its `tmp[128]`. -/
theorem c29_long_unknown_name_reply_is_cut :
    command_lookup (command_table false) (List.replicate 103 97) = none ∧
    command_execute false fresh_db 0 (some (.array [.bulk_string (List.replicate 103 97)])) =
      some (fresh_db, bytes "-ERR unknown command '" ++ List.replicate 103 97 ++ [39, 13, 0]) ∧
    command_execute false fresh_db 0 (some (.array [.bulk_string (List.replicate 104 97)])) =
      none :=
  ⟨rfl, rfl, rfl⟩

/-- C29 (amended): for every request whose first element is a string of at most 102
bytes, none of them NUL, that is equal to no name of `command_table` up to letter
case, `command_execute` replies with exactly `-ERR unknown command '<name>'` and
CR LF, `<name>` being the string as sent, and leaves the keyspace unchanged. -/
theorem c29_unknown_command (disk : Bool) (db : database_t) (now : Int) (name : CStr)
    (args : List resp_value_t) (hname : ∀ x ∈ name, x ≠ 0)
    (hno : ∀ e ∈ command_table disk, ¬ same_letters name e.1) (hlen : name.length ≤ 102) :
    command_execute disk db now (some (.array (.bulk_string name :: args))) =
      some (db, bytes "-ERR unknown command '" ++ name ++ bytes "'\r\n") :=
  command_execute_unknown disk db now name args
    (command_lookup_none name hname (command_table disk) (command_table_names disk) hno) hlen

/-- C29 amended, at the request `FOO bar`. -/
theorem c29_unknown_command_witness :
    command_execute false fresh_db 0 (some (request [bytes "FOO", bytes "bar"])) =
      some (fresh_db, bytes "-ERR unknown command 'FOO'\r\n") :=
  c29_unknown_command false fresh_db 0 (bytes "FOO") [.bulk_string (bytes "bar")] (by decide)
    (by
      intro e he
      simp only [command_table, List.mem_cons, List.mem_singleton, List.not_mem_nil,
        or_false] at he
      rcases he with r | r | r | r | r | r | r | r | r | r | r | r | r | r | r | r | r | r | r | r | r | r | r <;>
        (subst r; unfold same_letters; decide))
    (by decide)

/-- C27: for every command with a minimum of section 4.6 (`SET` 3; `GET`, `DEL`,
`EXISTS`, `INCR`, `DECR`, `MGET`, `LPOP`, `RPOP`, `LLEN`, `TTL`, `PERSIST` 2; `LPUSH`,
`RPUSH`, `EXPIRE` 3; `LRANGE` 4) and every request with fewer elements, and for `MSET`
with fewer than 3 elements or an even number of them, whatever the elements behind the
name are, the reply is exactly `-ERR wrong number of arguments for '<NAME>' command`
with the upper-case name, and the keyspace is unchanged. -/
theorem c27_wrong_number_of_arguments (disk : Bool) (db : database_t) (now : Int)
    (args : List resp_value_t) :
    (∀ p ∈ min_args, args.length + 1 < p.2 →
      command_execute disk db now (some (.array (.bulk_string (bytes p.1) :: args))) =
        some (db, bytes ("-ERR wrong number of arguments for '" ++ p.1 ++ "' command\r\n"))) ∧
    (args.length + 1 < 3 ∨ (args.length + 1) % 2 = 0 →
      command_execute disk db now (some (.array (.bulk_string (bytes "MSET") :: args))) =
        some (db, bytes "-ERR wrong number of arguments for 'MSET' command\r\n")) := by
  constructor
  · intro p hp
    simp only [min_args, List.mem_cons, List.mem_singleton, List.not_mem_nil, or_false] at hp
    rcases hp with r | r | r | r | r | r | r | r | r | r | r | r | r | r | r | r <;>
      (subst r; dsimp only; intro h)
    · rw [command_execute_named disk db now (bytes "SET") args cmd_set rfl]
      simp only [cmd_set, arg_count, List.length_cons, h, if_true]
      rfl
    · rw [command_execute_named disk db now (bytes "GET") args cmd_get rfl]
      simp only [cmd_get, arg_count, List.length_cons, h, if_true]
      rfl
    · rw [command_execute_named disk db now (bytes "DEL") args cmd_del rfl]
      simp only [cmd_del, arg_count, List.length_cons, h, if_true]
      rfl
    · rw [command_execute_named disk db now (bytes "EXISTS") args cmd_exists rfl]
      simp only [cmd_exists, arg_count, List.length_cons, h, if_true]
      rfl
    · rw [command_execute_named disk db now (bytes "INCR") args cmd_incr rfl]
      simp only [cmd_incr, arg_count, List.length_cons, h, if_true]
      rfl
    · rw [command_execute_named disk db now (bytes "DECR") args cmd_decr rfl]
      simp only [cmd_decr, arg_count, List.length_cons, h, if_true]
      rfl
    · rw [command_execute_named disk db now (bytes "MGET") args cmd_mget rfl]
      simp only [cmd_mget, arg_count, List.length_cons, h, if_true]
      rfl
    · rw [command_execute_named disk db now (bytes "LPOP") args cmd_lpop rfl]
      simp only [cmd_lpop, cmd_pop_with, arg_count, List.length_cons, h, if_true]
      rfl
    · rw [command_execute_named disk db now (bytes "RPOP") args cmd_rpop rfl]
      simp only [cmd_rpop, cmd_pop_with, arg_count, List.length_cons, h, if_true]
      rfl
    · rw [command_execute_named disk db now (bytes "LLEN") args cmd_llen rfl]
      simp only [cmd_llen, arg_count, List.length_cons, h, if_true]
      rfl
    · rw [command_execute_named disk db now (bytes "TTL") args cmd_ttl rfl]
      simp only [cmd_ttl, arg_count, List.length_cons, h, if_true]
      rfl
    · rw [command_execute_named disk db now (bytes "PERSIST") args cmd_persist rfl]
      simp only [cmd_persist, arg_count, List.length_cons, h, if_true]
      rfl
    · rw [command_execute_named disk db now (bytes "LPUSH") args cmd_lpush rfl]
      simp only [cmd_lpush, cmd_push_with, arg_count, List.length_cons, h, if_true]
      rfl
    · rw [command_execute_named disk db now (bytes "RPUSH") args cmd_rpush rfl]
      simp only [cmd_rpush, cmd_push_with, arg_count, List.length_cons, h, if_true]
      rfl
    · rw [command_execute_named disk db now (bytes "EXPIRE") args cmd_expire rfl]
      simp only [cmd_expire, arg_count, List.length_cons, h, if_true]
      rfl
    · rw [command_execute_named disk db now (bytes "LRANGE") args cmd_lrange rfl]
      simp only [cmd_lrange, arg_count, List.length_cons, h, if_true]
      rfl
  · intro h
    rw [command_execute_named disk db now (bytes "MSET") args cmd_mset rfl]
    have h1 : args.length + 1 < 3 ∨ (args.length + 1 - 1) % 2 ≠ 0 := by omega
    simp only [cmd_mset, arg_count, List.length_cons, h1, if_true]
    rfl

/-- C27 at `LRANGE k 0` and at `MSET a 1 b`. -/
theorem c27_wrong_number_of_arguments_witness :
    command_execute false fresh_db 0 (some (request [bytes "LRANGE", bytes "k", bytes "0"])) =
      some (fresh_db, bytes "-ERR wrong number of arguments for 'LRANGE' command\r\n") ∧
    command_execute false fresh_db 0
        (some (request [bytes "MSET", bytes "a", bytes "1", bytes "b"])) =
      some (fresh_db, bytes "-ERR wrong number of arguments for 'MSET' command\r\n") :=
  ⟨(c27_wrong_number_of_arguments false fresh_db 0
      [.bulk_string (bytes "k"), .bulk_string (bytes "0")]).1 ("LRANGE", 4)
      (by simp [min_args]) (by decide),
    (c27_wrong_number_of_arguments false fresh_db 0
      [.bulk_string (bytes "a"), .bulk_string (bytes "1"), .bulk_string (bytes "b")]).2
      (by decide)⟩

/-! ## The read step of the server -/

/-- C30, refuted on the code: a client sends `x CR LF`, on which `resp_parse` returns -1.
After the read step the client is still in slot 0 of the client table, with the three
bytes in its read buffer, and the client count is still 1. -/
theorem c30_malformed_frame_keeps_client :
    resp_parse (bytes "x\r\n") = { ret := -1, out := none } ∧
    server_run_read false 0 (one_client_server fresh_db) 0 (some (bytes "x\r\n")) =
      some { db := fresh_db,
             clients := [some { fd := 5, read_buf := bytes "x\r\n", write_buf := [],
                                write_pos := 0 }],
             client_count := 1 } := ⟨rfl, rfl⟩

/-- C30 (amended): when `resp_parse` returns a negative value on the read buffer of a
client, `process_client_input` stops as it does for an incomplete frame: after the
read step the client is still in its slot of the client table, the bytes stay in its
read buffer, nothing was appended to its write buffer and the keyspace is unchanged.
What removes a client is a result of `recv` that is not positive. -/
theorem c30_malformed_frame (disk : Bool) (now : Int) (srv : server_t) (i : Nat) (c : client_t)
    (data : List Nat) (hc : srv.clients[i]? = some (some c))
    (hdata : (data.take (CLIENT_BUF_SIZE - c.read_buf.length)).length ≠ 0)
    (hneg : (resp_parse (c.read_buf ++ data.take (CLIENT_BUF_SIZE - c.read_buf.length))).ret < 0) :
    (∀ fuel db, process_client_input (fuel + 1) disk now db
        { c with read_buf := c.read_buf ++ data.take (CLIENT_BUF_SIZE - c.read_buf.length) } =
      some (db, { c with
        read_buf := c.read_buf ++ data.take (CLIENT_BUF_SIZE - c.read_buf.length) })) ∧
    server_run_read disk now srv i (some data) =
      some { srv with clients := srv.clients.set i (some { c with
        read_buf := c.read_buf ++ data.take (CLIENT_BUF_SIZE - c.read_buf.length) }) } ∧
    ((srv.clients.set i (some { c with
        read_buf := c.read_buf ++ data.take (CLIENT_BUF_SIZE - c.read_buf.length) }))[i]? =
      some (some { c with
        read_buf := c.read_buf ++ data.take (CLIENT_BUF_SIZE - c.read_buf.length) })) ∧
    server_run_read disk now srv i none = some (server_remove_client srv i) := by
  have hle : (resp_parse (c.read_buf ++ data.take (CLIENT_BUF_SIZE - c.read_buf.length))).ret ≤ 0 :=
    by omega
  have hp : ∀ fuel db, process_client_input (fuel + 1) disk now db
        { c with read_buf := c.read_buf ++ data.take (CLIENT_BUF_SIZE - c.read_buf.length) } =
      some (db, { c with
        read_buf := c.read_buf ++ data.take (CLIENT_BUF_SIZE - c.read_buf.length) }) := by
    intro fuel db
    simp only [process_client_input, hle, if_true]
    split <;> rfl
  have hi : i < srv.clients.length := by
    rcases Nat.lt_or_ge i srv.clients.length with h | h
    · exact h
    · rw [List.getElem?_eq_none h] at hc; simp at hc
  have hfuel : ∃ k, (c.read_buf ++ data.take (CLIENT_BUF_SIZE - c.read_buf.length)).length = k + 1 := by
    refine ⟨(c.read_buf ++ data.take (CLIENT_BUF_SIZE - c.read_buf.length)).length - 1, ?_⟩
    simp only [List.length_append] at hdata ⊢
    omega
  obtain ⟨k, hk⟩ := hfuel
  refine ⟨hp, ?_, ?_, ?_⟩
  · simp only [server_run_read, hc, hdata, if_false, hk, hp]
  · simp [List.getElem?_set_self, hi]
  · simp only [server_run_read, hc]

/-- C30 amended, at a client that sends `GET k CR LF` without the array framing. -/
theorem c30_malformed_frame_witness :
    server_run_read false 0 (one_client_server fresh_db) 0 (some (bytes "GET k\r\n")) =
      some { db := fresh_db,
             clients := [some { fd := 5, read_buf := bytes "GET k\r\n", write_buf := [],
                                write_pos := 0 }],
             client_count := 1 } :=
  (c30_malformed_frame false 0 (one_client_server fresh_db) 0
    { fd := 5, read_buf := [], write_buf := [], write_pos := 0 } (bytes "GET k\r\n")
    rfl (by decide) (by decide)).2.1

/-! ## The invariant of the table and the return of its loops -/

/-- The zeroed slot of `calloc` meets `slot_ok`. -/
theorem slot_ok_zero {α : Type} : slot_ok (ht_entry_t.zero : ht_entry_t α) := by
  refine ⟨by simp [ht_entry_t.zero], ?_⟩
  intro h
  simp [ht_entry_t.zero] at h

/-- Every slot read through `slot_at` meets `slot_ok` when the array does. -/
theorem slot_ok_slot_at {α : Type} {entries : List (ht_entry_t α)} (h : slots_ok entries)
    (j : Nat) : slot_ok (slot_at entries j) := by
  by_cases hj : j < entries.length
  · rw [slot_at_eq_get entries j hj]
    exact h _ (List.get_mem entries j hj)
  · rw [slot_at_zero_of_ge entries j (by omega)]
    exact slot_ok_zero

/-- Writing a slot that meets `slot_ok` keeps `slots_ok`. -/
theorem slots_ok_set {α : Type} {entries : List (ht_entry_t α)} (h : slots_ok entries)
    (idx : Nat) (a : ht_entry_t α) (ha : slot_ok a) : slots_ok (entries.set idx a) := by
  intro e he
  rcases List.mem_or_eq_of_mem_set he with h1 | h1
  · exact h e h1
  · rw [h1]; exact ha

/-- A freshly zeroed array meets `slots_ok`. -/
theorem slots_ok_replicate (α : Type) (n : Nat) :
    slots_ok (List.replicate n (ht_entry_t.zero : ht_entry_t α)) := by
  intro e he
  rw [List.eq_of_mem_replicate he]
  exact slot_ok_zero

/-- A slot that is not empty is live or a tombstone. -/
theorem count_used_eq {α : Type} (entries : List (ht_entry_t α)) (h : slots_ok entries) :
    count_used entries = count_live entries + count_dead entries := by
  induction entries with
  | nil => rfl
  | cons e rest ih =>
    have he := (h e (List.mem_cons_self _ _)).1
    have hr := ih (fun x hx => h x (List.mem_cons_of_mem _ hx))
    unfold count_used count_live count_dead at hr ⊢
    simp only [List.countP_cons, hr]
    have h3 : e.occupied = 0 ∨ e.occupied = 1 ∨ e.occupied = 2 := by omega
    rcases h3 with h0 | h1 | h2
    · simp [h0]
    · simp [h1]; omega
    · simp [h2]; omega

/-- A slot array that is not full of used slots has an empty slot. -/
theorem exists_empty_slot {α : Type} (entries : List (ht_entry_t α))
    (h : count_used entries < entries.length) :
    ∃ s, s < entries.length ∧ (slot_at entries s).occupied = 0 := by
  by_contra hno
  have hall : count_used entries = entries.length := by
    unfold count_used
    rw [List.countP_eq_length]
    intro e he
    obtain ⟨i, hi, hget⟩ := List.getElem_of_mem he
    have : (slot_at entries i).occupied ≠ 0 := by
      intro h0
      exact hno ⟨i, hi, h0⟩
    rw [slot_at_eq_get entries i hi] at this
    simp only [List.get_eq_getElem, hget] at this
    simpa using this
  omega

/-- A table of `ht_inv` has an empty slot. -/
theorem ht_inv_empty_slot {α : Type} {ht : hashtable_t α} (h : ht_inv ht) :
    ∃ s, s < ht.capacity ∧ (slot_at ht.entries s).occupied = 0 := by
  have hu := count_used_eq ht.entries h.slots
  have := h.room
  rw [h.wf.size_eq, h.wf.tomb_eq] at this
  obtain ⟨s, hs, h0⟩ := exists_empty_slot ht.entries (by rw [h.wf.len]; omega)
  exact ⟨s, by rw [← h.wf.len]; exact hs, h0⟩

/-- More fuel does not change what the probe loop of `ht_find` returns. -/
theorem ht_find_loop_mono {α : Type} (ht : hashtable_t α) (key : CStr) (h : Nat) :
    ∀ (fuel extra i : Nat) (o : Option Nat), ht_find_loop fuel ht key h i = some o →
      ht_find_loop (fuel + extra) ht key h i = some o := by
  intro fuel
  induction fuel with
  | zero => intro extra i o hf; simp [ht_find_loop] at hf
  | succ n ih =>
    intro extra i o hf
    have e : n + 1 + extra = (n + extra) + 1 := by omega
    rw [e]
    simp only [ht_find_loop] at hf ⊢
    split
    · rename_i h0; simpa [h0] using hf
    · rename_i h0
      simp only [h0, if_false] at hf
      split
      · rename_i h1
        simp only [h1, if_true] at hf
        split
        · rename_i hd; simpa [hd] using hf
        · rename_i hd
          simp only [hd, if_false] at hf
          split
          · rename_i hm; simpa [hm] using hf
          · rename_i hm
            simp only [hm, if_false] at hf
            exact ih extra _ o hf
      · rename_i h1
        simp only [h1, if_false] at hf
        exact ih extra _ o hf

/-- The probe loop of `ht_find` returns at the latest when it reaches an empty slot. -/
theorem ht_find_loop_returns {α : Type} (ht : hashtable_t α) (key : CStr) (h : Nat) :
    ∀ (fuel i t : Nat), t < fuel →
      (slot_at ht.entries (probe_index ht.capacity h (i + t))).occupied = 0 →
      ∃ o, ht_find_loop fuel ht key h i = some o := by
  intro fuel
  induction fuel with
  | zero => intro i t ht0; omega
  | succ n ih =>
    intro i t htn hempty
    simp only [ht_find_loop]
    split
    · exact ⟨_, rfl⟩
    · rename_i h0
      have ht0 : t ≠ 0 := by
        intro h1
        rw [h1, Nat.add_zero] at hempty
        exact h0 hempty
      have e : i + 1 + (t - 1) = i + t := by omega
      have hrec := ih (i + 1) (t - 1) (by omega) (by rw [e]; exact hempty)
      split
      · split
        · exact ⟨_, rfl⟩
        · split
          · exact ⟨_, rfl⟩
          · exact hrec
      · exact hrec

/-- Source `ht_find` returns within `capacity` probes in a table that has an empty slot. -/
theorem ht_find_returns {α : Type} {ht : hashtable_t α} (hinv : ht_inv ht) (key : CStr) :
    ∃ o, ht_find_loop ht.capacity ht key (ht_hash key) 0 = some o ∧ ht_find ht key = some o := by
  obtain ⟨s, hs, h0⟩ := ht_inv_empty_slot hinv
  obtain ⟨m, hm⟩ := hinv.wf.cap_pow
  rw [hm] at hs
  obtain ⟨t, ht1, hp⟩ := exists_probe_step m (ht_hash key) 0 s hs
  obtain ⟨o, ho⟩ := ht_find_loop_returns ht key (ht_hash key) ht.capacity 0 t
    (by rw [hm]; exact ht1) (by rw [hm, hp]; exact h0)
  refine ⟨o, ho, ?_⟩
  unfold ht_find probe_fuel
  have e : ht.capacity * ht.capacity * ht.capacity + ht.capacity =
      ht.capacity + ht.capacity * ht.capacity * ht.capacity := by omega
  rw [e]
  exact ht_find_loop_mono ht key (ht_hash key) _ _ 0 o ho

/-- The probe loop of `ht_set` returns whenever the slot array has an empty slot: each
exchange raises the sum of the probe distances, and between two exchanges the loop
walks towards the empty slot. The fuel `probe_fuel` covers that. -/
theorem ht_set_loop_returns {α : Type} (m : Nat) :
    ∀ (fuel : Nat) (ht : hashtable_t α) (key : CStr) (h : Nat) (nk : Option CStr)
      (nv : Option α) (is_new : Int) (i t : Nat),
      ht.capacity = 2 ^ m → ht.entries.length = 2 ^ m → t < 2 ^ m →
      (slot_at ht.entries (probe_index (2 ^ m) h (i + t))).occupied = 0 →
      (2 ^ m * (2 ^ m - 1) - dist_sum (2 ^ m) ht.entries) * 2 ^ m + t < fuel →
      ∃ r, ht_set_loop fuel ht key h nk nv is_new i = some r := by
  intro fuel
  induction fuel with
  | zero => intro ht key h nk nv is_new i t _ _ _ _ hm; omega
  | succ n ih =>
    intro ht key h nk nv is_new i t hcap hlen ht1 hempty hm
    have hidx : probe_index (2 ^ m) h i < ht.entries.length := by
      rw [hlen]; exact probe_index_lt m h i
    rw [ht_set_loop]
    simp only [hcap]
    split
    · exact ⟨_, rfl⟩
    · rename_i hvac
      have h0 : (slot_at ht.entries (probe_index (2 ^ m) h i)).occupied ≠ 0 :=
        fun h0 => hvac (Or.inl h0)
      split
      · exact ⟨_, rfl⟩
      · have ht0 : t ≠ 0 := by
          intro h1
          rw [h1, Nat.add_zero] at hempty
          exact h0 hempty
        split
        · rename_i hsw
          have hs : probe_index (2 ^ m) h (i + t) < 2 ^ m := probe_index_lt m h (i + t)
          obtain ⟨t1, ht2, hp1⟩ := exists_probe_step m
            (slot_at ht.entries (probe_index (2 ^ m) h i)).hash (i + 1) _ hs
          have hne : probe_index (2 ^ m) h (i + t) ≠ probe_index (2 ^ m) h i := by
            intro heq
            rw [heq] at hempty
            exact h0 hempty
          have hd := dist_sum_set (2 ^ m) ht.entries (probe_index (2 ^ m) h i)
            { key := nk, value := nv, hash := h,
              occupied := (slot_at ht.entries (probe_index (2 ^ m) h i)).occupied }
            (probe_index_lt m h i)
          have hc1 : slot_cost (2 ^ m) ht.entries (probe_index (2 ^ m) h i) =
              probe_distance (2 ^ m) (slot_at ht.entries (probe_index (2 ^ m) h i)).hash
                (probe_index (2 ^ m) h i) := by
            simp only [slot_cost, h0, if_false]
          have hc2 : slot_cost (2 ^ m) (ht.entries.set (probe_index (2 ^ m) h i)
              { key := nk, value := nv, hash := h,
                occupied := (slot_at ht.entries (probe_index (2 ^ m) h i)).occupied })
              (probe_index (2 ^ m) h i) =
              probe_distance (2 ^ m) h (probe_index (2 ^ m) h i) := by
            simp only [slot_cost, slot_at_set, hidx, and_self, if_true, h0, if_false]
          rw [hc1, hc2] at hd
          have hle := dist_sum_le m (ht.entries.set (probe_index (2 ^ m) h i)
              { key := nk, value := nv, hash := h,
                occupied := (slot_at ht.entries (probe_index (2 ^ m) h i)).occupied })
          have hmeas : (2 ^ m * (2 ^ m - 1) - dist_sum (2 ^ m)
              (ht.entries.set (probe_index (2 ^ m) h i)
                { key := nk, value := nv, hash := h,
                  occupied := (slot_at ht.entries (probe_index (2 ^ m) h i)).occupied })) *
              2 ^ m + t1 < n :=
            measure_step _ _ _ _ _ _ _ (by omega) hle ht2 hm
          exact ih
            ({ entries := ht.entries.set (probe_index (2 ^ m) h i)
                 ({ key := nk, value := nv, hash := h,
                    occupied := (slot_at ht.entries (probe_index (2 ^ m) h i)).occupied }),
               capacity := 2 ^ m, size := ht.size, tombstones := ht.tombstones })
            key
            (slot_at ht.entries (probe_index (2 ^ m) h i)).hash
            (slot_at ht.entries (probe_index (2 ^ m) h i)).key
            (slot_at ht.entries (probe_index (2 ^ m) h i)).value 1 (i + 1) t1
            rfl (by simp [hlen]) ht2
            (by
              dsimp only
              rw [hp1, slot_at_set]; simp only [hne, false_and, if_false]; exact hempty)
            hmeas
        · have e : i + 1 + (t - 1) = i + t := by omega
          exact ih ht key h nk nv is_new (i + 1) (t - 1) hcap hlen (by omega)
            (by rw [e]; exact hempty)
            (by
              generalize (2 ^ m * (2 ^ m - 1) - dist_sum (2 ^ m) ht.entries) * 2 ^ m = X at *
              omega)

/-- The fuel `probe_fuel` covers the potential of every table of that capacity. -/
theorem probe_fuel_enough (m d t : Nat) (ht : t < 2 ^ m) :
    (2 ^ m * (2 ^ m - 1) - d) * 2 ^ m + t < probe_fuel (2 ^ m) := by
  unfold probe_fuel
  have h1 : (2 ^ m * (2 ^ m - 1) - d) * 2 ^ m ≤ 2 ^ m * (2 ^ m - 1) * 2 ^ m :=
    Nat.mul_le_mul_right _ (Nat.sub_le _ _)
  have h2 : 2 ^ m * (2 ^ m - 1) * 2 ^ m ≤ 2 ^ m * 2 ^ m * 2 ^ m :=
    Nat.mul_le_mul_right _ (Nat.mul_le_mul_left _ (Nat.sub_le _ _))
  generalize (2 ^ m * (2 ^ m - 1) - d) * 2 ^ m = X at *
  generalize 2 ^ m * (2 ^ m - 1) * 2 ^ m = Y at *
  generalize 2 ^ m * 2 ^ m * 2 ^ m = Z at *
  omega

/-- What the probe loop of `ht_set` returns keeps `slots_ok` and the capacity, and
holds at most one used slot more. -/
theorem ht_set_loop_slots {α : Type} :
    ∀ (fuel : Nat) (ht : hashtable_t α) (key : CStr) (h : Nat) (nk : Option CStr)
      (nv : Option α) (is_new : Int) (i : Nat) (r : hashtable_t α) (ret : Int),
      slots_ok ht.entries → (∃ k, nk = some k ∧ h = ht_hash k) →
      ht_set_loop fuel ht key h nk nv is_new i = some (r, ret) →
      slots_ok r.entries ∧ r.capacity = ht.capacity ∧
        r.size + r.tombstones ≤ ht.size + ht.tombstones + 1 := by
  intro fuel
  induction fuel with
  | zero => intro ht key h nk nv is_new i r ret _ _ hr; simp [ht_set_loop] at hr
  | succ n ih =>
    intro ht key h nk nv is_new i r ret hok hcarry hr
    obtain ⟨k, hk1, hk2⟩ := hcarry
    have hnew : ∀ occ, occ ≤ 2 →
        slot_ok ({ key := nk, value := nv, hash := h, occupied := occ } : ht_entry_t α) :=
      fun occ ho => ⟨ho, fun _ => ⟨k, hk1, hk2⟩⟩
    have hslot := slot_ok_slot_at hok (probe_index ht.capacity h i)
    rw [ht_set_loop] at hr
    simp only [] at hr
    split at hr
    · simp only [Option.some.injEq, Prod.mk.injEq] at hr
      rw [← hr.1]
      refine ⟨slots_ok_set hok _ _ (hnew 1 (by omega)), rfl, ?_⟩
      dsimp only
      split <;> omega
    · rename_i hvac
      split at hr
      · rename_i hhit
        simp only [Option.some.injEq, Prod.mk.injEq] at hr
        rw [← hr.1]
        refine ⟨slots_ok_set hok _ _ ?_, rfl, by dsimp only; omega⟩
        exact ⟨hslot.1, hslot.2⟩
      · have h1 : (slot_at ht.entries (probe_index ht.capacity h i)).occupied = 1 := by
          have := hslot.1
          have h0 : (slot_at ht.entries (probe_index ht.capacity h i)).occupied ≠ 0 :=
            fun h0 => hvac (Or.inl h0)
          have h2 : (slot_at ht.entries (probe_index ht.capacity h i)).occupied ≠ 2 :=
            fun h2 => hvac (Or.inr h2)
          omega
        split at hr
        · have := ih _ _ _ _ _ _ _ _ _ (slots_ok_set hok _ _ (hnew _ hslot.1))
            (by
              obtain ⟨k1, hk3, hk4⟩ := hslot.2 h1
              exact ⟨k1, hk3, hk4⟩) hr
          exact this
        · exact ih _ _ _ _ _ _ _ _ _ hok ⟨k, hk1, hk2⟩ hr

/-- The inner loop of `ht_resize` keeps a slot array without tombstones in which
every live slot holds a key with its hash. -/
theorem ht_resize_insert_slots {α : Type} :
    ∀ (fuel : Nat) (entries : List (ht_entry_t α)) (cap h : Nat) (k : Option CStr)
      (v : Option α) (j : Nat) (r : List (ht_entry_t α)),
      (∀ e ∈ entries, slot_ok e ∧ e.occupied ≠ 2) → (∃ key, k = some key ∧ h = ht_hash key) →
      ht_resize_insert fuel entries cap h k v j = some r →
      ∀ e ∈ r, slot_ok e ∧ e.occupied ≠ 2 := by
  intro fuel
  induction fuel with
  | zero => intro entries cap h k v j r _ _ hr; simp [ht_resize_insert] at hr
  | succ n ih =>
    intro entries cap h k v j r hok hcarry hr
    obtain ⟨key, hk1, hk2⟩ := hcarry
    have hslot : slot_ok (slot_at entries (probe_index cap h j)) ∧
        (slot_at entries (probe_index cap h j)).occupied ≠ 2 := by
      by_cases hj : probe_index cap h j < entries.length
      · rw [slot_at_eq_get entries _ hj]
        exact hok _ (List.get_mem entries _ hj)
      · rw [slot_at_zero_of_ge entries _ (by omega)]
        exact ⟨slot_ok_zero, by simp [ht_entry_t.zero]⟩
    rw [ht_resize_insert] at hr
    simp only [] at hr
    split at hr
    · simp only [Option.some.injEq] at hr
      rw [← hr]
      intro e he
      rcases List.mem_or_eq_of_mem_set he with h1 | h1
      · exact hok e h1
      · rw [h1]
        exact ⟨⟨by simp, fun _ => ⟨key, hk1, hk2⟩⟩, by simp⟩
    · rename_i h0
      have h1 : (slot_at entries (probe_index cap h j)).occupied = 1 := by
        have := hslot.1.1
        have := hslot.2
        omega
      split at hr
      · refine ih _ _ _ _ _ _ _ ?_ (hslot.1.2 h1) hr
        intro e he
        rcases List.mem_or_eq_of_mem_set he with h2 | h2
        · exact hok e h2
        · rw [h2]
          exact ⟨⟨by simp [h1], fun _ => ⟨key, hk1, hk2⟩⟩, by simp [h1]⟩
      · exact ih _ _ _ _ _ _ _ hok ⟨key, hk1, hk2⟩ hr

/-- The re-insertion of `ht_resize`, when it returns, keeps `slots_ok` and the capacity. -/
theorem ht_resize_loop_slots {α : Type} :
    ∀ (old : List (ht_entry_t α)) (ht r : hashtable_t α),
      slots_ok old → (∀ e ∈ ht.entries, slot_ok e ∧ e.occupied ≠ 2) →
      ht_resize_loop old ht = some r → ∀ e ∈ r.entries, slot_ok e ∧ e.occupied ≠ 2 := by
  intro old
  induction old with
  | nil =>
    intro ht r _ hok hr
    simp only [ht_resize_loop, Option.some.injEq] at hr
    rw [← hr]; exact hok
  | cons o rest ih =>
    intro ht r hold hok hr
    have hrest : slots_ok rest := fun x hx => hold x (List.mem_cons_of_mem _ hx)
    rw [ht_resize_loop] at hr
    split at hr
    · rename_i ho
      split at hr
      · simp at hr
      · rename_i entries hins
        refine ih _ r hrest ?_ hr
        exact ht_resize_insert_slots _ _ _ _ _ _ _ _ hok
          ((hold o (List.mem_cons_self _ _)).2 ho) hins
    · exact ih ht r hrest hok hr

/-- An array without a tombstone has tombstone count 0. -/
theorem count_dead_zero {α : Type} (entries : List (ht_entry_t α))
    (h : ∀ e ∈ entries, slot_ok e ∧ e.occupied ≠ 2) : count_dead entries = 0 := by
  unfold count_dead
  rw [List.countP_eq_zero]
  intro e he
  simpa using (h e he).2

/-- Source `ht_resize` of a table of `slots_ok` to a power of two above the number of
live slots: it returns, and the new table holds the live slots, no tombstone, and
satisfies `slots_ok`. -/
theorem ht_resize_inv {α : Type} (ht : hashtable_t α) (new_cap m : Nat)
    (hok : slots_ok ht.entries)
    (hnew : (if new_cap < HT_MIN_CAP then HT_MIN_CAP else new_cap) = 2 ^ m)
    (hroom : count_live ht.entries < 2 ^ m) :
    ∃ r, ht_resize ht new_cap = some r ∧ ht_wf r ∧ r.capacity = 2 ^ m ∧
      r.size = count_live ht.entries ∧ r.tombstones = 0 ∧ slots_ok r.entries := by
  obtain ⟨r, hr, hwf, hcap, hsize⟩ := ht_resize_returns ht new_cap m hnew hroom
  have htight : ∀ e ∈ r.entries, slot_ok e ∧ e.occupied ≠ 2 := by
    unfold ht_resize at hr
    refine ht_resize_loop_slots ht.entries _ r hok ?_ hr
    intro e he
    rw [List.eq_of_mem_replicate he]
    exact ⟨slot_ok_zero, by simp [ht_entry_t.zero]⟩
  refine ⟨r, hr, hwf, hcap, hsize, ?_, fun e he => (htight e he).1⟩
  rw [hwf.tomb_eq, count_dead_zero r.entries htight]

/-- Source `ht_set` returns in every table of `ht_inv`, and leaves such a table. -/
theorem ht_set_inv {α : Type} {ht : hashtable_t α} (hinv : ht_inv ht) (key : CStr)
    (value : Option α) : ∃ r ret, ht_set ht key value = some (r, ret) ∧ ht_inv r := by
  obtain ⟨m, hm⟩ := hinv.wf.cap_pow
  have hmin := hinv.wf.cap_min
  have hroom := hinv.room
  have hfin : ∀ (ht1 : hashtable_t α) (k : Nat), ht_inv ht1 → ht1.capacity = 2 ^ k →
      ht1.size + ht1.tombstones + 1 < ht1.capacity →
      ∃ r ret, ht_set_loop (probe_fuel ht1.capacity) ht1 key (ht_hash key) (some key) value 1 0 =
        some (r, ret) ∧ ht_inv r := by
    intro ht1 k h1 hk hr1
    obtain ⟨s, hs, h0⟩ := ht_inv_empty_slot h1
    rw [hk] at hs
    obtain ⟨t, ht2, hp⟩ := exists_probe_step k (ht_hash key) 0 s hs
    obtain ⟨⟨r, ret⟩, hr⟩ := ht_set_loop_returns k (probe_fuel ht1.capacity) ht1 key (ht_hash key)
      (some key) value 1 0 t hk (by rw [h1.wf.len, hk]) ht2 (by rw [hp]; exact h0)
      (by rw [hk]; exact probe_fuel_enough k _ t ht2)
    refine ⟨r, ret, hr, ?_⟩
    have hw := ht_set_loop_wf _ _ _ _ _ _ _ _ _ _ h1.wf hr
    obtain ⟨hs1, hc1, hb1⟩ := ht_set_loop_slots _ _ _ _ _ _ _ _ _ _ h1.slots ⟨key, rfl, rfl⟩ hr
    exact ⟨hw, hs1, by omega⟩
  unfold ht_set
  by_cases hgrow : (ht.size + ht.tombstones + 1) * 100 / ht.capacity > HT_LOAD_HIGH_PCT
  · have hlive : count_live ht.entries < 2 ^ (m + 1) := by
      have := hinv.wf.size_eq
      rw [Nat.pow_succ]; omega
    obtain ⟨r1, hr1, hw1, hc1, hs1, ht1, hk1⟩ := ht_resize_inv ht (ht.capacity * 2) (m + 1)
      hinv.slots (by rw [Nat.pow_succ, ← hm]; unfold HT_MIN_CAP; split <;> omega) hlive
    simp only [hgrow, if_true, hr1]
    have hr1room : r1.size + r1.tombstones + 1 < r1.capacity := by
      have := hinv.wf.size_eq
      rw [hc1, Nat.pow_succ, hs1, ht1]; omega
    exact hfin r1 (m + 1) ⟨hw1, hk1, by omega⟩ hc1 hr1room
  · simp only [hgrow, if_false]
    have hpos : 0 < ht.capacity := by omega
    have hlt : (ht.size + ht.tombstones + 1) * 100 < 71 * ht.capacity := by
      unfold HT_LOAD_HIGH_PCT at hgrow
      have : (ht.size + ht.tombstones + 1) * 100 / ht.capacity < 71 := by omega
      exact (Nat.div_lt_iff_lt_mul hpos).mp this
    exact hfin ht m hinv hm (by omega)

/-- Source `ht_delete` on a key that `ht_find` finds, in a table of `ht_inv`: it returns
1 and leaves a table of `ht_inv`; the capacity is halved when it exceeds 64 and the
live count after the deletion, times 100 and divided by the capacity, is below 20, and
it is unchanged otherwise. -/
theorem ht_delete_found_inv {α : Type} {ht : hashtable_t α} {key : CStr} {idx : Nat}
    (hinv : ht_inv ht) (hf : ht_find ht key = some (some idx)) :
    ∃ r, ht_delete ht key = some (r, 1) ∧ ht_inv r ∧ r.size + 1 = ht.size ∧
      ((ht.capacity > HT_MIN_CAP ∧ (ht.size - 1) * 100 / ht.capacity < HT_LOAD_LOW_PCT) →
        r.capacity = ht.capacity / 2 ∧ r.tombstones = 0) ∧
      (¬ (ht.capacity > HT_MIN_CAP ∧ (ht.size - 1) * 100 / ht.capacity < HT_LOAD_LOW_PCT) →
        r.capacity = ht.capacity ∧ r.tombstones = ht.tombstones + 1 ∧
        r.entries = ht.entries.set idx
          { key := none, value := none, hash := (slot_at ht.entries idx).hash, occupied := 2 }) := by
  have hwf := hinv.wf
  obtain ⟨hocc, _, _, hlt⟩ := ht_find_found hf
  have hc := counts_set_dead ht.entries idx
    { key := none, value := none, hash := (slot_at ht.entries idx).hash, occupied := 2 }
    hlt rfl hocc
  have hsz : 0 < ht.size := by rw [hwf.size_eq]; omega
  have hroom := hinv.room
  have hslots : slots_ok (ht.entries.set idx
      { key := none, value := none, hash := (slot_at ht.entries idx).hash, occupied := 2 }) :=
    slots_ok_set hinv.slots _ _ ⟨by simp, by simp⟩
  by_cases hshrink : ht.capacity > HT_MIN_CAP ∧
      (ht.size - 1) * 100 / ht.capacity < HT_LOAD_LOW_PCT
  · have hsh := hshrink
    obtain ⟨hgt, hload⟩ := hsh
    simp only [HT_MIN_CAP, HT_LOAD_LOW_PCT] at hgt hload
    obtain ⟨m, hm⟩ := hwf.cap_pow
    have hpos : 0 < ht.capacity := by have := hwf.cap_min; omega
    rw [Nat.div_lt_iff_lt_mul hpos] at hload
    cases m with
    | zero => simp at hm; omega
    | succ k =>
      have h2 : ht.capacity = 2 * 2 ^ k := by rw [hm, Nat.pow_succ]; omega
      have h64 : 64 ≤ 2 ^ k := pow_two_ge_64 k (by omega)
      have hhalf : ht.capacity / 2 = 2 ^ k := by omega
      obtain ⟨r, hr, hrwf, hrc, hrs, hrt, hrk⟩ := ht_resize_inv
        ({ ht with
            entries := ht.entries.set idx
              ({ slot_at ht.entries idx with key := none, value := none, occupied := 2 }),
            size := ht.size - 1,
            tombstones := ht.tombstones + 1 } : hashtable_t α) (ht.capacity / 2) k
        hslots
        (by rw [hhalf]; unfold HT_MIN_CAP; split <;> omega)
        (by
          have := hwf.size_eq
          dsimp only at hload ⊢
          omega)
      have hd : ht_delete ht key = some (r, 1) := by
        unfold ht_delete
        simp only [hf, hshrink, and_self, if_true, hr]
      have hrs1 : r.size + 1 = ht.size := by
        rw [hrs]
        have := hwf.size_eq
        dsimp only
        omega
      refine ⟨r, hd, ⟨hrwf, hrk, ?_⟩, hrs1, fun _ => ⟨by rw [hrc, hhalf], hrt⟩,
        fun hno => absurd hshrink hno⟩
      rw [hrc, hrt]; omega
  · have hd : ht_delete ht key = some
        (({ ht with
            entries := ht.entries.set idx
              ({ slot_at ht.entries idx with key := none, value := none, occupied := 2 }),
            size := ht.size - 1,
            tombstones := ht.tombstones + 1 } : hashtable_t α), 1) := by
      unfold ht_delete
      simp only [hf, hshrink, if_false]
    refine ⟨_, hd, ⟨?_, hslots, by dsimp only; omega⟩, by dsimp only; omega,
      fun h => absurd h hshrink, fun _ => ⟨rfl, rfl, rfl⟩⟩
    refine ⟨hwf.cap_pow, hwf.cap_min, by simp [hwf.len], ?_, ?_⟩
    · have := hwf.size_eq
      dsimp only
      omega
    · have := hwf.tomb_eq
      dsimp only
      omega

/-- Source `ht_delete` returns in every table of `ht_inv`, and leaves such a table. -/
theorem ht_delete_inv {α : Type} {ht : hashtable_t α} (hinv : ht_inv ht) (key : CStr) :
    ∃ r ret, ht_delete ht key = some (r, ret) ∧ ht_inv r := by
  obtain ⟨o, _, ho⟩ := ht_find_returns hinv key
  cases o with
  | none => exact ⟨ht, 0, ht_delete_missing ho, hinv⟩
  | some idx =>
    obtain ⟨r, hr, hri, _⟩ := ht_delete_found_inv hinv ho
    exact ⟨r, 1, hr, hri⟩

/-- The doubling loop of `ht_create` never leaves 0. -/
theorem ht_round_up_zero (n : Nat) (hn : 0 < n) : ∀ fuel, ht_round_up fuel 0 n = none := by
  intro fuel
  induction fuel with
  | zero => rfl
  | succ f ih => simp only [ht_round_up, hn, if_true, Nat.zero_mul, Nat.zero_mod, ih]

/-- The loop of `ht_create` hands back a power of two that is at least the capacity
asked for. -/
theorem ht_round_up_pow (n : Nat) (hn : 0 < n) : ∀ (fuel k c : Nat), k ≤ 63 →
    ht_round_up fuel (2 ^ k) n = some c → (∃ m, c = 2 ^ m) ∧ n ≤ c := by
  intro fuel
  induction fuel with
  | zero => intro k c _ h; simp [ht_round_up] at h
  | succ f ih =>
    intro k c hk h
    rw [ht_round_up] at h
    split at h
    · by_cases h63 : k = 63
      · have e : (2 ^ k * 2) % 2 ^ 64 = 0 := by rw [h63]; norm_num
        rw [e, ht_round_up_zero n hn] at h
        simp at h
      · have e : (2 ^ k * 2) % 2 ^ 64 = 2 ^ (k + 1) := by
          rw [← Nat.pow_succ]
          apply Nat.mod_eq_of_lt
          exact Nat.pow_lt_pow_right (by decide) (by omega)
        rw [e] at h
        exact ih (k + 1) c (by omega) h
    · simp only [Option.some.injEq] at h
      rw [← h]
      exact ⟨⟨k, rfl⟩, by omega⟩

/-- The table `ht_create` returns satisfies `ht_inv`. -/
theorem ht_create_inv {α : Type} {n : Nat} {ht : hashtable_t α}
    (h : ht_create α n = some ht) : ht_inv ht := by
  unfold ht_create at h
  simp only [] at h
  split at h
  · simp at h
  · rename_i cap hcap
    have hup := ht_round_up_pow (if n < HT_INITIAL_CAP then HT_INITIAL_CAP else n)
      (by unfold HT_INITIAL_CAP; split <;> omega) 66 0 cap (by omega) (by simpa using hcap)
    have h64 : 64 ≤ cap := by
      have := hup.2
      unfold HT_INITIAL_CAP at this
      split at this <;> omega
    simp only [Option.some.injEq] at h
    have hz := counts_replicate_zero α cap
    rw [← h]
    refine ⟨⟨hup.1, h64, by simp, by simp only [hz.1], by simp only [hz.2.1]⟩,
      slots_ok_replicate α cap, by dsimp only; omega⟩

/-- Every sequence of `ht_set` and `ht_delete` calls on a table of `ht_inv` returns, and
leaves a table of `ht_inv`. -/
theorem ht_run_inv {α : Type} : ∀ (ops : List (ht_op α)) (ht : hashtable_t α), ht_inv ht →
    ∃ r, ht_run ops ht = some r ∧ ht_inv r := by
  intro ops
  induction ops with
  | nil => intro ht h; exact ⟨ht, rfl, h⟩
  | cons op rest ih =>
    intro ht h
    cases op with
    | set key value =>
      obtain ⟨r, ret, hr, hi⟩ := ht_set_inv h key (some value)
      obtain ⟨r2, hr2, hi2⟩ := ih r hi
      exact ⟨r2, by simp [ht_run, ht_apply, hr, hr2], hi2⟩
    | delete key =>
      obtain ⟨r, ret, hr, hi⟩ := ht_delete_inv h key
      obtain ⟨r2, hr2, hi2⟩ := ih r hi
      exact ⟨r2, by simp [ht_run, ht_apply, hr, hr2], hi2⟩

/-! ## Tables reached from `ht_create` (C34, C37, C39, C40) and the load tests (C33) -/

/-- Every table reached from `ht_create` by `ht_set` and `ht_delete` meets `ht_inv`. -/
theorem ht_run_reach {α : Type} {n : Nat} {ops : List (ht_op α)} {ht0 ht : hashtable_t α}
    (h0 : ht_create α n = some ht0) (hrun : ht_run ops ht0 = some ht) : ht_inv ht := by
  obtain ⟨r, hr, hi⟩ := ht_run_inv ops ht0 (ht_create_inv h0)
  rw [hr] at hrun
  simp only [Option.some.injEq] at hrun
  rw [← hrun]; exact hi

/-- The load test of `ht_set`, in integers, is a comparison of the exact load with
71/100. -/
theorem grow_test_iff (x c : Nat) (hc : 0 < c) :
    x * 100 / c > HT_LOAD_HIGH_PCT ↔ (71 : ℚ) / 100 ≤ (x : ℚ) / (c : ℚ) := by
  unfold HT_LOAD_HIGH_PCT
  have hcq : (0 : ℚ) < (c : ℚ) := by exact_mod_cast hc
  rw [div_le_div_iff₀ (by norm_num) hcq]
  have h1 : x * 100 / c > 70 ↔ 71 * c ≤ x * 100 := by
    constructor
    · intro h
      exact (Nat.le_div_iff_mul_le hc).mp h
    · intro h
      exact (Nat.le_div_iff_mul_le hc).mpr h
  rw [h1]
  constructor
  · intro h
    have : ((71 * c : Nat) : ℚ) ≤ ((x * 100 : Nat) : ℚ) := by exact_mod_cast h
    push_cast at this
    linarith
  · intro h
    have : ((71 * c : Nat) : ℚ) ≤ ((x * 100 : Nat) : ℚ) := by
      push_cast
      linarith
    exact_mod_cast this

/-- The load test of `ht_delete`, in integers, is a comparison of the exact load with
20/100. -/
theorem shrink_test_iff (x c : Nat) (hc : 0 < c) :
    x * 100 / c < HT_LOAD_LOW_PCT ↔ (x : ℚ) / (c : ℚ) < (20 : ℚ) / 100 := by
  unfold HT_LOAD_LOW_PCT
  have hcq : (0 : ℚ) < (c : ℚ) := by exact_mod_cast hc
  rw [div_lt_div_iff₀ hcq (by norm_num), Nat.div_lt_iff_lt_mul hc]
  constructor
  · intro h
    have : ((x * 100 : Nat) : ℚ) < ((20 * c : Nat) : ℚ) := by exact_mod_cast h
    push_cast at this
    linarith
  · intro h
    have : ((x * 100 : Nat) : ℚ) < ((20 * c : Nat) : ℚ) := by
      push_cast
      linarith
    exact_mod_cast this

/-- The table `tombstone_table` meets `ht_inv`. -/
theorem tombstone_table_inv : ht_inv tombstone_table := by
  refine ⟨⟨⟨6, rfl⟩, by decide, by decide, by decide, by decide⟩, ?_, by decide⟩
  intro e he
  simp only [tombstone_table, List.mem_append] at he
  rcases he with h | h
  · rw [List.eq_of_mem_replicate h]
    exact ⟨by simp, by simp⟩
  · rw [List.eq_of_mem_replicate h]
    exact slot_ok_zero

/-- C33 fails as worded: a 64-slot table with 44 live slots and no tombstone has
`(44 + 0 + 1) / 64 > 0.70`, yet `ht_set` of a new key keeps the capacity 64 and stores the
45th key. -/
theorem c33_no_rebuild_at_load_45_of_64 :
    load_table.map (fun t => (t.capacity, t.size, t.tombstones)) = some (64, 44, 0) ∧
    (70 : ℚ) / 100 < ((44 + 0 + 1 : Nat) : ℚ) / ((64 : Nat) : ℚ) ∧
    (load_table.bind (fun t => ht_set t (bytes "bl") (some 7))).map
      (fun p => (p.1.capacity, p.1.size, p.2)) = some (64, 45, 1) := by
  refine ⟨by decide, by norm_num, by decide⟩

/-- C33, as the code has it: on a table of the invariant `ht_set` rebuilds at twice the
capacity before inserting exactly when the exact load `(live + tombstones + 1) / capacity`
is at least 71/100 (the test is made on the load in whole percent, rounded down), and
inserts into the table as it is when the load is below 71/100. -/
theorem c33_grow_rule {α : Type} (ht : hashtable_t α) (key : CStr) (value : Option α)
    (hinv : ht_inv ht) :
    ((71 : ℚ) / 100 ≤ ((ht.size + ht.tombstones + 1 : Nat) : ℚ) / (ht.capacity : ℚ) →
      ∃ ht1, ht_resize ht (ht.capacity * 2) = some ht1 ∧ ht1.capacity = ht.capacity * 2 ∧
        ht_set ht key value =
          ht_set_loop (probe_fuel ht1.capacity) ht1 key (ht_hash key) (some key) value 1 0) ∧
    (((ht.size + ht.tombstones + 1 : Nat) : ℚ) / (ht.capacity : ℚ) < (71 : ℚ) / 100 →
      ht_set ht key value =
        ht_set_loop (probe_fuel ht.capacity) ht key (ht_hash key) (some key) value 1 0) := by
  have hpos : 0 < ht.capacity := by have := hinv.wf.cap_min; omega
  have hiff := grow_test_iff (ht.size + ht.tombstones + 1) ht.capacity hpos
  constructor
  · intro h
    have hg := hiff.mpr h
    obtain ⟨m, hm⟩ := hinv.wf.cap_pow
    have hmin := hinv.wf.cap_min
    have hroom := hinv.room
    have hlive : count_live ht.entries < 2 ^ (m + 1) := by
      have := hinv.wf.size_eq
      rw [Nat.pow_succ]; omega
    obtain ⟨r1, hr1, _, hc1, _⟩ := ht_resize_inv ht (ht.capacity * 2) (m + 1)
      hinv.slots (by rw [Nat.pow_succ, ← hm]; unfold HT_MIN_CAP; split <;> omega) hlive
    refine ⟨r1, hr1, by rw [hc1, Nat.pow_succ, hm], ?_⟩
    unfold ht_set
    simp only [hg, if_true, hr1]
  · intro h
    have hg : ¬ (ht.size + ht.tombstones + 1) * 100 / ht.capacity > HT_LOAD_HIGH_PCT :=
      fun hgt => absurd (hiff.mp hgt) (not_le.mpr h)
    unfold ht_set
    simp only [hg, if_false]

/-- C33 at two tables: with 45 tombstones in 64 slots (load 46/64) `ht_set` rebuilds at
128 slots and inserts there; on the fresh table (load 1/64) it inserts at once. -/
theorem c33_grow_rule_witness :
    (∃ ht1, ht_resize tombstone_table (64 * 2) = some ht1 ∧ ht1.capacity = 64 * 2 ∧
      ht_set tombstone_table (bytes "k") (some 1) =
        ht_set_loop (probe_fuel ht1.capacity) ht1 (bytes "k") (ht_hash (bytes "k"))
          (some (bytes "k")) (some 1) 1 0) ∧
    ht_set (ht_fresh Nat) (bytes "k") (some 1) =
      ht_set_loop (probe_fuel 64) (ht_fresh Nat) (bytes "k") (ht_hash (bytes "k"))
        (some (bytes "k")) (some 1) 1 0 :=
  ⟨(c33_grow_rule tombstone_table (bytes "k") (some 1) tombstone_table_inv).1
      (by norm_num [tombstone_table]),
    (c33_grow_rule (ht_fresh Nat) (bytes "k") (some 1) (ht_create_inv (ht_create_64 Nat))).2
      (by norm_num [ht_fresh])⟩

/-- C34: in every table reached from `ht_create` (whatever capacity was asked for) by
`ht_set` and `ht_delete` the capacity is a power of two and at least 64. There `ht_delete`
of a key that `ht_find` does not find returns 0 and the same table. Of a key that
`ht_find` finds, in a live slot that holds it, `ht_delete` returns 1 and a table with one
live entry fewer whose capacity is again a power of two and at least 64, either the old
capacity or half of it; it is half of it exactly when the live count after the deletion
over the old capacity is below 20/100 and the old capacity exceeds 64. -/
theorem c34_capacity {α : Type} (n : Nat) (ops : List (ht_op α)) (ht0 ht : hashtable_t α)
    (h0 : ht_create α n = some ht0) (hrun : ht_run ops ht0 = some ht) :
    (∃ m, ht.capacity = 2 ^ m) ∧ 64 ≤ ht.capacity ∧
    ∀ key : CStr,
      (ht_find ht key = some none ∧ ht_delete ht key = some (ht, 0)) ∨
      (∃ idx r, ht_find ht key = some (some idx) ∧
        (slot_at ht.entries idx).occupied = 1 ∧ (slot_at ht.entries idx).key = some key ∧
        ht_delete ht key = some (r, 1) ∧ r.size + 1 = ht.size ∧
        (∃ m, r.capacity = 2 ^ m) ∧ 64 ≤ r.capacity ∧
        (r.capacity = ht.capacity / 2 ∨ r.capacity = ht.capacity) ∧
        (r.capacity = ht.capacity / 2 ↔
          ((r.size : ℚ) / (ht.capacity : ℚ) < (20 : ℚ) / 100 ∧ 64 < ht.capacity))) := by
  have hinv := ht_run_reach h0 hrun
  refine ⟨hinv.wf.cap_pow, hinv.wf.cap_min, ?_⟩
  intro key
  have hmin := hinv.wf.cap_min
  have hpos : 0 < ht.capacity := by omega
  obtain ⟨o, _, ho⟩ := ht_find_returns hinv key
  cases o with
  | none => exact Or.inl ⟨ho, ht_delete_missing ho⟩
  | some idx =>
    obtain ⟨r1, hr1, hri, hsz, hyes, hno⟩ := ht_delete_found_inv hinv ho
    obtain ⟨hocc, _, hkey, _⟩ := ht_find_found ho
    right
    have hs1 : ht.size - 1 = r1.size := by omega
    have hiff := shrink_test_iff r1.size ht.capacity hpos
    rw [hs1] at hyes hno
    by_cases hc : ht.capacity > HT_MIN_CAP ∧ r1.size * 100 / ht.capacity < HT_LOAD_LOW_PCT
    · have h1 := (hyes hc).1
      refine ⟨idx, r1, ho, hocc, hkey, hr1, hsz, hri.wf.cap_pow, hri.wf.cap_min, Or.inl h1, ?_⟩
      constructor
      · intro _
        exact ⟨hiff.mp hc.2, by have := hc.1; unfold HT_MIN_CAP at this; omega⟩
      · intro _; exact h1
    · have h1 := (hno hc).1
      refine ⟨idx, r1, ho, hocc, hkey, hr1, hsz, hri.wf.cap_pow, hri.wf.cap_min, Or.inr h1, ?_⟩
      constructor
      · intro h2
        rw [h1] at h2
        omega
      · intro h2
        exact absurd ⟨by unfold HT_MIN_CAP; omega, hiff.mpr h2.1⟩ hc

/-- The run `shrink_ops` from a fresh table ends at capacity 128 with 26 live entries;
there `ht_find` finds `zz` and does not find `qq`. -/
theorem shrink_ops_table :
    (ht_run shrink_ops (ht_fresh Nat)).map
      (fun t => (t.capacity, t.size, (ht_find t (bytes "zz")).map Option.isSome,
        ht_find t (bytes "qq"))) = some (128, 26, some true, some none) := by
  rfl

set_option maxRecDepth 100000 in
/-- C34 at the table after the run `shrink_ops` from a fresh table (46 keys set, 20 of
them deleted): it has capacity 128 and 26 live entries; `ht_delete` of `zz`, which is
found, returns 1 and a table of capacity 64 with 25 live entries (25/128 is below 20/100);
`ht_delete` of `qq`, which is not found, returns 0 and the same table. -/
theorem c34_capacity_witness :
    ∃ ht r, ht_run shrink_ops (ht_fresh Nat) = some ht ∧ ht.capacity = 128 ∧ ht.size = 26 ∧
      ht_delete ht (bytes "zz") = some (r, 1) ∧ r.capacity = 64 ∧ r.size = 25 ∧
      ht_delete ht (bytes "qq") = some (ht, 0) := by
  obtain ⟨ht, hr, _⟩ := ht_run_inv shrink_ops (ht_fresh Nat) (ht_create_inv (ht_create_64 Nat))
  have hc := c34_capacity 64 shrink_ops (ht_fresh Nat) ht (ht_create_64 Nat) hr
  have hfacts := shrink_ops_table
  rw [hr] at hfacts
  simp only [Option.map_some', Option.some.injEq, Prod.mk.injEq] at hfacts
  obtain ⟨hcap, hsize, hzz, hqq⟩ := hfacts
  rcases hc.2.2 (bytes "zz") with ⟨hn, _⟩ | ⟨idx, r, _, _, _, hd, hs, _, _, _, hiff⟩
  · rw [hn] at hzz; simp at hzz
  · have hrs : r.size = 25 := by omega
    have hhalf : r.capacity = ht.capacity / 2 :=
      hiff.mpr ⟨by rw [hrs, hcap]; norm_num, by omega⟩
    rcases hc.2.2 (bytes "qq") with ⟨_, hd0⟩ | ⟨idx2, _, hf2, _⟩
    · exact ⟨ht, r, hr, hcap, hsize, hd, by rw [hhalf, hcap], hrs, hd0⟩
    · rw [hqq] at hf2; simp at hf2


/-- The fold of `ht_hash` over bytes is the FNV-1a recurrence from any state. -/
theorem ht_hash_eq_from (key : List Nat) (hkey : ∀ b ∈ key, b < 256) : ∀ state : Nat,
    key.foldl (fun h p => ((h ^^^ (p % 256)) * 16777619) % 2 ^ 32) state =
      fnv1a_from state key := by
  induction key with
  | nil => intro state; rfl
  | cons b rest ih =>
    intro state
    have hb := hkey b (List.mem_cons_self _ _)
    simp only [List.foldl_cons, fnv1a_from, fnv1a_step, Nat.mod_eq_of_lt hb]
    exact ih (fun x hx => hkey x (List.mem_cons_of_mem _ hx)) _

/-- C37: `ht_hash` of a key of bytes is the 32-bit FNV-1a hash (from 2166136261, xor the
byte in, multiply by 16777619 modulo `2 ^ 32`), the empty key hashes to `0x811C9DC5` and
the key `a` to `0xE40C292C`, and in every table reached from `ht_create` by `ht_set` and
`ht_delete` the hash stored in a live slot is `ht_hash` of the key of that slot. -/
theorem c37_hash_is_fnv1a {α : Type} (key : CStr) (n : Nat) (ops : List (ht_op α))
    (ht0 ht : hashtable_t α) (hkey : ∀ b ∈ key, b < 256)
    (h0 : ht_create α n = some ht0) (hrun : ht_run ops ht0 = some ht) :
    ht_hash key = fnv1a key ∧
    ht_hash [] = 0x811C9DC5 ∧ ht_hash (bytes "a") = 0xE40C292C ∧
    ∀ j, (slot_at ht.entries j).occupied = 1 →
      ∃ k, (slot_at ht.entries j).key = some k ∧ (slot_at ht.entries j).hash = ht_hash k := by
  refine ⟨ht_hash_eq_from key hkey _, by decide, by decide, ?_⟩
  intro j hj
  exact (slot_ok_slot_at (ht_run_reach h0 hrun).slots j).2 hj

/-- C37 at the key `ak` and the table after the run `lost_key_ops` from a fresh table. -/
theorem c37_hash_is_fnv1a_witness :
    ht_hash (bytes "ak") = fnv1a (bytes "ak") ∧
    ∃ ht, ht_run lost_key_ops (ht_fresh Nat) = some ht ∧
      ∀ j, (slot_at ht.entries j).occupied = 1 →
        ∃ k, (slot_at ht.entries j).key = some k ∧ (slot_at ht.entries j).hash = ht_hash k :=
  ⟨(c37_hash_is_fnv1a (bytes "ak") 64 [] (ht_fresh Nat) (ht_fresh Nat) (by decide)
      (ht_create_64 Nat) rfl).1,
    (ht_run_inv lost_key_ops (ht_fresh Nat) (ht_create_inv (ht_create_64 Nat))).elim
      (fun ht h => ⟨ht, h.1,
        (c37_hash_is_fnv1a (bytes "ak") 64 lost_key_ops (ht_fresh Nat) ht (by decide)
          (ht_create_64 Nat) h.1).2.2.2⟩)⟩

/-- C39: every run of `ht_set` and `ht_delete` from `ht_create` returns a table; in it
live plus tombstone slots are fewer than the capacity, so one slot is empty; `ht_find`
returns within `capacity` probes; `ht_set` (grow check, rebuild and insertion loop with its
Robin-Hood swaps), `ht_delete` and the re-insertion of `ht_resize` at twice the capacity
all return. -/
theorem c39_probe_loops_return {α : Type} (n : Nat) (ops : List (ht_op α)) (ht0 : hashtable_t α)
    (h0 : ht_create α n = some ht0) :
    ∃ ht, ht_run ops ht0 = some ht ∧ ht.size + ht.tombstones < ht.capacity ∧
      (∃ s, s < ht.capacity ∧ (slot_at ht.entries s).occupied = 0) ∧
      ∀ key : CStr,
        (∃ o, ht_find_loop ht.capacity ht key (ht_hash key) 0 = some o ∧
          ht_find ht key = some o) ∧
        (∀ value : Option α, ∃ r, ht_set ht key value = some r) ∧
        (∃ r, ht_delete ht key = some r) ∧
        (∃ r, ht_resize ht (ht.capacity * 2) = some r) := by
  obtain ⟨ht, hr, hinv⟩ := ht_run_inv ops ht0 (ht_create_inv h0)
  refine ⟨ht, hr, hinv.room, ht_inv_empty_slot hinv, ?_⟩
  intro key
  refine ⟨ht_find_returns hinv key, ?_, ?_, ?_⟩
  · intro value
    obtain ⟨r, ret, h, _⟩ := ht_set_inv hinv key value
    exact ⟨_, h⟩
  · obtain ⟨r, ret, h, _⟩ := ht_delete_inv hinv key
    exact ⟨_, h⟩
  · obtain ⟨m, hm⟩ := hinv.wf.cap_pow
    have hmin := hinv.wf.cap_min
    have hroom := hinv.room
    obtain ⟨r1, hr1, _⟩ := ht_resize_inv ht (ht.capacity * 2) (m + 1)
      hinv.slots (by rw [Nat.pow_succ, ← hm]; unfold HT_MIN_CAP; split <;> omega)
      (by
        have := hinv.wf.size_eq
        rw [Nat.pow_succ]; omega)
    exact ⟨r1, hr1⟩

/-- C39 at the run `twice_stored_ops` from a fresh table: it returns and leaves a slot
free. -/
theorem c39_probe_loops_return_witness :
    ∃ ht, ht_run twice_stored_ops (ht_fresh Nat) = some ht ∧
      ht.size + ht.tombstones < ht.capacity :=
  (c39_probe_loops_return 64 twice_stored_ops (ht_fresh Nat) (ht_create_64 Nat)).elim
    (fun ht h => ⟨ht, h.1, h.2.1⟩)

/-- C40: in every table reached from `ht_create` by `ht_set` and `ht_delete`, rebuilds
included, the size field is the number of slots marked live and the tombstones field is
the number of slots marked tombstone. -/
theorem c40_counters {α : Type} (n : Nat) (ops : List (ht_op α)) (ht0 ht : hashtable_t α)
    (h0 : ht_create α n = some ht0) (hrun : ht_run ops ht0 = some ht) :
    ht.size = count_live ht.entries ∧ ht.tombstones = count_dead ht.entries :=
  ⟨(ht_run_reach h0 hrun).wf.size_eq, (ht_run_reach h0 hrun).wf.tomb_eq⟩

/-- C40 at the table after the run `twice_stored_ops` from a fresh table. -/
theorem c40_counters_witness :
    ∃ ht, ht_run twice_stored_ops (ht_fresh Nat) = some ht ∧
      ht.size = count_live ht.entries ∧ ht.tombstones = count_dead ht.entries :=
  (ht_run_inv twice_stored_ops (ht_fresh Nat) (ht_create_inv (ht_create_64 Nat))).elim
    (fun ht h => ⟨ht, h.1,
      c40_counters 64 twice_stored_ops (ht_fresh Nat) ht (ht_create_64 Nat) h.1⟩)

/-! ## Lookups after a deletion (C35) -/

/-- A tombstone in the slot of another key does not stop the probe loop of `ht_find`
before the slot it found. -/
theorem ht_find_loop_past_tombstone {α : Type} (ht : hashtable_t α) (key : CStr) (h idx : Nat)
    (dead : ht_entry_t α) (hdead : dead.occupied = 2)
    (hother : (slot_at ht.entries idx).key ≠ some key) :
    ∀ (fuel i j : Nat), ht_find_loop fuel ht key h i = some (some j) →
      ht_find_loop fuel { ht with entries := ht.entries.set idx dead } key h i = some (some j) := by
  intro fuel
  induction fuel with
  | zero => intro i j hf; simp [ht_find_loop] at hf
  | succ n ih =>
    intro i j hf
    simp only [ht_find_loop] at hf ⊢
    rw [slot_at_set]
    by_cases hp : probe_index ht.capacity h i = idx ∧ idx < ht.entries.length
    · simp only [hp, and_self, if_true, hdead]
      have h20 : ¬ ((2 : Nat) = 0) := by decide
      have h21 : ¬ ((2 : Nat) = 1) := by decide
      simp only [h20, h21, if_false]
      rw [hp.1] at hf
      by_cases h0 : (slot_at ht.entries idx).occupied = 0
      · simp [h0] at hf
      · simp only [h0, if_false] at hf
        by_cases h1 : (slot_at ht.entries idx).occupied = 1
        · simp only [h1, if_true] at hf
          split at hf
          · simp at hf
          · have hm : ¬ ((slot_at ht.entries idx).hash = h ∧
                (slot_at ht.entries idx).key = some key) := fun hm => hother hm.2
            simp only [hm, if_false] at hf
            exact ih _ _ hf
        · simp only [h1, if_false] at hf
          exact ih _ _ hf
    · simp only [hp, if_false]
      split
      · rename_i h0; simp [h0] at hf
      · rename_i h0
        simp only [h0, if_false] at hf
        split
        · rename_i h1
          simp only [h1, if_true] at hf
          split
          · rename_i hd; simp [hd] at hf
          · rename_i hd
            simp only [hd, if_false] at hf
            split
            · rename_i hm; simpa [hm] using hf
            · rename_i hm
              simp only [hm, if_false] at hf
              exact ih _ _ hf
        · rename_i h1
          simp only [h1, if_false] at hf
          exact ih _ _ hf

/-- Source `ht_delete` of a key, when it triggers no shrink, leaves every other key that
`ht_find` found in its slot, with its value. -/
theorem ht_delete_keeps_found {α : Type} {ht r : hashtable_t α} {k k1 : CStr} {j : Nat}
    {ret : Int} (hne : k ≠ k1) (hf1 : ht_find ht k1 = some (some j))
    (hd : ht_delete ht k = some (r, ret))
    (hno : ¬ (ht.capacity > HT_MIN_CAP ∧ (ht.size - 1) * 100 / ht.capacity < HT_LOAD_LOW_PCT)) :
    ht_find r k1 = some (some j) ∧ slot_at r.entries j = slot_at ht.entries j := by
  cases hf : ht_find ht k with
  | none => simp [ht_delete, hf] at hd
  | some o =>
    cases o with
    | none =>
      rw [ht_delete_missing hf] at hd
      simp only [Option.some.injEq, Prod.mk.injEq] at hd
      rw [← hd.1]
      exact ⟨hf1, rfl⟩
    | some idx =>
      obtain ⟨_, _, hkey, hlt⟩ := ht_find_found hf
      obtain ⟨_, _, hkey1, _⟩ := ht_find_found hf1
      have hji : j ≠ idx := by
        intro h
        rw [h, hkey] at hkey1
        simp only [Option.some.injEq] at hkey1
        exact hne hkey1
      unfold ht_delete at hd
      simp only [hf, hno, if_false, Option.some.injEq, Prod.mk.injEq] at hd
      rw [← hd.1]
      refine ⟨?_, ?_⟩
      · have hp := ht_find_loop_past_tombstone ht k1 (ht_hash k1) idx
          { key := none, value := none, hash := (slot_at ht.entries idx).hash, occupied := 2 } rfl
          (by rw [hkey]; simp only [ne_eq, Option.some.injEq]; exact hne)
          (probe_fuel ht.capacity) 0 j hf1
        unfold ht_find
        rw [← hp]
        exact ht_find_loop_congr
          ({ entries := ht.entries.set idx
               ({ key := none, value := none, hash := (slot_at ht.entries idx).hash,
                  occupied := 2 }),
             capacity := ht.capacity, size := ht.size, tombstones := ht.tombstones })
          ({ entries := ht.entries.set idx
               ({ key := none, value := none, hash := (slot_at ht.entries idx).hash,
                  occupied := 2 }),
             capacity := ht.capacity, size := ht.size - 1, tombstones := ht.tombstones + 1 })
          k1 (ht_hash k1) rfl (fun _ => ⟨rfl, rfl, rfl⟩) (probe_fuel ht.capacity) 0
      · dsimp only
        simp only [slot_at_set, hji, false_and, if_false]

/-- C35 fails after `ht_set` of `i`, `ak`, `fu`, `g` on a fresh table: `ht_get` of `ak`
returns `NULL`; `ht_delete` of `g` returns 1 and keeps the capacity 64 (no shrink); after
it `ht_get` of `ak` returns 2. -/
theorem c35_delete_uncovers_lost_key :
    hidden_key_table.bind (fun ht => ht_get ht (bytes "ak")) = some none ∧
    (hidden_key_table.bind (fun ht => ht_delete ht (bytes "g"))).map
      (fun p => (p.2, p.1.capacity)) = some (1, 64) ∧
    (hidden_key_table.bind (fun ht => ht_delete ht (bytes "g"))).bind
      (fun p => ht_get p.1 (bytes "ak")) = some (some 2) := by
  decide

/-! ## The iterator (C36) -/

/-- No live slot is listed from the capacity on. -/
theorem live_from_end {α : Type} (ht : hashtable_t α) : live_from ht ht.capacity = [] := by
  simp [live_from]

/-- The live slots from `i` on: slot `i` when it is live, then those from `i + 1` on. -/
theorem live_from_step {α : Type} (ht : hashtable_t α) (i : Nat) (hi : i < ht.capacity) :
    live_from ht i =
      if (slot_at ht.entries i).occupied = 1 then i :: live_from ht (i + 1)
      else live_from ht (i + 1) := by
  unfold live_from
  have e : ht.capacity - i = (ht.capacity - (i + 1)) + 1 := by omega
  rw [e, List.range'_succ, List.filter_cons]
  simp

/-- One call of `ht_iter_next`: either no live slot is left and it returns `NULL`, or it
returns the first live slot at or behind its index and moves behind it. -/
theorem ht_iter_scan_next {α : Type} (ht : hashtable_t α) :
    ∀ (fuel i : Nat), i + fuel = ht.capacity →
      (ht_iter_scan ht fuel i = ({ index := ht.capacity }, none) ∧ live_from ht i = []) ∨
      (∃ j, i ≤ j ∧ j < ht.capacity ∧ ht_iter_scan ht fuel i = ({ index := j + 1 }, some j) ∧
        live_from ht i = j :: live_from ht (j + 1)) := by
  intro fuel
  induction fuel with
  | zero =>
    intro i hi
    have : i = ht.capacity := by omega
    subst this
    exact Or.inl ⟨rfl, live_from_end ht⟩
  | succ n ih =>
    intro i hi
    have hlt : i < ht.capacity := by omega
    rw [ht_iter_scan, live_from_step ht i hlt]
    simp only [hlt, if_true]
    by_cases hl : (slot_at ht.entries i).occupied = 1
    · simp only [hl, if_true]
      exact Or.inr ⟨i, Nat.le_refl _, hlt, rfl, rfl⟩
    · simp only [hl, if_false]
      rcases ih (i + 1) (by omega) with h | ⟨j, h1, h2, h3, h4⟩
      · exact Or.inl h
      · exact Or.inr ⟨j, by omega, h2, h3, h4⟩

/-- Repeated `ht_iter_next` from index `i` on returns the live slots from `i` on, in
slot order, and ends behind the last slot. -/
theorem ht_iter_all_live {α : Type} (ht : hashtable_t α) :
    ∀ (n i : Nat), i ≤ ht.capacity → ht.capacity - i < n →
      ht_iter_all ht n { index := i } = (live_from ht i, { index := ht.capacity }) := by
  intro n
  induction n with
  | zero => intro i _ h; omega
  | succ k ih =>
    intro i hi hk
    rw [ht_iter_all]
    unfold ht_iter_next
    rcases ht_iter_scan_next ht (ht.capacity - i) i (by omega) with ⟨h1, h2⟩ | ⟨j, h1, h2, h3, h4⟩
    · simp only [h1, h2]
    · simp only [h3, h4, ih (j + 1) (by omega) (by omega)]

/-- C36: from `ht_iter_init`, repeated `ht_iter_next` returns the live slots of the table
and nothing else, each once, in increasing slot index (a slot index is returned exactly
when it is below the capacity and marked live), and after that every call returns `NULL`
and leaves the iterator where it is. -/
theorem c36_iterator_walks_live_slots {α : Type} (ht : hashtable_t α) :
    (ht_iter_all ht (ht.capacity + 1) ht_iter_init).1 = live_from ht 0 ∧
    List.Pairwise (fun a b => a < b) (ht_iter_all ht (ht.capacity + 1) ht_iter_init).1 ∧
    (∀ j, j ∈ (ht_iter_all ht (ht.capacity + 1) ht_iter_init).1 ↔
      j < ht.capacity ∧ (slot_at ht.entries j).occupied = 1) ∧
    ht_iter_next ht (ht_iter_all ht (ht.capacity + 1) ht_iter_init).2 =
      ((ht_iter_all ht (ht.capacity + 1) ht_iter_init).2, none) := by
  have h := ht_iter_all_live ht (ht.capacity + 1) 0 (Nat.zero_le _) (by omega)
  have h0 : ht_iter_init = { index := 0 } := rfl
  rw [h0, h]
  refine ⟨rfl, ?_, ?_, ?_⟩
  · unfold live_from
    exact List.Pairwise.filter _ (List.pairwise_lt_range' 0 _)
  · intro j
    unfold live_from
    simp [List.mem_filter, List.mem_range']
  · simp [ht_iter_next, ht_iter_scan]

/-! ## Pipelined requests (C31) -/

/-- Source `resp_parse` reads the frame of a value of `value_ok` back, whatever follows. -/
theorem resp_parse_frame_of (v : resp_value_t) (rest : List Nat) (hok : value_ok v)
    (hlen : (frame_of v).length < 2 ^ 31) :
    resp_parse (frame_of v ++ rest) = { ret := ((frame_of v).length : Int), out := some v } := by
  have hd := value_depth_lt_frame (value_depth v + 1) v (Nat.lt_succ_self _)
  unfold resp_parse
  exact resp_parse_value_frame _ v rest (by simp only [List.length_append]; omega) hok hlen

/-- Source `resp_parse` on a valid frame that is cut short returns 0 and no value. -/
theorem resp_parse_incomplete (f p : List Nat) (hf : valid_frame f) (hlen : f.length < 2 ^ 31)
    (hp : p <+: f) (hne : p ≠ f) : resp_parse p = { ret := 0, out := none } := by
  have hl : p.length < f.length := by
    rcases Nat.lt_or_ge p.length f.length with h | h
    · exact h
    · exact absurd (List.IsPrefix.eq_of_length_le hp h) hne
  rcases hf with ⟨v, hok, rfl⟩ | rfl
  · exact resp_parse_cut (value_depth v + 1) v (Nat.lt_succ_self _) hok hlen p hp hl
  · exact resp_parse_cut_line 42 [45, 49] p (by decide) (by decide) hp (by simpa [bytes] using hl)

/-- Source `process_client_input` on a read buffer that holds the frames of `reqs` and
then a tail on which `resp_parse` returns nothing positive: the requests are executed
in order, their replies queued in order, and the tail is left in the read buffer. -/
theorem process_client_input_run (disk : Bool) (now : Int) :
    ∀ (reqs : List resp_value_t) (fuel : Nat) (db : database_t) (c : client_t) (tail : List Nat),
      (∀ v ∈ reqs, value_ok v ∧ (frame_of v).length < 2 ^ 31) →
      (resp_parse tail).ret ≤ 0 → reqs.length ≤ fuel →
      process_client_input fuel disk now db { c with read_buf := frames_of reqs ++ tail } =
        (run_requests disk now reqs db).map
          (fun p => (p.1, { c with write_buf := c.write_buf ++ p.2, read_buf := tail })) := by
  intro reqs
  induction reqs with
  | nil =>
    intro fuel db c tail _ htail _
    simp only [frames_of, List.nil_append, run_requests, Option.map_some', List.append_nil]
    cases fuel with
    | zero => rfl
    | succ f =>
      simp only [process_client_input, htail, if_true]
      split <;> rfl
  | cons v rest ih =>
    intro fuel db c tail hreqs htail hfuel
    obtain ⟨f, rfl⟩ : ∃ f, fuel = f + 1 := ⟨fuel - 1, by simp only [List.length_cons] at hfuel; omega⟩
    obtain ⟨hok, hlen⟩ := hreqs v (List.mem_cons_self _ _)
    have hbuf : frames_of (v :: rest) ++ tail = frame_of v ++ (frames_of rest ++ tail) := by
      simp only [frames_of, List.append_assoc]
    have hparse := resp_parse_frame_of v (frames_of rest ++ tail) hok hlen
    have hpos := frame_of_length_pos v
    have hl : (frame_of v ++ (frames_of rest ++ tail)).length > 0 := by
      simp only [List.length_append]; omega
    have hnot : ¬ (((frame_of v).length : Int) ≤ 0) := by omega
    have hdrop : (frame_of v ++ (frames_of rest ++ tail)).drop (frame_of v).length =
        frames_of rest ++ tail := List.drop_left' rfl
    rw [hbuf]
    simp only [process_client_input, hl, if_true, hparse, hnot, if_false, Int.toNat_ofNat, hdrop,
      run_requests]
    cases hex : command_execute disk db now (some v) with
    | none => rfl
    | some p =>
      obtain ⟨db1, reply⟩ := p
      simp only [client_queue_write]
      have hrec := ih f db1 { c with write_buf := c.write_buf ++ reply } tail
        (fun x hx => hreqs x (List.mem_cons_of_mem _ hx)) htail
        (by simp only [List.length_cons] at hfuel; omega)
      simp only [] at hrec
      rw [hrec]
      cases run_requests disk now rest db1 with
      | none => rfl
      | some q =>
        simp only [Option.map_some', List.append_assoc]

/-- C31 fails on a read buffer that holds no complete request and the cut frame
`$4294967295` CR LF, a proper prefix of the valid frame of a bulk string of 4294967295
bytes: `process_client_input` queues the reply `-ERR invalid command format` and leaves
the read buffer empty. -/
theorem c31_long_bulk_header_is_answered :
    valid_frame (frame_of long_bulk) ∧ bytes "$4294967295\r\n" <+: frame_of long_bulk ∧
    bytes "$4294967295\r\n" ≠ frame_of long_bulk ∧
    (process_client_input (bytes "$4294967295\r\n").length false 0 fresh_db
      { fd := 5, read_buf := bytes "$4294967295\r\n", write_buf := [], write_pos := 0 }).map
        Prod.snd =
      some { fd := 5, read_buf := [], write_buf := bytes "-ERR invalid command format\r\n",
             write_pos := 0 } :=
  ⟨(bulk_header_cut _ (List.length_replicate _ _)).1,
    (bulk_header_cut _ (List.length_replicate _ _)).2.1,
    (bulk_header_cut _ (List.length_replicate _ _)).2.2, by decide⟩

/-- C31, for frames shorter than `2 ^ 31` bytes: on a read buffer that holds the frames
of the requests `reqs`, each a value of `value_ok`, followed by `tail`, a proper prefix
(possibly empty) of a valid frame, `process_client_input` returns exactly when running
the requests in order on the database returns, and then the database is the one after the
last request, the replies are appended to the write buffer in request order and the read
buffer holds exactly `tail`. -/
theorem c31_pipelining_keeps_order (disk : Bool) (now : Int) (db : database_t) (c : client_t)
    (reqs : List resp_value_t) (f tail : List Nat)
    (hreqs : ∀ v ∈ reqs, value_ok v ∧ (frame_of v).length < 2 ^ 31)
    (hf : valid_frame f) (hlen : f.length < 2 ^ 31) (htail : tail <+: f) (hne : tail ≠ f) :
    process_client_input (frames_of reqs ++ tail).length disk now db
        { c with read_buf := frames_of reqs ++ tail } =
      (run_requests disk now reqs db).map
        (fun p => (p.1, { c with write_buf := c.write_buf ++ p.2, read_buf := tail })) := by
  apply process_client_input_run disk now reqs _ db c tail hreqs
  · rw [resp_parse_incomplete f tail hf hlen htail hne]
  · have := frames_of_length_ge reqs
    simp only [List.length_append]
    omega

/-- C31 at the pipelined requests `SET a 1` and `GET a` followed by the cut frame
`*2\r\n$3\r\nGE`: the write buffer is `+OK\r\n$1\r\n1\r\n` and the cut frame stays. -/
theorem c31_pipelining_keeps_order_witness :
    (process_client_input
      (frames_of [request [bytes "SET", bytes "a", bytes "1"], request [bytes "GET", bytes "a"]] ++
        bytes "*2\r\n$3\r\nGE").length false 0 fresh_db
      { fd := 5,
        read_buf := frames_of [request [bytes "SET", bytes "a", bytes "1"],
          request [bytes "GET", bytes "a"]] ++ bytes "*2\r\n$3\r\nGE",
        write_buf := [], write_pos := 0 }).map Prod.snd =
      some { fd := 5, read_buf := bytes "*2\r\n$3\r\nGE",
             write_buf := bytes "+OK\r\n$1\r\n1\r\n", write_pos := 0 } :=
  (congrArg (Option.map Prod.snd)
    (c31_pipelining_keeps_order false 0 fresh_db
      { fd := 5, read_buf := [], write_buf := [], write_pos := 0 }
      [request [bytes "SET", bytes "a", bytes "1"], request [bytes "GET", bytes "a"]]
      (frame_of (request [bytes "GET", bytes "a"])) (bytes "*2\r\n$3\r\nGE")
      (by
        intro v hv
        simp only [List.mem_cons, List.mem_singleton, List.not_mem_nil, or_false] at hv
        rcases hv with rfl | rfl <;>
          exact ⟨by simp [request, value_ok, values_ok, bytes], by decide⟩)
      (Or.inl ⟨_, by simp [request, frame_valid, frames_valid], rfl⟩) (by decide)
      ⟨bytes "T\r\n$1\r\na\r\n", by decide⟩ (by decide))).trans (by decide)

/-! ## The snapshot read back (C32) and the periodic sweep (C38) -/

/-- C32 fails after `SET i x`, `SET fu old`, `DEL i`, `SET fu new`: `GET fu` replies `new`,
the file of `persist_save` holds two records for `fu` (`new`, then `old`), and
`persist_load` of that file into a fresh database at the same clock leaves `GET fu`
replying `old`. -/
theorem c32_snapshot_brings_back_stale_value :
    (stale_copy_db.bind (fun db => cmd_get db 0 (request [bytes "GET", bytes "fu"]))).map Prod.snd =
      some (bytes "$3\r\nnew\r\n") ∧
    stale_copy_db.bind (persist_save true) =
      some (0, some (RDB_MAGIC ++
        [0] ++ write_int64 (-1) ++ write_string (bytes "fu") 2 ++ write_string (bytes "new") 3 ++
        [0] ++ write_int64 (-1) ++ write_string (bytes "fu") 2 ++ write_string (bytes "old") 3 ++
        [RDB_EOF])) ∧
    (((stale_copy_db.bind (persist_save true)).bind (fun s => persist_load 0 fresh_db s.2)).bind
      (fun q => cmd_get q.2 0 (request [bytes "GET", bytes "fu"]))).map Prod.snd =
      some (bytes "$3\r\nold\r\n") := by
  decide

/-- Source `db_expire_sweep` less than 100 ms after the previous sweep returns the database
as it is. -/
theorem db_expire_sweep_rate_limited (db : database_t) (now : Int)
    (h : now - db.last_expire_sweep < 100) : db_expire_sweep db now = some db := by
  unfold db_expire_sweep EXPIRE_SWEEP_INTERVAL
  rw [if_pos h]

set_option maxRecDepth 100000 in
/-- C38 fails after `SET i x`, `SET fu old`, `EXPIRE fu 1`, `DEL i`, `SET fu new`: at
clock 5000 `GET fu` replies `new` and `TTL fu` replies -1 (no deadline), and after
`db_expire_sweep` at clock 5000 `GET fu` replies nil and `DBSIZE` replies 0. -/
theorem c38_sweep_deletes_entry_without_deadline :
    (stale_deadline_db.bind (serve
      [(cmd_get, 5000, request [bytes "GET", bytes "fu"]),
       (cmd_ttl, 5000, request [bytes "TTL", bytes "fu"])])).map Prod.snd =
      some [bytes "$3\r\nnew\r\n", bytes ":-1\r\n"] ∧
    ((stale_deadline_db.bind (fun db => db_expire_sweep db 5000)).bind (serve
      [(cmd_get, 5000, request [bytes "GET", bytes "fu"]),
       (cmd_dbsize, 5000, request [bytes "DBSIZE"])])).map Prod.snd =
      some [bytes "$-1\r\n", bytes ":0\r\n"] := by
  decide

end CackDB
